import Mathlib

/-!
# PFCP wire codec (pkg/protocol): header, information elements, messages

A shallow embedding of `header.go`, `ie.go`, `messages.go` and `transport.go`,
and of the session and association handling of `pkg/up`, `pkg/cp` and
`pkg/dataplane/mock`.

* Machine integers are natural numbers; a conversion or an arithmetic
  operation of width `w` is written with an explicit `% 2^w`.
* A Go function either returns or panics.  `Go α` records which; an `error`
  result is an ordinary returned value (`Option CodecError`).
* A Go slice is its visible elements together with the elements of the
  backing array between its length and its capacity: a slice expression
  `s[lo:hi]` is checked against the capacity, an index `s[i]` against the
  length.
-/

namespace Pfcp

/-! ## Go runtime model -/

/-- Outcome of running a Go function: a normal return, a run-time panic, or
the loop bound of the model being exhausted. -/
inductive Go (α : Type) where
  | ret (a : α)
  | panic
  | outOfFuel
deriving DecidableEq, Repr

/-- Sequencing of Go statements: a panic aborts what follows. -/
def Go.bind {α β : Type} (x : Go α) (f : α → Go β) : Go β :=
  match x with
  | .ret a => f a
  | .panic => .panic
  | .outOfFuel => .outOfFuel

instance : Monad Go where
  pure := Go.ret
  bind := Go.bind

/-- A `[]byte`: `vis` holds the elements below `len`, `spare` those of the
backing array from `len` up to `cap`. -/
structure Slice where
  vis : List Nat
  spare : List Nat
deriving DecidableEq, Repr

/-- Go `len(s)`. -/
def Slice.len (s : Slice) : Nat := s.vis.length

/-- Go `cap(s)`. -/
def Slice.cap (s : Slice) : Nat := s.vis.length + s.spare.length

/-- Go `s[i]`: panics unless `i < len(s)`. -/
def Slice.index (s : Slice) (i : Nat) : Go Nat :=
  match s.vis[i]? with
  | some b => .ret b
  | none => .panic

/-- Go `s[lo:hi]`: panics unless `lo ≤ hi ≤ cap(s)`; the result keeps the
rest of the backing array as its spare capacity. -/
def Slice.slice (s : Slice) (lo hi : Nat) : Go Slice :=
  if lo ≤ hi ∧ hi ≤ s.cap then
    .ret ⟨((s.vis ++ s.spare).take hi).drop lo, (s.vis ++ s.spare).drop hi⟩
  else .panic

/-- Go `s[lo:]`, that is `s[lo:len(s)]`. -/
def Slice.sliceFrom (s : Slice) (lo : Nat) : Go Slice :=
  s.slice lo s.len

/-- Go `dst := make([]byte, n); copy(dst, src)`: the first `min n len(src)`
elements come from `src`, the others stay zero. -/
def goCopy (n : Nat) (src : Slice) : List Nat :=
  src.vis.take n ++ List.replicate (n - src.vis.length) 0

/-- A freshly allocated slice holding exactly `bs` (`len = cap`). -/
def Slice.ofBytes (bs : List Nat) : Slice := ⟨bs, []⟩

/-- Every element is a byte. -/
def isBytes (bs : List Nat) : Prop := ∀ b ∈ bs, b < 256

instance (bs : List Nat) : Decidable (isBytes bs) := by
  unfold isBytes; infer_instance

/-! ## encoding/binary, big endian -/

/-- `binary.BigEndian.PutUint16`: the two bytes written for `v`. -/
def putUint16 (v : Nat) : List Nat :=
  [(v >>> 8) % 256, v % 256]

/-- `binary.BigEndian.PutUint64`: the eight bytes written for `v`. -/
def putUint64 (v : Nat) : List Nat :=
  [(v >>> 56) % 256, (v >>> 48) % 256, (v >>> 40) % 256, (v >>> 32) % 256,
   (v >>> 24) % 256, (v >>> 16) % 256, (v >>> 8) % 256, v % 256]

/-- `binary.BigEndian.Uint16(b)`: `_ = b[1]; uint16(b[1]) | uint16(b[0])<<8`. -/
def getUint16 (b : Slice) : Go Nat := do
  let _ ← b.index 1
  let b1 ← b.index 1
  let b0 ← b.index 0
  pure (b1 ||| (b0 <<< 8))

/-- `binary.BigEndian.Uint64(b)`: `_ = b[7]`, then the eight bytes or-ed
together, `b[7]` first and `b[0]<<56` last. -/
def getUint64 (b : Slice) : Go Nat := do
  let _ ← b.index 7
  let b7 ← b.index 7
  let b6 ← b.index 6
  let b5 ← b.index 5
  let b4 ← b.index 4
  let b3 ← b.index 3
  let b2 ← b.index 2
  let b1 ← b.index 1
  let b0 ← b.index 0
  pure (b7 ||| (b6 <<< 8) ||| (b5 <<< 16) ||| (b4 <<< 24) ||| (b3 <<< 32)
    ||| (b2 <<< 40) ||| (b1 <<< 48) ||| (b0 <<< 56))

/-! ## Errors -/

/-- The errors built with `fmt.Errorf` in the codec, one constructor per
format string, with the formatted arguments. -/
inductive CodecError where
  | headerTooShort (n : Nat)
  | headerWithSEIDTooShort (n : Nat)
  | ieTooShort (n : Nat)
  | ieTruncated (need have_ : Nat)
  | ieEnterpriseTooShort
deriving DecidableEq, Repr

/-! ## header.go -/

/-- The struct `MessageHeader`; `Version`, `MessageType`, `Priority` are
`uint8`, `MessageLength` is `uint16`, `SEID` is `uint64`, `SequenceNumber` is
`uint32`. -/
structure MessageHeader where
  Version : Nat := 0
  FollowOn : Bool := false
  MessagePriority : Bool := false
  SEIDPresent : Bool := false
  MessageType : Nat := 0
  MessageLength : Nat := 0
  SEID : Nat := 0
  SequenceNumber : Nat := 0
  Priority : Nat := 0
deriving DecidableEq, Repr

/-- The field values are in the range of their Go types. -/
def MessageHeader.WellTyped (h : MessageHeader) : Prop :=
  h.Version < 256 ∧ h.MessageType < 256 ∧ h.MessageLength < 65536 ∧
  h.SEID < 2 ^ 64 ∧ h.SequenceNumber < 2 ^ 32 ∧ h.Priority < 256

instance (h : MessageHeader) : Decidable h.WellTyped := by
  unfold MessageHeader.WellTyped; infer_instance

/-- The byte `flags` computed by `MessageHeader.Marshal`. -/
def MessageHeader.flagsByte (h : MessageHeader) : Nat :=
  let flags := (h.Version <<< 5) % 256
  let flags := if h.FollowOn then flags ||| 0x04 else flags
  let flags := if h.MessagePriority then flags ||| 0x02 else flags
  let flags := if h.SEIDPresent then flags ||| 0x01 else flags
  flags

/-- The last byte written by `MessageHeader.Marshal` (`buf[15]` or `buf[7]`):
`h.Priority << 4` when `MessagePriority`, else `0`. -/
def MessageHeader.priorityByte (h : MessageHeader) : Nat :=
  if h.MessagePriority then (h.Priority <<< 4) % 256 else 0

/-- The three bytes `byte(seq >> 16)`, `byte(seq >> 8)`, `byte(seq)`. -/
def seqBytes (seq : Nat) : List Nat :=
  [(seq >>> 16) % 256, (seq >>> 8) % 256, seq % 256]

/-- `MessageHeader.Marshal`: the buffer and the error returned. -/
def MessageHeader.Marshal (h : MessageHeader) : List Nat × Option CodecError :=
  if h.SEIDPresent then
    ([h.flagsByte, h.MessageType] ++ putUint16 h.MessageLength ++ putUint64 h.SEID
      ++ seqBytes h.SequenceNumber ++ [h.priorityByte], none)
  else
    ([h.flagsByte, h.MessageType] ++ putUint16 h.MessageLength
      ++ seqBytes h.SequenceNumber ++ [h.priorityByte], none)

/-- `MessageHeader.Len`. -/
def MessageHeader.Len (h : MessageHeader) : Nat :=
  if h.SEIDPresent then 16 else 8

/-- `MessageHeader.Unmarshal`: the receiver after the call and the error
returned.  The receiver keeps the fields written before an error return. -/
def MessageHeader.Unmarshal (h : MessageHeader) (data : Slice) :
    Go (MessageHeader × Option CodecError) := do
  if data.len < 8 then
    return (h, some (.headerTooShort data.len))
  let flags ← data.index 0
  let h := { h with Version := (flags >>> 5) &&& 0x07 }
  let h := { h with FollowOn := (flags &&& 0x04) != 0 }
  let h := { h with MessagePriority := (flags &&& 0x02) != 0 }
  let h := { h with SEIDPresent := (flags &&& 0x01) != 0 }
  let mt ← data.index 1
  let h := { h with MessageType := mt }
  let ml ← (do getUint16 (← data.slice 2 4))
  let h := { h with MessageLength := ml }
  if h.SEIDPresent then
    if data.len < 16 then
      return (h, some (.headerWithSEIDTooShort data.len))
    let seid ← (do getUint64 (← data.slice 4 12))
    let h := { h with SEID := seid }
    let d12 ← data.index 12
    let d13 ← data.index 13
    let d14 ← data.index 14
    let h := { h with SequenceNumber := (d12 <<< 16) ||| (d13 <<< 8) ||| d14 }
    if h.MessagePriority then
      let d15 ← data.index 15
      return ({ h with Priority := d15 >>> 4 }, none)
    else
      return (h, none)
  else
    let d4 ← data.index 4
    let d5 ← data.index 5
    let d6 ← data.index 6
    let h := { h with SequenceNumber := (d4 <<< 16) ||| (d5 <<< 8) ||| d6 }
    if h.MessagePriority then
      let d7 ← data.index 7
      return ({ h with Priority := d7 >>> 4 }, none)
    else
      return (h, none)

/-! ## ie.go -/

/-- The struct `IE`; `Type` and `EnterpriseID` are `uint16`. -/
structure IE where
  Type_ : Nat := 0
  EnterpriseID : Nat := 0
  Value : List Nat := []
deriving DecidableEq, Repr

/-- The field values are in the range of their Go types. -/
def IE.WellTyped (ie : IE) : Prop :=
  ie.Type_ < 65536 ∧ ie.EnterpriseID < 65536 ∧ isBytes ie.Value

instance (ie : IE) : Decidable ie.WellTyped := by
  unfold IE.WellTyped; infer_instance

/-- The local `length` of `IE.Marshal` (an `int`): `len(ie.Value)`, plus 2
when there is an enterprise ID. -/
def IE.marshalLength (ie : IE) : Nat :=
  if ie.Type_ ≥ 32768 then ie.Value.length + 2 else ie.Value.length

/-- `IE.Marshal`: the buffer and the error returned. -/
def IE.Marshal (ie : IE) : List Nat × Option CodecError :=
  let hasEnterpriseID := decide (ie.Type_ ≥ 32768)
  let length := ie.marshalLength
  if hasEnterpriseID then
    (putUint16 ie.Type_ ++ putUint16 (length % 65536) ++ putUint16 ie.EnterpriseID
      ++ ie.Value, none)
  else
    (putUint16 ie.Type_ ++ putUint16 (length % 65536) ++ ie.Value, none)

/-- `IE.Unmarshal`: the receiver after the call, the byte count and the error
returned.  `length` is a `uint16`, so the slice bounds `4+length` and
`6+length-2` are computed modulo `2^16`; the comparison and the count
returned use `int(length)`. -/
def IE.Unmarshal (ie : IE) (data : Slice) : Go (IE × Nat × Option CodecError) := do
  if data.len < 4 then
    return (ie, 0, some (.ieTooShort data.len))
  let t ← (do getUint16 (← data.slice 0 2))
  let ie := { ie with Type_ := t }
  let length ← (do getUint16 (← data.slice 2 4))
  if data.len < 4 + length then
    return (ie, 0, some (.ieTruncated ((4 + length) % 65536) data.len))
  let hasEnterpriseID := decide (ie.Type_ ≥ 32768)
  if hasEnterpriseID then
    if length < 2 then
      return (ie, 0, some .ieEnterpriseTooShort)
    let eid ← (do getUint16 (← data.slice 4 6))
    let ie := { ie with EnterpriseID := eid }
    let src ← data.slice 6 (((6 + length) % 65536 + 65536 - 2) % 65536)
    let ie := { ie with Value := goCopy (length - 2) src }
    return (ie, 4 + length, none)
  else
    let src ← data.slice 4 ((4 + length) % 65536)
    let ie := { ie with Value := goCopy length src }
    return (ie, 4 + length, none)

/-! ## messages.go -/

/-- The struct `Message`. -/
structure Message where
  Header : MessageHeader := {}
  IEs : List IE := []
deriving DecidableEq, Repr

/-- The loop of `Message.Marshal` over `m.IEs`: `iesBuf` after the loop, or
the first error. -/
def Message.marshalIEs : List IE → List Nat → List Nat × Option CodecError
  | [], iesBuf => (iesBuf, none)
  | ie :: rest, iesBuf =>
    match ie.Marshal with
    | (ieBuf, none) => Message.marshalIEs rest (iesBuf ++ ieBuf)
    | (_, some err) => ([], some err)

/-- `Message.Marshal`: the receiver after the call (its header length is
overwritten), the bytes and the error returned. -/
def Message.Marshal (m : Message) : Message × List Nat × Option CodecError :=
  match m.Header.Marshal with
  | (_, some err) => (m, [], some err)
  | (_, none) =>
    match Message.marshalIEs m.IEs [] with
    | (_, some err) => (m, [], some err)
    | (iesBuf, none) =>
      let m := { m with Header := { m.Header with MessageLength := iesBuf.length % 65536 } }
      match m.Header.Marshal with
      | (_, some err) => (m, [], some err)
      | (headerBuf, none) => (m, headerBuf ++ iesBuf, none)

/-- The `for offset < len(iesData)` loop of `Message.Unmarshal`; `fuel`
bounds the number of iterations of the model. -/
def Message.unmarshalLoop (iesData : Slice) :
    Nat → Nat → List IE → Go (List IE × Option CodecError)
  | 0, offset, ies =>
    if offset < iesData.len then .outOfFuel else .ret (ies, none)
  | fuel + 1, offset, ies =>
    if offset < iesData.len then do
      let rest ← iesData.sliceFrom offset
      let (ie, n, err) ← IE.Unmarshal {} rest
      match err with
      | some e => return (ies, some e)
      | none => Message.unmarshalLoop iesData fuel (offset + n) (ies ++ [ie])
    else .ret (ies, none)

/-- `Message.Unmarshal`: the receiver after the call and the error returned. -/
def Message.Unmarshal (m : Message) (data : Slice) : Go (Message × Option CodecError) := do
  let (h, err) ← m.Header.Unmarshal data
  let m := { m with Header := h }
  match err with
  | some e => return (m, some e)
  | none =>
    let headerLen := m.Header.Len
    let iesData ← data.slice headerLen (headerLen + m.Header.MessageLength)
    let (ies, err) ← Message.unmarshalLoop iesData iesData.len 0 m.IEs
    return ({ m with IEs := ies }, err)

/-! ## Closed forms and specification vocabulary -/

/-- Closed form of the receiver after a successful `MessageHeader.Unmarshal`
on top of `h0`, as a function of the input bytes `b i`; the SEID is written
only when the S bit is set and the priority only when the MP bit is set. -/
def MessageHeader.decoded (h0 : MessageHeader) (b : Nat → Nat) : MessageHeader :=
  let mp := (b 0 &&& 0x02) != 0
  if (b 0 &&& 0x01) != 0 then
    { Version := (b 0 >>> 5) &&& 0x07, FollowOn := (b 0 &&& 0x04) != 0, MessagePriority := mp,
      SEIDPresent := true, MessageType := b 1, MessageLength := b 3 ||| (b 2 <<< 8),
      SEID := b 11 ||| (b 10 <<< 8) ||| (b 9 <<< 16) ||| (b 8 <<< 24) ||| (b 7 <<< 32)
        ||| (b 6 <<< 40) ||| (b 5 <<< 48) ||| (b 4 <<< 56),
      SequenceNumber := (b 12 <<< 16) ||| (b 13 <<< 8) ||| b 14,
      Priority := if mp then b 15 >>> 4 else h0.Priority }
  else
    { Version := (b 0 >>> 5) &&& 0x07, FollowOn := (b 0 &&& 0x04) != 0, MessagePriority := mp,
      SEIDPresent := false, MessageType := b 1, MessageLength := b 3 ||| (b 2 <<< 8),
      SEID := h0.SEID,
      SequenceNumber := (b 4 <<< 16) ||| (b 5 <<< 8) ||| b 6,
      Priority := if mp then b 7 >>> 4 else h0.Priority }

/-- The value of a byte string read as a big-endian number. -/
def beValue (bs : List Nat) : Nat :=
  bs.foldl (fun acc b => acc * 256 + b) 0

/-- A valid header in the sense of the specification: version 1, a 24-bit
sequence number, a 4-bit priority, every field in the range of its type. -/
def MessageHeader.Valid (h : MessageHeader) : Prop :=
  h.Version = 1 ∧ h.SequenceNumber < 2 ^ 24 ∧ h.Priority < 16 ∧ h.WellTyped

instance (h : MessageHeader) : Decidable h.Valid := by
  unfold MessageHeader.Valid; infer_instance

/-- What a decoder that starts from `h0` can recover of `h`: the SEID travels
only when `SEIDPresent`, the priority only when `MessagePriority`. -/
def MessageHeader.carriedOver (h h0 : MessageHeader) : MessageHeader :=
  { h with
    SEID := if h.SEIDPresent then h.SEID else h0.SEID
    Priority := if h.MessagePriority then h.Priority else h0.Priority }

/-- The IE payload of a message: the concatenation, in list order, of the
bytes `IE.Marshal` returns for each IE. -/
def iePayload : List IE → List Nat
  | [] => []
  | ie :: rest => ie.Marshal.1 ++ iePayload rest

/-- What a decoder that starts from a fresh IE can recover of `ie`: the
enterprise ID travels only for a vendor type (`Type ≥ 32768`). -/
def IE.carriedOver (ie : IE) : IE :=
  { ie with EnterpriseID := if ie.Type_ ≥ 32768 then ie.EnterpriseID else 0 }

/-- A header with `SEIDPresent = false`, `MessagePriority = false` and a
non-zero priority. -/
def hdrPriorityNoMP : MessageHeader :=
  { Version := 1, MessageType := 1, SequenceNumber := 7, Priority := 5 }

/-- A header with `SEIDPresent = false`, `MessagePriority = true` and
priority 5. -/
def hdrPriorityNoSEID : MessageHeader :=
  { Version := 1, MessagePriority := true, MessageType := 1, SequenceNumber := 7,
    Priority := 5 }

/-- A session header: `SEIDPresent`, `MessagePriority`, priority 3. -/
def hdrSession : MessageHeader :=
  { Version := 1, MessagePriority := true, SEIDPresent := true, MessageType := 50,
    SEID := 0x0102030405060708, SequenceNumber := 0xABCDEF, Priority := 3 }

/-- A header whose `Version` is 2. -/
def hdrVersion2 : MessageHeader :=
  { Version := 2, MessageType := 1, SequenceNumber := 1 }

/-- A Cause IE (type 19) whose `EnterpriseID` field is set although the type
is not a vendor type. -/
def ieCauseWithEnterprise : IE :=
  { Type_ := 19, EnterpriseID := 7, Value := [1] }

/-- A vendor IE (type 40000) with an enterprise ID. -/
def ieVendor : IE :=
  { Type_ := 40000, EnterpriseID := 77, Value := [1, 2, 3] }

/-- A Cause IE (type 19) with value `RequestAccepted`. -/
def ieCause : IE :=
  { Type_ := 19, Value := [1] }

/-- An IE of type 19 whose value has 65536 bytes. -/
def ieOversize : IE :=
  { Type_ := 19, Value := List.replicate 65536 0 }

/-- A node message (`SEIDPresent = false`) with one Cause IE; its header
length field already holds the payload length 5. -/
def msgCause : Message :=
  { Header := { Version := 1, MessageType := 2, MessageLength := 5, SequenceNumber := 7 },
    IEs := [ieCause] }

/-- A node message whose only IE has its `EnterpriseID` field set although
its type is not a vendor type; header length field already 5. -/
def msgCauseWithEnterprise : Message :=
  { Header := { Version := 1, MessageType := 2, MessageLength := 5, SequenceNumber := 7 },
    IEs := [ieCauseWithEnterprise] }

/-- A session message (`SEIDPresent = true`) with a Cause IE and a vendor
IE. -/
def msgSession : Message :=
  { Header := hdrSession, IEs := [ieCause, ieVendor] }

/-- The slice holding the sixteen bytes of `hdrSession`. -/
def sliceSession : Slice :=
  Slice.ofBytes [35, 50, 0, 0, 1, 2, 3, 4, 5, 6, 7, 8, 171, 205, 239, 48]

/-! ## ie.go, messages.go: grouped IEs, accessors, lookup -/

/-- The IE type constants of `constants.go` used by the model. -/
def IETypeCause : Nat := 19
def IETypeSourceInterface : Nat := 20
def IETypeNetworkInstance : Nat := 22
def IETypeSDFFilter : Nat := 23
def IETypeApplicationID : Nat := 24
def IETypePrecedence : Nat := 29
def IETypeApplyAction : Nat := 44
def IETypeUE_IPAddress : Nat := 93
def IETypeFAR_ID : Nat := 108
def IETypePDI : Nat := 2
def IETypeCreatePDR : Nat := 1
def IETypeCreateFAR : Nat := 3
def IETypePDR_ID : Nat := 56

/-- The constants `Version1`, the session message types and the causes of
`constants.go` used by the model. -/
def Version1 : Nat := 1
def MsgTypeSessionEstablishmentRequest : Nat := 50
def MsgTypeSessionEstablishmentResponse : Nat := 51
def CauseRequestAccepted : Nat := 1

/-- `binary.BigEndian.PutUint32`: the four bytes written for `v`. -/
def putUint32 (v : Nat) : List Nat :=
  [(v >>> 24) % 256, (v >>> 16) % 256, (v >>> 8) % 256, v % 256]

/-- `binary.BigEndian.Uint32(b)`: `_ = b[3]`, then
`uint32(b[3]) | uint32(b[2])<<8 | uint32(b[1])<<16 | uint32(b[0])<<24`. -/
def getUint32 (b : Slice) : Go Nat := do
  let _ ← b.index 3
  let b3 ← b.index 3
  let b2 ← b.index 2
  let b1 ← b.index 1
  let b0 ← b.index 0
  pure (b3 ||| (b2 <<< 8) ||| (b1 <<< 16) ||| (b0 <<< 24))

/-- `NewCauseIE`. -/
def NewCauseIE (cause : Nat) : IE :=
  { Type_ := IETypeCause, Value := [cause] }

/-- The loop of `NewGroupedIE` over `children`: `value` after the loop, or
the first error. -/
def NewGroupedIE.appendChildren : List IE → List Nat → List Nat × Option CodecError
  | [], value => (value, none)
  | child :: rest, value =>
    match child.Marshal with
    | (childData, none) => NewGroupedIE.appendChildren rest (value ++ childData)
    | (_, some err) => ([], some err)

/-- `NewGroupedIE`: the IE (a nil pointer on error) and the error returned. -/
def NewGroupedIE (ieType : Nat) (children : List IE) : Option IE × Option CodecError :=
  match NewGroupedIE.appendChildren children [] with
  | (_, some err) => (none, some err)
  | (value, none) => (some { Type_ := ieType, Value := value }, none)

/-- The `for offset < len(data)` loop of `ParseGroupedIE`; `fuel` bounds the
number of iterations of the model.  On an error the function returns a nil
list. -/
def ParseGroupedIE.loop (data : Slice) :
    Nat → Nat → List IE → Go (List IE × Option CodecError)
  | 0, offset, ies =>
    if offset < data.len then .outOfFuel else .ret (ies, none)
  | fuel + 1, offset, ies =>
    if offset < data.len then do
      let rest ← data.sliceFrom offset
      let (ie, n, err) ← IE.Unmarshal {} rest
      match err with
      | some e => return ([], some e)
      | none => ParseGroupedIE.loop data fuel (offset + n) (ies ++ [ie])
    else .ret (ies, none)

/-- `ParseGroupedIE`: the IEs (nil on error) and the error returned. -/
def ParseGroupedIE (data : Slice) : Go (List IE × Option CodecError) :=
  ParseGroupedIE.loop data data.len 0 []

/-- The errors of the accessors `GetCause`, `GetPDR_ID`, `GetFAR_ID`. -/
inductive AccessorError where
  | invalidCause
  | invalidPDR_ID
  | invalidFAR_ID
deriving DecidableEq, Repr

/-- `IE.GetCause`. -/
def IE.GetCause (ie : IE) : Go (Nat × Option AccessorError) := do
  if ie.Type_ ≠ IETypeCause ∨ ie.Value.length < 1 then
    return (0, some .invalidCause)
  let c ← (Slice.ofBytes ie.Value).index 0
  return (c, none)

/-- `IE.GetPDR_ID`. -/
def IE.GetPDR_ID (ie : IE) : Go (Nat × Option AccessorError) := do
  if ie.Type_ ≠ IETypePDR_ID ∨ ie.Value.length < 2 then
    return (0, some .invalidPDR_ID)
  let id ← getUint16 (Slice.ofBytes ie.Value)
  return (id, none)

/-- `IE.GetFAR_ID`. -/
def IE.GetFAR_ID (ie : IE) : Go (Nat × Option AccessorError) := do
  if ie.Type_ ≠ IETypeFAR_ID ∨ ie.Value.length < 4 then
    return (0, some .invalidFAR_ID)
  let id ← getUint32 (Slice.ofBytes ie.Value)
  return (id, none)

/-- The loop of `Message.FindIE`: the first IE of the list whose type is
`ieType`, or nil. -/
def Message.FindIE.loop (ieType : Nat) : List IE → Option IE
  | [] => none
  | ie :: rest => if ie.Type_ = ieType then some ie else Message.FindIE.loop ieType rest

/-- `Message.FindIE`. -/
def Message.FindIE (m : Message) (ieType : Nat) : Option IE :=
  Message.FindIE.loop ieType m.IEs

/-- The loop of `Message.FindAllIEs`: `result` after the loop. -/
def Message.FindAllIEs.loop (ieType : Nat) : List IE → List IE → List IE
  | [], result => result
  | ie :: rest, result =>
    if ie.Type_ = ieType then Message.FindAllIEs.loop ieType rest (result ++ [ie])
    else Message.FindAllIEs.loop ieType rest result

/-- `Message.FindAllIEs`. -/
def Message.FindAllIEs (m : Message) (ieType : Nat) : List IE :=
  Message.FindAllIEs.loop ieType m.IEs []

/-- `NewSessionEstablishmentRequest`. -/
def NewSessionEstablishmentRequest (seqNum seid : Nat)
    (createPDRs createFARs createQERs createURRs : List IE) : Message :=
  { Header :=
      { Version := Version1, MessageType := MsgTypeSessionEstablishmentRequest,
        SEIDPresent := true, SEID := seid, SequenceNumber := seqNum },
    IEs := createPDRs ++ createFARs ++ createQERs ++ createURRs }

/-- `NewSessionEstablishmentResponse`: the header SEID is the parameter
`seid`; `localSEID` goes into the value of an IE of type `IETypePDI`, after
the byte `0x02`. -/
def NewSessionEstablishmentResponse (seqNum seid cause localSEID : Nat) : Message :=
  let fseidValue := [0x02] ++ putUint64 localSEID
  let fseidIE : IE := { Type_ := IETypePDI, Value := fseidValue }
  { Header :=
      { Version := Version1, MessageType := MsgTypeSessionEstablishmentResponse,
        SEIDPresent := true, SEID := seid, SequenceNumber := seqNum },
    IEs := [NewCauseIE cause, fseidIE] }

/-! ## transport.go -/

/-- A Go `map`: an association list in which the first entry for a key is the
value of the key. -/
structure GoMap (κ ν : Type) where
  entries : List (κ × ν)
deriving DecidableEq, Repr

/-- `make(map[K]V)`. -/
def GoMap.empty {κ ν : Type} : GoMap κ ν := ⟨[]⟩

/-- Go `v, ok := m[k]`. -/
def GoMap.get {κ ν : Type} [DecidableEq κ] (m : GoMap κ ν) (k : κ) : Option ν :=
  (m.entries.find? (fun e => e.1 = k)).map (fun e => e.2)

/-- Go `delete(m, k)`. -/
def GoMap.delete {κ ν : Type} [DecidableEq κ] (m : GoMap κ ν) (k : κ) : GoMap κ ν :=
  ⟨m.entries.filter (fun e => e.1 ≠ k)⟩

/-- Go `m[k] = v`. -/
def GoMap.set {κ ν : Type} [DecidableEq κ] (m : GoMap κ ν) (k : κ) (v : ν) : GoMap κ ν :=
  ⟨(k, v) :: (m.delete k).entries⟩

/-- The keys of the map. -/
def GoMap.keys {κ ν : Type} (m : GoMap κ ν) : List κ :=
  m.entries.map (fun e => e.1)

/-- A `*net.UDPAddr`. -/
structure UDPAddr where
  IP : List Nat := []
  Port : Nat := 0
deriving DecidableEq, Repr

/-- The struct `pendingRequest`; `respChan` is a channel of capacity 1, held
as its buffered element (`none` when the buffer is empty), and `msg` is the
message as it stood when the request was registered. -/
structure pendingRequest where
  msg : Message
  addr : UDPAddr
  respChan : Option Message := none
  attempts : Int := 0
deriving DecidableEq, Repr

/-- The struct `Transport`, without the socket, the lock and the context;
a handler is held as an identifier. -/
structure Transport where
  handlers : GoMap Nat Nat := GoMap.empty
  pending : GoMap Nat pendingRequest := GoMap.empty
  seqNum : Nat := 0
deriving DecidableEq, Repr

/-- `NewTransport`, the struct it builds once the address is resolved and the
socket open. -/
def NewTransport : Transport :=
  { handlers := GoMap.empty, pending := GoMap.empty, seqNum := 1 }

/-- `Transport.RegisterHandler`. -/
def Transport.RegisterHandler (t : Transport) (msgType handler : Nat) : Transport :=
  { t with handlers := t.handlers.set msgType handler }

/-- `Transport.nextSeqNum`: the value returned and the receiver after the
call; `seqNum` is a `uint32`. -/
def Transport.nextSeqNum (t : Transport) : Nat × Transport :=
  let seq := t.seqNum
  let t := { t with seqNum := (t.seqNum + 1) % 2 ^ 32 }
  let t := if t.seqNum > 0xFFFFFF then { t with seqNum := 1 } else t
  (seq, t)

/-- The values returned by `n` consecutive calls of `nextSeqNum`, and the
receiver after them. -/
def Transport.nextSeqNumTimes : Nat → Transport → List Nat × Transport
  | 0, t => ([], t)
  | n + 1, t =>
    let (seq, t1) := t.nextSeqNum
    let (rest, t2) := Transport.nextSeqNumTimes n t1
    (seq :: rest, t2)

/-- One invocation `handler(msg, addr)` made by `handleMessage`. -/
structure HandlerCall where
  handler : Nat
  msg : Message
  addr : UDPAddr
deriving DecidableEq, Repr

/-- `Transport.handleMessage`: the transport after the call (the response
slot of a pending request is part of it) and the handler invocations made.
The send on `respChan` is the non-blocking `select` with a `default` case. -/
def Transport.handleMessage (t : Transport) (msg : Message) (addr : UDPAddr) :
    Transport × List HandlerCall :=
  match t.pending.get msg.Header.SequenceNumber with
  | some pending =>
    match pending.respChan with
    | none =>
      ({ t with pending :=
           t.pending.set msg.Header.SequenceNumber { pending with respChan := some msg } }, [])
    | some _ => (t, [])
  | none =>
    match t.handlers.get msg.Header.MessageType with
    | some handler => (t, [⟨handler, msg, addr⟩])
    | none => (t, [])

/-- The cases of the `select` in `SendRequest`, in the order in which they
fire. -/
inductive Event where
  | ctxDone
  | response (resp : Message)
  | timer
deriving DecidableEq, Repr

/-- The errors `SendRequest` and `send` return. -/
inductive SendError where
  | marshal (e : CodecError)
  | write
  | transportClosed
  | maxRetriesExceeded
deriving DecidableEq, Repr

/-- A datagram handed to `WriteToUDP`. -/
structure Datagram where
  data : List Nat
  addr : UDPAddr
deriving DecidableEq, Repr

/-- How a call of `SendRequest` stands once the given events are consumed:
still inside the `select`, or returned. -/
inductive SendOutcome where
  | blocked
  | returned (resp : Option Message) (err : Option SendError)
deriving DecidableEq, Repr

/-- `Transport.send`: the message after `Marshal`, the datagram written (if
any) and the error returned; `writeFails` tells whether `WriteToUDP` returns
an error. -/
def Transport.send (msg : Message) (addr : UDPAddr) (writeFails : Bool) :
    Message × Option Datagram × Option SendError :=
  match msg.Marshal with
  | (msg, _, some err) => (msg, none, some (.marshal err))
  | (msg, data, none) =>
    if writeFails then (msg, none, some .write) else (msg, some ⟨data, addr⟩, none)

/-- Lines 80-91 of `SendRequest`: the sequence number is taken from
`nextSeqNum`, written into the message, and the request is put into the
pending map under that number. -/
def Transport.SendRequest.register (t : Transport) (msg : Message) (addr : UDPAddr) :
    Transport × Message :=
  let (seq, t) := t.nextSeqNum
  let msg := { msg with Header := { msg.Header with SequenceNumber := seq } }
  let req : pendingRequest := { msg := msg, addr := addr, respChan := none, attempts := 0 }
  ({ t with pending := t.pending.set msg.Header.SequenceNumber req }, msg)

/-- The `for { select { ... } }` loop of `SendRequest`, over the events that
fire; `attempts` is `req.attempts`, `writes` counts the calls of `WriteToUDP`
so far and `writeFails i` tells whether call `i` fails. -/
def Transport.SendRequest.loop (addr : UDPAddr) (maxRetries : Int) (writeFails : Nat → Bool) :
    List Event → Int → Nat → Message → List Datagram → Message × List Datagram × SendOutcome
  | [], _, _, msg, sent => (msg, sent, .blocked)
  | .ctxDone :: _, _, _, msg, sent => (msg, sent, .returned none (some .transportClosed))
  | .response resp :: _, _, _, msg, sent => (msg, sent, .returned (some resp) none)
  | .timer :: rest, attempts, writes, msg, sent =>
    let attempts := attempts + 1
    if attempts ≥ maxRetries then
      (msg, sent, .returned none (some .maxRetriesExceeded))
    else
      match Transport.send msg addr (writeFails writes) with
      | (msg, _, some err) => (msg, sent, .returned none (some err))
      | (msg, dg, none) =>
        Transport.SendRequest.loop addr maxRetries writeFails rest attempts (writes + 1) msg
          (sent ++ dg.toList)

/-- `Transport.SendRequest` run against the events that fire: the transport
and the message after them, the datagrams written, and the outcome.  The
deferred `delete(t.pending, ...)` runs when the function returns. -/
def Transport.SendRequest (t : Transport) (msg : Message) (addr : UDPAddr) (maxRetries : Int)
    (events : List Event) (writeFails : Nat → Bool) :
    Transport × Message × List Datagram × SendOutcome :=
  let (t, msg) := Transport.SendRequest.register t msg addr
  let done (t : Transport) (msg : Message) : Transport :=
    { t with pending := t.pending.delete msg.Header.SequenceNumber }
  match Transport.send msg addr (writeFails 0) with
  | (msg, _, some err) => (done t msg, msg, [], .returned none (some err))
  | (msg, dg, none) =>
    match Transport.SendRequest.loop addr maxRetries writeFails events 0 1 msg dg.toList with
    | (msg, sent, .blocked) => (t, msg, sent, .blocked)
    | (msg, sent, out) => (done t msg, msg, sent, out)

/-! ## ie.go: constructors -/

/-- More IE type constants of `constants.go`. -/
def IETypeDestinationInterface : Nat := 42
def IETypeNodeID : Nat := 60
def IETypeURR_ID : Nat := 81
def IETypeRecoveryTimeStamp : Nat := 96
def IETypeQER_ID : Nat := 109
def IETypeForwardingParameters : Nat := 4
def IETypeCreateQER : Nat := 7
def IETypeCreateURR : Nat := 6

/-- `NewSourceInterfaceIE`. -/
def NewSourceInterfaceIE (iface : Nat) : IE :=
  { Type_ := IETypeSourceInterface, Value := [iface] }

/-- `NewDestinationInterfaceIE`. -/
def NewDestinationInterfaceIE (iface : Nat) : IE :=
  { Type_ := IETypeDestinationInterface, Value := [iface] }

/-- `NewApplyActionIE`. -/
def NewApplyActionIE (action : Nat) : IE :=
  { Type_ := IETypeApplyAction, Value := [action] }

/-- `NewPDR_ID_IE`. -/
def NewPDR_ID_IE (id : Nat) : IE :=
  { Type_ := IETypePDR_ID, Value := putUint16 id }

/-- `NewFAR_ID_IE`. -/
def NewFAR_ID_IE (id : Nat) : IE :=
  { Type_ := IETypeFAR_ID, Value := putUint32 id }

/-- `NewQER_ID_IE`. -/
def NewQER_ID_IE (id : Nat) : IE :=
  { Type_ := IETypeQER_ID, Value := putUint32 id }

/-- `NewURR_ID_IE`. -/
def NewURR_ID_IE (id : Nat) : IE :=
  { Type_ := IETypeURR_ID, Value := putUint32 id }

/-- `NewPrecedenceIE`. -/
def NewPrecedenceIE (precedence : Nat) : IE :=
  { Type_ := IETypePrecedence, Value := putUint32 precedence }

/-- Go `copy(dst, src)` into a zeroed `dst` of length `n`, on lists. -/
def copyInto (n : Nat) (src : List Nat) : List Nat :=
  src.take n ++ List.replicate (n - src.length) 0

/-- `net.IP.To4`: the 4-byte form of the address, or nil. -/
def IP.To4 (ip : List Nat) : Option (List Nat) :=
  if ip.length = 4 then some ip
  else if ip.length = 16 ∧ ip.take 10 = List.replicate 10 0 ∧ ip.getD 10 0 = 0xff
      ∧ ip.getD 11 0 = 0xff then
    some ((ip.drop 12).take 4)
  else none

/-- `net.IP.To16`: the 16-byte form of the address, or nil. -/
def IP.To16 (ip : List Nat) : Option (List Nat) :=
  if ip.length = 4 then some (List.replicate 10 0 ++ [0xff, 0xff] ++ ip)
  else if ip.length = 16 then some ip
  else none

/-- `NewUE_IPAddressIE`; a nil result of `To16` or `To4` copies nothing. -/
def NewUE_IPAddressIE (ip : List Nat) (isV6 : Bool) : IE :=
  if isV6 then
    { Type_ := IETypeUE_IPAddress,
      Value := [0x01] ++ copyInto 16 ((IP.To16 ip).getD []) }
  else
    { Type_ := IETypeUE_IPAddress,
      Value := [0x02] ++ copyInto 4 ((IP.To4 ip).getD []) }

/-- `NewSDFFilterIE`; the string is held as its bytes. -/
def NewSDFFilterIE (flowDescription : List Nat) : IE :=
  { Type_ := IETypeSDFFilter,
    Value := [0x01, 0] ++ putUint16 (flowDescription.length % 65536) ++ flowDescription }

/-- `NewApplicationIDIE`; the string is held as its bytes. -/
def NewApplicationIDIE (appID : List Nat) : IE :=
  { Type_ := IETypeApplicationID, Value := appID }

/-! ## pkg/up -/

namespace up

/-- The struct `up.PDI`; strings are held as their bytes. -/
structure PDI where
  SourceInterface : Nat := 0
  SDFFilter : List Nat := []
  UE_IPAddress : List Nat := []
  NetworkInstance : List Nat := []
  ApplicationID : List Nat := []
deriving DecidableEq, Repr

/-- The struct `up.PDR`. -/
structure PDR where
  ID : Nat := 0
  Precedence : Nat := 0
  FAR_ID : Nat := 0
  PDI : Option PDI := none
deriving DecidableEq, Repr

/-- The struct `up.FAR`. -/
structure FAR where
  ID : Nat := 0
  ApplyAction : Nat := 0
deriving DecidableEq, Repr

/-- The struct `up.QER`. -/
structure QER where
  ID : Nat := 0
deriving DecidableEq, Repr

/-- The struct `up.URR`. -/
structure URR where
  ID : Nat := 0
deriving DecidableEq, Repr

/-- The struct `up.Session`, without `CreatedAt`. -/
structure Session where
  LocalSEID : Nat
  RemoteSEID : Nat
  PDRs : GoMap Nat PDR := GoMap.empty
  FARs : GoMap Nat FAR := GoMap.empty
  QERs : GoMap Nat QER := GoMap.empty
  URRs : GoMap Nat URR := GoMap.empty
deriving DecidableEq, Repr

/-- A call made on the `Dataplane` interface. -/
inductive DataplaneCall where
  | InstallPDR (seid : Nat) (pdr : PDR)
  | RemovePDR (seid : Nat) (pdrID : Nat)
  | InstallFAR (seid : Nat) (far : FAR)
  | RemoveFAR (seid : Nat) (farID : Nat)
  | DeleteSession (seid : Nat)
deriving DecidableEq, Repr

/-- The struct `UPFunction`: the recovery time stamp and the session map; the
transport and the dataplane are seen through the responses sent and the calls
made. -/
structure UPFunction where
  recoveryTS : Nat := 0
  sessions : GoMap Nat Session := GoMap.empty
deriving DecidableEq, Repr

/-- The loop of `allocSEID`, from `seid`; `fuel` bounds the number of
iterations of the model. -/
def UPFunction.allocSEID.loop (up : UPFunction) : Nat → Nat → Go Nat
  | 0, _ => .outOfFuel
  | fuel + 1, seid =>
    match up.sessions.get seid with
    | none => .ret seid
    | some _ => UPFunction.allocSEID.loop up fuel ((seid + 1) % 2 ^ 64)

/-- `UPFunction.allocSEID`. -/
def UPFunction.allocSEID (up : UPFunction) : Go Nat :=
  UPFunction.allocSEID.loop up (up.sessions.entries.length + 1) 1

/-- The inner `for _, pdiIE := range pdiIEs` loop of the handler. -/
def parsePDI : List IE → PDI → Go PDI
  | [], pdi => .ret pdi
  | pdiIE :: rest, pdi => do
    if pdiIE.Type_ = IETypeSourceInterface then
      if pdiIE.Value.length > 0 then
        let b ← (Slice.ofBytes pdiIE.Value).index 0
        parsePDI rest { pdi with SourceInterface := b }
      else parsePDI rest pdi
    else if pdiIE.Type_ = IETypeSDFFilter then
      parsePDI rest { pdi with SDFFilter := pdiIE.Value }
    else if pdiIE.Type_ = IETypeUE_IPAddress then
      parsePDI rest { pdi with UE_IPAddress := pdiIE.Value }
    else if pdiIE.Type_ = IETypeNetworkInstance then
      parsePDI rest { pdi with NetworkInstance := pdiIE.Value }
    else if pdiIE.Type_ = IETypeApplicationID then
      parsePDI rest { pdi with ApplicationID := pdiIE.Value }
    else parsePDI rest pdi

/-- The `for _, ie := range pdrIEs` loop of the handler; the errors of the
accessors and of the inner `ParseGroupedIE` are discarded as in the source. -/
def parsePDR : List IE → PDR → Go PDR
  | [], pdr => .ret pdr
  | ie :: rest, pdr => do
    if ie.Type_ = IETypePDR_ID then
      let (id, _) ← ie.GetPDR_ID
      parsePDR rest { pdr with ID := id }
    else if ie.Type_ = IETypePrecedence then
      parsePDR rest { pdr with Precedence := 0 }
    else if ie.Type_ = IETypeFAR_ID then
      let (farID, _) ← ie.GetFAR_ID
      parsePDR rest { pdr with FAR_ID := farID }
    else if ie.Type_ = IETypePDI then
      let (pdiIEs, _) ← ParseGroupedIE (Slice.ofBytes ie.Value)
      let pdi ← parsePDI pdiIEs (pdr.PDI.getD {})
      parsePDR rest { pdr with PDI := some pdi }
    else parsePDR rest pdr

/-- The `for _, ie := range farIEs` loop of the handler. -/
def parseFAR : List IE → FAR → Go FAR
  | [], far => .ret far
  | ie :: rest, far => do
    if ie.Type_ = IETypeFAR_ID then
      let (farID, _) ← ie.GetFAR_ID
      parseFAR rest { far with ID := farID }
    else if ie.Type_ = IETypeApplyAction then
      if ie.Value.length > 0 then
        let b ← (Slice.ofBytes ie.Value).index 0
        parseFAR rest { far with ApplyAction := b }
      else parseFAR rest far
    else parseFAR rest far

/-- The `for _, createPDR := range createPDRs` loop of the handler: the
session and the dataplane calls after it.  The result of `InstallPDR` is
not looked at. -/
def installPDRs (seid : Nat) : List IE → Session → List DataplaneCall →
    Go (Session × List DataplaneCall)
  | [], session, calls => .ret (session, calls)
  | createPDR :: rest, session, calls => do
    let (pdrIEs, err) ← ParseGroupedIE (Slice.ofBytes createPDR.Value)
    match err with
    | some _ => installPDRs seid rest session calls
    | none =>
      let pdr ← parsePDR pdrIEs { PDI := some {} }
      installPDRs seid rest { session with PDRs := session.PDRs.set pdr.ID pdr }
        (calls ++ [.InstallPDR seid pdr])

/-- The `for _, createFAR := range createFARs` loop of the handler.  The
result of `InstallFAR` is not looked at. -/
def installFARs (seid : Nat) : List IE → Session → List DataplaneCall →
    Go (Session × List DataplaneCall)
  | [], session, calls => .ret (session, calls)
  | createFAR :: rest, session, calls => do
    let (farIEs, err) ← ParseGroupedIE (Slice.ofBytes createFAR.Value)
    match err with
    | some _ => installFARs seid rest session calls
    | none =>
      let far ← parseFAR farIEs {}
      installFARs seid rest { session with FARs := session.FARs.set far.ID far }
        (calls ++ [.InstallFAR seid far])

/-- `UPFunction.handleSessionEstablishmentRequest`: the receiver after the
call, the dataplane calls made, and the response handed to `SendResponse`. -/
def UPFunction.handleSessionEstablishmentRequest (up : UPFunction) (msg : Message) :
    Go (UPFunction × List DataplaneCall × Message) := do
  let seid ← up.allocSEID
  let session : Session := { LocalSEID := seid, RemoteSEID := msg.Header.SEID }
  let createPDRs := msg.FindAllIEs IETypeCreatePDR
  let (session, calls) ← installPDRs seid createPDRs session []
  let createFARs := msg.FindAllIEs IETypeCreateFAR
  let (session, calls) ← installFARs seid createFARs session calls
  let up := { up with sessions := up.sessions.set seid session }
  let resp := NewSessionEstablishmentResponse msg.Header.SequenceNumber msg.Header.SEID
    CauseRequestAccepted seid
  return (up, calls, resp)

end up

/-! ## pkg/cp -/

namespace cp

/-- The struct `cp.PacketDetectionInfo`; strings are held as their bytes and
`UE_IPAddress` is a `net.IP`, nil or a byte slice. -/
structure PacketDetectionInfo where
  SourceInterface : Nat := 0
  NetworkInstance : List Nat := []
  UE_IPAddress : Option (List Nat) := none
  SDFFilter : List Nat := []
  ApplicationID : List Nat := []
deriving DecidableEq, Repr

/-- The struct `cp.PDR`. -/
structure PDR where
  ID : Nat := 0
  Precedence : Nat := 0
  PDI : Option PacketDetectionInfo := none
  FAR_ID : Nat := 0
  QER_IDs : List Nat := []
  URR_IDs : List Nat := []
deriving DecidableEq, Repr

/-- The struct `cp.ForwardingParams`. -/
structure ForwardingParams where
  DestinationInterface : Nat := 0
  NetworkInstance : List Nat := []
deriving DecidableEq, Repr

/-- The struct `cp.FAR`. -/
structure FAR where
  ID : Nat := 0
  ApplyAction : Nat := 0
  ForwardingParameters : Option ForwardingParams := none
deriving DecidableEq, Repr

/-- The struct `cp.QER`. -/
structure QER where
  ID : Nat := 0
  GateStatus : Nat := 0
  MBR_UL : Nat := 0
  MBR_DL : Nat := 0
  GBR_UL : Nat := 0
  GBR_DL : Nat := 0
deriving DecidableEq, Repr

/-- The struct `cp.URR`. -/
structure URR where
  ID : Nat := 0
  MeasurementMethod : Nat := 0
  ReportingTriggers : Nat := 0
  VolumeThreshold : Nat := 0
  TimeThreshold : Nat := 0
deriving DecidableEq, Repr

/-- The struct `cp.Session`, without `CreatedAt`; `NodeID` is a string, held
as its bytes. -/
structure Session where
  LocalSEID : Nat
  RemoteSEID : Nat
  NodeID : List Nat
  PDRs : GoMap Nat PDR := GoMap.empty
  FARs : GoMap Nat FAR := GoMap.empty
  QERs : GoMap Nat QER := GoMap.empty
  URRs : GoMap Nat URR := GoMap.empty
deriving DecidableEq, Repr

/-- The struct `cp.Association`, without the time stamps. -/
structure Association where
  NodeID : List Nat
  RemoteAddr : UDPAddr
  RecoveryTS : Nat := 0
deriving DecidableEq, Repr

/-- The part of `cp.Config` read by `CreateSession`; `RetransmitT1` is a
duration and plays no part in the model. -/
structure Config where
  RetransmitN1 : Int := 3
deriving DecidableEq, Repr

/-- The struct `CPFunction`; `store` is nil or the sessions held by the
`NorthboundStore` (a `MemoryStore`). -/
structure CPFunction where
  config : Config := {}
  nodeID : List Nat := []
  recoveryTS : Nat := 0
  transport : Transport := NewTransport
  associations : GoMap (List Nat) Association := GoMap.empty
  sessions : GoMap Nat Session := GoMap.empty
  nextSEID : Nat := 1
  store : Option (GoMap Nat Session) := none
deriving DecidableEq, Repr

/-- `CPFunction.allocSEID`; `nextSEID` is a `uint64`. -/
def CPFunction.allocSEID (cp : CPFunction) : Nat × CPFunction :=
  (cp.nextSEID, { cp with nextSEID := (cp.nextSEID + 1) % 2 ^ 64 })

/-- The IEs put into the PDI group by `marshalPDRs`. -/
def pdiIEs (pdi : PacketDetectionInfo) : List IE :=
  let ies := [NewSourceInterfaceIE pdi.SourceInterface]
  let ies := match pdi.UE_IPAddress with
    | some ip => ies ++ [NewUE_IPAddressIE ip (IP.To4 ip).isNone]
    | none => ies
  let ies := if pdi.SDFFilter ≠ [] then ies ++ [NewSDFFilterIE pdi.SDFFilter] else ies
  let ies := if pdi.ApplicationID ≠ [] then ies ++ [NewApplicationIDIE pdi.ApplicationID]
    else ies
  ies

/-- The body of the loop of `marshalPDRs` for one PDR: the Create-PDR IE, or
the error of `NewGroupedIE`. -/
def marshalPDR (pdr : PDR) : Option IE × Option CodecError :=
  let pdrIEs := [NewPDR_ID_IE pdr.ID, NewPrecedenceIE pdr.Precedence]
  let withPDI : List IE × Option CodecError :=
    match pdr.PDI with
    | some pdi =>
      match NewGroupedIE IETypePDI (pdiIEs pdi) with
      | (some pdiIE, none) => (pdrIEs ++ [pdiIE], none)
      | (_, err) => ([], err)
    | none => (pdrIEs, none)
  match withPDI with
  | (_, some err) => (none, some err)
  | (pdrIEs, none) =>
    let pdrIEs := pdrIEs ++ [NewFAR_ID_IE pdr.FAR_ID]
    let pdrIEs := pdrIEs ++ pdr.QER_IDs.map NewQER_ID_IE
    let pdrIEs := pdrIEs ++ pdr.URR_IDs.map NewURR_ID_IE
    NewGroupedIE IETypeCreatePDR pdrIEs

/-- Collects the IEs built for each rule, stopping at the first error, as the
loops of `marshalPDRs`, `marshalFARs`, `marshalQERs` and `marshalURRs` do. -/
def marshalEach {α : Type} (f : α → Option IE × Option CodecError) :
    List α → List IE → List IE × Option CodecError
  | [], ies => (ies, none)
  | r :: rest, ies =>
    match f r with
    | (some ie, none) => marshalEach f rest (ies ++ [ie])
    | (_, err) => ([], err)

/-- `CPFunction.marshalPDRs`. -/
def marshalPDRs (pdrs : List PDR) : List IE × Option CodecError :=
  marshalEach marshalPDR pdrs []

/-- The body of the loop of `marshalFARs` for one FAR. -/
def marshalFAR (far : FAR) : Option IE × Option CodecError :=
  let farIEs := [NewFAR_ID_IE far.ID, NewApplyActionIE far.ApplyAction]
  let withFP : List IE × Option CodecError :=
    match far.ForwardingParameters with
    | some fp =>
      match NewGroupedIE IETypeForwardingParameters
          [NewDestinationInterfaceIE fp.DestinationInterface] with
      | (some fpIE, none) => (farIEs ++ [fpIE], none)
      | (_, err) => ([], err)
    | none => (farIEs, none)
  match withFP with
  | (_, some err) => (none, some err)
  | (farIEs, none) => NewGroupedIE IETypeCreateFAR farIEs

/-- `CPFunction.marshalFARs`. -/
def marshalFARs (fars : List FAR) : List IE × Option CodecError :=
  marshalEach marshalFAR fars []

/-- `CPFunction.marshalQERs`. -/
def marshalQERs (qers : List QER) : List IE × Option CodecError :=
  marshalEach (fun qer => NewGroupedIE IETypeCreateQER [NewQER_ID_IE qer.ID]) qers []

/-- `CPFunction.marshalURRs`. -/
def marshalURRs (urrs : List URR) : List IE × Option CodecError :=
  marshalEach (fun urr => NewGroupedIE IETypeCreateURR [NewURR_ID_IE urr.ID]) urrs []

/-- The errors `CreateSession` returns. -/
inductive CreateError where
  | noAssociation
  | marshalPDRs (e : CodecError)
  | marshalFARs (e : CodecError)
  | marshalQERs (e : CodecError)
  | marshalURRs (e : CodecError)
  | sendRequest (e : SendError)
  | noCauseIE
  | rejected (cause : Nat)
deriving DecidableEq, Repr

/-- How a call of `CreateSession` stands: still inside `SendRequest`, or
returned with its SEID and error. -/
inductive CreateOutcome where
  | blocked
  | returned (seid : Nat) (err : Option CreateError)
deriving DecidableEq, Repr

/-- The `for` loops of `CreateSession` that fill a rule map. -/
def fillMap {α : Type} (key : α → Nat) : List α → GoMap Nat α → GoMap Nat α
  | [], m => m
  | r :: rest, m => fillMap key rest (m.set (key r) r)

/-- `CPFunction.CreateSession`: the receiver after the call, the datagrams
written and the outcome.  `events req` are the `select` cases that fire
inside `SendRequest` once the request `req` is registered, and `writeFails`
tells which socket writes fail.  A nil response with a nil error, which
`SendRequest` never returns, would be dereferenced by `resp.FindIE`. -/
def CPFunction.CreateSession (cp : CPFunction) (nodeID : List Nat) (pdrs : List PDR)
    (fars : List FAR) (qers : List QER) (urrs : List URR)
    (events : Message → List Event) (writeFails : Nat → Bool) :
    Go (CPFunction × List Datagram × CreateOutcome) := do
  match cp.associations.get nodeID with
  | none => return (cp, [], .returned 0 (some .noAssociation))
  | some assoc =>
    let (seid, cp) := cp.allocSEID
    match marshalPDRs pdrs with
    | (_, some err) => return (cp, [], .returned 0 (some (.marshalPDRs err)))
    | (createPDRs, none) =>
    match marshalFARs fars with
    | (_, some err) => return (cp, [], .returned 0 (some (.marshalFARs err)))
    | (createFARs, none) =>
    match marshalQERs qers with
    | (_, some err) => return (cp, [], .returned 0 (some (.marshalQERs err)))
    | (createQERs, none) =>
    match marshalURRs urrs with
    | (_, some err) => return (cp, [], .returned 0 (some (.marshalURRs err)))
    | (createURRs, none) =>
    let req := NewSessionEstablishmentRequest 0 0 createPDRs createFARs createQERs createURRs
    let registered := (Transport.SendRequest.register cp.transport req assoc.RemoteAddr).2
    match Transport.SendRequest cp.transport req assoc.RemoteAddr cp.config.RetransmitN1
        (events registered) writeFails with
    | (t, _, sent, .blocked) => return ({ cp with transport := t }, sent, .blocked)
    | (t, _, sent, .returned _ (some err)) =>
      return ({ cp with transport := t }, sent, .returned 0 (some (.sendRequest err)))
    | (_, _, _, .returned none none) => .panic
    | (t, _, sent, .returned (some resp) none) =>
      let cp := { cp with transport := t }
      match resp.FindIE IETypeCause with
      | none => return (cp, sent, .returned 0 (some .noCauseIE))
      | some causeIE =>
        let (cause, err) ← causeIE.GetCause
        if err.isSome ∨ cause ≠ CauseRequestAccepted then
          return (cp, sent, .returned 0 (some (.rejected cause)))
        else
          let session : Session :=
            { LocalSEID := seid, RemoteSEID := resp.Header.SEID, NodeID := nodeID,
              PDRs := fillMap (fun r => r.ID) pdrs GoMap.empty,
              FARs := fillMap (fun r => r.ID) fars GoMap.empty,
              QERs := fillMap (fun r => r.ID) qers GoMap.empty,
              URRs := fillMap (fun r => r.ID) urrs GoMap.empty }
          let cp := { cp with sessions := cp.sessions.set seid session }
          let cp := { cp with store := cp.store.map (fun s => s.set seid session) }
          return (cp, sent, .returned seid none)

end cp

/-- The address of a peer, `127.0.0.1:8805`. -/
def addrPeer : UDPAddr := { IP := [127, 0, 0, 1], Port := 8805 }

/-- A heartbeat request as `NewHeartbeatRequest(0, 5)` builds it. -/
def msgHeartbeat : Message :=
  { Header := { Version := 1, MessageType := 1, SequenceNumber := 0 },
    IEs := [{ Type_ := 96, Value := [0, 0, 0, 5] }] }

/-- A heartbeat response with sequence number 7. -/
def msgHeartbeatResponse : Message :=
  { Header := { Version := 1, MessageType := 2, SequenceNumber := 7 },
    IEs := [{ Type_ := 96, Value := [0, 0, 0, 9] }] }

/-- A second response with sequence number 7 (a duplicate). -/
def msgHeartbeatResponseDup : Message :=
  { Header := { Version := 1, MessageType := 2, SequenceNumber := 7 },
    IEs := [{ Type_ := 96, Value := [0, 0, 0, 10] }] }

/-- A transport with one pending request, number 7, whose response slot
already holds `msgHeartbeatResponse`, and a handler registered for type 2. -/
def transportSlotFull : Transport :=
  { handlers := GoMap.empty.set 2 40,
    pending := GoMap.empty.set 7
      { msg := msgHeartbeat, addr := addrPeer, respChan := some msgHeartbeatResponse },
    seqNum := 8 }

/-- A transport with one pending request, number 7, whose response slot is
empty, and a handler registered for type 2. -/
def transportSlotEmpty : Transport :=
  { handlers := GoMap.empty.set 2 40,
    pending := GoMap.empty.set 7 { msg := msgHeartbeat, addr := addrPeer },
    seqNum := 8 }

/-- A new transport on which a first request was sent and is still waiting
for its response: it is pending under number 1. -/
def transportOnePending : Transport :=
  (Transport.SendRequest NewTransport msgHeartbeat addrPeer 3 [] (fun _ => false)).1

/-- The transport after one more request that is answered at once. -/
def Transport.answeredRequest (t : Transport) : Transport :=
  (Transport.SendRequest t msgHeartbeat addrPeer 3 [.response msgHeartbeatResponse]
    (fun _ => false)).1

/-- The transport `transportOnePending` after `0xFFFFFE` further requests,
each answered at once, while the first one is still pending. -/
def transportWrapped : Transport :=
  Nat.iterate Transport.answeredRequest 16777214 transportOnePending

/-- The value a Go call returned, if it returned. -/
def Go.toOption {α : Type} : Go α → Option α
  | .ret a => some a
  | .panic => none
  | .outOfFuel => none

/-- An IE of type 19 whose value has 65535 bytes, the largest length the
2-byte length field can hold. -/
def ieMaxLength : IE :=
  { Type_ := 19, Value := List.replicate 65535 0 }

/-- An IE of type 19 whose value has 65534 bytes. -/
def ieLong : IE :=
  { Type_ := 19, Value := List.replicate 65534 0 }

/-- A node message whose only IE is `ieLong`: its IE payload has 65538
bytes. -/
def msgWrapped : Message :=
  { Header := { Version := 1, MessageType := 1, SequenceNumber := 7 },
    IEs := [ieLong] }

/-- The bytes of the flow description `permit in udp from any to any 67-68`. -/
def sdfDHCP : List Nat :=
  [112, 101, 114, 109, 105, 116, 32, 105, 110, 32, 117, 100, 112, 32, 102, 114, 111, 109, 32,
   97, 110, 121, 32, 116, 111, 32, 97, 110, 121, 32, 54, 55, 45, 54, 56]

/-- The children of the PDI group of the example rule: Source-Interface and
SDF-Filter. -/
def pdiChildren : List IE :=
  [NewSourceInterfaceIE 0, NewSDFFilterIE sdfDHCP]

/-- The PDI group IE built from `pdiChildren`. -/
def pdiGroup : IE :=
  { Type_ := IETypePDI, Value := iePayload pdiChildren }

/-- The children of the Create-PDR group of the example rule: PDR-ID,
Precedence, the PDI group, FAR-ID. -/
def createPDRChildren : List IE :=
  [NewPDR_ID_IE 1, NewPrecedenceIE 1000, pdiGroup, NewFAR_ID_IE 1]

/-- The bytes of the node id `up-node-1`. -/
def nodeUP : List Nat := [117, 112, 45, 110, 111, 100, 101, 45, 49]

/-- The PDR of `examples/simple/main.go`. -/
def pdrDHCP : cp.PDR :=
  { ID := 1, Precedence := 1000,
    PDI := some { SourceInterface := 0, SDFFilter := sdfDHCP }, FAR_ID := 1 }

/-- The FAR of `examples/simple/main.go`: forward and notify, towards the CP
function. -/
def farPunt : cp.FAR :=
  { ID := 1, ApplyAction := 0x0A, ForwardingParameters := some { DestinationInterface := 3 } }

/-- A CP function holding an association with the node `up-node-1`. -/
def cpReady : cp.CPFunction :=
  { associations := GoMap.empty.set nodeUP { NodeID := nodeUP, RemoteAddr := addrPeer } }

/-- A UP function that already holds a session under SEID 1. -/
def upOneSession : up.UPFunction :=
  { sessions := GoMap.empty.set 1 { LocalSEID := 1, RemoteSEID := 0 } }

/-- The Session-Establishment-Request `CreateSession` builds for the example
rules, with sequence number 5. -/
def msgEstablish : Message :=
  NewSessionEstablishmentRequest 5 0 (cp.marshalPDRs [pdrDHCP]).1 (cp.marshalFARs [farPunt]).1
    [] []

/-- A lossless channel to a UP function: the request is encoded, decoded by
the peer, handled by `handleSessionEstablishmentRequest`, and the response is
encoded and decoded back; the result is the `select` case that fires in
`SendRequest`. -/
def losslessPeer (u : up.UPFunction) (req : Message) : List Event :=
  match Message.Unmarshal {} (Slice.ofBytes req.Marshal.2.1) with
  | .ret (m, none) =>
    match u.handleSessionEstablishmentRequest m with
    | .ret (_, _, resp) =>
      match Message.Unmarshal {} (Slice.ofBytes resp.Marshal.2.1) with
      | .ret (r, none) => [.response r]
      | _ => []
    | _ => []
  | _ => []

/-- The `uint16` that `binary.BigEndian.Uint16` reads at offset `i` of `l`. -/
def u16At (l : List Nat) (i : Nat) : Nat :=
  l.getD (i + 1) 0 ||| (l.getD i 0 <<< 8)

/-! ## messages.go, ie.go: node messages, session deletion -/

/-- More message types and causes of `constants.go`. -/
def MsgTypeHeartbeatRequest : Nat := 1
def MsgTypeHeartbeatResponse : Nat := 2
def MsgTypeAssociationSetupRequest : Nat := 5
def MsgTypeAssociationSetupResponse : Nat := 6
def MsgTypeAssociationReleaseRequest : Nat := 9
def MsgTypeAssociationReleaseResponse : Nat := 10
def MsgTypeSessionModificationRequest : Nat := 52
def MsgTypeSessionModificationResponse : Nat := 53
def MsgTypeSessionDeletionRequest : Nat := 54
def MsgTypeSessionDeletionResponse : Nat := 55
def CauseMandatoryIEMissing : Nat := 66
def CauseRuleCreationModificationFailure : Nat := 73

/-- `NewNodeIDIE`: a zero flag byte, then the node id. -/
def NewNodeIDIE (nodeID : List Nat) : IE :=
  { Type_ := IETypeNodeID, Value := [0] ++ nodeID }

/-- `NewRecoveryTimeStampIE`. -/
def NewRecoveryTimeStampIE (timestamp : Nat) : IE :=
  { Type_ := IETypeRecoveryTimeStamp, Value := putUint32 timestamp }

/-- `NewHeartbeatResponse`. -/
def NewHeartbeatResponse (seqNum recoveryTS : Nat) : Message :=
  { Header :=
      { Version := Version1, MessageType := MsgTypeHeartbeatResponse, SequenceNumber := seqNum },
    IEs := [NewRecoveryTimeStampIE recoveryTS] }

/-- `NewAssociationSetupRequest`. -/
def NewAssociationSetupRequest (seqNum : Nat) (nodeID : List Nat) (recoveryTS : Nat) : Message :=
  { Header :=
      { Version := Version1, MessageType := MsgTypeAssociationSetupRequest,
        SequenceNumber := seqNum },
    IEs := [NewNodeIDIE nodeID, NewRecoveryTimeStampIE recoveryTS] }

/-- `NewAssociationSetupResponse`. -/
def NewAssociationSetupResponse (seqNum : Nat) (nodeID : List Nat) (cause recoveryTS : Nat) :
    Message :=
  { Header :=
      { Version := Version1, MessageType := MsgTypeAssociationSetupResponse,
        SequenceNumber := seqNum },
    IEs := [NewNodeIDIE nodeID, NewCauseIE cause, NewRecoveryTimeStampIE recoveryTS] }

/-- `NewAssociationReleaseRequest`. -/
def NewAssociationReleaseRequest (seqNum : Nat) (nodeID : List Nat) : Message :=
  { Header :=
      { Version := Version1, MessageType := MsgTypeAssociationReleaseRequest,
        SequenceNumber := seqNum },
    IEs := [NewNodeIDIE nodeID] }

/-- `NewAssociationReleaseResponse`. -/
def NewAssociationReleaseResponse (seqNum : Nat) (nodeID : List Nat) (cause : Nat) : Message :=
  { Header :=
      { Version := Version1, MessageType := MsgTypeAssociationReleaseResponse,
        SequenceNumber := seqNum },
    IEs := [NewNodeIDIE nodeID, NewCauseIE cause] }

/-- `NewSessionDeletionRequest`. -/
def NewSessionDeletionRequest (seqNum seid : Nat) : Message :=
  { Header :=
      { Version := Version1, MessageType := MsgTypeSessionDeletionRequest,
        SEIDPresent := true, SEID := seid, SequenceNumber := seqNum },
    IEs := [] }

/-- `NewSessionDeletionResponse`. -/
def NewSessionDeletionResponse (seqNum seid cause : Nat) : Message :=
  { Header :=
      { Version := Version1, MessageType := MsgTypeSessionDeletionResponse,
        SEIDPresent := true, SEID := seid, SequenceNumber := seqNum },
    IEs := [NewCauseIE cause] }

/-! ## pkg/up: the other handlers, the dataplane -/

namespace up

/-- `UPFunction.handleSessionModificationRequest`: the receiver, the dataplane
calls made (none) and the response handed to `SendResponse`. -/
def UPFunction.handleSessionModificationRequest (up : UPFunction) (msg : Message) :
    Go (UPFunction × List DataplaneCall × Message) :=
  let resp : Message :=
    { Header :=
        { Version := Version1, MessageType := MsgTypeSessionModificationResponse,
          SEIDPresent := true, SEID := msg.Header.SEID,
          SequenceNumber := msg.Header.SequenceNumber },
      IEs := [NewCauseIE CauseRequestAccepted] }
  return (up, [], resp)

/-- `UPFunction.handleSessionDeletionRequest`: the receiver after the call, the
dataplane calls made and the response handed to `SendResponse`.  The result of
`DeleteSession` is not looked at. -/
def UPFunction.handleSessionDeletionRequest (up : UPFunction) (msg : Message) :
    Go (UPFunction × List DataplaneCall × Message) :=
  let seid := msg.Header.SEID
  let up := { up with sessions := up.sessions.delete seid }
  let resp := NewSessionDeletionResponse msg.Header.SequenceNumber msg.Header.SEID
    CauseRequestAccepted
  return (up, [.DeleteSession seid], resp)

/-- `UPFunction.handleHeartbeatRequest`. -/
def UPFunction.handleHeartbeatRequest (up : UPFunction) (msg : Message) :
    Go (UPFunction × List DataplaneCall × Message) :=
  return (up, [], NewHeartbeatResponse msg.Header.SequenceNumber up.recoveryTS)

/-- The handlers of `UPFunction.registerHandlers` as `Transport.handleMessage`
invokes them while no request of the UP function is pending: the handler
registered for the message type runs; a message of another type is dropped. -/
def UPFunction.dispatch (up : UPFunction) (msg : Message) :
    Go (UPFunction × List DataplaneCall × Option Message) := do
  if msg.Header.MessageType = MsgTypeSessionEstablishmentRequest then
    let (up, calls, resp) ← up.handleSessionEstablishmentRequest msg
    return (up, calls, some resp)
  else if msg.Header.MessageType = MsgTypeSessionModificationRequest then
    let (up, calls, resp) ← up.handleSessionModificationRequest msg
    return (up, calls, some resp)
  else if msg.Header.MessageType = MsgTypeSessionDeletionRequest then
    let (up, calls, resp) ← up.handleSessionDeletionRequest msg
    return (up, calls, some resp)
  else if msg.Header.MessageType = MsgTypeHeartbeatRequest then
    let (up, calls, resp) ← up.handleHeartbeatRequest msg
    return (up, calls, some resp)
  else return (up, [], none)

/-- The body of `receiveLoop` for one datagram read into a slice of its own
length: a datagram that does not decode is skipped, another one is
dispatched. -/
def UPFunction.receive (up : UPFunction) (data : List Nat) :
    Go (UPFunction × List DataplaneCall × Option Message) := do
  let (msg, err) ← Message.Unmarshal {} (Slice.ofBytes data)
  match err with
  | some _ => return (up, [], none)
  | none => up.dispatch msg

/-- An implementation behind the `Dataplane` interface, as far as its caller
can tell: whether a call returns an error, given the calls made before it. -/
structure Dataplane where
  fails : List DataplaneCall → DataplaneCall → Bool

/-- The calls `calls` made in this order on a dataplane that has seen
`before`: each call with whether it returned an error. -/
def Dataplane.results (dp : Dataplane) :
    List DataplaneCall → List DataplaneCall → List (DataplaneCall × Bool)
  | _, [] => []
  | before, c :: rest => (c, dp.fails before c) :: Dataplane.results dp (before ++ [c]) rest

/-- The call is an `InstallPDR` or an `InstallFAR`. -/
def DataplaneCall.isInstall : DataplaneCall → Bool
  | .InstallPDR _ _ => true
  | .InstallFAR _ _ => true
  | _ => false

/-- The call is a `RemovePDR` or a `RemoveFAR`. -/
def DataplaneCall.isRemove : DataplaneCall → Bool
  | .RemovePDR _ _ => true
  | .RemoveFAR _ _ => true
  | _ => false

end up

/-! ## pkg/dataplane/mock -/

namespace mock

/-- The struct `MockDataplane`, without the lock. -/
structure MockDataplane where
  pdrs : GoMap Nat (GoMap Nat up.PDR) := GoMap.empty
  fars : GoMap Nat (GoMap Nat up.FAR) := GoMap.empty
  qers : GoMap Nat (GoMap Nat up.QER) := GoMap.empty
  urrs : GoMap Nat (GoMap Nat up.URR) := GoMap.empty
deriving DecidableEq, Repr

/-- `NewMockDataplane`. -/
def NewMockDataplane : MockDataplane := {}

/-- `MockDataplane.InstallPDR`; it returns nil. -/
def MockDataplane.InstallPDR (m : MockDataplane) (seid : Nat) (pdr : up.PDR) : MockDataplane :=
  let m := match m.pdrs.get seid with
    | none => { m with pdrs := m.pdrs.set seid GoMap.empty }
    | some _ => m
  { m with pdrs := m.pdrs.set seid (((m.pdrs.get seid).getD GoMap.empty).set pdr.ID pdr) }

/-- `MockDataplane.RemovePDR`; it returns nil. -/
def MockDataplane.RemovePDR (m : MockDataplane) (seid pdrID : Nat) : MockDataplane :=
  match m.pdrs.get seid with
  | some rules => { m with pdrs := m.pdrs.set seid (rules.delete pdrID) }
  | none => m

/-- `MockDataplane.InstallFAR`; it returns nil. -/
def MockDataplane.InstallFAR (m : MockDataplane) (seid : Nat) (far : up.FAR) : MockDataplane :=
  let m := match m.fars.get seid with
    | none => { m with fars := m.fars.set seid GoMap.empty }
    | some _ => m
  { m with fars := m.fars.set seid (((m.fars.get seid).getD GoMap.empty).set far.ID far) }

/-- `MockDataplane.RemoveFAR`; it returns nil. -/
def MockDataplane.RemoveFAR (m : MockDataplane) (seid farID : Nat) : MockDataplane :=
  match m.fars.get seid with
  | some rules => { m with fars := m.fars.set seid (rules.delete farID) }
  | none => m

/-- `MockDataplane.DeleteSession`; it returns nil. -/
def MockDataplane.DeleteSession (m : MockDataplane) (seid : Nat) : MockDataplane :=
  { pdrs := m.pdrs.delete seid, fars := m.fars.delete seid,
    qers := m.qers.delete seid, urrs := m.urrs.delete seid }

/-- `MockDataplane.GetSessionRules`: the four counts, or the error
"session not found" (`none`). -/
def MockDataplane.GetSessionRules (m : MockDataplane) (seid : Nat) :
    Option (Nat × Nat × Nat × Nat) :=
  match m.pdrs.get seid with
  | none => none
  | some rules =>
    some (rules.entries.length, ((m.fars.get seid).getD GoMap.empty).entries.length,
      ((m.qers.get seid).getD GoMap.empty).entries.length,
      ((m.urrs.get seid).getD GoMap.empty).entries.length)

/-- The mock dataplane after one call made through the interface. -/
def MockDataplane.call (m : MockDataplane) : up.DataplaneCall → MockDataplane
  | .InstallPDR seid pdr => m.InstallPDR seid pdr
  | .RemovePDR seid pdrID => m.RemovePDR seid pdrID
  | .InstallFAR seid far => m.InstallFAR seid far
  | .RemoveFAR seid farID => m.RemoveFAR seid farID
  | .DeleteSession seid => m.DeleteSession seid

/-- The mock dataplane after a list of calls. -/
def MockDataplane.run (m : MockDataplane) (calls : List up.DataplaneCall) : MockDataplane :=
  calls.foldl MockDataplane.call m

end mock

/-! ## pkg/cp: handlers, DeleteSession -/

namespace cp

/-- The errors the association handlers return. -/
inductive HandlerError where
  | noNodeID
  | noRecoveryTimeStamp
  | send (e : SendError)
deriving DecidableEq, Repr

/-- `CPFunction.handleAssociationSetupRequest`: the receiver after the call,
the datagrams written and the error returned; `writeFails` tells whether the
socket write of `SendResponse` fails.  `nodeIDIE.Value[1:]` is a slice
expression on the value of the IE. -/
def CPFunction.handleAssociationSetupRequest (cp : CPFunction) (msg : Message) (addr : UDPAddr)
    (writeFails : Bool) : Go (CPFunction × List Datagram × Option HandlerError) := do
  match msg.FindIE IETypeNodeID with
  | none => return (cp, [], some .noNodeID)
  | some nodeIDIE =>
    match msg.FindIE IETypeRecoveryTimeStamp with
    | none => return (cp, [], some .noRecoveryTimeStamp)
    | some _ =>
      let nodeID ← (Slice.ofBytes nodeIDIE.Value).sliceFrom 1
      let assoc : Association := { NodeID := nodeID.vis, RemoteAddr := addr, RecoveryTS := 0 }
      let cp := { cp with associations := cp.associations.set nodeID.vis assoc }
      let resp := NewAssociationSetupResponse msg.Header.SequenceNumber cp.nodeID
        CauseRequestAccepted cp.recoveryTS
      match Transport.send resp addr writeFails with
      | (_, dg, err) => return (cp, dg.toList, err.map .send)

/-- `CPFunction.handleAssociationReleaseRequest`: the receiver after the call,
the datagrams written and the error returned. -/
def CPFunction.handleAssociationReleaseRequest (cp : CPFunction) (msg : Message)
    (addr : UDPAddr) (writeFails : Bool) :
    Go (CPFunction × List Datagram × Option HandlerError) := do
  match msg.FindIE IETypeNodeID with
  | none => return (cp, [], some .noNodeID)
  | some nodeIDIE =>
    let nodeID ← (Slice.ofBytes nodeIDIE.Value).sliceFrom 1
    let cp := { cp with associations := cp.associations.delete nodeID.vis }
    let resp := NewAssociationReleaseResponse msg.Header.SequenceNumber cp.nodeID
      CauseRequestAccepted
    match Transport.send resp addr writeFails with
    | (_, dg, err) => return (cp, dg.toList, err.map .send)

/-- The errors `DeleteSession` returns. -/
inductive DeleteError where
  | sessionNotFound (seid : Nat)
  | noAssociation
  | sendRequest (e : SendError)
  | noCauseIE
  | rejected (cause : Nat)
deriving DecidableEq, Repr

/-- How a call of `DeleteSession` stands: still inside `SendRequest`, or
returned with its error. -/
inductive DeleteOutcome where
  | blocked
  | returned (err : Option DeleteError)
deriving DecidableEq, Repr

/-- `CPFunction.DeleteSession`: the receiver after the call, the datagrams
written and the outcome; `events` and `writeFails` are as in
`CreateSession`.  The error of `GetCause` is discarded. -/
def CPFunction.DeleteSession (cp : CPFunction) (seid : Nat)
    (events : Message → List Event) (writeFails : Nat → Bool) :
    Go (CPFunction × List Datagram × DeleteOutcome) := do
  match cp.sessions.get seid with
  | none => return (cp, [], .returned (some (.sessionNotFound seid)))
  | some session =>
    match cp.associations.get session.NodeID with
    | none => return (cp, [], .returned (some .noAssociation))
    | some assoc =>
      let req := NewSessionDeletionRequest 0 session.RemoteSEID
      let registered := (Transport.SendRequest.register cp.transport req assoc.RemoteAddr).2
      match Transport.SendRequest cp.transport req assoc.RemoteAddr cp.config.RetransmitN1
          (events registered) writeFails with
      | (t, _, sent, .blocked) => return ({ cp with transport := t }, sent, .blocked)
      | (t, _, sent, .returned _ (some err)) =>
        return ({ cp with transport := t }, sent, .returned (some (.sendRequest err)))
      | (_, _, _, .returned none none) => .panic
      | (t, _, sent, .returned (some resp) none) =>
        let cp := { cp with transport := t }
        match resp.FindIE IETypeCause with
        | none => return (cp, sent, .returned (some .noCauseIE))
        | some causeIE =>
          let (cause, _) ← causeIE.GetCause
          if cause ≠ CauseRequestAccepted then
            return (cp, sent, .returned (some (.rejected cause)))
          else
            let cp := { cp with sessions := cp.sessions.delete seid }
            let cp := { cp with store := cp.store.map (fun s => s.delete seid) }
            return (cp, sent, .returned none)

end cp

/-- A UP function that holds no session. -/
def upFresh : up.UPFunction := {}

/-- A lossless channel to a UP function: the request is encoded, read and
dispatched by the peer, and the response is encoded and decoded back; the
result is the `select` case that fires in `SendRequest`. -/
def losslessUP (u : up.UPFunction) (req : Message) : List Event :=
  match u.receive req.Marshal.2.1 with
  | .ret (_, _, some resp) =>
    match Message.Unmarshal {} (Slice.ofBytes resp.Marshal.2.1) with
    | .ret (r, none) => [.response r]
    | _ => []
  | _ => []

/-- The UP function and its mock dataplane after the datagrams `sent` were
read one by one, with the dataplane calls made. -/
def upAfter : List Datagram → up.UPFunction → mock.MockDataplane → List up.DataplaneCall →
    Go (up.UPFunction × mock.MockDataplane × List up.DataplaneCall)
  | [], u, m, calls => .ret (u, m, calls)
  | dg :: rest, u, m, calls => do
    let (u, made, _) ← u.receive dg.data
    upAfter rest u (m.run made) (calls ++ made)

/-- The outcome of the run of `examples/simple/main.go` from `CreateSession`
on: what `CreateSession` and `DeleteSession` returned, the datagram of the
deletion request, and the state of the two sides at the end. -/
structure EndToEnd where
  created : cp.CreateOutcome
  cpSession : Option cp.Session
  upCreated : up.UPFunction
  rulesInstalled : Option (Nat × Nat × Nat × Nat)
  deletionSent : List Datagram
  deleted : cp.DeleteOutcome
  cpEnd : cp.CPFunction
  upEnd : up.UPFunction
  deletionCalls : List up.DataplaneCall
  mockEnd : mock.MockDataplane
deriving DecidableEq, Repr

/-- The run of `examples/simple/main.go` from `CreateSession` on, over a
lossless channel with no write failure: `c` creates a session for the given
rules on node `nodeID` served by the UP function `u` with a new mock
dataplane, then deletes the session whose SEID `CreateSession` returned. -/
def endToEnd (c : cp.CPFunction) (u : up.UPFunction) (nodeID : List Nat) (pdrs : List cp.PDR)
    (fars : List cp.FAR) : Go EndToEnd := do
  let (c1, sent1, created) ← c.CreateSession nodeID pdrs fars [] [] (losslessUP u)
    (fun _ => false)
  let (u1, m1, _) ← upAfter sent1 u mock.NewMockDataplane []
  let seid := match created with
    | .returned seid _ => seid
    | .blocked => 0
  let (c2, sent2, deleted) ← c1.DeleteSession seid (losslessUP u1) (fun _ => false)
  let (u2, m2, calls2) ← upAfter sent2 u1 m1 []
  return { created := created, cpSession := c1.sessions.get seid, upCreated := u1,
           rulesInstalled := m1.GetSessionRules seid, deletionSent := sent2,
           deleted := deleted, cpEnd := c2, upEnd := u2, deletionCalls := calls2,
           mockEnd := m2 }

/-- A dataplane on which every `InstallPDR` returns an error. -/
def dpFailPDR : up.Dataplane :=
  { fails := fun _ c => match c with
      | .InstallPDR _ _ => true
      | _ => false }

/-- A dataplane on which every `InstallFAR` returns an error. -/
def dpFailFAR : up.Dataplane :=
  { fails := fun _ c => match c with
      | .InstallFAR _ _ => true
      | _ => false }

/-- The PDR the UP function builds from the Create-PDR of `msgEstablish`. -/
def pdrParsed : up.PDR :=
  { ID := 1, Precedence := 0, FAR_ID := 1,
    PDI := some { SourceInterface := 0, SDFFilter := (NewSDFFilterIE sdfDHCP).Value } }

/-- A CP function holding an association with the node `up-node-1` and one
session on that node. -/
def cpOneSession : cp.CPFunction :=
  { associations := GoMap.empty.set nodeUP { NodeID := nodeUP, RemoteAddr := addrPeer },
    sessions := GoMap.empty.set 1 { LocalSEID := 1, RemoteSEID := 0, NodeID := nodeUP },
    nextSEID := 2 }

/-- An Association-Setup-Request without a Node-ID IE. -/
def msgSetupNoNodeID : Message :=
  { Header := { Version := 1, MessageType := 5, SequenceNumber := 1 },
    IEs := [NewRecoveryTimeStampIE 5] }

/-- An Association-Setup-Request without a Recovery-Time-Stamp IE. -/
def msgSetupNoRecovery : Message :=
  { Header := { Version := 1, MessageType := 5, SequenceNumber := 1 },
    IEs := [NewNodeIDIE nodeUP] }

/-- An Association-Setup-Request whose Node-ID IE has an empty value (length
field 0), followed by a Recovery-Time-Stamp IE. -/
def msgSetupEmptyNodeID : Message :=
  { Header := { Version := 1, MessageType := 5, MessageLength := 12, SequenceNumber := 1 },
    IEs := [{ Type_ := 60, Value := [] }, NewRecoveryTimeStampIE 5] }

/-- The 20 bytes of the datagram that decodes to `msgSetupEmptyNodeID`. -/
def bytesSetupEmptyNodeID : List Nat :=
  [32, 5, 0, 12, 0, 0, 1, 0, 0, 60, 0, 0, 0, 96, 0, 4, 0, 0, 0, 5]

/-- A second PDR with the id of `pdrDHCP` and another precedence. -/
def pdrDHCP2 : cp.PDR :=
  { pdrDHCP with Precedence := 2000 }

/-- The least positive integer that is not a key of the map is `s`. -/
def isLeastFreeSEID (sessions : GoMap Nat up.Session) (s : Nat) : Prop :=
  1 ≤ s ∧ sessions.get s = none ∧ ∀ k, 1 ≤ k → k < s → (sessions.get k).isSome = true

/-- `handleSessionEstablishmentRequest` on a UP function whose dataplane is
`dp` and has seen the calls `before`: the calls made come with the result
each returned.  The handler discards every result, so that nothing else
depends on the dataplane. -/
def up.UPFunction.establishOn (dp : up.Dataplane) (before : List up.DataplaneCall)
    (u : up.UPFunction) (msg : Message) :
    Go (up.UPFunction × List (up.DataplaneCall × Bool) × Message) := do
  let (u, calls, resp) ← u.handleSessionEstablishmentRequest msg
  return (u, dp.results before calls, resp)

namespace cp

/-- The request `CreateSession` hands to `SendRequest`. -/
def establishmentRequest (pdrs : List PDR) (fars : List FAR) (qers : List QER)
    (urrs : List URR) : Message :=
  NewSessionEstablishmentRequest 0 0 (marshalPDRs pdrs).1 (marshalFARs fars).1
    (marshalQERs qers).1 (marshalURRs urrs).1

/-- The call of `SendRequest` made by `CreateSession` towards the peer of the
association `assoc`: the transport and the message after it, the datagrams
written and the outcome. -/
def CPFunction.createSend (cp : CPFunction) (assoc : Association) (pdrs : List PDR)
    (fars : List FAR) (qers : List QER) (urrs : List URR)
    (events : Message → List Event) (writeFails : Nat → Bool) :
    Transport × Message × List Datagram × SendOutcome :=
  Transport.SendRequest cp.transport (establishmentRequest pdrs fars qers urrs)
    assoc.RemoteAddr cp.config.RetransmitN1
    (events (Transport.SendRequest.register cp.transport
      (establishmentRequest pdrs fars qers urrs) assoc.RemoteAddr).2) writeFails

end cp

/-- The session `CreateSession` records under `seid` when the response `resp`
is accepted. -/
def cp.recordedSession (seid : Nat) (resp : Message) (nodeID : List Nat) (pdrs : List cp.PDR)
    (fars : List cp.FAR) (qers : List cp.QER) (urrs : List cp.URR) : cp.Session :=
  { LocalSEID := seid, RemoteSEID := resp.Header.SEID, NodeID := nodeID,
    PDRs := cp.fillMap (fun r => r.ID) pdrs GoMap.empty,
    FARs := cp.fillMap (fun r => r.ID) fars GoMap.empty,
    QERs := cp.fillMap (fun r => r.ID) qers GoMap.empty,
    URRs := cp.fillMap (fun r => r.ID) urrs GoMap.empty }

/-- The rule map holds, for each id, the last rule of `rules` with that id,
and no other key. -/
def cp.holdsLast {α : Type} (key : α → Nat) (rules : List α) (m : GoMap Nat α) : Prop :=
  ∀ id, m.get id = (rules.filter (fun r => key r = id)).getLast?

/-- The rule map holds every rule of `rules` under its id. -/
def cp.holdsAll {α : Type} (key : α → Nat) (rules : List α) (m : GoMap Nat α) : Prop :=
  ∀ r ∈ rules, m.get (key r) = some r

/-- The association of `cpReady` with the node `up-node-1`. -/
def assocUP : cp.Association := { NodeID := nodeUP, RemoteAddr := addrPeer }

/-- The response of the UP function `upFresh` to the example request with
sequence number 1, as the CP function decodes it. -/
def respEstablish : Message :=
  { Header :=
      { Version := 1, SEIDPresent := true, MessageType := 51, MessageLength := 18, SEID := 0,
        SequenceNumber := 1 },
    IEs := [NewCauseIE CauseRequestAccepted, { Type_ := 2, Value := [2, 0, 0, 0, 0, 0, 0, 0, 1] }] }

/-- A UP function holding the sessions 1, 2 and 4. -/
def upThreeSessions : up.UPFunction :=
  { sessions := ((GoMap.empty.set 4 { LocalSEID := 4, RemoteSEID := 0 }).set 1
      { LocalSEID := 1, RemoteSEID := 0 }).set 2 { LocalSEID := 2, RemoteSEID := 0 } }

/-! ## Go strings and strconv, on byte strings -/

namespace strings

/-- The width in bytes of the white space rune (`unicode.IsSpace`) whose UTF-8
encoding starts the bytes, or 0 when they start with no such rune: the ASCII
tab, line feed, vertical tab, form feed, carriage return and space, and
U+0085, U+00A0, U+1680, U+2000 to U+200A, U+2028, U+2029, U+202F, U+205F,
U+3000. -/
def spaceWidth : List Nat → Nat
  | [] => 0
  | b :: rest =>
    if b = 9 ∨ b = 10 ∨ b = 11 ∨ b = 12 ∨ b = 13 ∨ b = 32 then 1
    else if b = 0xC2 then
      (if rest.head? = some 0x85 ∨ rest.head? = some 0xA0 then 2 else 0)
    else if b = 0xE1 then
      (if rest.take 2 = [0x9A, 0x80] then 3 else 0)
    else if b = 0xE2 then
      (if rest.head? = some 0x80 ∧ (rest.drop 1).head?.any
            (fun d => (0x80 ≤ d ∧ d ≤ 0x8A) ∨ d = 0xA8 ∨ d = 0xA9 ∨ d = 0xAF) then 3
       else if rest.take 2 = [0x81, 0x9F] then 3 else 0)
    else if b = 0xE3 then
      (if rest.take 2 = [0x80, 0x80] then 3 else 0)
    else 0

/-- The scan of `strings.Fields`: `skip` counts the bytes left of the white
space rune being skipped, `cur` is the field being read, `acc` the fields
read. -/
def Fields.loop : List Nat → Nat → List Nat → List (List Nat) → List (List Nat)
  | [], _, cur, acc => if cur = [] then acc else acc ++ [cur]
  | _ :: rest, skip + 1, cur, acc => Fields.loop rest skip cur acc
  | b :: rest, 0, cur, acc =>
    if spaceWidth (b :: rest) > 0 then
      Fields.loop rest (spaceWidth (b :: rest) - 1) [] (if cur = [] then acc else acc ++ [cur])
    else Fields.loop rest 0 (cur ++ [b]) acc

/-- `strings.Fields`: the maximal runs of bytes between white space runes. -/
def Fields (s : List Nat) : List (List Nat) :=
  Fields.loop s 0 [] []

/-- The scan of `strings.ToLower`; `skip` counts the bytes left of the rune
being replaced. -/
def ToLower.loop : List Nat → Nat → List Nat
  | [], _ => []
  | _ :: rest, skip + 1 => ToLower.loop rest skip
  | b :: rest, 0 =>
    if 65 ≤ b ∧ b ≤ 90 then (b + 32) :: ToLower.loop rest 0
    else if b = 0xC4 ∧ rest.head? = some 0xB0 then 105 :: ToLower.loop rest 1
    else if b = 0xE2 ∧ rest.take 2 = [0x84, 0xAA] then 107 :: ToLower.loop rest 2
    else b :: ToLower.loop rest 0

/-- `strings.ToLower`, as far as a comparison of the result with an ASCII
string can tell: ASCII capitals are lowered, U+0130 (bytes C4 B0) becomes `i`
and U+212A (bytes E2 84 AA) becomes `k`, the only runes outside ASCII whose
lower case is in ASCII; every other byte outside ASCII is kept and stands for
the bytes outside ASCII of the result. -/
def ToLower (s : List Nat) : List Nat :=
  ToLower.loop s 0

/-- `strings.Contains(s, sep)` for a separator `sep` of one byte. -/
def Contains (s : List Nat) (sep : Nat) : Bool :=
  s.contains sep

/-- The scan of `strings.Split`. -/
def Split.loop (sep : Nat) : List Nat → List Nat → List (List Nat) → List (List Nat)
  | [], cur, acc => acc ++ [cur]
  | b :: rest, cur, acc =>
    if b = sep then Split.loop sep rest [] (acc ++ [cur])
    else Split.loop sep rest (cur ++ [b]) acc

/-- `strings.Split(s, sep)` for a separator `sep` of one byte. -/
def Split (s : List Nat) (sep : Nat) : List (List Nat) :=
  Split.loop sep s [] []

end strings

namespace strconv

/-- The value of a string of decimal digits. -/
def digitsValue : List Nat → Nat → Nat
  | [], n => n
  | c :: rest, n => digitsValue rest (n * 10 + (c - 48))

/-- `strconv.ParseUint(s, 10, bitSize)`: the value, or `none` for an error
(an empty string, a byte that is not a decimal digit, a value of `2^bitSize`
or more). -/
def ParseUint (s : List Nat) (bitSize : Nat) : Option Nat :=
  if s = [] then none
  else if s.all (fun c => 48 ≤ c ∧ c ≤ 57) then
    (if digitsValue s 0 < 2 ^ bitSize then some (digitsValue s 0) else none)
  else none

end strconv

/-- Equality of results is decidable. -/
instance {ε α : Type} [DecidableEq ε] [DecidableEq α] : DecidableEq (Except ε α)
  | .ok a, .ok b =>
    if h : a = b then isTrue (by rw [h]) else isFalse (by intro h'; cases h'; exact h rfl)
  | .error a, .error b =>
    if h : a = b then isTrue (by rw [h]) else isFalse (by intro h'; cases h'; exact h rfl)
  | .ok _, .error _ => isFalse (by intro h; cases h)
  | .error _, .ok _ => isFalse (by intro h; cases h)

/-- Go `l[i]` on a slice of strings: panics unless `i < len(l)`. -/
def goIndex {α : Type} (l : List α) (i : Nat) : Go α :=
  match l[i]? with
  | some a => .ret a
  | none => .panic

/-! ## pkg/dataplane/vpp -/

namespace vpp

/-- The struct `SDFFilter`; strings are held as their bytes. -/
structure SDFFilter where
  FlowDescription : List Nat := []
  Action : List Nat := []
  Direction : List Nat := []
  Protocol : Nat := 0
  SrcAddr : List Nat := []
  DstAddr : List Nat := []
  PortStart : Nat := 0
  PortEnd : Nat := 0
  AddressFamily : Nat := 0
  ToS : Nat := 0
  SPI : Nat := 0
  FlowLabel : Nat := 0
  FilterID : Nat := 0
deriving DecidableEq, Repr

/-- The errors of `sdf_parser.go`, one constructor per format string. -/
inductive SDFError where
  | tooShort (n : Nat)
  | missingFlowDescriptionLength
  | flowDescriptionTruncated
  | missingToS
  | missingSPI
  | missingFlowLabel
  | missingFilterID
  | invalidFlowDescription (s : List Nat)
  | invalidProtocol (s : List Nat)
  | expectedFrom (s : List Nat)
  | expectedTo (s : List Nat)
  | invalidPortRange (s : List Nat)
  | invalidStartPort (s : List Nat)
  | invalidEndPort (s : List Nat)
  | invalidPort (s : List Nat)
deriving DecidableEq, Repr

/-- The strings compared in `parseFlowDescription`: "tcp", "udp", "icmp",
"icmpv6", "ip", "from", "to", and the bytes ":" and "-". -/
def strTCP : List Nat := [116, 99, 112]
def strUDP : List Nat := [117, 100, 112]
def strICMP : List Nat := [105, 99, 109, 112]
def strICMPv6 : List Nat := [105, 99, 109, 112, 118, 54]
def strIP : List Nat := [105, 112]
def strFrom : List Nat := [102, 114, 111, 109]
def strTo : List Nat := [116, 111]
def byteColon : Nat := 58
def byteDash : Nat := 45

/-- `parsePortRange`: the filter after the call, or the error returned. -/
def parsePortRange (portRange : List Nat) (sdf : SDFFilter) :
    Go (Except SDFError SDFFilter) := do
  if strings.Contains portRange byteDash then
    let ports := strings.Split portRange byteDash
    if ports.length ≠ 2 then
      return .error (.invalidPortRange portRange)
    let p0 ← goIndex ports 0
    match strconv.ParseUint p0 16 with
    | none => return .error (.invalidStartPort p0)
    | some start =>
      let p1 ← goIndex ports 1
      match strconv.ParseUint p1 16 with
      | none => return .error (.invalidEndPort p1)
      | some end_ =>
        return .ok { sdf with PortStart := start % 65536, PortEnd := end_ % 65536 }
  else
    match strconv.ParseUint portRange 16 with
    | none => return .error (.invalidPort portRange)
    | some port =>
      return .ok { sdf with PortStart := port % 65536, PortEnd := port % 65536 }

/-- `parseFlowDescription`: the filter, or the error returned. -/
def parseFlowDescription (flowDesc : List Nat) : Go (Except SDFError SDFFilter) := do
  let parts := strings.Fields flowDesc
  if parts.length < 7 then
    return .error (.invalidFlowDescription flowDesc)
  let action ← goIndex parts 0
  let direction ← goIndex parts 1
  let mut sdf : SDFFilter :=
    { FlowDescription := flowDesc, Action := action, Direction := direction }
  let protoStr ← goIndex parts 2
  let lower := strings.ToLower protoStr
  if lower = strTCP then
    sdf := { sdf with Protocol := 6 }
  else if lower = strUDP then
    sdf := { sdf with Protocol := 17 }
  else if lower = strICMP then
    sdf := { sdf with Protocol := 1 }
  else if lower = strICMPv6 then
    sdf := { sdf with Protocol := 58 }
  else if lower = strIP then
    sdf := { sdf with Protocol := 0 }
  else
    match strconv.ParseUint protoStr 8 with
    | none => return .error (.invalidProtocol protoStr)
    | some proto => sdf := { sdf with Protocol := proto % 256 }
  let p3 ← goIndex parts 3
  if p3 ≠ strFrom then
    return .error (.expectedFrom p3)
  let p4 ← goIndex parts 4
  sdf := { sdf with SrcAddr := p4 }
  let p5 ← goIndex parts 5
  if p5 ≠ strTo then
    return .error (.expectedTo p5)
  let p6 ← goIndex parts 6
  sdf := { sdf with DstAddr := p6 }
  if strings.Contains sdf.SrcAddr byteColon ∨ strings.Contains sdf.DstAddr byteColon then
    sdf := { sdf with AddressFamily := 1 }
  else
    sdf := { sdf with AddressFamily := 0 }
  if parts.length > 7 then
    let p7 ← goIndex parts 7
    match ← parsePortRange p7 sdf with
    | .error e => return .error e
    | .ok s => sdf := s
  return .ok sdf

/-- `parseSDFFilter`: the filter, or the error returned. -/
def parseSDFFilter (sdfIEValue : Slice) : Go (Except SDFError SDFFilter) := do
  if sdfIEValue.len < 2 then
    return .error (.tooShort sdfIEValue.len)
  let flags ← sdfIEValue.index 0
  let fdFlag := flags &&& 0x01
  let ttcFlag := flags &&& 0x02
  let spiFlag := flags &&& 0x04
  let flFlag := flags &&& 0x08
  let bidFlag := flags &&& 0x10
  let mut offset := 2
  let mut sdf : SDFFilter := {}
  if fdFlag ≠ 0 then
    if sdfIEValue.len < offset + 2 then
      return .error .missingFlowDescriptionLength
    let fdLen ← (do getUint16 (← sdfIEValue.slice offset (offset + 2)))
    offset := offset + 2
    if sdfIEValue.len < offset + fdLen then
      return .error .flowDescriptionTruncated
    let flowDesc ← sdfIEValue.slice offset (offset + fdLen)
    offset := offset + fdLen
    match ← parseFlowDescription flowDesc.vis with
    | .error e => return .error e
    | .ok s => sdf := s
  if ttcFlag ≠ 0 then
    if sdfIEValue.len < offset + 2 then
      return .error .missingToS
    let tos ← (do getUint16 (← sdfIEValue.slice offset (offset + 2)))
    sdf := { sdf with ToS := tos }
    offset := offset + 2
  if spiFlag ≠ 0 then
    if sdfIEValue.len < offset + 4 then
      return .error .missingSPI
    let spi ← (do getUint32 (← sdfIEValue.slice offset (offset + 4)))
    sdf := { sdf with SPI := spi }
    offset := offset + 4
  if flFlag ≠ 0 then
    if sdfIEValue.len < offset + 3 then
      return .error .missingFlowLabel
    let b0 ← sdfIEValue.index offset
    let b1 ← sdfIEValue.index (offset + 1)
    let b2 ← sdfIEValue.index (offset + 2)
    sdf := { sdf with FlowLabel := (b0 <<< 16) ||| (b1 <<< 8) ||| b2 }
    sdf := { sdf with FlowLabel := sdf.FlowLabel &&& 0x000FFFFF }
    offset := offset + 3
  if bidFlag ≠ 0 then
    if sdfIEValue.len < offset + 4 then
      return .error .missingFilterID
    let bid ← (do getUint32 (← sdfIEValue.slice offset (offset + 4)))
    sdf := { sdf with FilterID := bid }
    offset := offset + 4
  return .ok sdf

/-- The struct `L2Filter`. -/
structure L2Filter where
  Name : List Nat
  EtherType : Nat
  Protocol : Nat := 0
deriving DecidableEq, Repr

/-- The map `l2FilterRegistry`: ARP, PPPOE_DISCOVERY, PPPOE_SESSION, LLDP,
DOT1Q, IPV6. -/
def l2FilterRegistry : GoMap (List Nat) L2Filter :=
  ⟨[([65, 82, 80], { Name := [65, 82, 80], EtherType := 0x0806 }),
   ([80, 80, 80, 79, 69, 95, 68, 73, 83, 67, 79, 86, 69, 82, 89], { Name := [80, 80, 80, 111, 69, 32, 68, 105, 115, 99, 111, 118, 101, 114, 121], EtherType := 0x8863 }),
   ([80, 80, 80, 79, 69, 95, 83, 69, 83, 83, 73, 79, 78], { Name := [80, 80, 80, 111, 69, 32, 83, 101, 115, 115, 105, 111, 110], EtherType := 0x8864 }),
   ([76, 76, 68, 80], { Name := [76, 76, 68, 80], EtherType := 0x88cc }),
   ([68, 79, 84, 49, 81], { Name := [56, 48, 50, 46, 49, 81, 32, 86, 76, 65, 78], EtherType := 0x8100 }),
   ([73, 80, 86, 54], { Name := [73, 80, 118, 54], EtherType := 0x86dd })]⟩

/-- `GetL2Filter`. -/
def GetL2Filter (applicationID : List Nat) : Option L2Filter :=
  l2FilterRegistry.get applicationID

/-- A `punt.SetPunt` request sent to VPP. -/
inductive PuntCall where
  | L4 (af protocol port : Nat)
  | IPProto (af protocol : Nat)
deriving DecidableEq, Repr

/-- The part of the struct `sessionState` read by `configurePuntForPDR`:
`puntReg`, keyed by the PDR id that the key "pdr-<id>" is printed from. -/
structure sessionState where
  puntReg : GoMap Nat Bool := GoMap.empty
deriving DecidableEq, Repr

/-- The errors `configurePuntForPDR` returns when every VPP call succeeds. -/
inductive PuntError where
  | unknownApplicationID (id : List Nat)
  | noFilter (pdrID : Nat)
  | parseSDFFilter (e : SDFError)
deriving DecidableEq, Repr

/-- `configureL2PuntForPDR`: the session after the call and the error. -/
def configureL2PuntForPDR (session : sessionState) (pdr : up.PDR) (pdi : up.PDI) :
    Go (sessionState × List PuntCall × Option PuntError) :=
  match GetL2Filter pdi.ApplicationID with
  | none => return (session, [], some (.unknownApplicationID pdi.ApplicationID))
  | some _ => return ({ session with puntReg := session.puntReg.set pdr.ID true }, [], none)

/-- The loop `for port := PortStart; port <= PortEnd; port++` of
`configurePuntForPDR`, every VPP call succeeding: the requests sent.  `port`
is a `uint16`; `fuel` bounds the number of iterations of the model. -/
def configurePuntForPDR.ports (af protocol portEnd : Nat) :
    Nat → Nat → List PuntCall → Go (List PuntCall)
  | 0, port, calls => if port ≤ portEnd then .outOfFuel else .ret calls
  | fuel + 1, port, calls =>
    if port ≤ portEnd then
      configurePuntForPDR.ports af protocol portEnd fuel ((port + 1) % 65536)
        (calls ++ [.L4 af protocol port])
    else .ret calls

/-- `VPPDataplane.configurePuntForPDR` for a session that exists, every VPP
call succeeding: the session after the call, the requests sent to VPP and the
error returned; `fuel` bounds the iterations of the port loop. -/
def configurePuntForPDR (fuel : Nat) (session : sessionState) (pdr : up.PDR) :
    Go (sessionState × List PuntCall × Option PuntError) := do
  if (session.puntReg.get pdr.ID).getD false then
    return (session, [], none)
  match pdr.PDI with
  | none => .panic
  | some pdi =>
    if pdi.ApplicationID ≠ [] then
      configureL2PuntForPDR session pdr pdi
    else if pdi.SDFFilter.length = 0 then
      return (session, [], some (.noFilter pdr.ID))
    else
      match ← parseSDFFilter (Slice.ofBytes pdi.SDFFilter) with
      | .error e => return (session, [], some (.parseSDFFilter e))
      | .ok sdfFilter =>
        let af := if sdfFilter.AddressFamily = 1 then 1 else 0
        let isL4Protocol :=
          sdfFilter.Protocol = 6 ∨ sdfFilter.Protocol = 17 ∨ sdfFilter.Protocol = 132
        let hasPorts := sdfFilter.PortStart > 0 ∨ sdfFilter.PortEnd > 0
        if isL4Protocol ∧ hasPorts then
          let calls ← configurePuntForPDR.ports af sdfFilter.Protocol sdfFilter.PortEnd fuel
            sdfFilter.PortStart []
          return ({ session with puntReg := session.puntReg.set pdr.ID true }, calls, none)
        else
          return ({ session with puntReg := session.puntReg.set pdr.ID true },
            [.IPProto af sdfFilter.Protocol], none)

end vpp

/-- The bytes of the flow description `permit in udp from any to any 65535`. -/
def sdfPort65535 : List Nat :=
  [112, 101, 114, 109, 105, 116, 32, 105, 110, 32, 117, 100, 112, 32, 102, 114, 111, 109, 32, 97, 110, 121, 32, 116, 111, 32, 97, 110, 121, 32, 54, 53, 53, 51, 53]

/-- A PDR of the UP function whose SDF filter is the one `NewSDFFilterIE`
builds for `sdfPort65535`. -/
def pdrPort65535 : up.PDR :=
  { ID := 1, FAR_ID := 1,
    PDI := some { SourceInterface := 0, SDFFilter := (NewSDFFilterIE sdfPort65535).Value } }

/-! ## Specification vocabulary of the SDF filter and of the rule transfer -/

/-- The `uint32` that `binary.BigEndian.Uint32` reads at offset `i` of `l`. -/
def u32At (l : List Nat) (i : Nat) : Nat :=
  l.getD (i + 3) 0 ||| (l.getD (i + 2) 0 <<< 8) ||| (l.getD (i + 1) 0 <<< 16)
    ||| (l.getD i 0 <<< 24)

namespace vpp

/-- A valid protocol field, in the words of the specification: one of the
names tcp, udp, icmp, icmpv6 and ip, in any case, or a decimal number below
256. -/
def validProtocol (p : List Nat) : Prop :=
  strings.ToLower p ∈ [strTCP, strUDP, strICMP, strICMPv6, strIP]
    ∨ (strconv.ParseUint p 8).isSome = true

instance (p : List Nat) : Decidable (validProtocol p) := by
  unfold validProtocol; infer_instance

/-- A valid port range, in the words of the specification: a decimal port
below 65536, or two of them joined by one `-`. -/
def validPortRange (p : List Nat) : Prop :=
  (strconv.ParseUint p 16).isSome = true
    ∨ ((strings.Split p byteDash).length = 2
        ∧ ∀ q ∈ strings.Split p byteDash, (strconv.ParseUint q 16).isSome = true)

instance (p : List Nat) : Decidable (validPortRange p) := by
  unfold validPortRange; infer_instance

/-- A well-formed flow description, in the words of the specification: at
least 7 fields separated by white space, a valid protocol in the third field,
the keywords `from` and `to` in the fourth and the sixth field, and, when
there is an eighth field, a valid port range in it. -/
def wellFormedFlow (s : List Nat) : Prop :=
  7 ≤ (strings.Fields s).length
    ∧ validProtocol ((strings.Fields s).getD 2 [])
    ∧ (strings.Fields s).getD 3 [] = strFrom
    ∧ (strings.Fields s).getD 5 [] = strTo
    ∧ (7 < (strings.Fields s).length → validPortRange ((strings.Fields s).getD 7 []))

instance (s : List Nat) : Decidable (wellFormedFlow s) := by
  unfold wellFormedFlow; infer_instance

/-- The sub-fields of an SDF-Filter value: the bytes of each of FD (the flow
description, without its length), TTC, SPI, FL and BID, or `none` for a
sub-field whose flag bit is clear. -/
structure SDFLayout where
  fd : Option (List Nat) := none
  ttc : Option (List Nat) := none
  spi : Option (List Nat) := none
  fl : Option (List Nat) := none
  bid : Option (List Nat) := none
deriving DecidableEq, Repr

/-- A sub-field of `n` bytes at offset `off` of `v`, read when `present`: its
bytes and the offset after it, or `none` when it is truncated. -/
def readField (present : Bool) (n : Nat) (v : List Nat) (off : Nat) :
    Option (Option (List Nat) × Nat) :=
  if present then
    (if v.length < off + n then none else some (some ((v.drop off).take n), off + n))
  else some (none, off)

/-- The sub-field FD at offset `off` of `v`, read when `present`: a 2-byte
length, then that many bytes. -/
def readFD (present : Bool) (v : List Nat) (off : Nat) : Option (Option (List Nat) × Nat) :=
  if present then
    (if v.length < off + 2 then none
     else if v.length < off + 2 + u16At v off then none
     else some (some ((v.drop (off + 2)).take (u16At v off)), off + 2 + u16At v off))
  else some (none, off)

/-- The layout of an SDF-Filter value in the words of the specification: a
flags byte, a spare byte, then the sub-fields in the order FD (flag 0x01),
TTC (0x02, 2 bytes), SPI (0x04, 4 bytes), FL (0x08, 3 bytes), BID (0x10,
4 bytes), each present exactly when its flag bit is set.  The result is
`none` when the value is shorter than 2 bytes or a flagged sub-field is
truncated. -/
def sdfLayout (v : List Nat) : Option SDFLayout :=
  if v.length < 2 then none
  else
    match readFD (decide (v.getD 0 0 &&& 0x01 ≠ 0)) v 2 with
    | none => none
    | some (fd, o1) =>
    match readField (decide (v.getD 0 0 &&& 0x02 ≠ 0)) 2 v o1 with
    | none => none
    | some (ttc, o2) =>
    match readField (decide (v.getD 0 0 &&& 0x04 ≠ 0)) 4 v o2 with
    | none => none
    | some (spi, o3) =>
    match readField (decide (v.getD 0 0 &&& 0x08 ≠ 0)) 3 v o3 with
    | none => none
    | some (fl, o4) =>
    match readField (decide (v.getD 0 0 &&& 0x10 ≠ 0)) 4 v o4 with
    | none => none
    | some (bid, _) => some { fd := fd, ttc := ttc, spi := spi, fl := fl, bid := bid }

/-- The filter after the sub-fields TTC, SPI, FL and BID of the layout are
written into `sdf`: big-endian numbers, the flow label masked to 20 bits. -/
def SDFLayout.fields (f : SDFLayout) (sdf : SDFFilter) : SDFFilter :=
  { sdf with
    ToS := match f.ttc with
      | some b => u16At b 0
      | none => sdf.ToS
    SPI := match f.spi with
      | some b => u32At b 0
      | none => sdf.SPI
    FlowLabel := match f.fl with
      | some b => ((b.getD 0 0 <<< 16) ||| (b.getD 1 0 <<< 8) ||| b.getD 2 0) &&& 0x000FFFFF
      | none => sdf.FlowLabel
    FilterID := match f.bid with
      | some b => u32At b 0
      | none => sdf.FilterID }

/-- The result the specification gives for an SDF-Filter value with the
layout `f`: the flow description of FD parsed (an empty filter without FD),
then the other sub-fields written into it. -/
def SDFLayout.result (f : SDFLayout) : Go (Except SDFError SDFFilter) :=
  match f.fd with
  | none => .ret (.ok (f.fields {}))
  | some d =>
    match parseFlowDescription d with
    | .ret (.ok sdf) => .ret (.ok (f.fields sdf))
    | r => r

end vpp

/-- The children of the Create-PDR group `marshalPDRs` builds for a PDR. -/
def cp.pdrChildren (pdr : cp.PDR) : List IE :=
  [NewPDR_ID_IE pdr.ID, NewPrecedenceIE pdr.Precedence]
    ++ (match pdr.PDI with
        | some pdi => [{ Type_ := IETypePDI, Value := iePayload (cp.pdiIEs pdi) }]
        | none => [])
    ++ [NewFAR_ID_IE pdr.FAR_ID] ++ pdr.QER_IDs.map NewQER_ID_IE
    ++ pdr.URR_IDs.map NewURR_ID_IE

/-- The children of the Create-FAR group `marshalFARs` builds for a FAR. -/
def cp.farChildren (far : cp.FAR) : List IE :=
  [NewFAR_ID_IE far.ID, NewApplyActionIE far.ApplyAction]
    ++ (match far.ForwardingParameters with
        | some fp => [{ Type_ := IETypeForwardingParameters,
                        Value := iePayload [NewDestinationInterfaceIE fp.DestinationInterface] }]
        | none => [])

/-- The ids of a PDR of the CP function are in the range of their Go types:
`ID` is a `uint16`, `FAR_ID` a `uint32`. -/
def cp.PDR.WellTyped (pdr : cp.PDR) : Prop :=
  pdr.ID < 2 ^ 16 ∧ pdr.FAR_ID < 2 ^ 32

instance (pdr : cp.PDR) : Decidable pdr.WellTyped := by
  unfold cp.PDR.WellTyped; infer_instance

/-- The id of a FAR of the CP function is in the range of its Go type,
`uint32`. -/
def cp.FAR.WellTyped (far : cp.FAR) : Prop :=
  far.ID < 2 ^ 32

instance (far : cp.FAR) : Decidable far.WellTyped := by
  unfold cp.FAR.WellTyped; infer_instance

/-- The PDR `q` installed on the UP function carries the ID, the FAR id and
the PDI source interface of the PDR `p` of the CP function. -/
def transfersPDR (p : cp.PDR) (q : up.PDR) : Prop :=
  q.ID = p.ID ∧ q.FAR_ID = p.FAR_ID
    ∧ q.PDI.map (fun pdi => pdi.SourceInterface) = p.PDI.map (fun pdi => pdi.SourceInterface)

instance (p : cp.PDR) (q : up.PDR) : Decidable (transfersPDR p q) := by
  unfold transfersPDR; infer_instance

/-- The FAR `g` installed on the UP function carries the ID and the apply
action of the FAR `f` of the CP function. -/
def transfersFAR (f : cp.FAR) (g : up.FAR) : Prop :=
  g.ID = f.ID ∧ g.ApplyAction = f.ApplyAction

instance (f : cp.FAR) (g : up.FAR) : Decidable (transfersFAR f g) := by
  unfold transfersFAR; infer_instance

/-- The Session-Establishment-Request for the PDRs and FARs given, with the
sequence number and the header SEID given. -/
def ruleRequest (seqNum seid : Nat) (pdrs : List cp.PDR) (fars : List cp.FAR) : Message :=
  NewSessionEstablishmentRequest seqNum seid (cp.marshalPDRs pdrs).1 (cp.marshalFARs fars).1
    [] []

/-- A PDR whose SDF filter has 65495 bytes: its Create-PDR group has a value
of 65534 bytes. -/
def pdrHuge : cp.PDR :=
  { ID := 1, Precedence := 1000,
    PDI := some { SourceInterface := 0, SDFFilter := List.replicate 65495 97 }, FAR_ID := 1 }

/-- An Association-Release-Request whose Node-ID IE has an empty value (length
field 0). -/
def msgReleaseEmptyNodeID : Message :=
  { Header := { Version := 1, MessageType := 9, MessageLength := 4, SequenceNumber := 1 },
    IEs := [{ Type_ := 60, Value := [] }] }

/-- The 12 bytes of the datagram that decodes to `msgReleaseEmptyNodeID`. -/
def bytesReleaseEmptyNodeID : List Nat :=
  [32, 9, 0, 4, 0, 0, 1, 0, 0, 60, 0, 0]

/-- Three bytes, fewer than the header of an IE. -/
def bytesShortIE : List Nat := [0, 19, 0]

/-- The 17 bytes of a node message whose IE payload is a Cause IE followed by
the 4-byte header of an IE that announces 3 bytes of value. -/
def bytesTruncatedSecondIE : List Nat :=
  [32, 1, 0, 9, 0, 0, 1, 0, 0, 19, 0, 1, 1, 0, 19, 0, 3]

/-- The bytes of a group holding a Cause IE and the vendor IE `ieVendor`. -/
def bytesGroupVendor : List Nat :=
  [0, 19, 0, 1, 1, 156, 64, 0, 5, 0, 77, 1, 2, 3]

/-- The protocol number `parseFlowDescription` reads from the protocol field:
6, 17, 1, 58 and 0 for the names tcp, udp, icmp, icmpv6 and ip in any case,
the value of a decimal number below 256, and `none` for any other field. -/
def vpp.protocolOf (protoStr : List Nat) : Option Nat :=
  if strings.ToLower protoStr = vpp.strTCP then some 6
  else if strings.ToLower protoStr = vpp.strUDP then some 17
  else if strings.ToLower protoStr = vpp.strICMP then some 1
  else if strings.ToLower protoStr = vpp.strICMPv6 then some 58
  else if strings.ToLower protoStr = vpp.strIP then some 0
  else (strconv.ParseUint protoStr 8).map (fun proto => proto % 256)

/-- The filter `parseFlowDescription` has built from the first seven fields
of the flow description `d`, `proto` being the protocol number read. -/
def vpp.flowBase (d : List Nat) (proto : Nat) : vpp.SDFFilter :=
  { FlowDescription := d, Action := (strings.Fields d).getD 0 [],
    Direction := (strings.Fields d).getD 1 [], Protocol := proto,
    SrcAddr := (strings.Fields d).getD 4 [], DstAddr := (strings.Fields d).getD 6 [],
    AddressFamily :=
      if strings.Contains ((strings.Fields d).getD 4 []) vpp.byteColon = true
          ∨ strings.Contains ((strings.Fields d).getD 6 []) vpp.byteColon = true then 1
      else 0 }

/-! ## Arithmetic of the byte encodings -/

theorem or_eq_add_of_low (x b k : Nat) (hx : x % 2 ^ k = 0) (hb : b < 2 ^ k) :
    x ||| b = x + b := by
  have hx2 : x = 2 ^ k * (x / 2 ^ k) := by
    have := Nat.div_add_mod x (2 ^ k)
    omega
  rw [hx2, ← Nat.mul_add_lt_is_or hb]

theorem or_shiftLeft_eq_add (a b k : Nat) (h : a < 2 ^ k) : a ||| (b <<< k) = a + b * 2 ^ k := by
  rw [Nat.shiftLeft_eq, Nat.or_comm, or_eq_add_of_low _ a k (Nat.mul_mod_left _ _) h]
  omega

theorem uint16_of_bytes (b0 b1 : Nat) (h1 : b1 < 256) :
    b1 ||| (b0 <<< 8) = b1 + b0 * 256 := 
  or_shiftLeft_eq_add b1 b0 8 (by omega)

theorem uint16_roundtrip (v : Nat) (h : v < 65536) :
    (v % 256) ||| (((v >>> 8) % 256) <<< 8) = v := by
  rw [uint16_of_bytes _ _ (by omega), Nat.shiftRight_eq_div_pow]
  omega

theorem uint24_of_bytes (b0 b1 b2 : Nat) (h1 : b1 < 256) (h2 : b2 < 256) :
    (b0 <<< 16) ||| (b1 <<< 8) ||| b2 = b0 * 65536 + b1 * 256 + b2 := by
  have e1 : (b0 <<< 16) ||| (b1 <<< 8) = b0 * 65536 + b1 * 256 := by
    rw [Nat.shiftLeft_eq, Nat.shiftLeft_eq]
    exact or_eq_add_of_low _ _ 16 (by omega) (by omega)
  rw [e1]
  exact or_eq_add_of_low _ _ 8 (by omega) (by omega)

theorem uint24_roundtrip (s : Nat) (h : s < 2 ^ 24) :
    (((s >>> 16) % 256) <<< 16) ||| (((s >>> 8) % 256) <<< 8) ||| (s % 256) = s := by
  rw [uint24_of_bytes _ _ _ (Nat.mod_lt _ (by norm_num)) (Nat.mod_lt _ (by norm_num))]
  simp only [Nat.shiftRight_eq_div_pow]
  omega

theorem uint64_of_bytes (b0 b1 b2 b3 b4 b5 b6 b7 : Nat) (h1 : b1 < 256) (h2 : b2 < 256)
    (h3 : b3 < 256) (h4 : b4 < 256) (h5 : b5 < 256) (h6 : b6 < 256) (h7 : b7 < 256) :
    b7 ||| (b6 <<< 8) ||| (b5 <<< 16) ||| (b4 <<< 24) ||| (b3 <<< 32)
      ||| (b2 <<< 40) ||| (b1 <<< 48) ||| (b0 <<< 56)
    = b7 + b6 * 2 ^ 8 + b5 * 2 ^ 16 + b4 * 2 ^ 24 + b3 * 2 ^ 32 + b2 * 2 ^ 40
      + b1 * 2 ^ 48 + b0 * 2 ^ 56 := by
  rw [or_shiftLeft_eq_add b7 b6 8 (by omega),
      or_shiftLeft_eq_add _ b5 16 (by omega),
      or_shiftLeft_eq_add _ b4 24 (by omega),
      or_shiftLeft_eq_add _ b3 32 (by omega),
      or_shiftLeft_eq_add _ b2 40 (by omega),
      or_shiftLeft_eq_add _ b1 48 (by omega),
      or_shiftLeft_eq_add _ b0 56 (by omega)]

theorem uint64_roundtrip (v : Nat) (h : v < 2 ^ 64) :
    (v % 256) ||| (((v >>> 8) % 256) <<< 8) ||| (((v >>> 16) % 256) <<< 16)
      ||| (((v >>> 24) % 256) <<< 24) ||| (((v >>> 32) % 256) <<< 32)
      ||| (((v >>> 40) % 256) <<< 40) ||| (((v >>> 48) % 256) <<< 48)
      ||| (((v >>> 56) % 256) <<< 56) = v := by
  rw [uint64_of_bytes _ _ _ _ _ _ _ _ (Nat.mod_lt _ (by norm_num)) (Nat.mod_lt _ (by norm_num))
    (Nat.mod_lt _ (by norm_num)) (Nat.mod_lt _ (by norm_num)) (Nat.mod_lt _ (by norm_num))
    (Nat.mod_lt _ (by norm_num)) (Nat.mod_lt _ (by norm_num))]
  simp only [Nat.shiftRight_eq_div_pow]
  omega

theorem priority_roundtrip (p : Nat) (h : p < 16) : ((p <<< 4) % 256) >>> 4 = p := by
  simp only [Nat.shiftRight_eq_div_pow, Nat.shiftLeft_eq]
  omega

@[simp] theorem Go.ret_bind {α β : Type} (a : α) (f : α → Go β) : (Go.ret a >>= f) = f a := rfl
@[simp] theorem Go.panic_bind {α β : Type} (f : α → Go β) : ((Go.panic : Go α) >>= f) = Go.panic := rfl
@[simp] theorem Go.pure_eq_ret {α : Type} (a : α) : (pure a : Go α) = Go.ret a := rfl

theorem Slice.index_of_lt (s : Slice) (i : Nat) (h : i < s.vis.length) :
    s.index i = .ret (s.vis.getD i 0) := by
  simp [Slice.index, List.getElem?_eq_getElem h, List.getD_eq_getElem?_getD]

theorem Slice.index_of_ge (s : Slice) (i : Nat) (h : s.vis.length ≤ i) :
    s.index i = .panic := by
  simp [Slice.index, List.getElem?_eq_none h]

theorem Slice.slice_of_le (s : Slice) (lo hi : Nat) (h1 : lo ≤ hi) (h2 : hi ≤ s.vis.length) :
    s.slice lo hi = .ret ⟨(s.vis.take hi).drop lo, s.vis.drop hi ++ s.spare⟩ := by
  have h3 : hi ≤ s.cap := by simp only [Slice.cap]; omega
  simp [Slice.slice, h1, h3, List.take_append_of_le_length h2, List.drop_append_of_le_length h2]

theorem getD_drop_take (l : List Nat) (lo hi i : Nat) (h : lo + i < hi) :
    ((l.take hi).drop lo).getD i 0 = l.getD (lo + i) 0 := by
  simp [List.getD_eq_getElem?_getD, List.getElem?_drop, List.getElem?_take, h]

theorem Slice.index_window (l sp : List Nat) (lo n i : Nat) (h : lo + n ≤ l.length)
    (hi : i < n) :
    Slice.index ⟨(l.take (lo + n)).drop lo, sp⟩ i = .ret (l.getD (lo + i) 0) := by
  have hl : ((l.take (lo + n)).drop lo).length = n := by
    simp [List.length_drop, List.length_take]; omega
  rw [Slice.index_of_lt _ _ (by simpa [hl] using hi)]
  exact congrArg Go.ret (getD_drop_take l lo (lo + n) i (by omega))

theorem getUint16_slice (s : Slice) (lo : Nat) (h : lo + 2 ≤ s.vis.length) :
    (do getUint16 (← s.slice lo (lo + 2))) =
      .ret (s.vis.getD (lo + 1) 0 ||| (s.vis.getD lo 0 <<< 8)) := by
  rw [Slice.slice_of_le s lo (lo + 2) (by omega) h]
  have ix (i : Nat) (hi : i < 2) := Slice.index_window s.vis (s.vis.drop (lo + 2) ++ s.spare) lo 2 i h hi
  simp only [getUint16, ix 0 (by omega), ix 1 (by omega), Go.ret_bind, Go.pure_eq_ret,
    Nat.add_zero]

theorem getUint64_slice (s : Slice) (lo : Nat) (h : lo + 8 ≤ s.vis.length) :
    (do getUint64 (← s.slice lo (lo + 8))) =
      .ret (s.vis.getD (lo + 7) 0 ||| (s.vis.getD (lo + 6) 0 <<< 8)
        ||| (s.vis.getD (lo + 5) 0 <<< 16) ||| (s.vis.getD (lo + 4) 0 <<< 24)
        ||| (s.vis.getD (lo + 3) 0 <<< 32) ||| (s.vis.getD (lo + 2) 0 <<< 40)
        ||| (s.vis.getD (lo + 1) 0 <<< 48) ||| (s.vis.getD lo 0 <<< 56)) := by
  rw [Slice.slice_of_le s lo (lo + 8) (by omega) h]
  have ix (i : Nat) (hi : i < 8) := Slice.index_window s.vis (s.vis.drop (lo + 8) ++ s.spare) lo 8 i h hi
  simp only [getUint64, ix 0 (by omega), ix 1 (by omega), ix 2 (by omega), ix 3 (by omega),
    ix 4 (by omega), ix 5 (by omega), ix 6 (by omega), ix 7 (by omega), Go.ret_bind,
    Go.pure_eq_ret, Nat.add_zero]

theorem MessageHeader.unmarshal_short (h0 : MessageHeader) (data : Slice) (h : data.len < 8) :
    MessageHeader.Unmarshal h0 data = .ret (h0, some (.headerTooShort data.len)) := by
  simp [MessageHeader.Unmarshal, h]

theorem MessageHeader.unmarshal_ok (h0 : MessageHeader) (data : Slice) (h : 8 ≤ data.len)
    (hS : (data.vis.getD 0 0 &&& 0x01) != 0 → 16 ≤ data.len) :
    MessageHeader.Unmarshal h0 data
      = .ret (MessageHeader.decoded h0 (fun i => data.vis.getD i 0), none) := by
  simp only [Slice.len] at h hS
  have ix (i : Nat) (hi : i < data.vis.length) := Slice.index_of_lt data i hi
  have g16 := getUint16_slice data 2 (by omega)
  simp only [MessageHeader.Unmarshal, Slice.len, if_neg (show ¬ data.vis.length < 8 by omega),
    ix 0 (by omega), ix 1 (by omega), Go.ret_bind, g16]
  by_cases hs : (data.vis.getD 0 0 &&& 0x01) != 0
  · have h16 := hS hs
    have g64 := getUint64_slice data 4 (by omega)
    simp only [hs, if_true, if_neg (show ¬ data.vis.length < 16 by omega), g64, Go.ret_bind,
      ix 12 (by omega), ix 13 (by omega), ix 14 (by omega), ix 15 (by omega),
      MessageHeader.decoded]
    generalize data.vis.getD 0 0 = f
    by_cases hm : (f &&& 0x02) != 0 <;> simp [hm]
  · simp only [hs, ix 4 (by omega), ix 5 (by omega), ix 6 (by omega), ix 7 (by omega),
      Go.ret_bind, MessageHeader.decoded]
    generalize data.vis.getD 0 0 = f
    by_cases hm : (f &&& 0x02) != 0 <;> simp [hm]

set_option maxRecDepth 100000 in
theorem byte_flags_decode : ∀ b < 256,
    ((b >>> 5) &&& 7 = b / 32) ∧ (((b &&& 4) != 0) = decide (b / 4 % 2 = 1)) ∧
    (((b &&& 2) != 0) = decide (b / 2 % 2 = 1)) ∧ (((b &&& 1) != 0) = decide (b % 2 = 1)) := by
  decide

theorem flagsByte_eq (h : MessageHeader) :
    h.flagsByte = (h.Version % 8) * 32 + (if h.FollowOn then 4 else 0)
      + (if h.MessagePriority then 2 else 0) + (if h.SEIDPresent then 1 else 0) := by
  have hv : (h.Version <<< 5) % 256 = (h.Version % 8) * 32 := by
    rw [Nat.shiftLeft_eq]; omega
  simp only [MessageHeader.flagsByte, hv]
  have e4 := or_eq_add_of_low ((h.Version % 8) * 32) 4 3 (by omega) (by omega)
  have e2a := or_eq_add_of_low ((h.Version % 8) * 32) 2 2 (by omega) (by omega)
  have e2b := or_eq_add_of_low ((h.Version % 8) * 32 + 4) 2 2 (by omega) (by omega)
  have e1a := or_eq_add_of_low ((h.Version % 8) * 32) 1 1 (by omega) (by omega)
  have e1b := or_eq_add_of_low ((h.Version % 8) * 32 + 4) 1 1 (by omega) (by omega)
  have e1c := or_eq_add_of_low ((h.Version % 8) * 32 + 2) 1 1 (by omega) (by omega)
  have e1d := or_eq_add_of_low ((h.Version % 8) * 32 + 4 + 2) 1 1 (by omega) (by omega)
  cases h.FollowOn <;> cases h.MessagePriority <;> cases h.SEIDPresent <;>
    simp [e4, e2a, e2b, e1a, e1b, e1c, e1d]

/-! ## Header: encode, decode -/

theorem MessageHeader.header_marshal_eq (h : MessageHeader) :
    h.Marshal = (if h.SEIDPresent then
      [h.flagsByte, h.MessageType, (h.MessageLength >>> 8) % 256, h.MessageLength % 256,
       (h.SEID >>> 56) % 256, (h.SEID >>> 48) % 256, (h.SEID >>> 40) % 256,
       (h.SEID >>> 32) % 256, (h.SEID >>> 24) % 256, (h.SEID >>> 16) % 256,
       (h.SEID >>> 8) % 256, h.SEID % 256,
       (h.SequenceNumber >>> 16) % 256, (h.SequenceNumber >>> 8) % 256,
       h.SequenceNumber % 256, h.priorityByte]
    else
      [h.flagsByte, h.MessageType, (h.MessageLength >>> 8) % 256, h.MessageLength % 256,
       (h.SequenceNumber >>> 16) % 256, (h.SequenceNumber >>> 8) % 256,
       h.SequenceNumber % 256, h.priorityByte], none) := by
  cases hs : h.SEIDPresent <;> simp [MessageHeader.Marshal, hs, putUint16, putUint64, seqBytes]

theorem MessageHeader.header_marshal_length (h : MessageHeader) : h.Marshal.1.length = h.Len := by
  rw [MessageHeader.header_marshal_eq]
  cases hs : h.SEIDPresent <;> simp [MessageHeader.Len, hs]

theorem flagsByte_lt (h : MessageHeader) : h.flagsByte < 256 := by
  rw [flagsByte_eq]
  cases h.FollowOn <;> cases h.MessagePriority <;> cases h.SEIDPresent <;> simp <;> omega

theorem flagsByte_decode (h : MessageHeader) (hv : h.Version < 8) :
    (h.flagsByte >>> 5) &&& 7 = h.Version ∧ ((h.flagsByte &&& 4) != 0) = h.FollowOn ∧
    ((h.flagsByte &&& 2) != 0) = h.MessagePriority ∧
    ((h.flagsByte &&& 1) != 0) = h.SEIDPresent := by
  have hfl := flagsByte_eq h
  obtain ⟨d1, d2, d3, d4⟩ := byte_flags_decode h.flagsByte (flagsByte_lt h)
  rw [d1, d2, d3, d4, hfl]
  cases h.FollowOn <;> cases h.MessagePriority <;> cases h.SEIDPresent <;> simp <;> omega

theorem MessageHeader.header_unmarshal_marshal_append (h0 h : MessageHeader) (rest sp : List Nat)
    (hv : h.Version < 8) (hseq : h.SequenceNumber < 2 ^ 24) (hp : h.Priority < 16)
    (hw : h.WellTyped) :
    MessageHeader.Unmarshal h0 ⟨h.Marshal.1 ++ rest, sp⟩ = .ret (h.carriedOver h0, none) := by
  obtain ⟨_, hmt, hml, hseid, _, _⟩ := hw
  obtain ⟨f1, f2, f3, f4⟩ := flagsByte_decode h hv
  have hlen := MessageHeader.header_marshal_length h
  have r16 := uint16_roundtrip h.MessageLength hml
  have r64 := uint64_roundtrip h.SEID hseid
  have r24 := uint24_roundtrip h.SequenceNumber hseq
  have rp := priority_roundtrip h.Priority hp
  have e0 : (h.Marshal.1 ++ rest).getD 0 0 = h.flagsByte := by
    rw [MessageHeader.header_marshal_eq]; cases h.SEIDPresent <;> simp
  have hmod : h.flagsByte % 2 = if h.SEIDPresent then 1 else 0 := by
    rw [flagsByte_eq]
    cases h.FollowOn <;> cases h.MessagePriority <;> cases h.SEIDPresent <;> simp <;> omega
  rw [MessageHeader.unmarshal_ok]
  · congr 2
    rw [MessageHeader.header_marshal_eq]
    cases hs : h.SEIDPresent <;> cases hm : h.MessagePriority <;> rw [hs] at f4 hmod <;>
      rw [hm] at f3 <;>
      simp [MessageHeader.decoded, MessageHeader.carriedOver, hs, hm, f1, f2, f3, f4, r16, r24,
        r64, MessageHeader.priorityByte, rp, hmod]
  · simp only [Slice.len, List.length_append, hlen, MessageHeader.Len]; split <;> omega
  · intro hS
    simp only [e0, f4] at hS
    simp only [Slice.len, List.length_append, hlen, MessageHeader.Len, hS, if_true]
    omega

theorem MessageHeader.unmarshal_seid_short (h0 : MessageHeader) (data : Slice)
    (h : 8 ≤ data.len) (hS : (data.vis.getD 0 0 &&& 0x01) != 0) (h16 : data.len < 16) :
    ∃ h, MessageHeader.Unmarshal h0 data
      = .ret (h, some (.headerWithSEIDTooShort data.len)) := by
  simp only [Slice.len] at h h16
  have ix (i : Nat) (hi : i < data.vis.length) := Slice.index_of_lt data i hi
  have g16 := getUint16_slice data 2 (by omega)
  simp only [MessageHeader.Unmarshal, Slice.len, if_neg (show ¬ data.vis.length < 8 by omega),
    ix 0 (by omega), ix 1 (by omega), Go.ret_bind, g16, hS, if_true, if_pos h16,
    Go.pure_eq_ret]
  exact ⟨_, rfl⟩

theorem window_eq (l : List Nat) (lo n : Nat) (h : lo + n ≤ l.length) :
    (l.drop lo).take n = (List.range n).map (fun i => l.getD (lo + i) 0) := by
  apply List.ext_getElem
  · simp [List.length_take, List.length_drop]; omega
  · intro i h1 h2
    simp only [List.length_map, List.length_range] at h2
    simp [List.getElem_take, List.getElem_drop, List.getD_eq_getElem?_getD,
      List.getElem?_eq_getElem (show lo + i < l.length by omega)]

theorem beValue_window2 (l : List Nat) (lo : Nat) (h : lo + 2 ≤ l.length) :
    beValue ((l.drop lo).take 2) = l.getD lo 0 * 256 + l.getD (lo + 1) 0 := by
  rw [window_eq l lo 2 h]
  simp [beValue, List.range, List.range.loop]

theorem beValue_window3 (l : List Nat) (lo : Nat) (h : lo + 3 ≤ l.length) :
    beValue ((l.drop lo).take 3)
      = l.getD lo 0 * 65536 + l.getD (lo + 1) 0 * 256 + l.getD (lo + 2) 0 := by
  rw [window_eq l lo 3 h]
  simp [beValue, List.range, List.range.loop]
  ring

theorem beValue_window8 (l : List Nat) (lo : Nat) (h : lo + 8 ≤ l.length) :
    beValue ((l.drop lo).take 8)
      = l.getD (lo + 7) 0 + l.getD (lo + 6) 0 * 2 ^ 8 + l.getD (lo + 5) 0 * 2 ^ 16
        + l.getD (lo + 4) 0 * 2 ^ 24 + l.getD (lo + 3) 0 * 2 ^ 32 + l.getD (lo + 2) 0 * 2 ^ 40
        + l.getD (lo + 1) 0 * 2 ^ 48 + l.getD lo 0 * 2 ^ 56 := by
  rw [window_eq l lo 8 h]
  simp [beValue, List.range, List.range.loop]
  ring

theorem getD_lt_of_isBytes (l : List Nat) (hb : isBytes l) (i : Nat) : l.getD i 0 < 256 := by
  rw [List.getD_eq_getElem?_getD]
  cases hi : l[i]? with
  | none => simp
  | some b => exact hb b (List.getElem?_mem hi)

theorem MessageHeader.decoded_fields (h0 : MessageHeader) (b : Nat → Nat)
    (hb : ∀ i, b i < 256) :
    (MessageHeader.decoded h0 b).Version = b 0 / 32 ∧
    (MessageHeader.decoded h0 b).FollowOn = decide (b 0 / 4 % 2 = 1) ∧
    (MessageHeader.decoded h0 b).MessagePriority = decide (b 0 / 2 % 2 = 1) ∧
    (MessageHeader.decoded h0 b).SEIDPresent = decide (b 0 % 2 = 1) ∧
    (MessageHeader.decoded h0 b).MessageType = b 1 ∧
    (MessageHeader.decoded h0 b).MessageLength = b 2 * 256 + b 3 ∧
    ((MessageHeader.decoded h0 b).SEIDPresent = true →
      (MessageHeader.decoded h0 b).SEID = b 11 + b 10 * 2 ^ 8 + b 9 * 2 ^ 16 + b 8 * 2 ^ 24
        + b 7 * 2 ^ 32 + b 6 * 2 ^ 40 + b 5 * 2 ^ 48 + b 4 * 2 ^ 56 ∧
      (MessageHeader.decoded h0 b).SequenceNumber = b 12 * 65536 + b 13 * 256 + b 14) ∧
    ((MessageHeader.decoded h0 b).SEIDPresent = false →
      (MessageHeader.decoded h0 b).SequenceNumber = b 4 * 65536 + b 5 * 256 + b 6) := by
  obtain ⟨d1, d2, d3, d4⟩ := byte_flags_decode (b 0) (hb 0)
  have e16 := uint16_of_bytes (b 2) (b 3) (hb 3)
  have e64 := uint64_of_bytes (b 4) (b 5) (b 6) (b 7) (b 8) (b 9) (b 10) (b 11)
    (hb 5) (hb 6) (hb 7) (hb 8) (hb 9) (hb 10) (hb 11)
  have e24a := uint24_of_bytes (b 12) (b 13) (b 14) (hb 13) (hb 14)
  have e24b := uint24_of_bytes (b 4) (b 5) (b 6) (hb 5) (hb 6)
  unfold MessageHeader.decoded
  by_cases hs : b 0 % 2 = 1
  · have hs2 : ((b 0 &&& 1) != 0) = true := by rw [d4]; simpa using hs
    simp only [hs2, if_true, d1, d2, d3, e16, e64, e24a]
    simp [hs]; omega
  · have hs2 : ((b 0 &&& 1) != 0) = false := by rw [d4]; simpa using hs
    simp only [hs2, d1, d2, d3, e16, e24b]
    simp [hs]; omega

/-! ## Information elements: encode, decode -/

theorem IE.ie_marshal_eq (ie : IE) :
    ie.Marshal = ([(ie.Type_ >>> 8) % 256, ie.Type_ % 256,
        ((ie.marshalLength % 65536) >>> 8) % 256, (ie.marshalLength % 65536) % 256]
        ++ ((if ie.Type_ ≥ 32768 then [(ie.EnterpriseID >>> 8) % 256, ie.EnterpriseID % 256]
            else []) ++ ie.Value), none) := by
  by_cases ht : ie.Type_ ≥ 32768 <;> simp [IE.Marshal, ht, putUint16]

theorem IE.ie_marshal_length (ie : IE) : ie.Marshal.1.length = 4 + ie.marshalLength := by
  rw [IE.ie_marshal_eq]
  by_cases ht : ie.Type_ ≥ 32768 <;> simp [IE.marshalLength, ht] <;> omega

theorem take_drop_window (pre v rest : List Nat) (n m : Nat) (hn : n = pre.length)
    (hm : m = pre.length + v.length) : ((pre ++ (v ++ rest)).take m).drop n = v := by
  subst hn hm
  rw [← List.append_assoc, ← List.length_append, List.take_left, List.drop_left]

theorem IE.ie_unmarshal_marshal_append (ie0 ie : IE) (rest sp : List Nat)
    (ht : ie.Type_ < 65536) (he : ie.EnterpriseID < 65536)
    (hfit : ie.marshalLength ≤ 65531) :
    IE.Unmarshal ie0 ⟨ie.Marshal.1 ++ rest, sp⟩
      = .ret ({ ie with EnterpriseID :=
                  if ie.Type_ ≥ 32768 then ie.EnterpriseID else ie0.EnterpriseID },
              4 + ie.marshalLength, none) := by
  have hlen := IE.ie_marshal_length ie
  have rT := uint16_roundtrip ie.Type_ ht
  have rE := uint16_roundtrip ie.EnterpriseID he
  have rL := uint16_roundtrip ie.marshalLength (by omega)
  have hmod : ie.marshalLength % 65536 = ie.marshalLength := Nat.mod_eq_of_lt (by omega)
  set data : Slice := ⟨ie.Marshal.1 ++ rest, sp⟩ with hdata
  have hdl : data.vis.length = 4 + ie.marshalLength + rest.length := by
    simp [hdata, hlen]
  have gT := getUint16_slice data 0 (by omega)
  have gL := getUint16_slice data 2 (by omega)
  have vT : data.vis.getD (0 + 1) 0 ||| (data.vis.getD 0 0 <<< 8) = ie.Type_ := by
    simp [hdata, IE.ie_marshal_eq, rT]
  have vL : data.vis.getD (2 + 1) 0 ||| (data.vis.getD 2 0 <<< 8) = ie.marshalLength := by
    simp [hdata, IE.ie_marshal_eq, hmod, rL]
  rw [vT] at gT
  rw [vL] at gL
  simp only [IE.Unmarshal, Slice.len, hdl, if_neg (show ¬ 4 + ie.marshalLength + rest.length < 4 by omega),
    gT, gL, Go.ret_bind, if_neg (show ¬ 4 + ie.marshalLength + rest.length < 4 + ie.marshalLength by omega)]
  by_cases hent : ie.Type_ ≥ 32768
  · have hml : ie.marshalLength = ie.Value.length + 2 := by simp [IE.marshalLength, hent]
    have gE := getUint16_slice data 4 (by omega)
    have vE : data.vis.getD (4 + 1) 0 ||| (data.vis.getD 4 0 <<< 8) = ie.EnterpriseID := by
      simp [hdata, IE.ie_marshal_eq, hent, rE]
    rw [vE] at gE
    have hhi : ((6 + ie.marshalLength) % 65536 + 65536 - 2) % 65536 = 4 + ie.marshalLength := by
      omega
    have hsl := Slice.slice_of_le data 6 (4 + ie.marshalLength) (by omega) (by omega)
    have hv : (data.vis.take (4 + ie.marshalLength)).drop 6 = ie.Value := by
      have hd : data.vis = [(ie.Type_ >>> 8) % 256, ie.Type_ % 256,
          ((ie.marshalLength % 65536) >>> 8) % 256, (ie.marshalLength % 65536) % 256,
          (ie.EnterpriseID >>> 8) % 256, ie.EnterpriseID % 256] ++ (ie.Value ++ rest) := by
        simp [hdata, IE.ie_marshal_eq, hent]
      rw [hd]
      exact take_drop_window _ _ _ _ _ rfl (by simp; omega)
    simp only [hent, decide_True, if_true, if_neg (show ¬ ie.marshalLength < 2 by omega), gE,
      Go.ret_bind, hhi, hsl, goCopy, hv, Go.pure_eq_ret]
    have h1 : ie.marshalLength - 2 = ie.Value.length := by omega
    simp [h1]
  · have hml : ie.marshalLength = ie.Value.length := by simp [IE.marshalLength, hent]
    have hhi : (4 + ie.marshalLength) % 65536 = 4 + ie.marshalLength := by omega
    have hsl := Slice.slice_of_le data 4 (4 + ie.marshalLength) (by omega) (by omega)
    have hv : (data.vis.take (4 + ie.marshalLength)).drop 4 = ie.Value := by
      have hd : data.vis = [(ie.Type_ >>> 8) % 256, ie.Type_ % 256,
          ((ie.marshalLength % 65536) >>> 8) % 256, (ie.marshalLength % 65536) % 256]
          ++ (ie.Value ++ rest) := by
        simp [hdata, IE.ie_marshal_eq, hent]
      rw [hd]
      exact take_drop_window _ _ _ _ _ rfl (by simp; omega)
    simp only [hent, decide_False, if_false, Go.ret_bind, hhi, hsl, goCopy, hv, Go.pure_eq_ret]
    simp [hml]

/-! ## Messages: encode, decode -/

theorem Message.marshalIEs_eq (ies : List IE) (acc : List Nat) :
    Message.marshalIEs ies acc = (acc ++ iePayload ies, none) := by
  induction ies generalizing acc with
  | nil => simp [Message.marshalIEs, iePayload]
  | cons ie rest ih =>
    rw [Message.marshalIEs, IE.ie_marshal_eq]
    simp only [ih, iePayload, IE.ie_marshal_eq, List.append_assoc]

theorem Message.message_marshal_eq (m : Message) :
    m.Marshal =
      ({ m with Header := { m.Header with MessageLength := (iePayload m.IEs).length % 65536 } },
       ({ m.Header with MessageLength := (iePayload m.IEs).length % 65536 }).Marshal.1
         ++ iePayload m.IEs, none) := by
  simp only [Message.Marshal, Message.marshalIEs_eq, MessageHeader.header_marshal_eq, List.nil_append]

theorem iePayload_length_ge (ies : List IE) : 4 * ies.length ≤ (iePayload ies).length := by
  induction ies with
  | nil => simp [iePayload]
  | cons ie rest ih =>
    simp only [iePayload, List.length_append, List.length_cons, IE.ie_marshal_length]
    omega

theorem iePayload_marshalLength_le (ies : List IE) (ie : IE) (h : ie ∈ ies) :
    4 + ie.marshalLength ≤ (iePayload ies).length := by
  induction ies with
  | nil => cases h
  | cons a rest ih =>
    simp only [iePayload, List.length_append, IE.ie_marshal_length]
    rcases List.mem_cons.mp h with rfl | h'
    · omega
    · have := ih h'; omega

theorem Message.unmarshalLoop_payload (todo : List IE) :
    ∀ (pre sp : List Nat) (acc : List IE) (fuel : Nat), todo.length ≤ fuel →
      (∀ ie ∈ todo, ie.Type_ < 65536 ∧ ie.EnterpriseID < 65536 ∧ ie.marshalLength ≤ 65531) →
      Message.unmarshalLoop ⟨pre ++ iePayload todo, sp⟩ fuel pre.length acc
        = .ret (acc ++ todo.map IE.carriedOver, none) := by
  induction todo with
  | nil =>
    intro pre sp acc fuel _ _
    cases fuel <;> simp [Message.unmarshalLoop, iePayload, Slice.len]
  | cons ie rest ih =>
    intro pre sp acc fuel hf hw
    obtain ⟨f, rfl⟩ : ∃ f, fuel = f + 1 := ⟨fuel - 1, by simp at hf; omega⟩
    obtain ⟨h1, h2, h3⟩ := hw ie (List.mem_cons_self _ _)
    have hlt : pre.length < (pre ++ iePayload (ie :: rest)).length := by
      simp only [iePayload, List.length_append, IE.ie_marshal_length]; omega
    have hsl : Slice.sliceFrom ⟨pre ++ iePayload (ie :: rest), sp⟩ pre.length
        = .ret ⟨ie.Marshal.1 ++ iePayload rest, sp⟩ := by
      rw [Slice.sliceFrom, Slice.slice_of_le _ _ _ (by simp [Slice.len]) (by simp [Slice.len])]
      simp only [Slice.len, List.take_length, List.drop_left, List.drop_length, List.nil_append,
        iePayload]
    have hu := IE.ie_unmarshal_marshal_append {} ie (iePayload rest) sp h1 h2 h3
    have hrec := ih (pre ++ ie.Marshal.1) sp (acc ++ [ie.carriedOver]) f
      (by simp at hf; omega) (fun x hx => hw x (List.mem_cons_of_mem _ hx))
    simp only [List.length_append, IE.ie_marshal_length, List.append_assoc] at hrec
    rw [Message.unmarshalLoop]
    simp only [Slice.len, hlt, if_true, hsl, Go.ret_bind, hu]
    simp only [iePayload] at hrec ⊢
    have hc : ({ ie with EnterpriseID :=
        if ie.Type_ ≥ 32768 then ie.EnterpriseID else ({} : IE).EnterpriseID } : IE)
        = ie.carriedOver := rfl
    rw [hc]
    simp only [hrec, List.map_cons, List.append_assoc, List.singleton_append]

theorem Message.unmarshal_marshal (m : Message) (sp : List Nat)
    (hv : m.Header.Version < 8) (hseq : m.Header.SequenceNumber < 2 ^ 24)
    (hp : m.Header.Priority < 16) (hw : m.Header.WellTyped)
    (hies : ∀ ie ∈ m.IEs, ie.Type_ < 65536 ∧ ie.EnterpriseID < 65536)
    (hP : (iePayload m.IEs).length < 65536) :
    Message.Unmarshal {} ⟨m.Marshal.2.1, sp⟩
      = .ret ({ Header := MessageHeader.carriedOver
                  { m.Header with MessageLength := (iePayload m.IEs).length } {},
                IEs := m.IEs.map IE.carriedOver }, none) := by
  have hmod : (iePayload m.IEs).length % 65536 = (iePayload m.IEs).length :=
    Nat.mod_eq_of_lt hP
  rw [Message.message_marshal_eq, hmod]
  set h' : MessageHeader := { m.Header with MessageLength := (iePayload m.IEs).length } with hh'
  have hw' : h'.WellTyped := by
    obtain ⟨a, b, c, d, e, f⟩ := hw
    exact ⟨a, b, hP, d, e, f⟩
  have hu := MessageHeader.header_unmarshal_marshal_append {} h' (iePayload m.IEs) sp hv hseq hp hw'
  have hlen := MessageHeader.header_marshal_length h'
  have hL : (h'.carriedOver {}).Len = h'.Len := rfl
  have hML : (h'.carriedOver {}).MessageLength = (iePayload m.IEs).length := rfl
  have hsl : Slice.slice ⟨h'.Marshal.1 ++ iePayload m.IEs, sp⟩ h'.Len
      (h'.Len + (iePayload m.IEs).length) = .ret ⟨iePayload m.IEs, sp⟩ := by
    rw [Slice.slice_of_le _ _ _ (by omega) (by simp [hlen])]
    rw [← hlen, ← List.length_append]
    simp only [List.take_length, List.drop_left, List.drop_length, List.nil_append]
  have hloop := Message.unmarshalLoop_payload m.IEs [] sp [] (iePayload m.IEs).length
    (by have := iePayload_length_ge m.IEs; omega)
    (fun ie hie => ⟨(hies ie hie).1, (hies ie hie).2, by
      have := iePayload_marshalLength_le m.IEs ie hie; omega⟩)
  simp only [List.nil_append, List.length_nil] at hloop
  simp only [Message.Unmarshal, hu, Go.ret_bind, hL, hML, hsl, Slice.len, hloop, Go.pure_eq_ret]

theorem Slice.slice_of_gt (s : Slice) (lo hi : Nat) (h : hi < lo) : s.slice lo hi = .panic := by
  simp [Slice.slice]; omega

theorem IE.unmarshal_marshal_overflow (ie0 ie : IE) (sp : List Nat)
    (ht : ie.Type_ < 32768) (h1 : 65532 ≤ ie.Value.length) (h2 : ie.Value.length ≤ 65535) :
    IE.Unmarshal ie0 ⟨ie.Marshal.1, sp⟩ = .panic := by
  have hent : ¬ ie.Type_ ≥ 32768 := by omega
  have hml : ie.marshalLength = ie.Value.length := by simp [IE.marshalLength, hent]
  have hlen := IE.ie_marshal_length ie
  have rT := uint16_roundtrip ie.Type_ (by omega)
  have rL := uint16_roundtrip ie.marshalLength (by omega)
  have hmod : ie.marshalLength % 65536 = ie.marshalLength := Nat.mod_eq_of_lt (by omega)
  set data : Slice := ⟨ie.Marshal.1, sp⟩ with hdata
  have hdl : data.vis.length = 4 + ie.marshalLength := by simp [hdata, hlen]
  have gT := getUint16_slice data 0 (by omega)
  have gL := getUint16_slice data 2 (by omega)
  have vT : data.vis.getD (0 + 1) 0 ||| (data.vis.getD 0 0 <<< 8) = ie.Type_ := by
    simp [hdata, IE.ie_marshal_eq, rT]
  have vL : data.vis.getD (2 + 1) 0 ||| (data.vis.getD 2 0 <<< 8) = ie.marshalLength := by
    simp [hdata, IE.ie_marshal_eq, hmod, rL]
  rw [vT] at gT
  rw [vL] at gL
  have hsl := Slice.slice_of_gt data 4 ((4 + ie.marshalLength) % 65536) (by omega)
  simp only [IE.Unmarshal, Slice.len, hdl, if_neg (show ¬ 4 + ie.marshalLength < 4 by omega),
    gT, gL, Go.ret_bind, if_neg (show ¬ 4 + ie.marshalLength < 4 + ie.marshalLength by omega),
    hent, decide_False, hsl, Go.panic_bind]
  rfl

/-! ## The claims -/

/-- C1, counterexample: a valid header (version 1, 24-bit sequence number,
priority 5 below 16) with `MessagePriority = false` does not come back equal:
the priority is not encoded, and a fresh header decodes it as 0. -/
theorem C1_counterexample :
    hdrPriorityNoMP.Valid ∧
    MessageHeader.Unmarshal {} (Slice.ofBytes hdrPriorityNoMP.Marshal.1)
      = .ret ({ hdrPriorityNoMP with Priority := 0 }, none) ∧
    MessageHeader.Unmarshal {} (Slice.ofBytes hdrPriorityNoMP.Marshal.1)
      ≠ .ret (hdrPriorityNoMP, none) := by
  decide

/-- C1 (amended): for every valid header `h`, `MessageHeader.Marshal`
succeeds and `MessageHeader.Unmarshal` on a fresh header applied to the bytes
succeeds and yields `h` in every field, except that `SEID` is `h.SEID` only
when `SEIDPresent` (else 0) and `Priority` is `h.Priority` only when
`MessagePriority` (else 0). -/
theorem C1_header_roundtrip (h : MessageHeader) (hv : h.Valid) :
    h.Marshal.2 = none ∧
    MessageHeader.Unmarshal {} (Slice.ofBytes h.Marshal.1)
      = .ret ({ h with
                SEID := if h.SEIDPresent then h.SEID else 0
                Priority := if h.MessagePriority then h.Priority else 0 }, none) := by
  obtain ⟨h1, h2, h3, h4⟩ := hv
  refine ⟨by rw [MessageHeader.header_marshal_eq], ?_⟩
  have := MessageHeader.header_unmarshal_marshal_append {} h [] [] (by omega) h2 h3 h4
  simpa [Slice.ofBytes, MessageHeader.carriedOver] using this

/-- C1 (amended), instance: the session header `hdrSession`. -/
theorem C1_header_roundtrip_witness :
    hdrSession.Valid ∧ hdrSession.Marshal.2 = none ∧
    MessageHeader.Unmarshal {} (Slice.ofBytes hdrSession.Marshal.1)
      = .ret ({ hdrSession with
                SEID := if hdrSession.SEIDPresent then hdrSession.SEID else 0
                Priority := if hdrSession.MessagePriority then hdrSession.Priority else 0 },
              none) :=
  ⟨by decide, C1_header_roundtrip hdrSession (by decide)⟩

/-- C7, counterexample: with `SEIDPresent = false`, `MessagePriority = true`
and priority 5, byte 7 of the encoding is `0x50`: it carries the priority in
its upper nibble and is not a spare (zero) byte. -/
theorem C7_counterexample :
    hdrPriorityNoSEID.SEIDPresent = false ∧
    hdrPriorityNoSEID.Marshal.1 = [0x22, 1, 0, 0, 0, 0, 7, 0x50] ∧
    hdrPriorityNoSEID.Marshal.1.getD 7 0 ≠ 0 := by
  decide

/-- C7 (amended): `MessageHeader.Marshal` returns no error and exactly
`Len()` bytes (16 when `SEIDPresent`, else 8): byte 0 is the low three bits of
the version in the top three bits, two zero bits, FO = 4, MP = 2, S = 1;
byte 1 the message type; bytes 2-3 the message length, big endian; with S = 1
bytes 4-11 the SEID, bytes 12-14 the low 24 bits of the sequence number and
byte 15 the priority nibble; with S = 0 bytes 4-6 the sequence number and
byte 7 the priority nibble.  The priority nibble is the low four bits of
`Priority` in the upper nibble when `MessagePriority`, and zero otherwise, in
both layouts. -/
theorem C7_header_marshal_layout (h : MessageHeader) :
    h.Marshal.2 = none ∧ h.Marshal.1.length = h.Len ∧
    h.Marshal.1 =
      (if h.SEIDPresent then
        [(h.Version % 8) * 32 + (if h.FollowOn then 4 else 0)
            + (if h.MessagePriority then 2 else 0) + 1,
          h.MessageType, h.MessageLength / 256 % 256, h.MessageLength % 256,
          h.SEID / 2 ^ 56 % 256, h.SEID / 2 ^ 48 % 256, h.SEID / 2 ^ 40 % 256,
          h.SEID / 2 ^ 32 % 256, h.SEID / 2 ^ 24 % 256, h.SEID / 2 ^ 16 % 256,
          h.SEID / 2 ^ 8 % 256, h.SEID % 256,
          h.SequenceNumber / 65536 % 256, h.SequenceNumber / 256 % 256,
          h.SequenceNumber % 256,
          if h.MessagePriority then (h.Priority % 16) * 16 else 0]
      else
        [(h.Version % 8) * 32 + (if h.FollowOn then 4 else 0)
            + (if h.MessagePriority then 2 else 0),
          h.MessageType, h.MessageLength / 256 % 256, h.MessageLength % 256,
          h.SequenceNumber / 65536 % 256, h.SequenceNumber / 256 % 256,
          h.SequenceNumber % 256,
          if h.MessagePriority then (h.Priority % 16) * 16 else 0]) := by
  have hp : h.priorityByte = if h.MessagePriority then (h.Priority % 16) * 16 else 0 := by
    unfold MessageHeader.priorityByte
    split
    · rw [Nat.shiftLeft_eq]; omega
    · rfl
  refine ⟨by rw [MessageHeader.header_marshal_eq], MessageHeader.header_marshal_length h, ?_⟩
  rw [MessageHeader.header_marshal_eq, flagsByte_eq, hp]
  simp only [Nat.shiftRight_eq_div_pow]
  cases h.SEIDPresent <;> simp

/-- C8, counterexample: a header whose `Version` is 2 is not rejected;
`MessageHeader.Marshal` returns its eight bytes and a nil error. -/
theorem C8_counterexample :
    hdrVersion2.Version ≠ 1 ∧
    hdrVersion2.Marshal = ([0x40, 1, 0, 0, 0, 0, 1, 0], none) := by
  decide

/-- C8 (amended): `MessageHeader.Marshal` checks no version and never
returns an error: for every header it returns `Len()` bytes, and the top
three bits of byte 0 hold `Version` modulo 8. -/
theorem C8_header_marshal_never_rejects (h : MessageHeader) :
    h.Marshal.2 = none ∧ h.Marshal.1.length = h.Len ∧
    h.Marshal.1.getD 0 0 / 32 = h.Version % 8 := by
  refine ⟨by rw [MessageHeader.header_marshal_eq], MessageHeader.header_marshal_length h, ?_⟩
  have e0 : h.Marshal.1.getD 0 0 = h.flagsByte := by
    rw [MessageHeader.header_marshal_eq]; cases h.SEIDPresent <;> simp
  rw [e0, flagsByte_eq]
  cases h.FollowOn <;> cases h.MessagePriority <;> cases h.SEIDPresent <;> simp <;> omega

/-- C9: `MessageHeader.Unmarshal` always returns (it never panics); it
returns an error exactly when the input has fewer than 8 bytes, or the S bit
`0x01` of byte 0 is set and the input has fewer than 16 bytes; otherwise the
receiver holds the version (top three bits of byte 0), FO, MP, S, the message
type (byte 1), the message length (bytes 2-3, big endian), and with S = 1 the
SEID (bytes 4-11) and the sequence number (bytes 12-14), with S = 0 the
sequence number (bytes 4-6). -/
theorem C9_header_unmarshal_error_iff (h0 : MessageHeader) (data : Slice)
    (hb : isBytes data.vis) :
    ∃ h e, MessageHeader.Unmarshal h0 data = .ret (h, e) ∧
      (e ≠ none ↔ (data.len < 8 ∨ ((data.vis.getD 0 0 &&& 0x01) ≠ 0 ∧ data.len < 16))) ∧
      (e = none →
        h.Version = data.vis.getD 0 0 / 32 ∧
        h.FollowOn = decide (data.vis.getD 0 0 / 4 % 2 = 1) ∧
        h.MessagePriority = decide (data.vis.getD 0 0 / 2 % 2 = 1) ∧
        h.SEIDPresent = decide (data.vis.getD 0 0 % 2 = 1) ∧
        h.MessageType = data.vis.getD 1 0 ∧
        h.MessageLength = beValue ((data.vis.drop 2).take 2) ∧
        (h.SEIDPresent = true → h.SEID = beValue ((data.vis.drop 4).take 8) ∧
          h.SequenceNumber = beValue ((data.vis.drop 12).take 3)) ∧
        (h.SEIDPresent = false → h.SequenceNumber = beValue ((data.vis.drop 4).take 3))) := by
  by_cases h8 : data.len < 8
  · exact ⟨_, _, MessageHeader.unmarshal_short h0 data h8, by simp [h8], by simp⟩
  · by_cases hc : (data.vis.getD 0 0 &&& 0x01) ≠ 0 ∧ data.len < 16
    · obtain ⟨h, hh⟩ := MessageHeader.unmarshal_seid_short h0 data (by omega)
        (by simpa using hc.1) hc.2
      exact ⟨_, _, hh, by simp only [ne_eq, reduceCtorEq, not_false_eq_true, true_iff]; exact Or.inr hc, by simp⟩
    · have hok := MessageHeader.unmarshal_ok h0 data (by omega) (fun hS => by
        by_contra h16
        exact hc ⟨by simpa using hS, by omega⟩)
      refine ⟨_, _, hok, by simp only [ne_eq, not_true_eq_false, false_iff]; tauto, ?_⟩
      intro _
      obtain ⟨f1, f2, f3, f4, f5, f6, f7, f8⟩ := MessageHeader.decoded_fields h0
        (fun i => data.vis.getD i 0) (getD_lt_of_isBytes data.vis hb)
      simp only [Slice.len] at h8 hc
      refine ⟨f1, f2, f3, f4, f5, ?_, ?_, ?_⟩
      · rw [f6, beValue_window2 _ _ (by omega)]
      · intro hS
        have hS' := hS
        rw [f4] at hS'
        have h16 : 16 ≤ data.vis.length := by
          by_contra h16
          obtain ⟨_, _, _, d4⟩ := byte_flags_decode _ (getD_lt_of_isBytes data.vis hb 0)
          apply hc
          refine ⟨?_, by omega⟩
          have := d4.trans hS'
          simpa using this
        obtain ⟨g1, g2⟩ := f7 hS
        rw [g1, g2, beValue_window8 _ _ (by omega), beValue_window3 _ _ (by omega)]
        exact ⟨rfl, rfl⟩
      · intro hS
        rw [f8 hS, beValue_window3 _ _ (by omega)]

/-- C9, instance: the sixteen bytes of the session header `hdrSession`. -/
theorem C9_header_unmarshal_error_iff_witness :
    isBytes sliceSession.vis ∧
    ∃ h e, MessageHeader.Unmarshal {} sliceSession = .ret (h, e) ∧
      (e ≠ none ↔ (sliceSession.len < 8 ∨
        ((sliceSession.vis.getD 0 0 &&& 0x01) ≠ 0 ∧ sliceSession.len < 16))) ∧
      (e = none →
        h.Version = sliceSession.vis.getD 0 0 / 32 ∧
        h.FollowOn = decide (sliceSession.vis.getD 0 0 / 4 % 2 = 1) ∧
        h.MessagePriority = decide (sliceSession.vis.getD 0 0 / 2 % 2 = 1) ∧
        h.SEIDPresent = decide (sliceSession.vis.getD 0 0 % 2 = 1) ∧
        h.MessageType = sliceSession.vis.getD 1 0 ∧
        h.MessageLength = beValue ((sliceSession.vis.drop 2).take 2) ∧
        (h.SEIDPresent = true → h.SEID = beValue ((sliceSession.vis.drop 4).take 8) ∧
          h.SequenceNumber = beValue ((sliceSession.vis.drop 12).take 3)) ∧
        (h.SEIDPresent = false →
          h.SequenceNumber = beValue ((sliceSession.vis.drop 4).take 3))) :=
  ⟨by decide, C9_header_unmarshal_error_iff {} sliceSession (by decide)⟩

/-- C3, counterexample: an IE of type 19 (below 32768) with `EnterpriseID = 7`
and a one-byte value decodes with `EnterpriseID = 0`: the enterprise ID is not
encoded for a non-vendor type. -/
theorem C3_counterexample :
    ieCauseWithEnterprise.WellTyped ∧ ieCauseWithEnterprise.Value.length ≤ 65535 ∧
    IE.Unmarshal {} (Slice.ofBytes ieCauseWithEnterprise.Marshal.1)
      = .ret ({ Type_ := 19, EnterpriseID := 0, Value := [1] }, 5, none) ∧
    IE.Unmarshal {} (Slice.ofBytes ieCauseWithEnterprise.Marshal.1)
      ≠ .ret (ieCauseWithEnterprise, 5, none) := by
  decide

/-- C3 (amended): for every IE whose encoded length (`len(Value)`, plus 2
when `Type ≥ 32768`) is at most 65531, `IE.Marshal` succeeds and `IE.Unmarshal`
on a fresh IE applied to the bytes succeeds, consumes all of them, and yields
the same `Type` and `Value`, with `EnterpriseID` equal to that of `ie` when
`Type ≥ 32768` and 0 otherwise. -/
theorem C3_ie_roundtrip (ie : IE) (hw : ie.WellTyped)
    (hfit : ie.Value.length + (if ie.Type_ ≥ 32768 then 2 else 0) ≤ 65531) :
    ie.Marshal.2 = none ∧
    IE.Unmarshal {} (Slice.ofBytes ie.Marshal.1)
      = .ret ({ ie with EnterpriseID := if ie.Type_ ≥ 32768 then ie.EnterpriseID else 0 },
              ie.Marshal.1.length, none) := by
  obtain ⟨h1, h2, _⟩ := hw
  have hml : ie.marshalLength ≤ 65531 := by
    unfold IE.marshalLength; split <;> simp_all
  refine ⟨by rw [IE.ie_marshal_eq], ?_⟩
  have := IE.ie_unmarshal_marshal_append {} ie [] [] h1 h2 hml
  rw [IE.ie_marshal_length]
  simpa [Slice.ofBytes] using this

/-- C3 (amended), instance: the vendor IE `ieVendor`. -/
theorem C3_ie_roundtrip_witness :
    ieVendor.WellTyped ∧
    ieVendor.Value.length + (if ieVendor.Type_ ≥ 32768 then 2 else 0) ≤ 65531 ∧
    ieVendor.Marshal.2 = none ∧
    IE.Unmarshal {} (Slice.ofBytes ieVendor.Marshal.1)
      = .ret ({ ieVendor with
                EnterpriseID := if ieVendor.Type_ ≥ 32768 then ieVendor.EnterpriseID else 0 },
              ieVendor.Marshal.1.length, none) :=
  ⟨by decide, by decide, C3_ie_roundtrip ieVendor (by decide) (by decide)⟩

/-- C10, counterexample: for an IE of type 19 with a 65536-byte value the
length field is `[0, 0]`, that is 0 and not `len(Value)`. -/
theorem C10_counterexample :
    ieOversize.Type_ < 32768 ∧ ieOversize.Value.length = 65536 ∧
    (ieOversize.Marshal.1.drop 2).take 2 = [0, 0] ∧
    beValue ((ieOversize.Marshal.1.drop 2).take 2) ≠ ieOversize.Value.length := by
  have hl : ieOversize.Value.length = 65536 := List.length_replicate _ _
  have ht : ieOversize.Type_ = 19 := rfl
  have hml : ieOversize.marshalLength = 65536 := by
    simp only [IE.marshalLength, ht, hl]; rfl
  have hm : (ieOversize.Marshal.1.drop 2).take 2 = [0, 0] := by
    rw [IE.ie_marshal_eq, hml]; rfl
  refine ⟨by decide, hl, hm, ?_⟩
  rw [hm, hl]
  decide

/-- C10 (amended): for every IE whose length (`len(Value)`, plus 2 when
`Type ≥ 32768`) is below 65536, `IE.Marshal` returns the type (2 bytes, big
endian), the length (2 bytes, big endian), then the value: for `Type < 32768`
the length field is `len(Value)` and the value follows directly; for
`Type ≥ 32768` the big-endian `EnterpriseID` precedes the value and the length
field is `len(Value) + 2`.  The length field is the size of the output minus
the 4 type/length bytes. -/
theorem C10_ie_marshal_layout (ie : IE)
    (hfit : ie.Value.length + (if ie.Type_ ≥ 32768 then 2 else 0) < 65536) :
    ie.Marshal.2 = none ∧
    (ie.Type_ < 32768 →
      ie.Marshal.1 = [ie.Type_ / 256 % 256, ie.Type_ % 256,
          ie.Value.length / 256, ie.Value.length % 256] ++ ie.Value ∧
      beValue ((ie.Marshal.1.drop 2).take 2) = ie.Value.length) ∧
    (ie.Type_ ≥ 32768 →
      ie.Marshal.1 = [ie.Type_ / 256 % 256, ie.Type_ % 256,
          (ie.Value.length + 2) / 256, (ie.Value.length + 2) % 256,
          ie.EnterpriseID / 256 % 256, ie.EnterpriseID % 256] ++ ie.Value ∧
      beValue ((ie.Marshal.1.drop 2).take 2) = ie.Value.length + 2) ∧
    ie.Marshal.1.length = 4 + beValue ((ie.Marshal.1.drop 2).take 2) := by
  have hm := IE.ie_marshal_eq ie
  have hl := IE.ie_marshal_length ie
  by_cases ht : ie.Type_ ≥ 32768
  · have hml : ie.marshalLength = ie.Value.length + 2 := by simp [IE.marshalLength, ht]
    simp only [ht, if_true] at hfit
    rw [hml] at hm hl
    simp only [ht, if_true, Nat.shiftRight_eq_div_pow] at hm
    have hb : beValue ((ie.Marshal.1.drop 2).take 2) = ie.Value.length + 2 := by
      rw [hm]; simp [beValue]; omega
    refine ⟨by rw [hm], fun h => absurd ht (by omega), fun _ => ⟨?_, hb⟩, by rw [hb, hl]⟩
    rw [hm]; simp; omega
  · have hml : ie.marshalLength = ie.Value.length := by simp [IE.marshalLength, ht]
    simp only [ht, if_false, Nat.add_zero] at hfit
    rw [hml] at hm hl
    simp only [ht, if_false, Nat.shiftRight_eq_div_pow] at hm
    have hb : beValue ((ie.Marshal.1.drop 2).take 2) = ie.Value.length := by
      rw [hm]; simp [beValue]; omega
    refine ⟨by rw [hm], fun _ => ⟨?_, hb⟩, fun h => absurd h ht, by rw [hb, hl]⟩
    rw [hm]; simp; omega

/-- C10 (amended), instance: the vendor IE `ieVendor`. -/
theorem C10_ie_marshal_layout_witness :
    ieVendor.Value.length + (if ieVendor.Type_ ≥ 32768 then 2 else 0) < 65536 ∧
    ieVendor.Marshal.2 = none ∧
    (ieVendor.Type_ < 32768 →
      ieVendor.Marshal.1 = [ieVendor.Type_ / 256 % 256, ieVendor.Type_ % 256,
          ieVendor.Value.length / 256, ieVendor.Value.length % 256] ++ ieVendor.Value ∧
      beValue ((ieVendor.Marshal.1.drop 2).take 2) = ieVendor.Value.length) ∧
    (ieVendor.Type_ ≥ 32768 →
      ieVendor.Marshal.1 = [ieVendor.Type_ / 256 % 256, ieVendor.Type_ % 256,
          (ieVendor.Value.length + 2) / 256, (ieVendor.Value.length + 2) % 256,
          ieVendor.EnterpriseID / 256 % 256, ieVendor.EnterpriseID % 256] ++ ieVendor.Value ∧
      beValue ((ieVendor.Marshal.1.drop 2).take 2) = ieVendor.Value.length + 2) ∧
    ieVendor.Marshal.1.length = 4 + beValue ((ieVendor.Marshal.1.drop 2).take 2) :=
  ⟨by decide, C10_ie_marshal_layout ieVendor (by decide)⟩

/-- C2, counterexample: a message with a valid header, its length field
already equal to the 5-byte payload, and one IE of type 19 with
`EnterpriseID = 7` decodes to a message whose IE has `EnterpriseID = 0`. -/
theorem C2_counterexample :
    (iePayload msgCauseWithEnterprise.IEs).length < 65536 ∧
    msgCauseWithEnterprise.Marshal.1 = msgCauseWithEnterprise ∧
    Message.Unmarshal {} (Slice.ofBytes msgCauseWithEnterprise.Marshal.2.1)
      = .ret ({ msgCauseWithEnterprise with IEs := [ieCause] }, none) ∧
    Message.Unmarshal {} (Slice.ofBytes msgCauseWithEnterprise.Marshal.2.1)
      ≠ .ret (msgCauseWithEnterprise, none) := by
  decide

/-- C2 (amended): for every message with a valid header, IEs whose fields
are in the range of their types and an encoded IE payload shorter than 65536
bytes, `Message.Marshal` succeeds and `Message.Unmarshal` into an empty
message succeeds and yields the same IE list in the same order and the same
header, where `MessageLength` is the payload length, `SEID` is kept only when
`SEIDPresent`, `Priority` only when `MessagePriority`, and an IE's
`EnterpriseID` only when its `Type ≥ 32768` (each 0 otherwise). -/
theorem C2_message_roundtrip (m : Message) (hv : m.Header.Valid)
    (hies : ∀ ie ∈ m.IEs, ie.WellTyped) (hP : (iePayload m.IEs).length < 65536) :
    m.Marshal.2.2 = none ∧
    Message.Unmarshal {} (Slice.ofBytes m.Marshal.2.1)
      = .ret ({ Header :=
                  { m.Header with
                    MessageLength := (iePayload m.IEs).length
                    SEID := if m.Header.SEIDPresent then m.Header.SEID else 0
                    Priority := if m.Header.MessagePriority then m.Header.Priority else 0 },
                IEs := m.IEs.map (fun ie =>
                  { ie with EnterpriseID := if ie.Type_ ≥ 32768 then ie.EnterpriseID else 0 }) },
              none) := by
  obtain ⟨h1, h2, h3, h4⟩ := hv
  refine ⟨by rw [Message.message_marshal_eq], ?_⟩
  exact Message.unmarshal_marshal m [] (by omega) h2 h3 h4
    (fun ie hie => ⟨(hies ie hie).1, (hies ie hie).2.1⟩) hP

/-- C2 (amended), instance: the session message `msgSession`. -/
theorem C2_message_roundtrip_witness :
    msgSession.Header.Valid ∧ (∀ ie ∈ msgSession.IEs, ie.WellTyped) ∧
    (iePayload msgSession.IEs).length < 65536 ∧
    msgSession.Marshal.2.2 = none ∧
    Message.Unmarshal {} (Slice.ofBytes msgSession.Marshal.2.1)
      = .ret ({ Header :=
                  { msgSession.Header with
                    MessageLength := (iePayload msgSession.IEs).length
                    SEID := if msgSession.Header.SEIDPresent then msgSession.Header.SEID else 0
                    Priority := if msgSession.Header.MessagePriority
                      then msgSession.Header.Priority else 0 },
                IEs := msgSession.IEs.map (fun ie =>
                  { ie with EnterpriseID := if ie.Type_ ≥ 32768 then ie.EnterpriseID else 0 }) },
              none) :=
  ⟨by decide, by decide, by decide,
    C2_message_roundtrip msgSession (by decide) (by decide) (by decide)⟩

/-- C4, the code at the failing input: the 13-byte encoding of `msgCause` cut
to its first 10 bytes.  When the slice has no spare capacity,
`Message.Unmarshal` panics on `data[8:13]`; when the slice is `b[0:10]` over
the original array it reads past its length and returns the whole message
with a nil error.  In neither case does it return an error. -/
theorem C4_prefix_unmarshal_not_error :
    msgCause.Marshal.2.1 = [32, 2, 0, 5, 0, 0, 7, 0, 0, 19, 0, 1, 1] ∧
    Message.Unmarshal {} ⟨msgCause.Marshal.2.1.take 10, []⟩ = .panic ∧
    Message.Unmarshal {} ⟨msgCause.Marshal.2.1.take 10, msgCause.Marshal.2.1.drop 10⟩
      = .ret (msgCause, none) := by
  decide

/-- C5, counterexample: for `msgCause` (S = 0, payload of 5 bytes) the length
field written is 5, not 5 + 4; for `msgSession` (S = 1, payload of 14 bytes)
it is 14, not 14 + 12. -/
theorem C5_counterexample :
    msgCause.Header.SEIDPresent = false ∧ (iePayload msgCause.IEs).length = 5 ∧
    msgCause.Marshal.1.Header.MessageLength = 5 ∧
    beValue ((msgCause.Marshal.2.1.drop 2).take 2) = 5 ∧
    msgCause.Marshal.1.Header.MessageLength ≠ (iePayload msgCause.IEs).length + 4 ∧
    msgSession.Header.SEIDPresent = true ∧ (iePayload msgSession.IEs).length = 14 ∧
    msgSession.Marshal.1.Header.MessageLength = 14 ∧
    beValue ((msgSession.Marshal.2.1.drop 2).take 2) = 14 ∧
    msgSession.Marshal.1.Header.MessageLength ≠ (iePayload msgSession.IEs).length + 12 := by
  decide

/-- C5 (amended): for every message the length field written into the header
by `Message.Marshal` (the field of the receiver and bytes 2-3 of the output)
is the byte count of the encoded IE payload, modulo 65536, whether S is set or
not: nothing is added for the rest of the header. -/
theorem C5_message_length_is_payload_length (m : Message) :
    m.Marshal.2.2 = none ∧
    m.Marshal.1.Header.MessageLength = (iePayload m.IEs).length % 65536 ∧
    beValue ((m.Marshal.2.1.drop 2).take 2) = (iePayload m.IEs).length % 65536 := by
  rw [Message.message_marshal_eq]
  refine ⟨rfl, rfl, ?_⟩
  simp only [MessageHeader.header_marshal_eq, Nat.shiftRight_eq_div_pow]
  cases m.Header.SEIDPresent <;> simp [beValue] <;> omega

/-- C6: for every message whose encoded IE payload `P` is shorter than 65536
bytes, `Message.Marshal` returns `H ++ P`, where `H` encodes the header with
`MessageLength` set to `len(P)`; the output has `16 + len(P)` bytes when
`SEIDPresent` and `8 + len(P)` otherwise. -/
theorem C6_message_marshal_layout (m : Message) (hP : (iePayload m.IEs).length < 65536) :
    m.Marshal.2.2 = none ∧
    m.Marshal.2.1
      = ({ m.Header with MessageLength := (iePayload m.IEs).length }).Marshal.1
          ++ iePayload m.IEs ∧
    m.Marshal.1.Header.MessageLength = (iePayload m.IEs).length ∧
    m.Marshal.2.1.length
      = (if m.Header.SEIDPresent then 16 else 8) + (iePayload m.IEs).length := by
  rw [Message.message_marshal_eq, Nat.mod_eq_of_lt hP]
  refine ⟨rfl, rfl, rfl, ?_⟩
  simp only [List.length_append, MessageHeader.header_marshal_length, MessageHeader.Len]

/-- C6, instance: the session message `msgSession`. -/
theorem C6_message_marshal_layout_witness :
    (iePayload msgSession.IEs).length < 65536 ∧
    msgSession.Marshal.2.2 = none ∧
    msgSession.Marshal.2.1
      = ({ msgSession.Header with MessageLength := (iePayload msgSession.IEs).length }).Marshal.1
          ++ iePayload msgSession.IEs ∧
    msgSession.Marshal.1.Header.MessageLength = (iePayload msgSession.IEs).length ∧
    msgSession.Marshal.2.1.length
      = (if msgSession.Header.SEIDPresent then 16 else 8) + (iePayload msgSession.IEs).length :=
  ⟨by decide, C6_message_marshal_layout msgSession (by decide)⟩

/-! ## Grouped IEs, lookup, trailing bytes, transport: lemmas -/

theorem Message.findAllIEs_loop_eq (t : Nat) (ies result : List IE) :
    Message.FindAllIEs.loop t ies result = result ++ ies.filter (fun ie => ie.Type_ = t) := by
  induction ies generalizing result with
  | nil => simp [Message.FindAllIEs.loop]
  | cons ie rest ih =>
    by_cases h : ie.Type_ = t <;> simp [Message.FindAllIEs.loop, h, ih]

theorem Message.findIE_loop_eq (t : Nat) (ies : List IE) :
    Message.FindIE.loop t ies = (ies.filter (fun ie => ie.Type_ = t)).head? := by
  induction ies with
  | nil => simp [Message.FindIE.loop]
  | cons ie rest ih =>
    by_cases h : ie.Type_ = t <;> simp [Message.FindIE.loop, h, ih]

theorem NewGroupedIE.appendChildren_eq (children : List IE) (value : List Nat) :
    NewGroupedIE.appendChildren children value = (value ++ iePayload children, none) := by
  induction children generalizing value with
  | nil => simp [NewGroupedIE.appendChildren, iePayload]
  | cons ie rest ih =>
    rw [NewGroupedIE.appendChildren, IE.ie_marshal_eq]
    simp only [ih, iePayload, IE.ie_marshal_eq, List.append_assoc]

theorem NewGroupedIE_eq (t : Nat) (children : List IE) :
    NewGroupedIE t children = (some { Type_ := t, Value := iePayload children }, none) := by
  simp only [NewGroupedIE, NewGroupedIE.appendChildren_eq, List.nil_append]

theorem ParseGroupedIE.loop_payload (todo : List IE) :
    ∀ (pre sp : List Nat) (acc : List IE) (fuel : Nat), todo.length ≤ fuel →
      (∀ ie ∈ todo, ie.Type_ < 65536 ∧ ie.EnterpriseID < 65536 ∧ ie.marshalLength ≤ 65531) →
      ParseGroupedIE.loop ⟨pre ++ iePayload todo, sp⟩ fuel pre.length acc
        = .ret (acc ++ todo.map IE.carriedOver, none) := by
  induction todo with
  | nil =>
    intro pre sp acc fuel _ _
    cases fuel <;> simp [ParseGroupedIE.loop, iePayload, Slice.len]
  | cons ie rest ih =>
    intro pre sp acc fuel hf hw
    obtain ⟨f, rfl⟩ : ∃ f, fuel = f + 1 := ⟨fuel - 1, by simp at hf; omega⟩
    obtain ⟨h1, h2, h3⟩ := hw ie (List.mem_cons_self _ _)
    have hlt : pre.length < (pre ++ iePayload (ie :: rest)).length := by
      simp only [iePayload, List.length_append, IE.ie_marshal_length]; omega
    have hsl : Slice.sliceFrom ⟨pre ++ iePayload (ie :: rest), sp⟩ pre.length
        = .ret ⟨ie.Marshal.1 ++ iePayload rest, sp⟩ := by
      rw [Slice.sliceFrom, Slice.slice_of_le _ _ _ (by simp [Slice.len]) (by simp [Slice.len])]
      simp only [Slice.len, List.take_length, List.drop_left, List.drop_length, List.nil_append,
        iePayload]
    have hu := IE.ie_unmarshal_marshal_append {} ie (iePayload rest) sp h1 h2 h3
    have hrec := ih (pre ++ ie.Marshal.1) sp (acc ++ [ie.carriedOver]) f
      (by simp at hf; omega) (fun x hx => hw x (List.mem_cons_of_mem _ hx))
    simp only [List.length_append, IE.ie_marshal_length, List.append_assoc] at hrec
    rw [ParseGroupedIE.loop]
    simp only [Slice.len, hlt, if_true, hsl, Go.ret_bind, hu]
    simp only [iePayload] at hrec ⊢
    have hc : ({ ie with EnterpriseID :=
        if ie.Type_ ≥ 32768 then ie.EnterpriseID else ({} : IE).EnterpriseID } : IE)
        = ie.carriedOver := rfl
    rw [hc]
    simp only [hrec, List.map_cons, List.append_assoc, List.singleton_append]

theorem ParseGroupedIE_payload (children : List IE) (sp : List Nat)
    (hw : ∀ ie ∈ children, ie.Type_ < 65536 ∧ ie.EnterpriseID < 65536)
    (hP : (iePayload children).length < 65536) :
    ParseGroupedIE ⟨iePayload children, sp⟩ = .ret (children.map IE.carriedOver, none) := by
  have := ParseGroupedIE.loop_payload children [] sp [] (iePayload children).length
    (by have := iePayload_length_ge children; omega)
    (fun ie hie => ⟨(hw ie hie).1, (hw ie hie).2, by
      have := iePayload_marshalLength_le children ie hie; omega⟩)
  simpa [ParseGroupedIE, Slice.len] using this

theorem flagsByte_and_one (h : MessageHeader) :
    ((h.flagsByte &&& 1) != 0) = h.SEIDPresent := by
  obtain ⟨_, _, _, d4⟩ := byte_flags_decode h.flagsByte (flagsByte_lt h)
  rw [d4, flagsByte_eq]
  cases h.FollowOn <;> cases h.MessagePriority <;> cases h.SEIDPresent <;> simp <;> omega

theorem MessageHeader.unmarshal_marshal_any (h0 h : MessageHeader) (rest sp : List Nat)
    (hml : h.MessageLength < 65536) :
    ∃ h', MessageHeader.Unmarshal h0 ⟨h.Marshal.1 ++ rest, sp⟩ = .ret (h', none) ∧
      h' = MessageHeader.decoded h0 (fun i => h.Marshal.1.getD i 0) ∧
      h'.SEIDPresent = h.SEIDPresent ∧ h'.MessageLength = h.MessageLength := by
  have f4 := flagsByte_and_one h
  have hlen := MessageHeader.header_marshal_length h
  have r16 := uint16_roundtrip h.MessageLength hml
  have e0 : (h.Marshal.1 ++ rest).getD 0 0 = h.flagsByte := by
    rw [MessageHeader.header_marshal_eq]; cases h.SEIDPresent <;> simp
  have hmod : h.flagsByte % 2 = if h.SEIDPresent then 1 else 0 := by
    rw [flagsByte_eq]
    cases h.FollowOn <;> cases h.MessagePriority <;> cases h.SEIDPresent <;> simp <;> omega
  have hok := MessageHeader.unmarshal_ok h0 ⟨h.Marshal.1 ++ rest, sp⟩
    (by simp only [Slice.len, List.length_append, hlen, MessageHeader.Len]; split <;> omega)
    (by
      intro hS
      simp only [e0, f4] at hS
      simp only [Slice.len, List.length_append, hlen, MessageHeader.Len, hS, if_true]
      omega)
  have hdec : MessageHeader.decoded h0 (fun i => (h.Marshal.1 ++ rest).getD i 0)
      = MessageHeader.decoded h0 (fun i => h.Marshal.1.getD i 0) := by
    rw [MessageHeader.header_marshal_eq]
    cases hs : h.SEIDPresent <;> rw [hs] at hmod <;>
      simp [MessageHeader.decoded, hmod]
  refine ⟨_, hok, hdec, ?_, ?_⟩
  · rw [hdec, MessageHeader.header_marshal_eq]
    cases hs : h.SEIDPresent <;> rw [hs] at hmod <;> simp [MessageHeader.decoded, hmod]
  · rw [hdec, MessageHeader.header_marshal_eq]
    cases hs : h.SEIDPresent <;> rw [hs] at hmod <;> simp [MessageHeader.decoded, hmod, r16]

theorem Message.unmarshal_marshal_trailing (m : Message) (t sp : List Nat)
    (hies : ∀ ie ∈ m.IEs, ie.Type_ < 65536 ∧ ie.EnterpriseID < 65536)
    (hP : (iePayload m.IEs).length < 65536) :
    Message.Unmarshal {} ⟨m.Marshal.2.1 ++ t, sp⟩
      = .ret ({ Header := MessageHeader.decoded {} (fun i =>
                  ({ m.Header with MessageLength := (iePayload m.IEs).length }
                    : MessageHeader).Marshal.1.getD i 0),
                IEs := m.IEs.map IE.carriedOver }, none) := by
  have hmod : (iePayload m.IEs).length % 65536 = (iePayload m.IEs).length :=
    Nat.mod_eq_of_lt hP
  rw [Message.message_marshal_eq, hmod]
  set h' : MessageHeader := { m.Header with MessageLength := (iePayload m.IEs).length } with hh'
  obtain ⟨hd, hu, hde, hS, hML⟩ :=
    MessageHeader.unmarshal_marshal_any {} h' (iePayload m.IEs ++ t) sp hP
  rw [← hde]
  have hlen := MessageHeader.header_marshal_length h'
  have hL : hd.Len = h'.Len := by simp only [MessageHeader.Len, hS]
  have hML' : hd.MessageLength = (iePayload m.IEs).length := hML
  have hsl : Slice.slice ⟨h'.Marshal.1 ++ (iePayload m.IEs ++ t), sp⟩ h'.Len
      (h'.Len + (iePayload m.IEs).length) = .ret ⟨iePayload m.IEs, t ++ sp⟩ := by
    rw [Slice.slice_of_le _ _ _ (by omega) (by simp [hlen])]
    rw [← hlen]
    congr 2
    · exact take_drop_window _ _ _ _ _ rfl rfl
    · rw [← List.append_assoc, ← List.length_append, List.drop_left, List.append_assoc]
  have hloop := Message.unmarshalLoop_payload m.IEs [] (t ++ sp) [] (iePayload m.IEs).length
    (by have := iePayload_length_ge m.IEs; omega)
    (fun ie hie => ⟨(hies ie hie).1, (hies ie hie).2, by
      have := iePayload_marshalLength_le m.IEs ie hie; omega⟩)
  simp only [List.nil_append, List.length_nil] at hloop
  simp only [List.append_assoc] at hu ⊢
  simp only [Message.Unmarshal, hu, Go.ret_bind, hL, hML', hsl, Slice.len, hloop,
    Go.pure_eq_ret]

theorem IE.ie_unmarshal_short (ie0 : IE) (data : Slice) (h : data.len < 4) :
    IE.Unmarshal ie0 data = .ret (ie0, 0, some (.ieTooShort data.len)) := by
  simp [IE.Unmarshal, h]

theorem Message.unmarshal_marshal_wrapped (hd : MessageHeader) (ie : IE) (t sp : List Nat)
    (hS : hd.SEIDPresent = false) (hl : ie.marshalLength = 65534) :
    ∃ r, Message.Unmarshal {} ⟨(Message.Marshal { Header := hd, IEs := [ie] }).2.1 ++ t, sp⟩
      = .ret (r, some (.ieTooShort 2)) := by
  have hpl : (iePayload [ie]).length = 65538 := by
    simp only [iePayload, List.append_nil, IE.ie_marshal_length, hl]
  rw [Message.message_marshal_eq]
  simp only [hpl]
  set h' : MessageHeader := { hd with MessageLength := 65538 % 65536 } with hh'
  obtain ⟨hdec, hu, -, hS', hML⟩ :=
    MessageHeader.unmarshal_marshal_any {} h' (iePayload [ie] ++ t) sp (by simp [hh'])
  have hlen : h'.Marshal.1.length = 8 := by
    rw [MessageHeader.header_marshal_length]; simp [MessageHeader.Len, hh', hS]
  have hL : hdec.Len = 8 := by
    simp only [MessageHeader.Len, hS']; simp [hh', hS]
  have hML' : hdec.MessageLength = 2 := by rw [hML]
  have hsl := Slice.slice_of_le ⟨h'.Marshal.1 ++ (iePayload [ie] ++ t), sp⟩ 8 (8 + 2)
    (by omega) (by simp only [List.length_append, hlen, hpl]; omega)
  have hvl : (((h'.Marshal.1 ++ (iePayload [ie] ++ t)).take (8 + 2)).drop 8).length = 2 := by
    simp only [List.length_drop, List.length_take, List.length_append, hlen, hpl]; omega
  simp only [List.append_assoc] at hu ⊢
  simp only [Message.Unmarshal, hu, Go.ret_bind, hL, hML', hsl, Slice.len, hvl]
  rw [Message.unmarshalLoop]
  simp only [Slice.len, hvl, show (0 : Nat) < 2 by omega, if_true, Slice.sliceFrom]
  rw [Slice.slice_of_le _ _ _ (by omega) (by simp [hvl])]
  simp only [Go.ret_bind]
  rw [IE.ie_unmarshal_short _ _ (by simp [Slice.len, hvl])]
  simp only [Go.ret_bind, Slice.len, List.length_drop, List.length_take, hvl, Go.pure_eq_ret]
  exact ⟨_, rfl⟩

theorem IE.unmarshal_truncated (ie0 : IE) (data : Slice) (h4 : 4 ≤ data.len)
    (hl : data.len < 4 + u16At data.vis 2) :
    ∃ ie, IE.Unmarshal ie0 data
      = .ret (ie, 0, some (.ieTruncated ((4 + u16At data.vis 2) % 65536) data.len)) := by
  simp only [Slice.len] at h4 hl
  have gT := getUint16_slice data 0 (by omega)
  have gL := getUint16_slice data 2 (by omega)
  simp only [u16At] at hl ⊢
  simp only [IE.Unmarshal, Slice.len, if_neg (show ¬ data.vis.length < 4 by omega), gT, gL,
    Go.ret_bind, if_pos hl, Go.pure_eq_ret]
  exact ⟨_, rfl⟩

theorem IE.unmarshal_plain (ie0 : IE) (data : Slice) (h4 : 4 ≤ data.len)
    (hT : u16At data.vis 0 < 32768) (hL : u16At data.vis 2 ≤ 65531)
    (hl : 4 + u16At data.vis 2 ≤ data.len) :
    IE.Unmarshal ie0 data
      = .ret ({ ie0 with Type_ := u16At data.vis 0,
                         Value := (data.vis.drop 4).take (u16At data.vis 2) },
              4 + u16At data.vis 2, none) := by
  simp only [Slice.len] at h4 hl
  have gT := getUint16_slice data 0 (by omega)
  have gL := getUint16_slice data 2 (by omega)
  simp only [u16At] at hl hT hL ⊢
  simp only [Nat.zero_add] at gT hT ⊢
  have hent : ¬ (data.vis.getD 1 0 ||| data.vis.getD 0 0 <<< 8) ≥ 32768 := by omega
  have hhi : (4 + (data.vis.getD (2 + 1) 0 ||| data.vis.getD 2 0 <<< 8)) % 65536
      = 4 + (data.vis.getD (2 + 1) 0 ||| data.vis.getD 2 0 <<< 8) := by omega
  have hsl := Slice.slice_of_le data 4 (4 + (data.vis.getD (2 + 1) 0 ||| data.vis.getD 2 0 <<< 8))
    (by omega) (by omega)
  simp only [IE.Unmarshal, Slice.len, if_neg (show ¬ data.vis.length < 4 by omega), gT, gL,
    Go.ret_bind, if_neg (show ¬ data.vis.length
      < 4 + (data.vis.getD (2 + 1) 0 ||| data.vis.getD 2 0 <<< 8) by omega),
    hent, decide_False, Bool.false_eq_true, if_false, hhi, hsl, goCopy, Go.pure_eq_ret]
  generalize (data.vis.getD (2 + 1) 0 ||| data.vis.getD 2 0 <<< 8) = L at *
  have e1 : (List.drop 4 (List.take (4 + L) data.vis)).length = L := by
    simp only [List.length_drop, List.length_take]; omega
  have e2 : List.drop 4 (List.take (4 + L) data.vis) = List.take L (List.drop 4 data.vis) := by
    rw [List.take_drop]
  rw [List.take_of_length_le (by omega), e1, Nat.sub_self, List.replicate_zero,
    List.append_nil, e2]

/-- The sequence number space has `0xFFFFFF` values, `1` to `0xFFFFFF`. -/
theorem Transport.nextSeqNum_eq (t : Transport) (h1 : 1 ≤ t.seqNum) (h2 : t.seqNum ≤ 0xFFFFFF) :
    t.nextSeqNum = (t.seqNum, { t with seqNum := t.seqNum % 0xFFFFFF + 1 }) := by
  simp only [Transport.nextSeqNum]
  by_cases h : t.seqNum = 0xFFFFFF
  · simp [h]
  · have e1 : (t.seqNum + 1) % 2 ^ 32 = t.seqNum + 1 := Nat.mod_eq_of_lt (by omega)
    have e2 : t.seqNum % 0xFFFFFF = t.seqNum := Nat.mod_eq_of_lt (by omega)
    simp only [e1, e2]
    rw [if_neg (by show ¬ t.seqNum + 1 > 0xFFFFFF; omega)]

theorem Transport.nextSeqNumTimes_eq (n : Nat) :
    ∀ (t : Transport), 1 ≤ t.seqNum → t.seqNum ≤ 0xFFFFFF →
      Transport.nextSeqNumTimes n t
        = ((List.range n).map (fun i => (t.seqNum - 1 + i) % 0xFFFFFF + 1),
           { t with seqNum := (t.seqNum - 1 + n) % 0xFFFFFF + 1 }) := by
  induction n with
  | zero =>
    intro t h1 h2
    have : (t.seqNum - 1 + 0) % 0xFFFFFF + 1 = t.seqNum := by omega
    simp only [Transport.nextSeqNumTimes, List.range_zero, List.map_nil, this]
  | succ n ih =>
    intro t h1 h2
    rw [Transport.nextSeqNumTimes, Transport.nextSeqNum_eq t h1 h2]
    have hs : ({ t with seqNum := t.seqNum % 0xFFFFFF + 1 } : Transport).seqNum
        = t.seqNum % 0xFFFFFF + 1 := rfl
    have := ih { t with seqNum := t.seqNum % 0xFFFFFF + 1 } (by rw [hs]; omega)
      (by rw [hs]; omega)
    simp only [this, hs]
    have e (i : Nat) : (t.seqNum % 0xFFFFFF + 1 - 1 + i) % 0xFFFFFF
        = (t.seqNum - 1 + (i + 1)) % 0xFFFFFF := by
      have : t.seqNum % 0xFFFFFF + 1 - 1 + i = t.seqNum % 0xFFFFFF + i := by omega
      rw [this]
      omega
    simp only [e, List.range_succ_eq_map, List.map_cons, List.map_map]
    have e0 : (t.seqNum - 1 + 0) % 0xFFFFFF + 1 = t.seqNum := by omega
    simp only [e0]
    rfl

theorem Transport.reachable_seqNum (n : Nat) :
    1 ≤ (Transport.nextSeqNumTimes n NewTransport).2.seqNum ∧
    (Transport.nextSeqNumTimes n NewTransport).2.seqNum ≤ 0xFFFFFF := by
  rw [Transport.nextSeqNumTimes_eq n NewTransport (by decide) (by decide)]
  simp only []
  omega

theorem find_filter_ne {κ ν : Type} [DecidableEq κ] (l : List (κ × ν)) (k k' : κ)
    (h : k' ≠ k) :
    (l.filter (fun e => e.1 ≠ k)).find? (fun e => e.1 = k') = l.find? (fun e => e.1 = k') := by
  induction l with
  | nil => rfl
  | cons e rest ih =>
    by_cases he : e.1 = k
    · have hq : decide (e.1 ≠ k) = false := by simp [he]
      have hp : decide (e.1 = k') = false := by
        simp only [decide_eq_false_iff_not]
        exact fun h' => h (h'.symm.trans he)
      rw [List.filter_cons_of_neg (by simp [hq]), List.find?_cons_of_neg _ (by simp [hp]), ih]
    · rw [List.filter_cons_of_pos (by simp [he])]
      by_cases he' : e.1 = k'
      · rw [List.find?_cons_of_pos _ (by simp [he']), List.find?_cons_of_pos _ (by simp [he'])]
      · rw [List.find?_cons_of_neg _ (by simp [he']), List.find?_cons_of_neg _ (by simp [he']),
          ih]

theorem GoMap.get_delete_ne {κ ν : Type} [DecidableEq κ] (m : GoMap κ ν) (k k' : κ)
    (h : k' ≠ k) : (m.delete k).get k' = m.get k' := by
  simp only [GoMap.get, GoMap.delete, find_filter_ne _ _ _ h]

theorem GoMap.get_delete_same {κ ν : Type} [DecidableEq κ] (m : GoMap κ ν) (k : κ) :
    (m.delete k).get k = none := by
  obtain ⟨l⟩ := m
  simp only [GoMap.get, GoMap.delete, Option.map_eq_none', List.find?_eq_none]
  intro e he
  simp only [List.mem_filter] at he
  simpa using he.2

theorem GoMap.get_set_same {κ ν : Type} [DecidableEq κ] (m : GoMap κ ν) (k : κ) (v : ν) :
    (m.set k v).get k = some v := by
  simp [GoMap.get, GoMap.set]

theorem GoMap.get_set_ne {κ ν : Type} [DecidableEq κ] (m : GoMap κ ν) (k k' : κ) (v : ν)
    (h : k' ≠ k) : (m.set k v).get k' = m.get k' := by
  have := GoMap.get_delete_ne m k k' h
  simp only [GoMap.get, GoMap.set] at this ⊢
  rw [List.find?_cons_of_neg _ (by simpa using fun h' => h h'.symm), this]

theorem Transport.send_eq (msg : Message) (addr : UDPAddr) (wf : Bool) :
    Transport.send msg addr wf
      = (msg.Marshal.1, if wf then none else some ⟨msg.Marshal.2.1, addr⟩,
         if wf then some .write else none) := by
  rw [Transport.send, Message.message_marshal_eq]
  cases wf <;> rfl

theorem Message.marshal_idem (msg : Message) :
    msg.Marshal.1.Marshal = msg.Marshal := by
  rw [Message.message_marshal_eq msg]
  rw [Message.message_marshal_eq]

theorem Transport.register_eq (t : Transport) (msg : Message) (addr : UDPAddr) :
    Transport.SendRequest.register t msg addr
      = ({ t.nextSeqNum.2 with
           pending := t.nextSeqNum.2.pending.set t.seqNum
             ⟨{ msg with Header := { msg.Header with SequenceNumber := t.seqNum } },
               addr, none, 0⟩ },
         { msg with Header := { msg.Header with SequenceNumber := t.seqNum } }) := rfl

theorem Transport.nextSeqNum_pending (t : Transport) :
    t.nextSeqNum.2.pending = t.pending ∧ t.nextSeqNum.2.handlers = t.handlers ∧
    t.nextSeqNum.1 = t.seqNum := by
  refine ⟨?_, ?_, rfl⟩ <;> (simp only [Transport.nextSeqNum]; split <;> rfl)

theorem Transport.loop_timers (addr : UDPAddr) (N : Int) (msg : Message)
    (hm : msg.Marshal.1 = msg) (k : Nat) :
    ∀ (a : Int) (w : Nat) (sent : List Datagram),
      Transport.SendRequest.loop addr N (fun _ => false) (List.replicate k .timer) a w msg sent
        = (msg,
           sent ++ List.replicate (min k (max 1 (N - a).toNat - 1)) ⟨msg.Marshal.2.1, addr⟩,
           if max 1 (N - a).toNat ≤ k then .returned none (some .maxRetriesExceeded)
           else .blocked) := by
  induction k with
  | zero =>
    intro a w sent
    simp [Transport.SendRequest.loop]
  | succ k ih =>
    intro a w sent
    rw [List.replicate_succ, Transport.SendRequest.loop]
    by_cases hge : a + 1 ≥ N
    · have h1 : max 1 (N - a).toNat = 1 := by omega
      simp only [hge, if_true, h1]
      simp
    · have h1 : max 1 (N - a).toNat = max 1 (N - (a + 1)).toNat + 1 := by omega
      simp only [hge, if_false, Transport.send_eq, Bool.false_eq_true, hm, Option.toList, ih, h1]
      have h2 : min (k + 1) (max 1 (N - (a + 1)).toNat + 1 - 1)
          = min k (max 1 (N - (a + 1)).toNat - 1) + 1 := by omega
      rw [h2, List.replicate_succ]
      simp only [List.append_assoc, List.singleton_append, Nat.add_le_add_iff_right]

theorem Transport.sendRequest_timers (t : Transport) (msg : Message) (addr : UDPAddr)
    (N : Int) (k : Nat) (hk : max 1 N.toNat ≤ k) :
    Transport.SendRequest t msg addr N (List.replicate k .timer) (fun _ => false)
      = ({ (Transport.SendRequest.register t msg addr).1 with
           pending := (Transport.SendRequest.register t msg addr).1.pending.delete t.seqNum },
         (Transport.SendRequest.register t msg addr).2.Marshal.1,
         List.replicate (max 1 N.toNat)
           ⟨(Transport.SendRequest.register t msg addr).2.Marshal.2.1, addr⟩,
         .returned none (some .maxRetriesExceeded)) := by
  have hidem := Message.marshal_idem (Transport.SendRequest.register t msg addr).2
  have hl := Transport.loop_timers addr N (Transport.SendRequest.register t msg addr).2.Marshal.1
    (congrArg (fun x => x.1) hidem) k 0 1
    [⟨(Transport.SendRequest.register t msg addr).2.Marshal.2.1, addr⟩]
  have hseq : (Transport.SendRequest.register t msg addr).2.Marshal.1.Header.SequenceNumber
      = t.seqNum := by
    rw [Message.message_marshal_eq]; rfl
  simp only [hidem, Int.sub_zero, if_pos hk, Nat.min_eq_right (show max 1 N.toNat - 1 ≤ k by omega)]
    at hl
  simp only [Transport.SendRequest, Transport.send_eq, Bool.false_eq_true, if_false,
    Option.toList, hl, hseq]
  congr 3
  have e : max 1 N.toNat = (max 1 N.toNat - 1) + 1 := by omega
  conv_rhs => rw [e, List.replicate_succ]
  rfl

theorem GoMap.delete_set_of_fresh {κ ν : Type} [DecidableEq κ] (m : GoMap κ ν) (k : κ) (v : ν)
    (h : ∀ e ∈ m.entries, e.1 ≠ k) : (m.set k v).delete k = m := by
  obtain ⟨l⟩ := m
  have hf : l.filter (fun e => e.1 ≠ k) = l :=
    List.filter_eq_self.mpr (fun e he => by simpa using h e he)
  simp only [GoMap.set, GoMap.delete]
  rw [List.filter_cons_of_neg (by simp), hf, hf]

theorem Transport.sendRequest_response (t : Transport) (msg : Message) (addr : UDPAddr)
    (N : Int) (resp : Message) (rest : List Event) :
    (Transport.SendRequest t msg addr N (.response resp :: rest) (fun _ => false)).1
      = { t.nextSeqNum.2 with
          pending := (t.nextSeqNum.2.pending.set t.seqNum
            ⟨{ msg with Header := { msg.Header with SequenceNumber := t.seqNum } },
              addr, none, 0⟩).delete t.seqNum } := by
  simp only [Transport.SendRequest, Transport.send_eq, Bool.false_eq_true, if_false,
    Transport.SendRequest.loop, Transport.register_eq]
  rw [Message.message_marshal_eq]

theorem Transport.answeredRequest_eq (t : Transport) (h1 : 1 ≤ t.seqNum)
    (h2 : t.seqNum ≤ 0xFFFFFF) (hf : ∀ e ∈ t.pending.entries, e.1 ≠ t.seqNum) :
    t.answeredRequest = { t with seqNum := t.seqNum % 0xFFFFFF + 1 } := by
  rw [Transport.answeredRequest, Transport.sendRequest_response,
    Transport.nextSeqNum_eq t h1 h2]
  simp only [GoMap.delete_set_of_fresh _ _ _ hf]

theorem Transport.answeredRequest_iterate (j : Nat) :
    ∀ (t : Transport), 2 ≤ t.seqNum → t.seqNum ≤ 0xFFFFFF → t.seqNum + j ≤ 0x1000000 →
      (∀ e ∈ t.pending.entries, e.1 = 1) →
      Nat.iterate Transport.answeredRequest j t
        = { t with seqNum := if t.seqNum + j = 0x1000000 then 1 else t.seqNum + j } := by
  induction j with
  | zero =>
    intro t h1 h2 _ _
    have : ¬ t.seqNum = 0x1000000 := by omega
    simp only [Function.iterate_zero, id_eq, Nat.add_zero, if_neg this]
  | succ j ih =>
    intro t h1 h2 h3 hp
    rw [Function.iterate_succ, Function.comp_apply,
      Transport.answeredRequest_eq t (by omega) h2
        (fun e he => by rw [hp e he]; omega)]
    by_cases hM : t.seqNum = 0xFFFFFF
    · have hj : j = 0 := by omega
      subst hj
      simp [hM]
    · have e1 : t.seqNum % 0xFFFFFF + 1 = t.seqNum + 1 := by omega
      have e2 : t.seqNum + 1 + j = t.seqNum + (j + 1) := by omega
      have := ih { t with seqNum := t.seqNum + 1 } (by show 2 ≤ t.seqNum + 1; omega)
        (by show t.seqNum + 1 ≤ 0xFFFFFF; omega)
        (by show t.seqNum + 1 + j ≤ 0x1000000; omega) hp
      rw [e1, this]
      simp only [e2]

theorem transportWrapped_eq : transportWrapped = { transportOnePending with seqNum := 1 } := by
  rw [transportWrapped, Transport.answeredRequest_iterate 16777214 transportOnePending
    (by decide) (by decide) (by decide) (by decide)]
  rfl

theorem Transport.sendRequest_timers_any (t : Transport) (msg : Message) (addr : UDPAddr)
    (N : Int) (k : Nat) :
    (Transport.SendRequest t msg addr N (List.replicate k .timer) (fun _ => false)).2.2
      = (List.replicate (min (k + 1) (max 1 N.toNat))
           ⟨(Transport.SendRequest.register t msg addr).2.Marshal.2.1, addr⟩,
         if max 1 N.toNat ≤ k then .returned none (some .maxRetriesExceeded) else .blocked) := by
  have hidem := Message.marshal_idem (Transport.SendRequest.register t msg addr).2
  have hl := Transport.loop_timers addr N (Transport.SendRequest.register t msg addr).2.Marshal.1
    (congrArg (fun x => x.1) hidem) k 0 1
    [⟨(Transport.SendRequest.register t msg addr).2.Marshal.2.1, addr⟩]
  simp only [hidem, Int.sub_zero] at hl
  have e : [(⟨(Transport.SendRequest.register t msg addr).2.Marshal.2.1, addr⟩ : Datagram)]
      ++ List.replicate (min k (max 1 N.toNat - 1))
        ⟨(Transport.SendRequest.register t msg addr).2.Marshal.2.1, addr⟩
      = List.replicate (min (k + 1) (max 1 N.toNat))
        ⟨(Transport.SendRequest.register t msg addr).2.Marshal.2.1, addr⟩ := by
    have : min (k + 1) (max 1 N.toNat) = min k (max 1 N.toNat - 1) + 1 := by omega
    rw [this, List.replicate_succ]
    rfl
  rw [e] at hl
  simp only [Transport.SendRequest, Transport.send_eq, Bool.false_eq_true, if_false,
    Option.toList, hl]
  by_cases hk : max 1 N.toNat ≤ k <;> simp only [hk, if_true, if_false]

theorem Transport.sendRequest_seq (t : Transport) (msg : Message) (addr : UDPAddr) (N : Int)
    (events : List Event) (wf : Nat → Bool) :
    (Transport.SendRequest t msg addr N events wf).2.1.Header.SequenceNumber = t.seqNum := by
  have hm (m : Message) : m.Marshal.1.Header.SequenceNumber = m.Header.SequenceNumber := by
    rw [Message.message_marshal_eq]
  have hl (ev : List Event) : ∀ (a : Int) (w : Nat) (m : Message) (sent : List Datagram),
      (Transport.SendRequest.loop addr N wf ev a w m sent).1.Header.SequenceNumber
        = m.Header.SequenceNumber := by
    induction ev with
    | nil => intro a w m sent; rfl
    | cons e rest ih =>
      intro a w m sent
      cases e with
      | ctxDone => rfl
      | response r => rfl
      | timer =>
        rw [Transport.SendRequest.loop]
        simp only [Transport.send_eq]
        split
        · rfl
        · cases wf w
          · simp only [Bool.false_eq_true, if_false, ih, hm]
          · simp only [if_true, hm]
  simp only [Transport.SendRequest, Transport.send_eq]
  cases wf 0
  · simp only [Bool.false_eq_true, if_false]
    have := hl events 0 1 (Transport.SendRequest.register t msg addr).2.Marshal.1
      (Option.toList (some ⟨(Transport.SendRequest.register t msg addr).2.Marshal.2.1, addr⟩))
    rw [hm] at this
    simp only [Option.toList] at this ⊢
    generalize Transport.SendRequest.loop addr N wf events 0 1
      (Transport.SendRequest.register t msg addr).2.Marshal.1
      [⟨(Transport.SendRequest.register t msg addr).2.Marshal.2.1, addr⟩] = L at this ⊢
    obtain ⟨m1, s1, o⟩ := L
    cases o <;> exact this
  · simp only [if_true, hm]
    rfl

/-! ## The claims C11 to C20 -/

/-- C11, the code at the failing input: the 65539 bytes `[0, 19, 255, 255]`
followed by 65535 zero bytes, an IE of type 19 (below 32768) whose length
field is 65535 and whose value is complete.  `IE.Unmarshal` does not return:
the slice bound `4+length` is computed in `uint16`, wraps to 3, and
`data[4:3]` panics. -/
theorem C11_unmarshal_panics_at_length_65535 :
    ieMaxLength.Marshal.1 = [0, 19, 255, 255] ++ List.replicate 65535 0 ∧
    (Slice.ofBytes ieMaxLength.Marshal.1).len = 4 + 65535 ∧
    u16At ieMaxLength.Marshal.1 0 = 19 ∧ u16At ieMaxLength.Marshal.1 2 = 65535 ∧
    IE.Unmarshal {} (Slice.ofBytes ieMaxLength.Marshal.1) = .panic := by
  have hl : ieMaxLength.Value.length = 65535 := List.length_replicate _ _
  have ht : ieMaxLength.Type_ = 19 := rfl
  have hml : ieMaxLength.marshalLength = 65535 := by
    simp only [IE.marshalLength, ht, hl]; rfl
  have hm : ieMaxLength.Marshal.1 = [0, 19, 255, 255] ++ List.replicate 65535 0 := by
    rw [IE.ie_marshal_eq, hml, ht]; rfl
  refine ⟨hm, ?_, ?_, ?_, ?_⟩
  · simp only [Slice.ofBytes, Slice.len, IE.ie_marshal_length, hml]
  · rw [hm]; rfl
  · rw [hm]; rfl
  · exact IE.unmarshal_marshal_overflow {} ieMaxLength [] (by decide) (by omega) (by omega)

/-- C12, counterexample: the group built from one child of type 19 with
`EnterpriseID = 7` parses to a child with `EnterpriseID = 0`, not to the same
child. -/
theorem C12_counterexample :
    ieCauseWithEnterprise.WellTyped ∧ (iePayload [ieCauseWithEnterprise]).length < 65536 ∧
    NewGroupedIE IETypeCreatePDR [ieCauseWithEnterprise]
      = (some { Type_ := 1, Value := [0, 19, 0, 1, 1] }, none) ∧
    ParseGroupedIE (Slice.ofBytes [0, 19, 0, 1, 1]) = .ret ([ieCause], none) ∧
    ParseGroupedIE (Slice.ofBytes [0, 19, 0, 1, 1]) ≠ .ret ([ieCauseWithEnterprise], none) := by
  decide

/-- C12 (amended): for every IE type `t` and every list of children whose
fields are in the range of their types and whose concatenated encodings (the
group value) have fewer than 65536 bytes, `NewGroupedIE` succeeds and
`ParseGroupedIE` on the value of the group succeeds and returns the children
in the same order, with the same `Type` and `Value`, and with `EnterpriseID`
kept for `Type ≥ 32768` and 0 otherwise.  Recursively: every child that was
itself built by `NewGroupedIE` from a list `gs` comes back with a value that
parses to `gs` in the same way. -/
theorem C12_grouped_roundtrip (t : Nat) (children : List IE) (sp : List Nat)
    (hw : ∀ ie ∈ children, ie.WellTyped) (hP : (iePayload children).length < 65536) :
    ∃ g, NewGroupedIE t children = (some g, none) ∧ g.Type_ = t ∧
      ParseGroupedIE ⟨g.Value, sp⟩
        = .ret (children.map (fun ie =>
            { ie with EnterpriseID := if ie.Type_ ≥ 32768 then ie.EnterpriseID else 0 }), none) ∧
      (∀ c ∈ children, ∀ (u : Nat) (gs : List IE) (sp' : List Nat),
        (∀ ie ∈ gs, ie.WellTyped) → NewGroupedIE u gs = (some c, none) →
        ParseGroupedIE ⟨(IE.carriedOver c).Value, sp'⟩
          = .ret (gs.map (fun ie =>
            { ie with EnterpriseID := if ie.Type_ ≥ 32768 then ie.EnterpriseID else 0 }),
            none)) := by
  refine ⟨_, NewGroupedIE_eq t children, rfl, ?_, ?_⟩
  · exact ParseGroupedIE_payload children sp
      (fun ie hie => ⟨(hw ie hie).1, (hw ie hie).2.1⟩) hP
  · intro c hc u gs sp' hgs hg
    rw [NewGroupedIE_eq] at hg
    have hc' : c = { Type_ := u, Value := iePayload gs } := by
      simp only [Prod.mk.injEq, Option.some.injEq, and_true] at hg
      exact hg.symm
    have hlen := iePayload_marshalLength_le children c hc
    have hcl : c.Value.length ≤ c.marshalLength := by
      unfold IE.marshalLength; split <;> omega
    have hv : (iePayload gs).length < 65536 := by
      have e : c.Value = iePayload gs := by rw [hc']
      rw [← e]; omega
    have := ParseGroupedIE_payload gs sp'
      (fun ie hie => ⟨(hgs ie hie).1, (hgs ie hie).2.1⟩) hv
    rw [hc']
    exact this

/-- C12 (amended), instance: the Create-PDR group of the example rule,
[PDR-ID, Precedence, PDI [Source-Interface, SDF-Filter], FAR-ID]; the PDI
child is itself the group built from `pdiChildren`. -/
theorem C12_grouped_roundtrip_witness :
    (∀ ie ∈ createPDRChildren, ie.WellTyped) ∧
    (iePayload createPDRChildren).length < 65536 ∧
    NewGroupedIE IETypePDI pdiChildren = (some pdiGroup, none) ∧
    pdiGroup ∈ createPDRChildren ∧
    ∃ g, NewGroupedIE IETypeCreatePDR createPDRChildren = (some g, none) ∧
      g.Type_ = IETypeCreatePDR ∧
      ParseGroupedIE ⟨g.Value, []⟩
        = .ret (createPDRChildren.map (fun ie =>
            { ie with EnterpriseID := if ie.Type_ ≥ 32768 then ie.EnterpriseID else 0 }), none) ∧
      (∀ c ∈ createPDRChildren, ∀ (u : Nat) (gs : List IE) (sp' : List Nat),
        (∀ ie ∈ gs, ie.WellTyped) → NewGroupedIE u gs = (some c, none) →
        ParseGroupedIE ⟨(IE.carriedOver c).Value, sp'⟩
          = .ret (gs.map (fun ie =>
            { ie with EnterpriseID := if ie.Type_ ≥ 32768 then ie.EnterpriseID else 0 }),
            none)) :=
  ⟨by decide, by decide, by decide, by decide,
    C12_grouped_roundtrip IETypeCreatePDR createPDRChildren [] (by decide) (by decide)⟩

theorem Message.marshal_messageLength (m : Message) :
    m.Marshal.1.Header.MessageLength = (iePayload m.IEs).length % 65536 := by
  rw [Message.message_marshal_eq]

/-- C13, counterexample: the message `msgWrapped` has an IE payload of 65538
bytes, so `Message.Marshal` writes the length 2; decoding its bytes, with or
without trailing bytes, returns the error "IE too short: 2 bytes". -/
theorem C13_counterexample :
    (iePayload msgWrapped.IEs).length = 65538 ∧
    msgWrapped.Marshal.1.Header.MessageLength = 2 ∧
    (∃ r, Message.Unmarshal {} ⟨msgWrapped.Marshal.2.1 ++ [1, 2, 3], []⟩
      = .ret (r, some (.ieTooShort 2))) ∧
    (∃ r, Message.Unmarshal {} ⟨msgWrapped.Marshal.2.1 ++ [], []⟩
      = .ret (r, some (.ieTooShort 2))) := by
  have hl0 : ieLong.Value.length = 65534 := List.length_replicate _ _
  have ht : ieLong.Type_ = 19 := rfl
  have hl : ieLong.marshalLength = 65534 := by
    simp only [IE.marshalLength, ht, hl0]; rfl
  have hI : msgWrapped.IEs = [ieLong] := rfl
  have hpl : (iePayload msgWrapped.IEs).length = 65538 := by
    simp only [hI, iePayload, List.append_nil, IE.ie_marshal_length, hl]
  refine ⟨hpl, ?_, ?_, ?_⟩
  · have h := (Message.marshal_messageLength msgWrapped).trans (congrArg (fun n => n % 65536) hpl)
    exact h
  · exact Message.unmarshal_marshal_wrapped msgWrapped.Header ieLong [1, 2, 3] [] rfl hl
  · exact Message.unmarshal_marshal_wrapped msgWrapped.Header ieLong [] [] rfl hl

/-- C13 (amended): for every message `m` whose IE fields are in the range of
their types and whose encoded IE payload is shorter than 65536 bytes, for
`b = Message.Marshal(m)` and every byte string `t`, `Message.Unmarshal` of
`b ++ t` into an empty message succeeds and yields the same message as
`Message.Unmarshal` of `b`, whatever the spare capacity of the two slices. -/
theorem C13_trailing_bytes_ignored (m : Message) (t sp sp' : List Nat)
    (hies : ∀ ie ∈ m.IEs, ie.WellTyped) (hP : (iePayload m.IEs).length < 65536) :
    ∃ r, Message.Unmarshal {} ⟨m.Marshal.2.1 ++ t, sp⟩ = .ret (r, none) ∧
      Message.Unmarshal {} ⟨m.Marshal.2.1, sp'⟩ = .ret (r, none) ∧
      r.Header.MessageLength = (iePayload m.IEs).length ∧
      r.IEs = m.IEs.map IE.carriedOver := by
  have h1 := Message.unmarshal_marshal_trailing m t sp
    (fun ie hie => ⟨(hies ie hie).1, (hies ie hie).2.1⟩) hP
  have h2 := Message.unmarshal_marshal_trailing m [] sp'
    (fun ie hie => ⟨(hies ie hie).1, (hies ie hie).2.1⟩) hP
  rw [List.append_nil] at h2
  refine ⟨_, h1, h2, ?_, rfl⟩
  obtain ⟨h', _, hde, _, hML⟩ := MessageHeader.unmarshal_marshal_any {}
    { m.Header with MessageLength := (iePayload m.IEs).length } [] [] hP
  simp only []
  rw [← hde, hML]

/-- C13 (amended), instance: the session message `msgSession` followed by the
three bytes `[1, 2, 3]`. -/
theorem C13_trailing_bytes_ignored_witness :
    (∀ ie ∈ msgSession.IEs, ie.WellTyped) ∧ (iePayload msgSession.IEs).length < 65536 ∧
    ∃ r, Message.Unmarshal {} ⟨msgSession.Marshal.2.1 ++ [1, 2, 3], []⟩ = .ret (r, none) ∧
      Message.Unmarshal {} ⟨msgSession.Marshal.2.1, []⟩ = .ret (r, none) ∧
      r.Header.MessageLength = (iePayload msgSession.IEs).length ∧
      r.IEs = msgSession.IEs.map IE.carriedOver :=
  ⟨by decide, by decide,
    C13_trailing_bytes_ignored msgSession [1, 2, 3] [] [] (by decide) (by decide)⟩

/-- C14: for every message and IE type `t`, `FindAllIEs(t)` is the list of the
IEs of the message whose type is `t`, in their order (a sublist of `m.IEs`
holding exactly those), and `FindIE(t)` is its first element, nil exactly when
it is empty. -/
theorem C14_find_ies (m : Message) (t : Nat) :
    m.FindAllIEs t = m.IEs.filter (fun ie => ie.Type_ = t) ∧
    List.Sublist (m.FindAllIEs t) m.IEs ∧
    (∀ ie, ie ∈ m.FindAllIEs t ↔ ie ∈ m.IEs ∧ ie.Type_ = t) ∧
    m.FindIE t = (m.FindAllIEs t).head? ∧
    (m.FindIE t = none ↔ m.FindAllIEs t = []) := by
  have h1 : m.FindAllIEs t = m.IEs.filter (fun ie => ie.Type_ = t) := by
    simp [Message.FindAllIEs, Message.findAllIEs_loop_eq]
  have h2 : m.FindIE t = (m.FindAllIEs t).head? := by
    rw [h1]; exact Message.findIE_loop_eq t m.IEs
  refine ⟨h1, ?_, ?_, h2, ?_⟩
  · rw [h1]; exact List.filter_sublist _
  · intro ie; rw [h1]; simp [List.mem_filter]
  · rw [h2]; cases m.FindAllIEs t <;> simp

/-- C15: a new transport has counter 1; in every state reached by `n` calls
of `nextSeqNum` on a new transport, the next call returns the counter and
leaves the counter plus one, or 1 when the value returned is `0xFFFFFF`; every
value returned lies between 1 and `0xFFFFFF`. -/
theorem C15_next_seq_num (n : Nat) :
    NewTransport.seqNum = 1 ∧
    (Transport.nextSeqNumTimes (n + 1) NewTransport).1
      = (Transport.nextSeqNumTimes n NewTransport).1
          ++ [(Transport.nextSeqNumTimes n NewTransport).2.seqNum] ∧
    (Transport.nextSeqNumTimes n NewTransport).2.nextSeqNum.1
      = (Transport.nextSeqNumTimes n NewTransport).2.seqNum ∧
    (Transport.nextSeqNumTimes n NewTransport).2.nextSeqNum.2.seqNum
      = (if (Transport.nextSeqNumTimes n NewTransport).2.seqNum = 0xFFFFFF then 1
         else (Transport.nextSeqNumTimes n NewTransport).2.seqNum + 1) ∧
    1 ≤ (Transport.nextSeqNumTimes n NewTransport).2.nextSeqNum.1 ∧
    (Transport.nextSeqNumTimes n NewTransport).2.nextSeqNum.1 ≤ 0xFFFFFF ∧
    (Transport.nextSeqNumTimes n NewTransport).1.all (fun v => 1 ≤ v ∧ v ≤ 0xFFFFFF) = true := by
  obtain ⟨h1, h2⟩ := Transport.reachable_seqNum n
  have hn := Transport.nextSeqNum_eq _ h1 h2
  refine ⟨rfl, ?_, by rw [hn], ?_, by rw [hn]; exact h1, by rw [hn]; exact h2, ?_⟩
  · rw [Transport.nextSeqNumTimes_eq (n + 1) NewTransport (by decide) (by decide),
      Transport.nextSeqNumTimes_eq n NewTransport (by decide) (by decide)]
    simp only [List.range_succ, List.map_append, List.map_cons, List.map_nil]
  · rw [hn]
    simp only []
    split <;> omega
  · rw [Transport.nextSeqNumTimes_eq n NewTransport (by decide) (by decide)]
    simp only [List.all_eq_true, List.mem_map, List.mem_range, decide_eq_true_eq]
    rintro v ⟨i, _, rfl⟩
    omega

/-- C16, counterexample: of 16777216 consecutive calls on a new transport the
first and the last both return 1. -/
theorem C16_counterexample :
    (Transport.nextSeqNumTimes 16777216 NewTransport).1.length = 16777216 ∧
    (Transport.nextSeqNumTimes 16777216 NewTransport).1.getD 0 0 = 1 ∧
    (Transport.nextSeqNumTimes 16777216 NewTransport).1.getD 16777215 0 = 1 ∧
    ¬ (Transport.nextSeqNumTimes 16777216 NewTransport).1.Nodup := by
  rw [Transport.nextSeqNumTimes_eq 16777216 NewTransport (by decide) (by decide)]
  have hs : NewTransport.seqNum = 1 := rfl
  simp only [hs]
  have g (i : Nat) (hi : i < 16777216) :
      ((List.range 16777216).map (fun i => (1 - 1 + i) % 0xFFFFFF + 1)).getD i 0
        = (1 - 1 + i) % 0xFFFFFF + 1 := by
    rw [List.getD_eq_getElem?_getD, List.getElem?_map, List.getElem?_range hi]
    rfl
  refine ⟨by rw [List.length_map, List.length_range], g 0 (by omega), g 16777215 (by omega), ?_⟩
  intro hnd
  have := List.inj_on_of_nodup_map hnd (List.mem_range.mpr (show 0 < 16777216 by omega))
    (List.mem_range.mpr (show 16777215 < 16777216 by omega)) (by decide)
  omega

/-- C16 (amended): in every state reached by calls of `nextSeqNum` on a new
transport, the values returned by `K` further consecutive calls are pairwise
distinct as long as `K ≤ 0xFFFFFF` (16777215); the counter then wraps. -/
theorem C16_seq_nums_distinct (n K : Nat) (hK : K ≤ 0xFFFFFF) :
    (Transport.nextSeqNumTimes K (Transport.nextSeqNumTimes n NewTransport).2).1.Nodup := by
  obtain ⟨h1, h2⟩ := Transport.reachable_seqNum n
  rw [Transport.nextSeqNumTimes_eq K _ h1 h2]
  simp only []
  refine List.Nodup.map_on ?_ (List.nodup_range K)
  intro i hi j hj hij
  rw [List.mem_range] at hi hj
  omega

/-- C16 (amended), instance: `0xFFFFFF` calls after five calls. -/
theorem C16_seq_nums_distinct_witness :
    0xFFFFFF ≤ 0xFFFFFF ∧
    (Transport.nextSeqNumTimes 0xFFFFFF (Transport.nextSeqNumTimes 5 NewTransport).2).1.Nodup :=
  ⟨by decide, C16_seq_nums_distinct 5 0xFFFFFF (by decide)⟩

/-- C17, counterexample: on `transportWrapped` (a first request still pending
under number 1, then `0xFFFFFE` answered requests) the counter is 1 again;
the next request is given number 1, a key of the pending map, and its record
replaces that of the first request. -/
theorem C17_counterexample :
    transportWrapped.seqNum = 1 ∧
    transportWrapped.pending.get 1 = transportOnePending.pending.get 1 ∧
    (transportOnePending.pending.get 1).isSome = true ∧
    (Transport.SendRequest.register transportWrapped msgEstablish addrPeer).2.Header.SequenceNumber
      = 1 ∧
    (Transport.SendRequest.register transportWrapped msgEstablish addrPeer).1.pending.get 1
      ≠ transportWrapped.pending.get 1 := by
  rw [transportWrapped_eq]
  decide

/-- C17 (amended): `SendRequest` gives a new request the current value of the
counter, whatever the pending map holds (no free number is searched for): the
request is stored under that number, replacing any record stored there, and
the records under all other numbers are unchanged.  The number is thus not a
pending key exactly when the counter value is not one. -/
theorem C17_register_takes_counter (t : Transport) (msg : Message) (addr : UDPAddr) :
    (Transport.SendRequest.register t msg addr).2.Header.SequenceNumber = t.seqNum ∧
    (Transport.SendRequest.register t msg addr).1.pending.get t.seqNum
      = some ⟨(Transport.SendRequest.register t msg addr).2, addr, none, 0⟩ ∧
    (∀ k, k ≠ t.seqNum →
      (Transport.SendRequest.register t msg addr).1.pending.get k = t.pending.get k) ∧
    (∀ (N : Int) (events : List Event) (wf : Nat → Bool),
      (Transport.SendRequest t msg addr N events wf).2.1.Header.SequenceNumber = t.seqNum) := by
  obtain ⟨hp, _, _⟩ := Transport.nextSeqNum_pending t
  refine ⟨rfl, ?_, ?_, fun N events wf => Transport.sendRequest_seq t msg addr N events wf⟩
  · rw [Transport.register_eq]
    exact GoMap.get_set_same _ _ _
  · intro k hk
    rw [Transport.register_eq]
    simp only [GoMap.get_set_ne _ _ _ _ hk, hp]

/-- C18, counterexample: with `N1 = 0` and three timer expiries, no response
and no close, `SendRequest` writes one datagram, not zero, before it fails
with max-retries-exceeded. -/
theorem C18_counterexample :
    (Transport.SendRequest NewTransport msgHeartbeat addrPeer 0 [.timer, .timer, .timer]
        (fun _ => false)).2.2
      = ([⟨[32, 1, 0, 8, 0, 0, 1, 0, 0, 96, 0, 4, 0, 0, 0, 5], addrPeer⟩],
         .returned none (some .maxRetriesExceeded)) ∧
    (Transport.SendRequest NewTransport msgHeartbeat addrPeer 0 [.timer, .timer, .timer]
        (fun _ => false)).2.2.1.length ≠ 0 := by
  decide

/-- C18 (amended): for every `N1 ≥ 1`, with timer expiries only (no response,
no close) and no failing socket write, after `k` expiries `SendRequest` has
written `min (k+1) N1` datagrams, all equal to the encoding of the message
with the sequence number taken from the counter, to the same address; it is
still waiting while `k < N1` and has failed with max-retries-exceeded once
`k ≥ N1`: exactly `N1` datagrams are written before the failure. -/
theorem C18_send_request_retransmits (t : Transport) (msg : Message) (addr : UDPAddr)
    (N1 : Int) (k : Nat) (hN : 1 ≤ N1) :
    (Transport.SendRequest t msg addr N1 (List.replicate k .timer) (fun _ => false)).2.2.1
      = List.replicate (min (k + 1) N1.toNat)
          ⟨(Message.Marshal
            { msg with Header := { msg.Header with SequenceNumber := t.seqNum } }).2.1, addr⟩ ∧
    (Transport.SendRequest t msg addr N1 (List.replicate k .timer) (fun _ => false)).2.2.2
      = (if N1 ≤ k then .returned none (some .maxRetriesExceeded) else .blocked) ∧
    (Transport.SendRequest t msg addr N1 (List.replicate k .timer)
      (fun _ => false)).2.1.Header.SequenceNumber = t.seqNum := by
  have h := Transport.sendRequest_timers_any t msg addr N1 k
  have hmax : max 1 N1.toNat = N1.toNat := by omega
  have hle : (N1.toNat ≤ k) ↔ (N1 ≤ (k : Int)) := by omega
  rw [hmax] at h
  refine ⟨?_, ?_, Transport.sendRequest_seq t msg addr N1 _ _⟩
  · rw [h]; rfl
  · rw [h]
    by_cases hk : N1 ≤ (k : Int)
    · simp only [hk, hle.mpr hk, if_true]
    · simp only [hk, mt hle.mp hk, if_false]

/-- C18 (amended), instance: `N1 = 3` and five timer expiries on a new
transport. -/
theorem C18_send_request_retransmits_witness :
    (1 : Int) ≤ 3 ∧
    (Transport.SendRequest NewTransport msgHeartbeat addrPeer 3 (List.replicate 5 .timer)
        (fun _ => false)).2.2.1
      = List.replicate (min (5 + 1) (3 : Int).toNat)
          ⟨(Message.Marshal
            { msgHeartbeat with
              Header := { msgHeartbeat.Header with SequenceNumber := NewTransport.seqNum } }).2.1,
            addrPeer⟩ ∧
    (Transport.SendRequest NewTransport msgHeartbeat addrPeer 3 (List.replicate 5 .timer)
        (fun _ => false)).2.2.2
      = (if (3 : Int) ≤ (5 : Nat) then .returned none (some .maxRetriesExceeded)
         else .blocked) ∧
    (Transport.SendRequest NewTransport msgHeartbeat addrPeer 3 (List.replicate 5 .timer)
      (fun _ => false)).2.1.Header.SequenceNumber = NewTransport.seqNum :=
  ⟨by decide, C18_send_request_retransmits NewTransport msgHeartbeat addrPeer 3 5 (by decide)⟩

/-- C19, counterexample: the pending request number 7 of `transportSlotFull`
already holds a response in its slot; a second message with sequence number 7
is not delivered (the slot keeps the first response), no handler is invoked,
and the transport is unchanged. -/
theorem C19_counterexample :
    (transportSlotFull.pending.get msgHeartbeatResponseDup.Header.SequenceNumber).map
      (fun p => p.respChan) = some (some msgHeartbeatResponse) ∧
    transportSlotFull.handleMessage msgHeartbeatResponseDup addrPeer = (transportSlotFull, []) ∧
    ((transportSlotFull.handleMessage msgHeartbeatResponseDup addrPeer).1.pending.get 7).map
      (fun p => p.respChan) ≠ some (some msgHeartbeatResponseDup) := by
  decide

/-- C19 (amended): if the sequence number of the message is a key of the
pending map, no handler is invoked, whatever the source address and the
message type, no other pending request is touched, and the message is put
into the response slot of that request when the slot is empty (when the slot
already holds a response, the message is dropped); otherwise the transport is
unchanged and the handler registered for the message type is invoked exactly
once with the message and the address, and if none is registered nothing is
invoked. -/
theorem C19_handle_message_dispatch (t : Transport) (msg : Message) (addr : UDPAddr) :
    (∀ p, t.pending.get msg.Header.SequenceNumber = some p →
      (t.handleMessage msg addr).2 = [] ∧
      (t.handleMessage msg addr).1.handlers = t.handlers ∧
      (t.handleMessage msg addr).1.seqNum = t.seqNum ∧
      (t.handleMessage msg addr).1.pending.get msg.Header.SequenceNumber
        = some { p with respChan := if p.respChan = none then some msg else p.respChan } ∧
      (∀ k, k ≠ msg.Header.SequenceNumber →
        (t.handleMessage msg addr).1.pending.get k = t.pending.get k)) ∧
    (t.pending.get msg.Header.SequenceNumber = none →
      (t.handleMessage msg addr).1 = t ∧
      (∀ h, t.handlers.get msg.Header.MessageType = some h →
        (t.handleMessage msg addr).2 = [⟨h, msg, addr⟩]) ∧
      (t.handlers.get msg.Header.MessageType = none → (t.handleMessage msg addr).2 = [])) := by
  constructor
  · intro p hp
    simp only [Transport.handleMessage, hp]
    cases hc : p.respChan with
    | none =>
      refine ⟨rfl, rfl, rfl, ?_, ?_⟩
      · simp [GoMap.get_set_same]
      · intro k hk
        exact GoMap.get_set_ne _ _ _ _ hk
    | some r =>
      refine ⟨rfl, rfl, rfl, ?_, fun _ _ => rfl⟩
      simp only [hp, reduceCtorEq, if_false]
      congr 1
      cases p
      simp_all
  · intro hp
    simp only [Transport.handleMessage, hp]
    refine ⟨?_, ?_, ?_⟩
    · cases t.handlers.get msg.Header.MessageType <;> rfl
    · intro h hh; simp [hh]
    · intro hh; simp [hh]

/-- C19 (amended), instances: a message with the pending number 7 fills the
empty slot and invokes nothing; a message with number 9, not pending, leaves
the transport unchanged and invokes the handler registered for its type. -/
theorem C19_handle_message_dispatch_witness :
    (transportSlotEmpty.handleMessage msgHeartbeatResponseDup addrPeer).2 = [] ∧
    ((transportSlotEmpty.handleMessage msgHeartbeatResponseDup addrPeer).1.pending.get 7).map
      (fun p => p.respChan) = some (some msgHeartbeatResponseDup) ∧
    transportSlotEmpty.handleMessage
        { msgHeartbeatResponse with
          Header := { msgHeartbeatResponse.Header with SequenceNumber := 9 } } addrPeer
      = (transportSlotEmpty,
         [⟨40, { msgHeartbeatResponse with
                 Header := { msgHeartbeatResponse.Header with SequenceNumber := 9 } },
           addrPeer⟩]) := by
  have h := C19_handle_message_dispatch transportSlotEmpty msgHeartbeatResponseDup addrPeer
  have h1 := h.1 ⟨msgHeartbeat, addrPeer, none, 0⟩ (by decide)
  have h2 := h1.2.2.2.1
  refine ⟨h1.1, ?_, by decide⟩
  rw [show (7 : Nat) = msgHeartbeatResponseDup.Header.SequenceNumber from rfl, h2]
  rfl

set_option maxRecDepth 1000000 in
/-- C20, the code at the failing input: a UP function holding one session
(SEID 1) handles the Session-Establishment-Request of the example rules, whose
header has SEID 0 and sequence number 5.  It allocates local SEID 2; the
response has S = 1, sequence number 5 and cause RequestAccepted, but its
header SEID is 0, the SEID of the request, not 2 (the local SEID travels in
the value of the second IE).  Composed with `CreateSession` over a lossless
channel, the session recorded by the CP function has `RemoteSEID = 0`. -/
theorem C20_response_header_seid_is_request_seid :
    (up.UPFunction.allocSEID upOneSession).toOption = some 2 ∧
    ((upOneSession.handleSessionEstablishmentRequest msgEstablish).toOption.map
      (fun r => (r.2.2.Header.SEIDPresent, r.2.2.Header.SequenceNumber, r.2.2.Header.SEID)))
      = some (true, 5, 0) ∧
    ((upOneSession.handleSessionEstablishmentRequest msgEstablish).toOption.map
      (fun r => r.2.2.IEs))
      = some [NewCauseIE CauseRequestAccepted,
          { Type_ := 2, Value := [2, 0, 0, 0, 0, 0, 0, 0, 2] }] ∧
    ((upOneSession.handleSessionEstablishmentRequest msgEstablish).toOption.map
      (fun r => (r.1.sessions.get 2).map (fun s => s.LocalSEID))) = some (some 2) ∧
    ((cpReady.CreateSession nodeUP [pdrDHCP] [farPunt] [] [] (losslessPeer upOneSession)
        (fun _ => false)).toOption.map
      (fun r => (r.2.2, (r.1.sessions.get 1).map (fun s => s.RemoteSEID))))
      = some (.returned 1 none, some 0) := by
  decide

/-! ## Sessions and associations: lemmas -/

theorem IE.unmarshal_enterprise_returns (ie0 : IE) (data : Slice) (h4 : 4 ≤ data.len)
    (hT : 32768 ≤ u16At data.vis 0) (hl : 4 + u16At data.vis 2 ≤ data.len)
    (h : data.len < 65536) :
    ∃ ie n err, IE.Unmarshal ie0 data = .ret (ie, n, err) ∧
      (err = none → 4 ≤ n ∧ n ≤ data.len ∧ ie.Value.length < 65536) := by
  simp only [Slice.len] at h4 hl h ⊢
  have gT := getUint16_slice data 0 (by omega)
  have gL := getUint16_slice data 2 (by omega)
  simp only [u16At] at hl hT
  simp only [Nat.zero_add] at gT hT
  generalize (data.vis.getD (2 + 1) 0 ||| data.vis.getD 2 0 <<< 8) = L at *
  generalize (data.vis.getD 1 0 ||| data.vis.getD 0 0 <<< 8) = T at *
  have hdec : decide (T ≥ 32768) = true := by simpa using hT
  by_cases h2 : L < 2
  · have he : ∃ ie, IE.Unmarshal ie0 data = .ret (ie, 0, some .ieEnterpriseTooShort) := by
      simp only [IE.Unmarshal, Slice.len, if_neg (show ¬ data.vis.length < 4 by omega), gT, gL,
        Go.ret_bind, if_neg (show ¬ data.vis.length < 4 + L by omega), hdec, if_true,
        if_pos h2, Go.pure_eq_ret]
      exact ⟨_, rfl⟩
    obtain ⟨ie, he⟩ := he
    exact ⟨ie, 0, _, he, fun h => by cases h⟩
  · have gE := getUint16_slice data 4 (by omega)
    have hhi : ((6 + L) % 65536 + 65536 - 2) % 65536 = 4 + L := by omega
    have hsl := Slice.slice_of_le data 6 (4 + L) (by omega) (by omega)
    have he : ∃ ie, IE.Unmarshal ie0 data = .ret (ie, 4 + L, none) ∧
        ie.Value.length = L - 2 := by
      have gE6 : (do getUint16 (← data.slice 4 6))
          = Go.ret (data.vis.getD (4 + 1) 0 ||| data.vis.getD 4 0 <<< 8) := gE
      simp only [IE.Unmarshal, Slice.len, if_neg (show ¬ data.vis.length < 4 by omega), gT, gL,
        Go.ret_bind, if_neg (show ¬ data.vis.length < 4 + L by omega), hdec, if_true,
        if_neg h2]
      simp only [Go.pure_eq_ret, Go.ret_bind, gE6, hhi, hsl]
      refine ⟨_, rfl, ?_⟩
      simp only [goCopy, List.length_append, List.length_take, List.length_drop,
        List.length_replicate]
      omega
    obtain ⟨ie, he, hv⟩ := he
    exact ⟨ie, 4 + L, none, he, fun _ => ⟨by omega, by omega, by omega⟩⟩

/-- On a slice shorter than 65536 bytes `IE.Unmarshal` returns, and on success
it has consumed between 4 bytes and the whole slice. -/
theorem IE.unmarshal_returns (ie0 : IE) (data : Slice) (h : data.len < 65536) :
    ∃ ie n err, IE.Unmarshal ie0 data = .ret (ie, n, err) ∧
      (err = none → 4 ≤ n ∧ n ≤ data.len ∧ ie.Value.length < 65536) := by
  by_cases h4 : data.len < 4
  · exact ⟨_, _, _, IE.ie_unmarshal_short ie0 data h4, by intro h; cases h⟩
  by_cases hl : data.len < 4 + u16At data.vis 2
  · obtain ⟨ie, he⟩ := IE.unmarshal_truncated ie0 data (by omega) hl
    exact ⟨_, _, _, he, by intro h; cases h⟩
  by_cases hT : u16At data.vis 0 < 32768
  · refine ⟨_, _, _, IE.unmarshal_plain ie0 data (by omega) hT (by omega) (by omega), ?_⟩
    intro _
    refine ⟨by omega, by omega, ?_⟩
    simp only [List.length_take, List.length_drop]
    simp only [Slice.len] at h
    omega
  · exact IE.unmarshal_enterprise_returns ie0 data (by omega) (by omega) (by omega) h

/-- On a value shorter than 65536 bytes the loop of `ParseGroupedIE` returns,
and the values of the IEs it returns are shorter than 65536 bytes. -/
theorem ParseGroupedIE.loop_returns (vis : List Nat) (h : vis.length < 65536) :
    ∀ (fuel offset : Nat) (ies : List IE), vis.length ≤ offset + fuel →
      (∀ ie ∈ ies, ie.Value.length < 65536) →
      ∃ r err, ParseGroupedIE.loop ⟨vis, []⟩ fuel offset ies = .ret (r, err) ∧
        ∀ ie ∈ r, ie.Value.length < 65536 := by
  intro fuel
  induction fuel with
  | zero =>
    intro offset ies hf hies
    refine ⟨ies, none, ?_, hies⟩
    simp only [ParseGroupedIE.loop, Slice.len]
    rw [if_neg (by omega)]
  | succ fuel ih =>
    intro offset ies hf hies
    by_cases ho : offset < vis.length
    · have hsl : (Slice.sliceFrom ⟨vis, []⟩ offset)
          = .ret ⟨(vis.take vis.length).drop offset, vis.drop vis.length ++ []⟩ :=
        Slice.slice_of_le ⟨vis, []⟩ offset vis.length (by omega) (le_refl _)
      obtain ⟨ie, n, err, he, hn⟩ := IE.unmarshal_returns {}
        ⟨(vis.take vis.length).drop offset, vis.drop vis.length ++ []⟩
        (by simp only [Slice.len, List.length_drop, List.length_take]; omega)
      simp only [ParseGroupedIE.loop, Slice.len, if_pos ho, hsl, Go.ret_bind, he]
      cases err with
      | some e =>
        refine ⟨[], some e, rfl, ?_⟩
        intro ie hie; cases hie
      | none =>
        obtain ⟨h4, _, hv⟩ := hn rfl
        exact ih (offset + n) (ies ++ [ie]) (by omega) (by
          intro x hx
          rcases List.mem_append.mp hx with hx | hx
          · exact hies x hx
          · rw [List.mem_singleton.mp hx]; exact hv)
    · refine ⟨ies, none, ?_, hies⟩
      simp only [ParseGroupedIE.loop, Slice.len, if_neg ho]

theorem ParseGroupedIE_returns (v : List Nat) (h : v.length < 65536) :
    ∃ r err, ParseGroupedIE (Slice.ofBytes v) = .ret (r, err) ∧
      ∀ ie ∈ r, ie.Value.length < 65536 :=
  ParseGroupedIE.loop_returns v h v.length 0 [] (by omega) (by intro ie hie; cases hie)

theorem IE.getPDR_ID_returns (ie : IE) : ∃ r, ie.GetPDR_ID = .ret r := by
  unfold IE.GetPDR_ID
  by_cases hc : ie.Type_ ≠ IETypePDR_ID ∨ ie.Value.length < 2
  · exact ⟨_, by simp only [if_pos hc]; rfl⟩
  · have hl : 2 ≤ ie.Value.length := by
      by_contra hcon; exact hc (Or.inr (by omega))
    simp only [if_neg hc, getUint16, Slice.ofBytes,
      Slice.index_of_lt ⟨ie.Value, []⟩ 1 (by simp only []; omega),
      Slice.index_of_lt ⟨ie.Value, []⟩ 0 (by simp only []; omega), Go.ret_bind, Go.pure_eq_ret]
    exact ⟨_, rfl⟩

theorem IE.getFAR_ID_returns (ie : IE) : ∃ r, ie.GetFAR_ID = .ret r := by
  unfold IE.GetFAR_ID
  by_cases hc : ie.Type_ ≠ IETypeFAR_ID ∨ ie.Value.length < 4
  · exact ⟨_, by simp only [if_pos hc]; rfl⟩
  · have hl : 4 ≤ ie.Value.length := by
      by_contra hcon; exact hc (Or.inr (by omega))
    simp only [if_neg hc, getUint32, Slice.ofBytes,
      Slice.index_of_lt ⟨ie.Value, []⟩ 3 (by simp only []; omega),
      Slice.index_of_lt ⟨ie.Value, []⟩ 2 (by simp only []; omega),
      Slice.index_of_lt ⟨ie.Value, []⟩ 1 (by simp only []; omega),
      Slice.index_of_lt ⟨ie.Value, []⟩ 0 (by simp only []; omega), Go.ret_bind, Go.pure_eq_ret]
    exact ⟨_, rfl⟩

theorem up.parsePDI_returns : ∀ (ies : List IE) (pdi : up.PDI), ∃ r, up.parsePDI ies pdi = .ret r := by
  intro ies
  induction ies with
  | nil => intro pdi; exact ⟨pdi, rfl⟩
  | cons ie rest ih =>
    intro pdi
    unfold up.parsePDI
    by_cases h1 : ie.Type_ = IETypeSourceInterface
    · by_cases h2 : ie.Value.length > 0
      · simp only [if_pos h1, if_pos h2, Slice.ofBytes,
          Slice.index_of_lt ⟨ie.Value, []⟩ 0 (by simp only []; omega), Go.ret_bind]
        exact ih _
      · simp only [if_pos h1, if_neg h2]; exact ih _
    · simp only [if_neg h1]
      split_ifs <;> exact ih _

theorem up.parsePDR_returns : ∀ (ies : List IE) (pdr : up.PDR),
    (∀ ie ∈ ies, ie.Value.length < 65536) → ∃ r, up.parsePDR ies pdr = .ret r := by
  intro ies
  induction ies with
  | nil => intro pdr _; exact ⟨pdr, rfl⟩
  | cons ie rest ih =>
    intro pdr hies
    have hrest : ∀ x ∈ rest, x.Value.length < 65536 :=
      fun x hx => hies x (List.mem_cons_of_mem _ hx)
    unfold up.parsePDR
    by_cases h1 : ie.Type_ = IETypePDR_ID
    · obtain ⟨r, hr⟩ := IE.getPDR_ID_returns ie
      simp only [if_pos h1, hr, Go.ret_bind]
      exact ih _ hrest
    simp only [if_neg h1]
    by_cases h2 : ie.Type_ = IETypePrecedence
    · simp only [if_pos h2]; exact ih _ hrest
    simp only [if_neg h2]
    by_cases h3 : ie.Type_ = IETypeFAR_ID
    · obtain ⟨r, hr⟩ := IE.getFAR_ID_returns ie
      simp only [if_pos h3, hr, Go.ret_bind]
      exact ih _ hrest
    simp only [if_neg h3]
    by_cases h4 : ie.Type_ = IETypePDI
    · obtain ⟨r, err, hr, _⟩ := ParseGroupedIE_returns ie.Value (hies ie (List.mem_cons_self _ _))
      obtain ⟨p, hp⟩ := up.parsePDI_returns r (pdr.PDI.getD {})
      simp only [if_pos h4, hr, Go.ret_bind, hp]
      exact ih _ hrest
    simp only [if_neg h4]
    exact ih _ hrest

theorem up.parseFAR_returns : ∀ (ies : List IE) (far : up.FAR), ∃ r, up.parseFAR ies far = .ret r := by
  intro ies
  induction ies with
  | nil => intro far; exact ⟨far, rfl⟩
  | cons ie rest ih =>
    intro far
    unfold up.parseFAR
    by_cases h1 : ie.Type_ = IETypeFAR_ID
    · obtain ⟨r, hr⟩ := IE.getFAR_ID_returns ie
      simp only [if_pos h1, hr, Go.ret_bind]
      exact ih _
    simp only [if_neg h1]
    by_cases h2 : ie.Type_ = IETypeApplyAction
    · by_cases h3 : ie.Value.length > 0
      · simp only [if_pos h2, if_pos h3, Slice.ofBytes,
          Slice.index_of_lt ⟨ie.Value, []⟩ 0 (by simp only []; omega), Go.ret_bind]
        exact ih _
      · simp only [if_pos h2, if_neg h3]; exact ih _
    simp only [if_neg h2]
    exact ih _

theorem GoMap.mem_keys_of_get {κ ν : Type} [DecidableEq κ] (m : GoMap κ ν) (k : κ)
    (h : (m.get k).isSome = true) : k ∈ m.keys := by
  unfold GoMap.get at h
  cases hf : m.entries.find? (fun e => decide (e.1 = k)) with
  | none => rw [hf] at h; cases h
  | some e =>
    have h1 := List.find?_some hf
    have h2 := List.mem_of_find?_eq_some hf
    simp only [decide_eq_true_eq] at h1
    rw [← h1]
    exact List.mem_map_of_mem (fun e => e.1) h2

theorem GoMap.get_of_mem_keys {κ ν : Type} [DecidableEq κ] (m : GoMap κ ν) (k : κ)
    (h : k ∈ m.keys) : (m.get k).isSome = true := by
  unfold GoMap.keys at h
  obtain ⟨e, he, hk⟩ := List.mem_map.mp h
  unfold GoMap.get
  cases hf : m.entries.find? (fun e => decide (e.1 = k)) with
  | none =>
    have := List.find?_eq_none.mp hf e he
    simp only [decide_eq_true_eq] at this
    exact absurd hk this
  | some e => rfl

/-- Among the first `n + 1` positive integers one is not a key of a map with
`n` entries. -/
theorem GoMap.exists_free {ν : Type} (m : GoMap Nat ν) :
    ∃ j, j ≤ m.entries.length ∧ m.get (1 + j) = none := by
  by_contra hcon
  have hall : ∀ j, j ≤ m.entries.length → (m.get (1 + j)).isSome = true := by
    intro j hj
    cases hg : m.get (1 + j) with
    | none => exact absurd ⟨j, hj, hg⟩ hcon
    | some _ => rfl
  have hsub : List.range' 1 (m.entries.length + 1) ⊆ m.keys := by
    intro k hk
    rw [List.mem_range'_1] at hk
    have := hall (k - 1) (by omega)
    rw [show 1 + (k - 1) = k by omega] at this
    exact GoMap.mem_keys_of_get m k this
  have hlen := (List.subperm_of_subset (List.nodup_range' 1 (m.entries.length + 1)) hsub).length_le
  simp only [List.length_range', GoMap.keys, List.length_map] at hlen
  omega

theorem up.allocSEID_loop_eq (u : up.UPFunction) :
    ∀ (j fuel seid : Nat), (∀ i, i < j → (u.sessions.get (seid + i)).isSome = true) →
      u.sessions.get (seid + j) = none → j < fuel → seid + j < 2 ^ 64 →
      up.UPFunction.allocSEID.loop u fuel seid = .ret (seid + j) := by
  intro j
  induction j with
  | zero =>
    intro fuel seid _ hn hf _
    obtain ⟨f, rfl⟩ : ∃ f, fuel = f + 1 := ⟨fuel - 1, by omega⟩
    rw [Nat.add_zero] at hn
    simp only [up.UPFunction.allocSEID.loop, hn, Nat.add_zero]
  | succ j ih =>
    intro fuel seid hs hn hf hb
    obtain ⟨f, rfl⟩ : ∃ f, fuel = f + 1 := ⟨fuel - 1, by omega⟩
    have h0 := hs 0 (by omega)
    rw [Nat.add_zero] at h0
    obtain ⟨v, hv⟩ := Option.isSome_iff_exists.mp h0
    have hmod : (seid + 1) % 2 ^ 64 = seid + 1 := Nat.mod_eq_of_lt (by omega)
    simp only [up.UPFunction.allocSEID.loop, hv, hmod]
    have := ih f (seid + 1) (fun i hi => by
      have := hs (i + 1) (by omega)
      rwa [show seid + (i + 1) = seid + 1 + i by omega] at this)
      (by rwa [show seid + (j + 1) = seid + 1 + j by omega] at hn) (by omega) (by omega)
    rw [this]
    congr 1
    omega

/-- `allocSEID` returns the least positive integer that is not a key, on every
map with fewer than `2^64 - 1` entries. -/
theorem up.allocSEID_spec (u : up.UPFunction) (h : u.sessions.entries.length + 1 < 2 ^ 64) :
    ∃ s, u.allocSEID = .ret s ∧ isLeastFreeSEID u.sessions s ∧ s < 2 ^ 64 := by
  classical
  have hex := GoMap.exists_free u.sessions
  have hex' : ∃ j, u.sessions.get (1 + j) = none := by
    obtain ⟨j, _, hj⟩ := hex; exact ⟨j, hj⟩
  have hle : Nat.find hex' ≤ u.sessions.entries.length := by
    obtain ⟨j, hj, hn⟩ := hex
    exact le_trans (Nat.find_min' hex' hn) hj
  have hspec := Nat.find_spec hex'
  have hmin : ∀ i, i < Nat.find hex' → (u.sessions.get (1 + i)).isSome = true := by
    intro i hi
    have := Nat.find_min hex' hi
    cases hg : u.sessions.get (1 + i) with
    | none => exact absurd hg this
    | some _ => rfl
  refine ⟨1 + Nat.find hex', ?_, ⟨by omega, hspec, ?_⟩, by omega⟩
  · exact up.allocSEID_loop_eq u (Nat.find hex') _ 1 hmin hspec (by omega) (by omega)
  · intro k hk1 hk2
    have := hmin (k - 1) (by omega)
    rwa [show 1 + (k - 1) = k by omega] at this

theorem Message.findAllIEs_subset (m : Message) (t : Nat) :
    ∀ ie ∈ m.FindAllIEs t, ie ∈ m.IEs := by
  intro ie hie
  simp only [Message.FindAllIEs, Message.findAllIEs_loop_eq, List.nil_append] at hie
  exact (List.mem_filter.mp hie).1

/-- The Create-PDR loop of the establishment handler returns on values
shorter than 65536 bytes; it adds `InstallPDR` calls for the session only. -/
theorem up.installPDRs_returns (seid : Nat) :
    ∀ (l : List IE) (s : up.Session) (calls : List up.DataplaneCall),
      (∀ ie ∈ l, ie.Value.length < 65536) →
      ∃ s' added, up.installPDRs seid l s calls = .ret (s', calls ++ added) ∧
        (∀ c ∈ added, ∃ pdr, c = .InstallPDR seid pdr) ∧
        s'.LocalSEID = s.LocalSEID ∧ s'.RemoteSEID = s.RemoteSEID := by
  intro l
  induction l with
  | nil =>
    intro s calls _
    exact ⟨s, [], by simp only [up.installPDRs, List.append_nil],
      (fun c hc => by cases hc), rfl, rfl⟩
  | cons ie rest ih =>
    intro s calls hl
    have hrest : ∀ x ∈ rest, x.Value.length < 65536 :=
      fun x hx => hl x (List.mem_cons_of_mem _ hx)
    obtain ⟨r, err, hr, hv⟩ := ParseGroupedIE_returns ie.Value (hl ie (List.mem_cons_self _ _))
    cases err with
    | some e =>
      simp only [up.installPDRs, hr, Go.ret_bind]
      exact ih s calls hrest
    | none =>
      obtain ⟨pdr, hp⟩ := up.parsePDR_returns r { PDI := some {} } hv
      simp only [up.installPDRs, hr, Go.ret_bind, hp]
      obtain ⟨s', added, he, ha, h1, h2⟩ :=
        ih { s with PDRs := s.PDRs.set pdr.ID pdr } (calls ++ [.InstallPDR seid pdr]) hrest
      refine ⟨s', .InstallPDR seid pdr :: added, ?_, ?_, h1, h2⟩
      · rw [he]; simp only [List.append_assoc, List.singleton_append]
      · intro c hc
        rcases List.mem_cons.mp hc with hc | hc
        · exact ⟨pdr, hc⟩
        · exact ha c hc

/-- The Create-FAR loop of the establishment handler returns on values
shorter than 65536 bytes; it adds `InstallFAR` calls for the session only. -/
theorem up.installFARs_returns (seid : Nat) :
    ∀ (l : List IE) (s : up.Session) (calls : List up.DataplaneCall),
      (∀ ie ∈ l, ie.Value.length < 65536) →
      ∃ s' added, up.installFARs seid l s calls = .ret (s', calls ++ added) ∧
        (∀ c ∈ added, ∃ far, c = .InstallFAR seid far) ∧
        s'.LocalSEID = s.LocalSEID ∧ s'.RemoteSEID = s.RemoteSEID := by
  intro l
  induction l with
  | nil =>
    intro s calls _
    exact ⟨s, [], by simp only [up.installFARs, List.append_nil],
      (fun c hc => by cases hc), rfl, rfl⟩
  | cons ie rest ih =>
    intro s calls hl
    have hrest : ∀ x ∈ rest, x.Value.length < 65536 :=
      fun x hx => hl x (List.mem_cons_of_mem _ hx)
    obtain ⟨r, err, hr, _⟩ := ParseGroupedIE_returns ie.Value (hl ie (List.mem_cons_self _ _))
    cases err with
    | some e =>
      simp only [up.installFARs, hr, Go.ret_bind]
      exact ih s calls hrest
    | none =>
      obtain ⟨far, hp⟩ := up.parseFAR_returns r {}
      simp only [up.installFARs, hr, Go.ret_bind, hp]
      obtain ⟨s', added, he, ha, h1, h2⟩ :=
        ih { s with FARs := s.FARs.set far.ID far } (calls ++ [.InstallFAR seid far]) hrest
      refine ⟨s', .InstallFAR seid far :: added, ?_, ?_, h1, h2⟩
      · rw [he]; simp only [List.append_assoc, List.singleton_append]
      · intro c hc
        rcases List.mem_cons.mp hc with hc | hc
        · exact ⟨far, hc⟩
        · exact ha c hc

/-- The establishment handler returns on every request whose IE values are
shorter than 65536 bytes: it stores a session under the SEID allocated,
answers RequestAccepted with the header SEID of the request, and calls
`InstallPDR`, then `InstallFAR`, and nothing else on the dataplane. -/
theorem up.handleSessionEstablishmentRequest_eq (u : up.UPFunction) (msg : Message)
    (hu : u.sessions.entries.length + 1 < 2 ^ 64)
    (hm : ∀ ie ∈ msg.IEs, ie.Value.length < 65536) :
    ∃ seid session pdrCalls farCalls, u.allocSEID = .ret seid ∧
      isLeastFreeSEID u.sessions seid ∧
      u.handleSessionEstablishmentRequest msg
        = .ret ({ u with sessions := u.sessions.set seid session }, pdrCalls ++ farCalls,
            NewSessionEstablishmentResponse msg.Header.SequenceNumber msg.Header.SEID
              CauseRequestAccepted seid) ∧
      session.LocalSEID = seid ∧ session.RemoteSEID = msg.Header.SEID ∧
      (∀ c ∈ pdrCalls, ∃ pdr, c = .InstallPDR seid pdr) ∧
      (∀ c ∈ farCalls, ∃ far, c = .InstallFAR seid far) := by
  obtain ⟨seid, hs, hleast, _⟩ := up.allocSEID_spec u hu
  obtain ⟨s1, pdrCalls, h1, hp, hl1, hr1⟩ := up.installPDRs_returns seid
    (msg.FindAllIEs IETypeCreatePDR) { LocalSEID := seid, RemoteSEID := msg.Header.SEID } []
    (fun ie hie => hm ie (Message.findAllIEs_subset msg _ ie hie))
  obtain ⟨s2, farCalls, h2, hf, hl2, hr2⟩ := up.installFARs_returns seid
    (msg.FindAllIEs IETypeCreateFAR) s1 ([] ++ pdrCalls)
    (fun ie hie => hm ie (Message.findAllIEs_subset msg _ ie hie))
  rw [List.nil_append] at h1 h2
  refine ⟨seid, s2, pdrCalls, farCalls, hs, hleast, ?_, by rw [hl2, hl1], by rw [hr2, hr1],
    hp, hf⟩
  simp only [up.UPFunction.handleSessionEstablishmentRequest, hs, Go.ret_bind, h1, h2,
    List.nil_append, Go.pure_eq_ret]

theorem up.Dataplane.results_calls (dp : up.Dataplane) :
    ∀ (calls before : List up.DataplaneCall),
      (dp.results before calls).map Prod.fst = calls := by
  intro calls
  induction calls with
  | nil => intro before; rfl
  | cons c rest ih =>
    intro before
    simp only [up.Dataplane.results, List.map_cons, ih]

theorem Slice.sliceFrom_ofBytes (v : List Nat) (h : 1 ≤ v.length) :
    (Slice.ofBytes v).sliceFrom 1 = .ret ⟨v.drop 1, []⟩ := by
  have := Slice.slice_of_le ⟨v, []⟩ 1 v.length h (le_refl _)
  simp only [Slice.sliceFrom, Slice.ofBytes, Slice.len, this, List.take_length,
    List.drop_length, List.append_nil]

/-- `handleAssociationSetupRequest` on a request that holds both IEs, the
Node-ID with a value of at least one byte. -/
theorem cp.handleAssociationSetupRequest_eq (c : cp.CPFunction) (msg : Message)
    (addr : UDPAddr) (wf : Bool) (nodeIDIE ts : IE)
    (hn : msg.FindIE IETypeNodeID = some nodeIDIE)
    (ht : msg.FindIE IETypeRecoveryTimeStamp = some ts) (hv : 1 ≤ nodeIDIE.Value.length) :
    c.handleAssociationSetupRequest msg addr wf
      = .ret ({ c with
                associations := c.associations.set (nodeIDIE.Value.drop 1)
                  ⟨nodeIDIE.Value.drop 1, addr, 0⟩ },
              (if wf then [] else
                [⟨(NewAssociationSetupResponse msg.Header.SequenceNumber c.nodeID
                    CauseRequestAccepted c.recoveryTS).Marshal.2.1, addr⟩]),
              if wf then some (.send .write) else none) := by
  simp only [cp.CPFunction.handleAssociationSetupRequest, hn, ht,
    Slice.sliceFrom_ofBytes _ hv, Go.ret_bind, Transport.send_eq, Go.pure_eq_ret]
  cases wf <;> rfl

/-- `handleAssociationReleaseRequest` on a request that holds a Node-ID IE
with a value of at least one byte. -/
theorem cp.handleAssociationReleaseRequest_eq (c : cp.CPFunction) (msg : Message)
    (addr : UDPAddr) (wf : Bool) (nodeIDIE : IE)
    (hn : msg.FindIE IETypeNodeID = some nodeIDIE) (hv : 1 ≤ nodeIDIE.Value.length) :
    c.handleAssociationReleaseRequest msg addr wf
      = .ret ({ c with associations := c.associations.delete (nodeIDIE.Value.drop 1) },
              (if wf then [] else
                [⟨(NewAssociationReleaseResponse msg.Header.SequenceNumber c.nodeID
                    CauseRequestAccepted).Marshal.2.1, addr⟩]),
              if wf then some (.send .write) else none) := by
  simp only [cp.CPFunction.handleAssociationReleaseRequest, hn,
    Slice.sliceFrom_ofBytes _ hv, Go.ret_bind, Transport.send_eq, Go.pure_eq_ret]
  cases wf <;> rfl

theorem cp.marshalEach_eq {α : Type} (f : α → Option IE × Option CodecError) (g : α → IE)
    (hf : ∀ a, f a = (some (g a), none)) :
    ∀ (l : List α) (ies : List IE), cp.marshalEach f l ies = (ies ++ l.map g, none) := by
  intro l
  induction l with
  | nil => intro ies; simp only [cp.marshalEach, List.map_nil, List.append_nil]
  | cons a rest ih =>
    intro ies
    simp only [cp.marshalEach, hf a, ih, List.map_cons, List.append_assoc,
      List.singleton_append]

/-- The Create-PDR group `marshalPDRs` builds for one PDR. -/
theorem cp.marshalPDR_eq (pdr : cp.PDR) :
    ∃ children, cp.marshalPDR pdr
      = (some { Type_ := IETypeCreatePDR, Value := iePayload children }, none) := by
  unfold cp.marshalPDR
  cases pdr.PDI with
  | none => simp only [NewGroupedIE_eq]; exact ⟨_, rfl⟩
  | some pdi => simp only [NewGroupedIE_eq]; exact ⟨_, rfl⟩

theorem cp.marshalFAR_eq (far : cp.FAR) :
    ∃ children, cp.marshalFAR far
      = (some { Type_ := IETypeCreateFAR, Value := iePayload children }, none) := by
  unfold cp.marshalFAR
  cases far.ForwardingParameters with
  | none => simp only [NewGroupedIE_eq]; exact ⟨_, rfl⟩
  | some fp => simp only [NewGroupedIE_eq]; exact ⟨_, rfl⟩

/-- `marshalPDRs` returns no error: one Create-PDR group per PDR, in order. -/
theorem cp.marshalPDRs_eq (pdrs : List cp.PDR) :
    ∃ ies, cp.marshalPDRs pdrs = (ies, none) ∧ ies.length = pdrs.length ∧
      ∀ ie ∈ ies, ie.Type_ = IETypeCreatePDR := by
  classical
  have h := cp.marshalEach_eq cp.marshalPDR
    (fun p => { Type_ := IETypeCreatePDR, Value := iePayload (Classical.choose (cp.marshalPDR_eq p)) })
    (fun p => Classical.choose_spec (cp.marshalPDR_eq p)) pdrs []
  refine ⟨_, h, by simp, ?_⟩
  intro ie hie
  simp only [List.nil_append, List.mem_map] at hie
  obtain ⟨p, _, rfl⟩ := hie
  rfl

/-- `marshalFARs` returns no error: one Create-FAR group per FAR, in order. -/
theorem cp.marshalFARs_eq (fars : List cp.FAR) :
    ∃ ies, cp.marshalFARs fars = (ies, none) ∧ ies.length = fars.length ∧
      ∀ ie ∈ ies, ie.Type_ = IETypeCreateFAR := by
  classical
  have h := cp.marshalEach_eq cp.marshalFAR
    (fun p => { Type_ := IETypeCreateFAR, Value := iePayload (Classical.choose (cp.marshalFAR_eq p)) })
    (fun p => Classical.choose_spec (cp.marshalFAR_eq p)) fars []
  refine ⟨_, h, by simp, ?_⟩
  intro ie hie
  simp only [List.nil_append, List.mem_map] at hie
  obtain ⟨p, _, rfl⟩ := hie
  rfl

/-- `marshalQERs` returns no error: one Create-QER group per QER, in order. -/
theorem cp.marshalQERs_eq (qers : List cp.QER) :
    cp.marshalQERs qers
      = (qers.map (fun q => { Type_ := IETypeCreateQER, Value := iePayload [NewQER_ID_IE q.ID] }),
         none) := by
  have h := cp.marshalEach_eq (fun qer : cp.QER => NewGroupedIE IETypeCreateQER [NewQER_ID_IE qer.ID])
    (fun q => { Type_ := IETypeCreateQER, Value := iePayload [NewQER_ID_IE q.ID] })
    (fun q => NewGroupedIE_eq _ _) qers []
  rw [List.nil_append] at h
  exact h

/-- `marshalURRs` returns no error: one Create-URR group per URR, in order. -/
theorem cp.marshalURRs_eq (urrs : List cp.URR) :
    cp.marshalURRs urrs
      = (urrs.map (fun r => { Type_ := IETypeCreateURR, Value := iePayload [NewURR_ID_IE r.ID] }),
         none) := by
  have h := cp.marshalEach_eq (fun urr : cp.URR => NewGroupedIE IETypeCreateURR [NewURR_ID_IE urr.ID])
    (fun r => { Type_ := IETypeCreateURR, Value := iePayload [NewURR_ID_IE r.ID] })
    (fun r => NewGroupedIE_eq _ _) urrs []
  rw [List.nil_append] at h
  exact h

/-- The loop of `SendRequest` never returns a nil response with a nil error,
and it only adds to the datagrams written. -/
theorem Transport.loop_outcome (addr : UDPAddr) (N : Int) (wf : Nat → Bool) :
    ∀ (events : List Event) (a : Int) (w : Nat) (m : Message) (sent : List Datagram),
      (Transport.SendRequest.loop addr N wf events a w m sent).2.2 ≠ .returned none none ∧
      ∃ more, (Transport.SendRequest.loop addr N wf events a w m sent).2.1 = sent ++ more := by
  intro events
  induction events with
  | nil => intro a w m sent; exact ⟨by simp [Transport.SendRequest.loop], [], by simp [Transport.SendRequest.loop]⟩
  | cons e rest ih =>
    intro a w m sent
    cases e with
    | ctxDone => exact ⟨by simp [Transport.SendRequest.loop], [], by simp [Transport.SendRequest.loop]⟩
    | response r => exact ⟨by simp [Transport.SendRequest.loop], [], by simp [Transport.SendRequest.loop]⟩
    | timer =>
      simp only [Transport.SendRequest.loop, Transport.send_eq]
      by_cases hN : a + 1 ≥ N
      · simp only [if_pos hN]
        exact ⟨by simp, [], by simp⟩
      · simp only [if_neg hN]
        cases hw : wf w with
        | true => simp only [if_true]; exact ⟨by simp, [], by simp⟩
        | false =>
          simp only [Bool.false_eq_true, if_false]
          obtain ⟨h1, more, h2⟩ := ih (a + 1) (w + 1) m.Marshal.1
            (sent ++ (some (⟨m.Marshal.2.1, addr⟩ : Datagram)).toList)
          exact ⟨h1, (some (⟨m.Marshal.2.1, addr⟩ : Datagram)).toList ++ more, by
            rw [h2, List.append_assoc]⟩

/-- `SendRequest` never returns a nil response with a nil error. -/
theorem Transport.sendRequest_outcome (t : Transport) (msg : Message) (addr : UDPAddr)
    (N : Int) (events : List Event) (wf : Nat → Bool) :
    (Transport.SendRequest t msg addr N events wf).2.2.2 ≠ .returned none none := by
  simp only [Transport.SendRequest, Transport.send_eq]
  cases hw : wf 0 with
  | true => simp
  | false =>
    simp only [Bool.false_eq_true, if_false]
    have h := (Transport.loop_outcome addr N wf events 0 1
      (Transport.SendRequest.register t msg addr).2.Marshal.1
      (some (⟨(Transport.SendRequest.register t msg addr).2.Marshal.2.1, addr⟩ : Datagram)).toList).1
    generalize Transport.SendRequest.loop addr N wf events 0 1
      (Transport.SendRequest.register t msg addr).2.Marshal.1
      (some (⟨(Transport.SendRequest.register t msg addr).2.Marshal.2.1, addr⟩ : Datagram)).toList
      = r at h ⊢
    obtain ⟨m, s, o⟩ := r
    cases o with
    | blocked => simp
    | returned a b => simpa using h

/-- When the first socket write succeeds, the first datagram `SendRequest`
writes is the encoding of the registered request, sent to `addr`. -/
theorem Transport.sendRequest_first (t : Transport) (msg : Message) (addr : UDPAddr)
    (N : Int) (events : List Event) (wf : Nat → Bool) (hw : wf 0 = false) :
    ∃ more, (Transport.SendRequest t msg addr N events wf).2.2.1
      = ⟨(Transport.SendRequest.register t msg addr).2.Marshal.2.1, addr⟩ :: more := by
  simp only [Transport.SendRequest, Transport.send_eq, hw, Bool.false_eq_true, if_false]
  obtain ⟨more, h⟩ := (Transport.loop_outcome addr N wf events 0 1
      (Transport.SendRequest.register t msg addr).2.Marshal.1
      (some (⟨(Transport.SendRequest.register t msg addr).2.Marshal.2.1, addr⟩ : Datagram)).toList).2
  generalize Transport.SendRequest.loop addr N wf events 0 1
      (Transport.SendRequest.register t msg addr).2.Marshal.1
      (some (⟨(Transport.SendRequest.register t msg addr).2.Marshal.2.1, addr⟩ : Datagram)).toList
      = r at h ⊢
  obtain ⟨m, s, o⟩ := r
  simp only [] at h
  cases o with
  | blocked => exact ⟨more, by simpa using h⟩
  | returned a b => exact ⟨more, by simpa using h⟩

theorem IE.getCause_returns (ie : IE) : ∃ cause err, ie.GetCause = .ret (cause, err) := by
  unfold IE.GetCause
  by_cases hc : ie.Type_ ≠ IETypeCause ∨ ie.Value.length < 1
  · exact ⟨0, some .invalidCause, by simp only [if_pos hc]; rfl⟩
  · have hl : 1 ≤ ie.Value.length := by
      by_contra hcon; exact hc (Or.inr (by omega))
    simp only [if_neg hc, Slice.ofBytes,
      Slice.index_of_lt ⟨ie.Value, []⟩ 0 (by simp only []; omega), Go.ret_bind, Go.pure_eq_ret]
    exact ⟨_, _, rfl⟩

/-- `CreateSession` once the association is found, by cases on what
`SendRequest` returned. -/
theorem cp.createSession_cases (c : cp.CPFunction) (nodeID : List Nat) (pdrs : List cp.PDR)
    (fars : List cp.FAR) (qers : List cp.QER) (urrs : List cp.URR)
    (events : Message → List Event) (wf : Nat → Bool) (assoc : cp.Association)
    (ha : c.associations.get nodeID = some assoc)
    (t : Transport) (m : Message) (sent : List Datagram) (o : SendOutcome)
    (hS : c.createSend assoc pdrs fars qers urrs events wf = (t, m, sent, o)) :
    (o = .blocked →
      c.CreateSession nodeID pdrs fars qers urrs events wf
        = .ret ({ c with nextSEID := (c.nextSEID + 1) % 2 ^ 64, transport := t }, sent,
            .blocked)) ∧
    (∀ r e, o = .returned r (some e) →
      c.CreateSession nodeID pdrs fars qers urrs events wf
        = .ret ({ c with nextSEID := (c.nextSEID + 1) % 2 ^ 64, transport := t }, sent,
            .returned 0 (some (.sendRequest e)))) ∧
    (∀ resp, o = .returned (some resp) none → resp.FindIE IETypeCause = none →
      c.CreateSession nodeID pdrs fars qers urrs events wf
        = .ret ({ c with nextSEID := (c.nextSEID + 1) % 2 ^ 64, transport := t }, sent,
            .returned 0 (some .noCauseIE))) ∧
    (∀ resp causeIE cause err, o = .returned (some resp) none →
      resp.FindIE IETypeCause = some causeIE → causeIE.GetCause = .ret (cause, err) →
      ((err.isSome = true ∨ cause ≠ CauseRequestAccepted) →
        c.CreateSession nodeID pdrs fars qers urrs events wf
          = .ret ({ c with nextSEID := (c.nextSEID + 1) % 2 ^ 64, transport := t }, sent,
              .returned 0 (some (.rejected cause)))) ∧
      (¬ (err.isSome = true ∨ cause ≠ CauseRequestAccepted) →
        c.CreateSession nodeID pdrs fars qers urrs events wf
          = .ret ({ c with
                    nextSEID := (c.nextSEID + 1) % 2 ^ 64, transport := t,
                    sessions := c.sessions.set c.nextSEID
                      (cp.recordedSession c.nextSEID resp nodeID pdrs fars qers urrs),
                    store := c.store.map (fun s => s.set c.nextSEID
                      (cp.recordedSession c.nextSEID resp nodeID pdrs fars qers urrs)) },
                  sent, .returned c.nextSEID none))) := by
  obtain ⟨iP, hP, _, _⟩ := cp.marshalPDRs_eq pdrs
  obtain ⟨iF, hF, _, _⟩ := cp.marshalFARs_eq fars
  simp only [cp.CPFunction.createSend, cp.establishmentRequest, hP, hF, cp.marshalQERs_eq,
    cp.marshalURRs_eq] at hS
  simp only [cp.CPFunction.CreateSession, ha, cp.CPFunction.allocSEID, hP, hF,
    cp.marshalQERs_eq, cp.marshalURRs_eq, hS]
  refine ⟨?_, ?_, ?_, ?_⟩
  · intro ho; subst ho; rfl
  · intro r e ho; subst ho; cases r <;> rfl
  · intro resp ho hc; subst ho; simp only [hc]; rfl
  · intro resp causeIE cause err ho hc hg
    subst ho
    simp only [hc, hg, Go.ret_bind]
    constructor
    · intro hcond
      rw [if_pos hcond]; rfl
    · intro hcond
      rw [if_neg hcond]; rfl

theorem cp.fillMap_get {α : Type} (key : α → Nat) :
    ∀ (l : List α) (m : GoMap Nat α) (id : Nat),
      (cp.fillMap key l m).get id
        = ((l.filter (fun r => key r = id)).getLast?).or (m.get id) := by
  intro l
  induction l with
  | nil => intro m id; simp [cp.fillMap]
  | cons r rest ih =>
    intro m id
    simp only [cp.fillMap, ih]
    by_cases hk : key r = id
    · rw [List.filter_cons_of_pos (by simpa using hk), ← hk, GoMap.get_set_same,
        List.getLast?_cons]
      cases (List.filter (fun r_1 => decide (key r_1 = key r)) rest).getLast? <;> rfl
    · rw [List.filter_cons_of_neg (by simpa using hk),
        GoMap.get_set_ne _ _ _ _ (fun h => hk h.symm)]

/-- A rule map filled by `CreateSession` holds the last rule given for each
id. -/
theorem cp.fillMap_holdsLast {α : Type} (key : α → Nat) (l : List α) :
    cp.holdsLast key l (cp.fillMap key l GoMap.empty) := by
  intro id
  rw [cp.fillMap_get]
  cases (List.filter (fun r => decide (key r = id)) l).getLast? <;> rfl

/-- When the ids are pairwise distinct, a rule map that holds the last rule
of each id holds every rule. -/
theorem cp.holdsAll_of_nodup {α : Type} (key : α → Nat) (l : List α) (m : GoMap Nat α)
    (h : cp.holdsLast key l m) (hn : (l.map key).Nodup) : cp.holdsAll key l m := by
  intro r hr
  rw [h (key r)]
  have hmem : r ∈ l.filter (fun x => key x = key r) := by
    simp only [List.mem_filter, decide_eq_true_eq]; exact ⟨hr, trivial⟩
  cases hg : (l.filter (fun x => decide (key x = key r))).getLast? with
  | none =>
    rw [List.getLast?_eq_none_iff] at hg
    rw [hg] at hmem
    cases hmem
  | some q =>
    have hq : q ∈ l.filter (fun x => decide (key x = key r)) := List.mem_of_mem_getLast? hg
    simp only [List.mem_filter, decide_eq_true_eq] at hq
    rw [List.inj_on_of_nodup_map hn hq.1 hr hq.2]

/-! ## The claims C21 to C30 -/

set_option maxRecDepth 1000000 in
/-- C21, the code at the failing input: the CP function `cpReady` creates a
session for the example rules on a UP function that holds no session, over a
lossless channel with the mock dataplane, and deletes it.  `CreateSession`
returns SEID 1 and records `RemoteSEID = 0`, while the UP function holds the
session under its local SEID 1.  The Session-Deletion-Request carries header
SEID 0 (the recorded remote SEID), the response is accepted and the CP session
map is empty; but the UP session map still holds session 1, the dataplane
received `DeleteSession(0)`, not `DeleteSession(1)`, and the mock dataplane
still holds the rules of session 1. -/
theorem C21_deletion_leaves_up_session :
    ((endToEnd cpReady upFresh nodeUP [pdrDHCP] [farPunt]).toOption.map
      (fun r => (r.created, r.cpSession.map (fun s => s.RemoteSEID))))
      = some (.returned 1 none, some 0) ∧
    ((endToEnd cpReady upFresh nodeUP [pdrDHCP] [farPunt]).toOption.map
      (fun r => (r.upCreated.sessions.keys, r.rulesInstalled)))
      = some ([1], some (1, 1, 0, 0)) ∧
    ((endToEnd cpReady upFresh nodeUP [pdrDHCP] [farPunt]).toOption.map
      (fun r => r.deletionSent))
      = some [⟨(NewSessionDeletionRequest 2 0).Marshal.2.1, addrPeer⟩] ∧
    ((endToEnd cpReady upFresh nodeUP [pdrDHCP] [farPunt]).toOption.map
      (fun r => (r.deleted, r.cpEnd.sessions.keys))) = some (.returned none, []) ∧
    ((endToEnd cpReady upFresh nodeUP [pdrDHCP] [farPunt]).toOption.map
      (fun r => (r.upEnd.sessions.keys, (r.upEnd.sessions.get 1).map (fun s => s.LocalSEID))))
      = some ([1], some 1) ∧
    ((endToEnd cpReady upFresh nodeUP [pdrDHCP] [farPunt]).toOption.map
      (fun r => (r.deletionCalls, r.mockEnd.GetSessionRules 1)))
      = some ([.DeleteSession 0], some (1, 1, 0, 0)) := by
  refine ⟨?_, ?_, ?_, ?_, ?_, ?_⟩ <;> decide

set_option maxRecDepth 1000000 in
/-- C22, counterexample: on a dataplane where every `InstallPDR` returns an
error, the UP function handling the example request makes the `InstallPDR`
call, which fails, and still inserts the session under SEID 1 and answers with
cause RequestAccepted (1), not RuleCreationModificationFailure (73). -/
theorem C22_counterexample :
    ((upFresh.establishOn dpFailPDR [] msgEstablish).toOption.map (fun r => r.2.1))
      = some [(.InstallPDR 1 pdrParsed, true),
              (.InstallFAR 1 { ID := 1, ApplyAction := 10 }, false)] ∧
    ((upFresh.establishOn dpFailPDR [] msgEstablish).toOption.map
      (fun r => (r.1.sessions.get 1).isSome)) = some true ∧
    ((upFresh.establishOn dpFailPDR [] msgEstablish).toOption.map
      (fun r => r.2.2.FindIE IETypeCause)) = some (some (NewCauseIE CauseRequestAccepted)) ∧
    NewCauseIE CauseRequestAccepted ≠ NewCauseIE CauseRuleCreationModificationFailure := by
  refine ⟨?_, ?_, ?_, ?_⟩ <;> decide

/-- C22 (amended): on every session map and for every request whose IE values
are shorter than 65536 bytes (as in every decoded message), whatever the
dataplane returns for the calls made (`dp` is any dataplane, failing or not),
the handler returns, the session is stored under the SEID allocated, the
other sessions are unchanged, and the response is a
Session-Establishment-Response with cause RequestAccepted; the calls made are
installs only. -/
theorem C22_session_inserted_whatever_installs_return (dp : up.Dataplane)
    (before : List up.DataplaneCall) (u : up.UPFunction) (msg : Message)
    (hu : u.sessions.entries.length + 1 < 2 ^ 64)
    (hm : ∀ ie ∈ msg.IEs, ie.Value.length < 65536) :
    ∃ seid u' results resp, u.allocSEID = .ret seid ∧
      u.establishOn dp before msg = .ret (u', results, resp) ∧
      (∃ s, u'.sessions.get seid = some s ∧ s.LocalSEID = seid) ∧
      (∀ k, k ≠ seid → u'.sessions.get k = u.sessions.get k) ∧
      resp.Header.MessageType = MsgTypeSessionEstablishmentResponse ∧
      resp.FindIE IETypeCause = some (NewCauseIE CauseRequestAccepted) ∧
      (∀ c ∈ results, c.1.isInstall = true) := by
  obtain ⟨seid, session, pdrCalls, farCalls, hs, _, he, hl, _, hp, hf⟩ :=
    up.handleSessionEstablishmentRequest_eq u msg hu hm
  refine ⟨seid, { u with sessions := u.sessions.set seid session },
    dp.results before (pdrCalls ++ farCalls),
    NewSessionEstablishmentResponse msg.Header.SequenceNumber msg.Header.SEID
      CauseRequestAccepted seid, hs, ?_,
    ⟨session, GoMap.get_set_same _ _ _, hl⟩, fun k hk => GoMap.get_set_ne _ _ _ _ hk,
    rfl, rfl, ?_⟩
  · simp only [up.UPFunction.establishOn, he, Go.ret_bind, Go.pure_eq_ret]
  · intro c hc
    have hmem : c.1 ∈ (dp.results before (pdrCalls ++ farCalls)).map Prod.fst :=
      List.mem_map_of_mem Prod.fst hc
    rw [up.Dataplane.results_calls] at hmem
    rcases List.mem_append.mp hmem with h | h
    · obtain ⟨pdr, hpdr⟩ := hp _ h; rw [hpdr]; rfl
    · obtain ⟨far, hfar⟩ := hf _ h; rw [hfar]; rfl

set_option maxRecDepth 1000000 in
/-- C22 (amended), instance: the example request on a UP function holding no
session, with a dataplane on which every `InstallPDR` fails. -/
theorem C22_session_inserted_whatever_installs_return_witness :
    upFresh.sessions.entries.length + 1 < 2 ^ 64 ∧
    (∀ ie ∈ msgEstablish.IEs, ie.Value.length < 65536) ∧
    ∃ seid u' results resp, upFresh.allocSEID = .ret seid ∧
      upFresh.establishOn dpFailPDR [] msgEstablish = .ret (u', results, resp) ∧
      (∃ s, u'.sessions.get seid = some s ∧ s.LocalSEID = seid) ∧
      (∀ k, k ≠ seid → u'.sessions.get k = upFresh.sessions.get k) ∧
      resp.Header.MessageType = MsgTypeSessionEstablishmentResponse ∧
      resp.FindIE IETypeCause = some (NewCauseIE CauseRequestAccepted) ∧
      (∀ c ∈ results, c.1.isInstall = true) :=
  ⟨by decide, by decide,
    C22_session_inserted_whatever_installs_return dpFailPDR [] upFresh msgEstablish
      (by decide) (by decide)⟩

set_option maxRecDepth 1000000 in
/-- C23, counterexample: on a dataplane where every `InstallFAR` returns an
error, the UP function handling the example request installs PDR 1, then
makes the `InstallFAR` call, which fails; the calls it has made when it
returns are these two, and no `RemovePDR` is among them. -/
theorem C23_counterexample :
    ((upFresh.establishOn dpFailFAR [] msgEstablish).toOption.map (fun r => r.2.1))
      = some [(.InstallPDR 1 pdrParsed, false),
              (.InstallFAR 1 { ID := 1, ApplyAction := 10 }, true)] ∧
    ((upFresh.establishOn dpFailFAR [] msgEstablish).toOption.map
      (fun r => decide (up.DataplaneCall.RemovePDR 1 1 ∈ r.2.1.map Prod.fst))) = some false := by
  refine ⟨?_, ?_⟩ <;> decide

/-- C23 (amended): whatever the dataplane returns for the calls made, and so
also when an `InstallFAR` fails after some PDRs were installed, the handler
returns having made only install calls for the session, the `InstallPDR`
calls first and the `InstallFAR` calls after them: no `RemovePDR` and no
`RemoveFAR` is made, and the session is stored. -/
theorem C23_no_remove_after_failed_install (dp : up.Dataplane)
    (before : List up.DataplaneCall) (u : up.UPFunction) (msg : Message)
    (hu : u.sessions.entries.length + 1 < 2 ^ 64)
    (hm : ∀ ie ∈ msg.IEs, ie.Value.length < 65536) :
    ∃ seid u' results resp, u.allocSEID = .ret seid ∧
      u.establishOn dp before msg = .ret (u', results, resp) ∧
      (∀ c ∈ results, c.1.isRemove = false) ∧
      (∃ pdrCalls farCalls, results.map Prod.fst = pdrCalls ++ farCalls ∧
        (∀ c ∈ pdrCalls, ∃ pdr, c = .InstallPDR seid pdr) ∧
        (∀ c ∈ farCalls, ∃ far, c = .InstallFAR seid far)) ∧
      (u'.sessions.get seid).isSome = true := by
  obtain ⟨seid, session, pdrCalls, farCalls, hs, _, he, _, _, hp, hf⟩ :=
    up.handleSessionEstablishmentRequest_eq u msg hu hm
  refine ⟨seid, { u with sessions := u.sessions.set seid session },
    dp.results before (pdrCalls ++ farCalls),
    NewSessionEstablishmentResponse msg.Header.SequenceNumber msg.Header.SEID
      CauseRequestAccepted seid, hs, ?_, ?_,
    ⟨pdrCalls, farCalls, up.Dataplane.results_calls dp _ _, hp, hf⟩, ?_⟩
  · simp only [up.UPFunction.establishOn, he, Go.ret_bind, Go.pure_eq_ret]
  · intro c hc
    have hmem : c.1 ∈ (dp.results before (pdrCalls ++ farCalls)).map Prod.fst :=
      List.mem_map_of_mem Prod.fst hc
    rw [up.Dataplane.results_calls] at hmem
    rcases List.mem_append.mp hmem with h | h
    · obtain ⟨pdr, hpdr⟩ := hp _ h; rw [hpdr]; rfl
    · obtain ⟨far, hfar⟩ := hf _ h; rw [hfar]; rfl
  · simp only [GoMap.get_set_same, Option.isSome_some]

set_option maxRecDepth 1000000 in
/-- C23 (amended), instance: the example request on a UP function holding no
session, with a dataplane on which every `InstallFAR` fails. -/
theorem C23_no_remove_after_failed_install_witness :
    upFresh.sessions.entries.length + 1 < 2 ^ 64 ∧
    (∀ ie ∈ msgEstablish.IEs, ie.Value.length < 65536) ∧
    ∃ seid u' results resp, upFresh.allocSEID = .ret seid ∧
      upFresh.establishOn dpFailFAR [] msgEstablish = .ret (u', results, resp) ∧
      (∀ c ∈ results, c.1.isRemove = false) ∧
      (∃ pdrCalls farCalls, results.map Prod.fst = pdrCalls ++ farCalls ∧
        (∀ c ∈ pdrCalls, ∃ pdr, c = .InstallPDR seid pdr) ∧
        (∀ c ∈ farCalls, ∃ far, c = .InstallFAR seid far)) ∧
      (u'.sessions.get seid).isSome = true :=
  ⟨by decide, by decide,
    C23_no_remove_after_failed_install dpFailFAR [] upFresh msgEstablish
      (by decide) (by decide)⟩

set_option maxRecDepth 1000000 in
/-- C24, the code at the failing input: the Session-Establishment-Request of
the example rules holds one Create-PDR whose Precedence IE has the 4-byte
value `[0, 0, 3, 232]`, that is 1000.  The PDR the UP function stores in the
session and passes to `InstallPDR` has `Precedence = 0`. -/
theorem C24_precedence_stored_as_zero :
    msgEstablish.FindAllIEs IETypeCreatePDR
      = [{ Type_ := IETypeCreatePDR, Value := iePayload createPDRChildren }] ∧
    createPDRChildren.filter (fun ie => ie.Type_ = IETypePrecedence)
      = [{ Type_ := IETypePrecedence, Value := [0, 0, 3, 232] }] ∧
    (getUint32 (Slice.ofBytes [0, 0, 3, 232])).toOption = some 1000 ∧
    ((upFresh.handleSessionEstablishmentRequest msgEstablish).toOption.map
      (fun r => (r.1.sessions.get 1).map (fun s => (s.PDRs.get 1).map (fun p => p.Precedence))))
      = some (some (some 0)) ∧
    ((upFresh.handleSessionEstablishmentRequest msgEstablish).toOption.map
      (fun r => r.2.1))
      = some [.InstallPDR 1 pdrParsed, .InstallFAR 1 { ID := 1, ApplyAction := 10 }] ∧
    pdrParsed.Precedence = 0 := by
  refine ⟨?_, ?_, ?_, ?_, ?_, ?_⟩ <;> decide

set_option maxRecDepth 1000000 in
/-- C25, counterexample: the CP function `cpOneSession` holds the association
`up-node-1` and session 1 of that node; after the
Association-Release-Request of `up-node-1` the association is gone and
session 1, whose NodeID is `up-node-1`, is still in the session map. -/
theorem C25_counterexample :
    (cpOneSession.sessions.get 1).map (fun s => s.NodeID) = some nodeUP ∧
    ((cpOneSession.handleAssociationReleaseRequest (NewAssociationReleaseRequest 9 nodeUP)
        addrPeer false).toOption.map
      (fun r => (r.1.associations.get nodeUP, (r.1.sessions.get 1).map (fun s => s.NodeID))))
      = some (none, some nodeUP) := by
  refine ⟨?_, ?_⟩ <;> decide

/-- C25 (amended): for an Association-Release-Request whose Node-ID IE has a
value of at least one byte, with `N` the value after the flag byte, the
handler removes the association keyed `N`, leaves the other associations and
the whole session map unchanged (the sessions whose NodeID is `N` stay, and so
do those of other node-ids), and answers with an
Association-Release-Response carrying RequestAccepted. -/
theorem C25_release_removes_association_only (c : cp.CPFunction) (msg : Message)
    (addr : UDPAddr) (nodeIDIE : IE)
    (hn : msg.FindIE IETypeNodeID = some nodeIDIE) (hv : 1 ≤ nodeIDIE.Value.length) :
    ∃ c', c.handleAssociationReleaseRequest msg addr false
        = .ret (c', [⟨(NewAssociationReleaseResponse msg.Header.SequenceNumber c.nodeID
            CauseRequestAccepted).Marshal.2.1, addr⟩], none) ∧
      c'.associations.get (nodeIDIE.Value.drop 1) = none ∧
      (∀ k, k ≠ nodeIDIE.Value.drop 1 → c'.associations.get k = c.associations.get k) ∧
      c'.sessions = c.sessions ∧
      (∀ seid s, c.sessions.get seid = some s → s.NodeID = nodeIDIE.Value.drop 1 →
        c'.sessions.get seid = some s) := by
  refine ⟨_, cp.handleAssociationReleaseRequest_eq c msg addr false nodeIDIE hn hv,
    GoMap.get_delete_same _ _, fun k hk => GoMap.get_delete_ne _ _ _ hk, rfl,
    fun seid s hs _ => hs⟩

set_option maxRecDepth 1000000 in
/-- C25 (amended), instance: the release request of `up-node-1` handled by
`cpOneSession`. -/
theorem C25_release_removes_association_only_witness :
    (NewAssociationReleaseRequest 9 nodeUP).FindIE IETypeNodeID = some (NewNodeIDIE nodeUP) ∧
    1 ≤ (NewNodeIDIE nodeUP).Value.length ∧
    ∃ c', cpOneSession.handleAssociationReleaseRequest (NewAssociationReleaseRequest 9 nodeUP)
          addrPeer false
        = .ret (c', [⟨(NewAssociationReleaseResponse
            (NewAssociationReleaseRequest 9 nodeUP).Header.SequenceNumber cpOneSession.nodeID
            CauseRequestAccepted).Marshal.2.1, addrPeer⟩], none) ∧
      c'.associations.get ((NewNodeIDIE nodeUP).Value.drop 1) = none ∧
      (∀ k, k ≠ (NewNodeIDIE nodeUP).Value.drop 1 →
        c'.associations.get k = cpOneSession.associations.get k) ∧
      c'.sessions = cpOneSession.sessions ∧
      (∀ seid s, cpOneSession.sessions.get seid = some s →
        s.NodeID = (NewNodeIDIE nodeUP).Value.drop 1 → c'.sessions.get seid = some s) :=
  ⟨by decide, by decide,
    C25_release_removes_association_only cpOneSession (NewAssociationReleaseRequest 9 nodeUP)
      addrPeer (NewNodeIDIE nodeUP) (by decide) (by decide)⟩

set_option maxRecDepth 1000000 in
/-- C26, counterexample: the Association-Setup-Request without a Node-ID IE
is not answered: the handler writes no datagram, returns an error and leaves
the CP function as it was. -/
theorem C26_counterexample :
    msgSetupNoNodeID.FindIE IETypeNodeID = none ∧
    cpReady.handleAssociationSetupRequest msgSetupNoNodeID addrPeer false
      = .ret (cpReady, [], some .noNodeID) := by
  refine ⟨?_, ?_⟩ <;> decide

/-- C26 (amended): an Association-Setup-Request that lacks the Node-ID IE or
the Recovery-Time-Stamp IE is dropped without a response: the handler writes
no datagram, returns the error "no node ID" (or, the Node-ID being there, "no
recovery timestamp"), and leaves the CP function unchanged. -/
theorem C26_setup_without_mandatory_ie_is_dropped (c : cp.CPFunction) (msg : Message)
    (addr : UDPAddr) (wf : Bool) :
    (msg.FindIE IETypeNodeID = none →
      c.handleAssociationSetupRequest msg addr wf = .ret (c, [], some .noNodeID)) ∧
    ((msg.FindIE IETypeNodeID).isSome = true → msg.FindIE IETypeRecoveryTimeStamp = none →
      c.handleAssociationSetupRequest msg addr wf = .ret (c, [], some .noRecoveryTimeStamp)) := by
  constructor
  · intro hn
    simp only [cp.CPFunction.handleAssociationSetupRequest, hn, Go.pure_eq_ret]
  · intro hn ht
    obtain ⟨ie, hie⟩ := Option.isSome_iff_exists.mp hn
    simp only [cp.CPFunction.handleAssociationSetupRequest, hie, ht, Go.pure_eq_ret]

set_option maxRecDepth 1000000 in
/-- C27, the code at the failing input: the 20-byte datagram
`bytesSetupEmptyNodeID` decodes to an Association-Setup-Request that holds a
Node-ID IE (with length 0) and a Recovery-Time-Stamp IE.  The handler does not
return: `nodeIDIE.Value[1:]` panics on the empty value, and no association is
stored. -/
theorem C27_setup_panics_on_empty_node_id :
    Message.Unmarshal {} (Slice.ofBytes bytesSetupEmptyNodeID)
      = .ret (msgSetupEmptyNodeID, none) ∧
    msgSetupEmptyNodeID.FindIE IETypeNodeID = some { Type_ := IETypeNodeID, Value := [] } ∧
    (msgSetupEmptyNodeID.FindIE IETypeRecoveryTimeStamp).isSome = true ∧
    cpReady.handleAssociationSetupRequest msgSetupEmptyNodeID addrPeer false = .panic := by
  refine ⟨?_, ?_, ?_, ?_⟩ <;> decide

/-- C28: `CreateSession` returns on every input.  On each failure path (no
association for the node id; `SendRequest` returns an error; the response has
no Cause IE; `GetCause` fails or the cause is not RequestAccepted) it returns
an error.  Whenever it has not returned success, the session map and the
store are unchanged; and it returns success only when `SendRequest` returned
a response whose Cause IE reads RequestAccepted. -/
theorem C28_create_session_failure_paths (c : cp.CPFunction) (nodeID : List Nat)
    (pdrs : List cp.PDR) (fars : List cp.FAR) (qers : List cp.QER) (urrs : List cp.URR)
    (events : Message → List Event) (wf : Nat → Bool) :
    ∃ c' sent out, c.CreateSession nodeID pdrs fars qers urrs events wf = .ret (c', sent, out) ∧
      (c.associations.get nodeID = none →
        c' = c ∧ sent = [] ∧ out = .returned 0 (some .noAssociation)) ∧
      (∀ assoc, c.associations.get nodeID = some assoc →
        (∀ r e, (c.createSend assoc pdrs fars qers urrs events wf).2.2.2
            = .returned r (some e) → out = .returned 0 (some (.sendRequest e))) ∧
        (∀ resp, (c.createSend assoc pdrs fars qers urrs events wf).2.2.2
            = .returned (some resp) none → resp.FindIE IETypeCause = none →
          out = .returned 0 (some .noCauseIE)) ∧
        (∀ resp causeIE cause err, (c.createSend assoc pdrs fars qers urrs events wf).2.2.2
            = .returned (some resp) none → resp.FindIE IETypeCause = some causeIE →
          causeIE.GetCause = .ret (cause, err) →
          (err.isSome = true ∨ cause ≠ CauseRequestAccepted) →
          out = .returned 0 (some (.rejected cause)))) ∧
      ((∀ seid, out ≠ .returned seid none) →
        c'.sessions = c.sessions ∧ c'.store = c.store) ∧
      (∀ seid, out = .returned seid none →
        ∃ assoc resp causeIE, c.associations.get nodeID = some assoc ∧
          (c.createSend assoc pdrs fars qers urrs events wf).2.2.2
            = .returned (some resp) none ∧
          resp.FindIE IETypeCause = some causeIE ∧
          causeIE.GetCause = .ret (CauseRequestAccepted, none)) := by
  cases ha : c.associations.get nodeID with
  | none =>
    refine ⟨c, [], .returned 0 (some .noAssociation), ?_, fun _ => ⟨rfl, rfl, rfl⟩,
      (fun assoc h => by cases h), fun _ => ⟨rfl, rfl⟩, (fun seid h => by cases h)⟩
    simp only [cp.CPFunction.CreateSession, ha]; rfl
  | some assoc =>
    obtain ⟨t, m, sent, o, hS⟩ : ∃ t m sent o,
        c.createSend assoc pdrs fars qers urrs events wf = (t, m, sent, o) :=
      ⟨_, _, _, _, rfl⟩
    have H := cp.createSession_cases c nodeID pdrs fars qers urrs events wf assoc ha
      t m sent o hS
    have e : (c.createSend assoc pdrs fars qers urrs events wf).2.2.2 = o := by rw [hS]
    have hne : o ≠ .returned none none := by
      rw [← e]
      exact Transport.sendRequest_outcome c.transport
        (cp.establishmentRequest pdrs fars qers urrs) assoc.RemoteAddr c.config.RetransmitN1
        (events (Transport.SendRequest.register c.transport
          (cp.establishmentRequest pdrs fars qers urrs) assoc.RemoteAddr).2) wf
    cases o with
    | blocked =>
      refine ⟨_, sent, .blocked, H.1 rfl, (fun h => by cases h), ?_, (fun _ => ⟨rfl, rfl⟩),
        (fun seid h => by cases h)⟩
      intro assoc' h'
      cases h'
      rw [e]
      exact ⟨(fun r e h => by cases h), (fun resp h => by cases h),
        (fun resp causeIE cause err h => by cases h)⟩
    | returned r err =>
      cases err with
      | some se =>
        refine ⟨_, sent, _, H.2.1 r se rfl, (fun h => by cases h), ?_,
          (fun _ => ⟨rfl, rfl⟩), (fun seid h => by cases h)⟩
        intro assoc' h'
        cases h'
        rw [e]
        exact ⟨(fun r e h => by cases h; rfl), (fun resp h => by cases h),
          (fun resp causeIE cause err h => by cases h)⟩
      | none =>
        cases r with
        | none => exact absurd rfl hne
        | some resp =>
          cases hc : resp.FindIE IETypeCause with
          | none =>
            refine ⟨_, sent, _, H.2.2.1 resp rfl hc, (fun h => by cases h), ?_,
              (fun _ => ⟨rfl, rfl⟩), (fun seid h => by cases h)⟩
            intro assoc' h'
            cases h'
            rw [e]
            refine ⟨(fun r e h => by cases h), fun resp' h _ => rfl, ?_⟩
            intro resp' causeIE cause err h h2
            cases h
            rw [hc] at h2
            cases h2
          | some causeIE =>
            obtain ⟨cause, gerr, hg⟩ := IE.getCause_returns causeIE
            by_cases hcond : gerr.isSome = true ∨ cause ≠ CauseRequestAccepted
            · refine ⟨_, sent, _, (H.2.2.2 resp causeIE cause gerr rfl hc hg).1 hcond,
                (fun h => by cases h), ?_, (fun _ => ⟨rfl, rfl⟩), (fun seid h => by cases h)⟩
              intro assoc' h'
              cases h'
              rw [e]
              refine ⟨(fun r e h => by cases h), ?_, ?_⟩
              · intro resp' h h2
                cases h
                rw [hc] at h2
                cases h2
              · intro resp' causeIE' cause' err' h h2 h3 _
                cases h
                rw [hc] at h2
                cases h2
                rw [hg] at h3
                cases h3
                rfl
            · have hgerr : gerr = none := by
                cases gerr with
                | none => rfl
                | some x => exact absurd (Or.inl rfl) hcond
              have hcause : cause = CauseRequestAccepted := by
                by_contra hcon; exact hcond (Or.inr hcon)
              refine ⟨_, sent, _, (H.2.2.2 resp causeIE cause gerr rfl hc hg).2 hcond,
                (fun h => by cases h), ?_, (fun h => absurd rfl (h c.nextSEID)), ?_⟩
              · intro assoc' h'
                cases h'
                rw [e]
                refine ⟨(fun r e h => by cases h), ?_, ?_⟩
                · intro resp' h h2
                  cases h
                  rw [hc] at h2
                  cases h2
                · intro resp' causeIE' cause' err' h h2 h3 h4
                  cases h
                  rw [hc] at h2
                  cases h2
                  rw [hg] at h3
                  cases h3
                  exact absurd h4 hcond
              · intro seid _
                refine ⟨assoc, resp, causeIE, rfl, e, hc, ?_⟩
                rw [hg, hgerr, hcause]

set_option maxRecDepth 1000000 in
/-- C29, counterexample: `CreateSession` is given two PDRs with id 1,
`pdrDHCP` (precedence 1000) and `pdrDHCP2` (precedence 2000), and the peer
accepts.  The PDR map of the recorded session has the single key 1 and holds
`pdrDHCP2`: the given PDR `pdrDHCP` is not in it. -/
theorem C29_counterexample :
    ((cpReady.CreateSession nodeUP [pdrDHCP, pdrDHCP2] [farPunt] [] [] (losslessUP upFresh)
        (fun _ => false)).toOption.map (fun r => r.2.2)) = some (.returned 1 none) ∧
    ((cpReady.CreateSession nodeUP [pdrDHCP, pdrDHCP2] [farPunt] [] [] (losslessUP upFresh)
        (fun _ => false)).toOption.map
      (fun r => (r.1.sessions.get 1).map (fun s => (s.PDRs.keys, s.PDRs.get 1))))
      = some (some ([1], some pdrDHCP2)) ∧
    pdrDHCP ≠ pdrDHCP2 := by
  refine ⟨?_, ?_, ?_⟩ <;> decide

/-- C29 (amended): with an association for the node id, the request of
`CreateSession` has S = 1, header SEID 0 and, as its IEs, one Create-PDR
group per PDR, then one Create-FAR group per FAR, one Create-QER group per
QER and one Create-URR group per URR, in the order given; its encoding with
the sequence number of the transport is the first datagram written (when the
write succeeds).  When `SendRequest` returns a response whose Cause IE reads
RequestAccepted, `CreateSession` returns the SEID allocated (the value of
`nextSEID`), and the session map then maps this SEID to a session with that
local SEID, the header SEID of the response as remote SEID, the node id, and
rule maps that hold for each id the last of the given rules with that id and
nothing else: every given rule, when the ids of its kind are pairwise
distinct.  The other sessions are unchanged. -/
theorem C29_create_session_records_session (c : cp.CPFunction) (nodeID : List Nat)
    (pdrs : List cp.PDR) (fars : List cp.FAR) (qers : List cp.QER) (urrs : List cp.URR)
    (events : Message → List Event) (wf : Nat → Bool) (assoc : cp.Association)
    (ha : c.associations.get nodeID = some assoc) :
    (cp.establishmentRequest pdrs fars qers urrs).Header.SEIDPresent = true ∧
    (cp.establishmentRequest pdrs fars qers urrs).Header.SEID = 0 ∧
    (cp.establishmentRequest pdrs fars qers urrs).Header.MessageType
      = MsgTypeSessionEstablishmentRequest ∧
    (∃ iP iF iQ iU, (cp.establishmentRequest pdrs fars qers urrs).IEs = iP ++ iF ++ iQ ++ iU ∧
      iP.length = pdrs.length ∧ (∀ ie ∈ iP, ie.Type_ = IETypeCreatePDR) ∧
      iF.length = fars.length ∧ (∀ ie ∈ iF, ie.Type_ = IETypeCreateFAR) ∧
      iQ.length = qers.length ∧ (∀ ie ∈ iQ, ie.Type_ = IETypeCreateQER) ∧
      iU.length = urrs.length ∧ (∀ ie ∈ iU, ie.Type_ = IETypeCreateURR)) ∧
    (wf 0 = false → ∃ more, (c.createSend assoc pdrs fars qers urrs events wf).2.2.1
      = ⟨(Message.Marshal
            { cp.establishmentRequest pdrs fars qers urrs with
              Header := { (cp.establishmentRequest pdrs fars qers urrs).Header with
                          SequenceNumber := c.transport.seqNum } }).2.1,
          assoc.RemoteAddr⟩ :: more) ∧
    (∀ resp causeIE,
      (c.createSend assoc pdrs fars qers urrs events wf).2.2.2 = .returned (some resp) none →
      resp.FindIE IETypeCause = some causeIE →
      causeIE.GetCause = .ret (CauseRequestAccepted, none) →
      ∃ c' session,
        c.CreateSession nodeID pdrs fars qers urrs events wf
          = .ret (c', (c.createSend assoc pdrs fars qers urrs events wf).2.2.1,
              .returned c.nextSEID none) ∧
        c'.sessions.get c.nextSEID = some session ∧
        (∀ k, k ≠ c.nextSEID → c'.sessions.get k = c.sessions.get k) ∧
        session.LocalSEID = c.nextSEID ∧ session.RemoteSEID = resp.Header.SEID ∧
        session.NodeID = nodeID ∧
        cp.holdsLast (fun r => r.ID) pdrs session.PDRs ∧
        cp.holdsLast (fun r => r.ID) fars session.FARs ∧
        cp.holdsLast (fun r => r.ID) qers session.QERs ∧
        cp.holdsLast (fun r => r.ID) urrs session.URRs ∧
        ((pdrs.map (fun r => r.ID)).Nodup → cp.holdsAll (fun r => r.ID) pdrs session.PDRs) ∧
        ((fars.map (fun r => r.ID)).Nodup → cp.holdsAll (fun r => r.ID) fars session.FARs) ∧
        ((qers.map (fun r => r.ID)).Nodup → cp.holdsAll (fun r => r.ID) qers session.QERs) ∧
        ((urrs.map (fun r => r.ID)).Nodup → cp.holdsAll (fun r => r.ID) urrs session.URRs)) := by
  refine ⟨rfl, rfl, rfl, ?_, ?_, ?_⟩
  · obtain ⟨iP, hP, hPl, hPt⟩ := cp.marshalPDRs_eq pdrs
    obtain ⟨iF, hF, hFl, hFt⟩ := cp.marshalFARs_eq fars
    refine ⟨iP, iF,
      qers.map (fun q => { Type_ := IETypeCreateQER, Value := iePayload [NewQER_ID_IE q.ID] }),
      urrs.map (fun r => { Type_ := IETypeCreateURR, Value := iePayload [NewURR_ID_IE r.ID] }),
      ?_, hPl, hPt, hFl, hFt, ?_, ?_, ?_, ?_⟩
    · simp only [cp.establishmentRequest, NewSessionEstablishmentRequest, hP, hF,
        cp.marshalQERs_eq, cp.marshalURRs_eq]
    · simp only [List.length_map]
    · intro ie hie
      obtain ⟨q, _, rfl⟩ := List.mem_map.mp hie
      rfl
    · simp only [List.length_map]
    · intro ie hie
      obtain ⟨q, _, rfl⟩ := List.mem_map.mp hie
      rfl
  · intro hw
    exact Transport.sendRequest_first c.transport (cp.establishmentRequest pdrs fars qers urrs)
      assoc.RemoteAddr c.config.RetransmitN1 _ wf hw
  · intro resp causeIE hS hc hg
    obtain ⟨t, m, sent, o, hS'⟩ : ∃ t m sent o,
        c.createSend assoc pdrs fars qers urrs events wf = (t, m, sent, o) :=
      ⟨_, _, _, _, rfl⟩
    have H := cp.createSession_cases c nodeID pdrs fars qers urrs events wf assoc ha
      t m sent o hS'
    rw [hS'] at hS ⊢
    have hsucc := (H.2.2.2 resp causeIE CauseRequestAccepted none hS hc hg).2
      (by simp)
    refine ⟨_, cp.recordedSession c.nextSEID resp nodeID pdrs fars qers urrs, hsucc,
      GoMap.get_set_same _ _ _, fun k hk => GoMap.get_set_ne _ _ _ _ hk, rfl, rfl, rfl,
      cp.fillMap_holdsLast _ _, cp.fillMap_holdsLast _ _, cp.fillMap_holdsLast _ _,
      cp.fillMap_holdsLast _ _,
      fun hn => cp.holdsAll_of_nodup _ _ _ (cp.fillMap_holdsLast _ _) hn,
      fun hn => cp.holdsAll_of_nodup _ _ _ (cp.fillMap_holdsLast _ _) hn,
      fun hn => cp.holdsAll_of_nodup _ _ _ (cp.fillMap_holdsLast _ _) hn,
      fun hn => cp.holdsAll_of_nodup _ _ _ (cp.fillMap_holdsLast _ _) hn⟩

set_option maxRecDepth 1000000 in
/-- C29 (amended), instance: `cpReady` creates the session of the example
rules on the UP function `upFresh`, which answers `respEstablish`. -/
theorem C29_create_session_records_session_witness :
    cpReady.associations.get nodeUP = some assocUP ∧
    (cpReady.createSend assocUP [pdrDHCP] [farPunt] [] [] (losslessUP upFresh)
      (fun _ => false)).2.2.2 = .returned (some respEstablish) none ∧
    respEstablish.FindIE IETypeCause = some (NewCauseIE CauseRequestAccepted) ∧
    (NewCauseIE CauseRequestAccepted).GetCause = .ret (CauseRequestAccepted, none) ∧
    ∃ c' session,
      cpReady.CreateSession nodeUP [pdrDHCP] [farPunt] [] [] (losslessUP upFresh)
          (fun _ => false)
        = .ret (c', (cpReady.createSend assocUP [pdrDHCP] [farPunt] [] [] (losslessUP upFresh)
            (fun _ => false)).2.2.1, .returned cpReady.nextSEID none) ∧
      c'.sessions.get cpReady.nextSEID = some session ∧
      (∀ k, k ≠ cpReady.nextSEID → c'.sessions.get k = cpReady.sessions.get k) ∧
      session.LocalSEID = cpReady.nextSEID ∧ session.RemoteSEID = respEstablish.Header.SEID ∧
      session.NodeID = nodeUP ∧
      cp.holdsLast (fun r => r.ID) [pdrDHCP] session.PDRs ∧
      cp.holdsLast (fun r => r.ID) [farPunt] session.FARs ∧
      cp.holdsLast (fun r => r.ID) ([] : List cp.QER) session.QERs ∧
      cp.holdsLast (fun r => r.ID) ([] : List cp.URR) session.URRs ∧
      ((([pdrDHCP] : List cp.PDR).map (fun r => r.ID)).Nodup →
        cp.holdsAll (fun r => r.ID) [pdrDHCP] session.PDRs) ∧
      ((([farPunt] : List cp.FAR).map (fun r => r.ID)).Nodup →
        cp.holdsAll (fun r => r.ID) [farPunt] session.FARs) ∧
      (((([] : List cp.QER)).map (fun r => r.ID)).Nodup →
        cp.holdsAll (fun r => r.ID) ([] : List cp.QER) session.QERs) ∧
      (((([] : List cp.URR)).map (fun r => r.ID)).Nodup →
        cp.holdsAll (fun r => r.ID) ([] : List cp.URR) session.URRs) :=
  ⟨by decide, by decide, by decide, by decide,
    (C29_create_session_records_session cpReady nodeUP [pdrDHCP] [farPunt] [] []
      (losslessUP upFresh) (fun _ => false) assocUP (by decide)).2.2.2.2.2
      respEstablish (NewCauseIE CauseRequestAccepted) (by decide) (by decide) (by decide)⟩

/-- C30: on every session map (a Go map has fewer than `2^63` entries, so
fewer than `2^64 - 1`), `allocSEID` returns, and the value it returns is the
least positive integer that is not a key of the map: it is not 0, it is not a
key, and every smaller positive integer is a key. -/
theorem C30_alloc_seid_least_free (u : up.UPFunction)
    (h : u.sessions.entries.length + 1 < 2 ^ 64) :
    ∃ s, u.allocSEID = .ret s ∧ s ≠ 0 ∧ s ∉ u.sessions.keys ∧
      (∀ k, 1 ≤ k → k < s → k ∈ u.sessions.keys) ∧ isLeastFreeSEID u.sessions s := by
  obtain ⟨s, hs, hl, _⟩ := up.allocSEID_spec u h
  refine ⟨s, hs, by have := hl.1; omega, ?_, ?_, hl⟩
  · intro hmem
    have := GoMap.get_of_mem_keys u.sessions s hmem
    rw [hl.2.1] at this
    cases this
  · intro k hk1 hk2
    exact GoMap.mem_keys_of_get u.sessions k (hl.2.2 k hk1 hk2)

/-- C30, instance: a UP function holding the sessions 1, 2 and 4 allocates
3. -/
theorem C30_alloc_seid_least_free_witness :
    upThreeSessions.sessions.entries.length + 1 < 2 ^ 64 ∧
    upThreeSessions.allocSEID = .ret 3 ∧
    ∃ s, upThreeSessions.allocSEID = .ret s ∧ s ≠ 0 ∧ s ∉ upThreeSessions.sessions.keys ∧
      (∀ k, 1 ≤ k → k < s → k ∈ upThreeSessions.sessions.keys) ∧
      isLeastFreeSEID upThreeSessions.sessions s :=
  ⟨by decide, by decide, C30_alloc_seid_least_free upThreeSessions (by decide)⟩

/-! ## SDF filters, IE loops, rule transfer: lemmas -/

theorem goIndex_of_lt {α : Type} (l : List α) (i : Nat) (d : α) (h : i < l.length) :
    goIndex l i = .ret (l.getD i d) := by
  simp [goIndex, List.getElem?_eq_getElem h, List.getD_eq_getElem?_getD]

theorem Go.bind_ret_id {α : Type} (x : Go α) (f : α → Go α) (hf : ∀ r, f r = .ret r) :
    (x >>= f) = x := by
  cases x with
  | ret r => exact hf r
  | panic => rfl
  | outOfFuel => rfl

/-- `parsePortRange` returns on every input; on success it has written the
two ports, below 65536, and nothing else. -/
theorem vpp.parsePortRange_returns (p : List Nat) (sdf : vpp.SDFFilter) :
    ∃ r, vpp.parsePortRange p sdf = .ret r ∧
      ∀ s, r = .ok s → ∃ a b, s = { sdf with PortStart := a, PortEnd := b }
        ∧ a < 65536 ∧ b < 65536 := by
  unfold vpp.parsePortRange
  by_cases hc : strings.Contains p vpp.byteDash = true
  · simp only [hc, if_true]
    by_cases hl : (strings.Split p vpp.byteDash).length ≠ 2
    · simp only [if_pos hl, Go.pure_eq_ret]
      exact ⟨_, rfl, fun s h => by cases h⟩
    · have hl2 : (strings.Split p vpp.byteDash).length = 2 := by simpa using hl
      simp only [if_neg hl, Go.pure_eq_ret, Go.ret_bind,
        goIndex_of_lt (strings.Split p vpp.byteDash) 0 [] (by omega),
        goIndex_of_lt (strings.Split p vpp.byteDash) 1 [] (by omega)]
      cases h0 : strconv.ParseUint ((strings.Split p vpp.byteDash).getD 0 []) 16 with
      | none => exact ⟨_, rfl, fun s h => by cases h⟩
      | some a =>
        cases h1 : strconv.ParseUint ((strings.Split p vpp.byteDash).getD 1 []) 16 with
        | none => exact ⟨_, rfl, fun s h => by cases h⟩
        | some b =>
          refine ⟨_, rfl, fun s h => ?_⟩
          cases h
          exact ⟨_, _, rfl, Nat.mod_lt _ (by norm_num), Nat.mod_lt _ (by norm_num)⟩
  · simp only [hc, Bool.false_eq_true, if_false]
    cases h0 : strconv.ParseUint p 16 with
    | none => exact ⟨_, rfl, fun s h => by cases h⟩
    | some a =>
      refine ⟨_, rfl, fun s h => ?_⟩
      cases h
      exact ⟨_, _, rfl, Nat.mod_lt _ (by norm_num), Nat.mod_lt _ (by norm_num)⟩

set_option maxHeartbeats 4000000 in
/-- Closed form of `parseFlowDescription`. -/
theorem vpp.parseFlowDescription_eq (d : List Nat) :
    vpp.parseFlowDescription d =
      if (strings.Fields d).length < 7 then .ret (.error (.invalidFlowDescription d))
      else
        match vpp.protocolOf ((strings.Fields d).getD 2 []) with
        | none => .ret (.error (.invalidProtocol ((strings.Fields d).getD 2 [])))
        | some proto =>
          if (strings.Fields d).getD 3 [] ≠ vpp.strFrom then
            .ret (.error (.expectedFrom ((strings.Fields d).getD 3 [])))
          else if (strings.Fields d).getD 5 [] ≠ vpp.strTo then
            .ret (.error (.expectedTo ((strings.Fields d).getD 5 [])))
          else if (strings.Fields d).length > 7 then
            vpp.parsePortRange ((strings.Fields d).getD 7 []) (vpp.flowBase d proto)
          else .ret (.ok (vpp.flowBase d proto)) := by
  by_cases h7 : (strings.Fields d).length < 7
  · simp only [vpp.parseFlowDescription, if_pos h7, Go.pure_eq_ret]
  · rw [if_neg h7]
    unfold vpp.parseFlowDescription
    simp only [if_neg h7, Go.pure_eq_ret, Go.ret_bind,
      goIndex_of_lt (strings.Fields d) 0 [] (by omega),
      goIndex_of_lt (strings.Fields d) 1 [] (by omega),
      goIndex_of_lt (strings.Fields d) 2 [] (by omega),
      goIndex_of_lt (strings.Fields d) 3 [] (by omega),
      goIndex_of_lt (strings.Fields d) 4 [] (by omega),
      goIndex_of_lt (strings.Fields d) 5 [] (by omega),
      goIndex_of_lt (strings.Fields d) 6 [] (by omega)]
    simp only [vpp.protocolOf, vpp.flowBase]
    generalize strings.Contains ((strings.Fields d).getD 4 []) vpp.byteColon = c4
    generalize strings.Contains ((strings.Fields d).getD 6 []) vpp.byteColon = c6
    generalize strconv.ParseUint ((strings.Fields d).getD 2 []) 8 = pu
    generalize strings.ToLower ((strings.Fields d).getD 2 []) = lw
    by_cases h8 : (strings.Fields d).length > 7
    · simp only [if_pos h8, goIndex_of_lt (strings.Fields d) 7 [] h8, Go.ret_bind,
        ]
      generalize strings.Fields d = P
      split_ifs <;> cases pu <;> first | (with_reducible rfl) | exact Go.bind_ret_id _ _ (fun r => by cases r <;> rfl) | (simp only [Option.map] <;> first | (with_reducible rfl) | exact Go.bind_ret_id _ _ (fun r => by cases r <;> rfl))
    · simp only [if_neg h8]
      generalize strings.Fields d = P
      split_ifs <;> cases pu <;> first | (with_reducible rfl) | exact Go.bind_ret_id _ _ (fun r => by cases r <;> rfl) | (simp only [Option.map] <;> first | (with_reducible rfl) | exact Go.bind_ret_id _ _ (fun r => by cases r <;> rfl))

theorem getD_take_drop (l : List Nat) (lo n i : Nat) (h : i < n) :
    ((l.drop lo).take n).getD i 0 = l.getD (lo + i) 0 := by
  simp [List.getD_eq_getElem?_getD, List.getElem?_take, List.getElem?_drop, h]

theorem getUint32_slice (s : Slice) (lo : Nat) (h : lo + 4 ≤ s.vis.length) :
    (do getUint32 (← s.slice lo (lo + 4))) =
      .ret (s.vis.getD (lo + 3) 0 ||| (s.vis.getD (lo + 2) 0 <<< 8)
        ||| (s.vis.getD (lo + 1) 0 <<< 16) ||| (s.vis.getD lo 0 <<< 24)) := by
  rw [Slice.slice_of_le s lo (lo + 4) (by omega) h]
  have ix (i : Nat) (hi : i < 4) := Slice.index_window s.vis (s.vis.drop (lo + 4) ++ s.spare) lo 4 i h hi
  simp only [getUint32, ix 0 (by omega), ix 1 (by omega), ix 2 (by omega), ix 3 (by omega),
    Go.ret_bind, Go.pure_eq_ret, Nat.add_zero]

theorem getUint16_mk (v sp : List Nat) (lo : Nat) (h : lo + 2 ≤ v.length) :
    (do getUint16 (← (⟨v, sp⟩ : Slice).slice lo (lo + 2))) =
      .ret (v.getD (lo + 1) 0 ||| (v.getD lo 0 <<< 8)) :=
  getUint16_slice ⟨v, sp⟩ lo h

theorem getUint32_mk (v sp : List Nat) (lo : Nat) (h : lo + 4 ≤ v.length) :
    (do getUint32 (← (⟨v, sp⟩ : Slice).slice lo (lo + 4))) =
      .ret (v.getD (lo + 3) 0 ||| (v.getD (lo + 2) 0 <<< 8)
        ||| (v.getD (lo + 1) 0 <<< 16) ||| (v.getD lo 0 <<< 24)) :=
  getUint32_slice ⟨v, sp⟩ lo h

theorem Slice.index_mk (v sp : List Nat) (i : Nat) (h : i < v.length) :
    (⟨v, sp⟩ : Slice).index i = .ret (v.getD i 0) :=
  Slice.index_of_lt ⟨v, sp⟩ i h

/-- `parseFlowDescription` returns on every input; on success the filter
holds the flow description, and its fields ToS, SPI, FlowLabel and FilterID
are zero. -/
theorem vpp.parseFlowDescription_returns (d : List Nat) :
    ∃ r, vpp.parseFlowDescription d = .ret r ∧
      ∀ s, r = .ok s → s.FlowDescription = d ∧ s.ToS = 0 ∧ s.SPI = 0 ∧ s.FlowLabel = 0
        ∧ s.FilterID = 0 := by
  rw [vpp.parseFlowDescription_eq]
  by_cases h7 : (strings.Fields d).length < 7
  · rw [if_pos h7]; exact ⟨_, rfl, fun s h => by cases h⟩
  rw [if_neg h7]
  cases vpp.protocolOf ((strings.Fields d).getD 2 []) with
  | none => exact ⟨_, rfl, fun s h => by cases h⟩
  | some proto =>
    simp only []
    by_cases h3 : (strings.Fields d).getD 3 [] ≠ vpp.strFrom
    · rw [if_pos h3]; exact ⟨_, rfl, fun s h => by cases h⟩
    rw [if_neg h3]
    by_cases h5 : (strings.Fields d).getD 5 [] ≠ vpp.strTo
    · rw [if_pos h5]; exact ⟨_, rfl, fun s h => by cases h⟩
    rw [if_neg h5]
    by_cases h8 : (strings.Fields d).length > 7
    · rw [if_pos h8]
      obtain ⟨r, hr, hs⟩ := vpp.parsePortRange_returns ((strings.Fields d).getD 7 [])
        (vpp.flowBase d proto)
      refine ⟨r, hr, fun s h => ?_⟩
      obtain ⟨a, b, rfl, _, _⟩ := hs s h
      exact ⟨rfl, rfl, rfl, rfl, rfl⟩
    · rw [if_neg h8]
      refine ⟨_, rfl, fun s h => ?_⟩
      cases h
      exact ⟨rfl, rfl, rfl, rfl, rfl⟩

set_option maxHeartbeats 4000000 in
/-- `parseSDFFilter` against the layout of the specification: on a value with
a layout it returns what the layout gives, and on a value without one (too
short, or a flagged sub-field truncated) it returns an error.  The spare
capacity of the slice plays no part. -/
theorem vpp.parseSDFFilter_layout (v : List Nat) :
    match vpp.sdfLayout v with
    | some f => ∀ sp, vpp.parseSDFFilter ⟨v, sp⟩ = f.result
    | none => ∃ e, ∀ sp, vpp.parseSDFFilter ⟨v, sp⟩ = .ret (.error e) := by
  by_cases h2 : v.length < 2
  · simp only [vpp.sdfLayout, vpp.parseSDFFilter, Slice.len, if_pos h2, Go.pure_eq_ret]
    exact ⟨_, fun _ => rfl⟩
  unfold vpp.parseSDFFilter vpp.sdfLayout
  simp only [Slice.len, if_neg h2, Go.pure_eq_ret, Go.ret_bind,
    Slice.index_mk v _ 0 (by omega), vpp.readFD, vpp.readField,
    decide_eq_true_eq]
  generalize v.getD 0 0 = flags at *
  by_cases h1 : flags &&& 1 ≠ 0
  · simp only [if_pos h1]
    by_cases hA : v.length < 2 + 2
    · simp only [if_pos hA, Go.ret.injEq, Except.error.injEq, forall_const, exists_eq']
    simp only [if_neg hA, getUint16_mk v _ 2 (by omega), Go.ret_bind, u16At]
    generalize (v.getD (2 + 1) 0 ||| v.getD 2 0 <<< 8) = L at *
    by_cases hB : v.length < 2 + 2 + L
    · simp only [if_pos hB, Go.ret.injEq, Except.error.injEq, forall_const, exists_eq']
    have hsl : ∀ sp, Slice.slice ⟨v, sp⟩ (2 + 2) (2 + 2 + L)
        = .ret ⟨(v.drop (2 + 2)).take L, v.drop (2 + 2 + L) ++ sp⟩ := by
      intro sp
      rw [Slice.slice_of_le ⟨v, sp⟩ (2 + 2) (2 + 2 + L) (by omega) (by simp only []; omega)]
      simp only [List.take_drop]
    obtain ⟨r, hr, -⟩ := vpp.parseFlowDescription_returns ((v.drop (2 + 2)).take L)
    simp only [if_neg hB, hsl, Go.ret_bind, hr]
    cases r with
    | error e =>
      simp only []
      by_cases f2 : flags &&& 2 ≠ 0 <;> by_cases f4 : flags &&& 4 ≠ 0 <;>
        by_cases f8 : flags &&& 8 ≠ 0 <;> by_cases f16 : flags &&& 16 ≠ 0 <;>
        (try simp only [f2, f4, f8, f16, if_true, if_false, not_true_eq_false,
          not_false_eq_true]) <;>
        (try split_ifs) <;>
        (try simp only [*, if_true, if_false, not_true_eq_false,
          not_false_eq_true, Go.ret.injEq, Except.error.injEq, forall_const, exists_eq',
          vpp.SDFLayout.result]) <;>
        (try split_ifs) <;>
        (try simp only [*, if_true, if_false, not_true_eq_false,
          not_false_eq_true, Go.ret.injEq, Except.error.injEq, forall_const, exists_eq',
          vpp.SDFLayout.result]) <;>
        (try split_ifs) <;>
        (try simp only [*, if_true, if_false, not_true_eq_false,
          not_false_eq_true, Go.ret.injEq, Except.error.injEq, forall_const, exists_eq',
          vpp.SDFLayout.result]) <;>
        (try split_ifs) <;>
        (try simp only [*, if_true, if_false, not_true_eq_false,
          not_false_eq_true, Go.ret.injEq, Except.error.injEq, forall_const, exists_eq',
          vpp.SDFLayout.result])
    | ok s =>
      simp only []
      by_cases f2 : flags &&& 2 ≠ 0 <;> by_cases f4 : flags &&& 4 ≠ 0 <;>
        by_cases f8 : flags &&& 8 ≠ 0 <;> by_cases f16 : flags &&& 16 ≠ 0 <;>
        (try simp only [f2, f4, f8, f16, if_true, if_false, not_true_eq_false,
          not_false_eq_true]) <;>
        (try split_ifs) <;>
        (try simp (disch := omega) only [*, getUint16_mk, getUint32_mk, Slice.index_mk,
          Go.ret_bind, Go.pure_eq_ret, if_true, if_false, not_true_eq_false, not_false_eq_true,
          Go.ret.injEq, Except.error.injEq, forall_const, exists_eq',
          vpp.SDFLayout.result, vpp.SDFLayout.fields, u16At, u32At, getD_take_drop]) <;>
        (try simp only [Nat.zero_add, Nat.add_zero, Nat.add_assoc, Nat.reduceAdd, forall_const])
  · simp only [if_neg h1]
    by_cases f2 : flags &&& 2 ≠ 0 <;> by_cases f4 : flags &&& 4 ≠ 0 <;>
      by_cases f8 : flags &&& 8 ≠ 0 <;> by_cases f16 : flags &&& 16 ≠ 0 <;>
      (try simp only [f2, f4, f8, f16, if_true, if_false, not_true_eq_false,
        not_false_eq_true]) <;>
      (try split_ifs) <;>
      (try simp (disch := omega) only [*, getUint16_mk, getUint32_mk, Slice.index_mk,
        Go.ret_bind, Go.pure_eq_ret, if_true, if_false, not_true_eq_false, not_false_eq_true,
        Go.ret.injEq, Except.error.injEq, forall_const, exists_eq',
        vpp.SDFLayout.result, vpp.SDFLayout.fields, u16At, u32At, getD_take_drop]) <;>
      (try simp only [Nat.zero_add, Nat.add_zero, Nat.add_assoc, Nat.reduceAdd, forall_const])

theorem strings.split_loop_of_not_mem (sep : Nat) :
    ∀ (s cur : List Nat) (acc : List (List Nat)), sep ∉ s →
      strings.Split.loop sep s cur acc = acc ++ [cur ++ s] := by
  intro s
  induction s with
  | nil => intro cur acc _; simp only [strings.Split.loop, List.append_nil]
  | cons b rest ih =>
    intro cur acc hs
    have hb : ¬ b = sep := fun h => hs (by rw [h]; exact List.mem_cons_self _ _)
    have hr : sep ∉ rest := fun h => hs (List.mem_cons_of_mem _ h)
    simp only [strings.Split.loop, if_neg hb, ih _ _ hr, List.append_assoc,
      List.singleton_append]

/-- A string that `ParseUint` accepts holds decimal digits only. -/
theorem strconv.parseUint_digits (s : List Nat) (n : Nat)
    (h : (strconv.ParseUint s n).isSome = true) : ∀ c ∈ s, 48 ≤ c ∧ c ≤ 57 := by
  unfold strconv.ParseUint at h
  by_cases h0 : s = []
  · rw [h0]; intro c hc; cases hc
  rw [if_neg h0] at h
  by_cases ha : s.all (fun c => decide (48 ≤ c ∧ c ≤ 57)) = true
  · intro c hc
    have := List.all_eq_true.mp ha c hc
    simpa using this
  · rw [if_neg ha] at h
    cases h

/-- `parsePortRange` succeeds on a valid port range. -/
theorem vpp.parsePortRange_ok (p : List Nat) (sdf : vpp.SDFFilter)
    (h : vpp.validPortRange p) : ∃ s, vpp.parsePortRange p sdf = .ret (.ok s) := by
  unfold vpp.parsePortRange
  by_cases hc : strings.Contains p vpp.byteDash = true
  · have hmem : vpp.byteDash ∈ p := by
      simpa [strings.Contains] using hc
    have hnot : ¬ (strconv.ParseUint p 16).isSome = true := by
      intro hp
      have := strconv.parseUint_digits p 16 hp vpp.byteDash hmem
      simp only [vpp.byteDash] at this
      omega
    rcases h with h | ⟨hl, hq⟩
    · exact absurd h hnot
    · have h0 : (strings.Split p vpp.byteDash).getD 0 [] ∈ strings.Split p vpp.byteDash := by
        rw [List.getD_eq_getElem _ _ (by omega)]; exact List.getElem_mem _
      have h1 : (strings.Split p vpp.byteDash).getD 1 [] ∈ strings.Split p vpp.byteDash := by
        rw [List.getD_eq_getElem _ _ (by omega)]; exact List.getElem_mem _
      obtain ⟨a, ha⟩ := Option.isSome_iff_exists.mp (hq _ h0)
      obtain ⟨b, hb⟩ := Option.isSome_iff_exists.mp (hq _ h1)
      simp only [hc, if_true, hl, ne_eq, not_true_eq_false, if_false, Go.pure_eq_ret,
        Go.ret_bind, goIndex_of_lt (strings.Split p vpp.byteDash) 0 [] (by omega),
        goIndex_of_lt (strings.Split p vpp.byteDash) 1 [] (by omega), ha, hb]
      exact ⟨_, rfl⟩
  · have hmem : vpp.byteDash ∉ p := by
      simpa [strings.Contains] using hc
    have hsp : (strings.Split p vpp.byteDash).length = 1 := by
      simp only [strings.Split, strings.split_loop_of_not_mem _ _ _ _ hmem, List.nil_append,
        List.length_singleton]
    rcases h with h | ⟨hl, _⟩
    · obtain ⟨a, ha⟩ := Option.isSome_iff_exists.mp h
      simp only [hc, Bool.false_eq_true, if_false, ha, Go.pure_eq_ret]
      exact ⟨_, rfl⟩
    · omega

/-- `parseFlowDescription` succeeds on a well-formed flow description, and the
filter holds the flow description. -/
theorem vpp.parseFlowDescription_ok (d : List Nat) (h : vpp.wellFormedFlow d) :
    ∃ s, vpp.parseFlowDescription d = .ret (.ok s) ∧ s.FlowDescription = d := by
  obtain ⟨h7, hp, h3, h5, h8⟩ := h
  obtain ⟨r, hr, hs⟩ := vpp.parseFlowDescription_returns d
  have hok : ∃ s, vpp.parseFlowDescription d = .ret (.ok s) := by
    rw [vpp.parseFlowDescription_eq, if_neg (by omega)]
    have hproto : ∃ proto, vpp.protocolOf ((strings.Fields d).getD 2 []) = some proto := by
      unfold vpp.protocolOf
      rcases hp with hp | hp
      · simp only [List.mem_cons, List.mem_singleton, List.not_mem_nil, or_false] at hp
        split_ifs <;> first | exact ⟨_, rfl⟩ | (exfalso; tauto)
      · obtain ⟨a, ha⟩ := Option.isSome_iff_exists.mp hp
        rw [ha]
        split_ifs <;> exact ⟨_, rfl⟩
    obtain ⟨proto, hproto⟩ := hproto
    simp only [hproto, h3, h5, ne_eq, not_true_eq_false, if_false]
    by_cases hl : (strings.Fields d).length > 7
    · rw [if_pos hl]
      exact vpp.parsePortRange_ok _ _ (h8 hl)
    · rw [if_neg hl]
      exact ⟨_, rfl⟩
  obtain ⟨s, hs'⟩ := hok
  refine ⟨s, hs', ?_⟩
  rw [hs'] at hr
  cases hr
  exact (hs s rfl).1

/-- The layout of the value `NewSDFFilterIE` builds for a flow description of
at most 65535 bytes: FD only, holding the flow description. -/
theorem vpp.sdfLayout_newSDFFilterIE (s : List Nat) (hl : s.length ≤ 65535) :
    vpp.sdfLayout (NewSDFFilterIE s).Value = some { fd := some s } := by
  have hmod : s.length % 65536 = s.length := Nat.mod_eq_of_lt (by omega)
  have hv : (NewSDFFilterIE s).Value
      = 1 :: 0 :: (s.length >>> 8 % 256) :: (s.length % 256) :: s := by
    simp only [NewSDFFilterIE, hmod, putUint16, List.cons_append, List.nil_append]
  have hu : u16At (1 :: 0 :: (s.length >>> 8 % 256) :: (s.length % 256) :: s) 2 = s.length := by
    simp only [u16At, List.getD_cons_succ, List.getD_cons_zero]
    exact uint16_roundtrip s.length (by omega)
  rw [hv]
  simp only [vpp.sdfLayout, vpp.readFD, vpp.readField, hu, List.length_cons,
    List.getD_cons_zero, List.drop_succ_cons, List.drop_zero, List.take_length]
  rw [if_neg (by omega)]
  simp only [show ((1 : Nat) &&& 1 ≠ 0) = True by decide, show ((1 : Nat) &&& 2 ≠ 0) = False by decide,
    show ((1 : Nat) &&& 4 ≠ 0) = False by decide, show ((1 : Nat) &&& 8 ≠ 0) = False by decide,
    show ((1 : Nat) &&& 16 ≠ 0) = False by decide, decide_True, decide_False, if_true,
    Bool.false_eq_true, if_false]
  rw [if_neg (by omega), if_neg (by omega)]

theorem Slice.slice_ne_outOfFuel (s : Slice) (lo hi : Nat) : s.slice lo hi ≠ .outOfFuel := by
  unfold Slice.slice
  split_ifs <;> exact fun h => by cases h

/-- `IE.Unmarshal` on a vendor type whose length field is between 2 and
65531 and fits the slice. -/
theorem IE.unmarshal_enterprise (ie0 : IE) (data : Slice) (h4 : 4 ≤ data.len)
    (hT : 32768 ≤ u16At data.vis 0) (hL2 : 2 ≤ u16At data.vis 2)
    (hL : u16At data.vis 2 ≤ 65531) (hl : 4 + u16At data.vis 2 ≤ data.len) :
    ∃ ie, IE.Unmarshal ie0 data = .ret (ie, 4 + u16At data.vis 2, none) ∧
      ie.Type_ = u16At data.vis 0 ∧ ie.EnterpriseID = u16At data.vis 4 ∧
      ie.Value = (data.vis.drop 6).take (u16At data.vis 2 - 2) := by
  simp only [Slice.len] at h4 hl
  have gT := getUint16_slice data 0 (by omega)
  have gL := getUint16_slice data 2 (by omega)
  simp only [u16At] at hl hT hL hL2 ⊢
  simp only [Nat.zero_add] at gT hT ⊢
  generalize (data.vis.getD (2 + 1) 0 ||| data.vis.getD 2 0 <<< 8) = L at *
  generalize (data.vis.getD 1 0 ||| data.vis.getD 0 0 <<< 8) = T at *
  have hdec : decide (T ≥ 32768) = true := by simpa using hT
  have gE := getUint16_slice data 4 (by omega)
  have gE6 : (do getUint16 (← data.slice 4 6))
      = Go.ret (data.vis.getD (4 + 1) 0 ||| data.vis.getD 4 0 <<< 8) := gE
  have hhi : ((6 + L) % 65536 + 65536 - 2) % 65536 = 4 + L := by omega
  have hsl := Slice.slice_of_le data 6 (4 + L) (by omega) (by omega)
  have e1 : (List.drop 6 (List.take (4 + L) data.vis)).length = L - 2 := by
    simp only [List.length_drop, List.length_take]; omega
  have e2 : List.drop 6 (List.take (4 + L) data.vis) = List.take (L - 2) (List.drop 6 data.vis) := by
    rw [List.take_drop, show 6 + (L - 2) = 4 + L by omega]
  have hcopy : goCopy (L - 2) ⟨List.drop 6 (List.take (4 + L) data.vis),
      List.drop (4 + L) data.vis ++ data.spare⟩ = List.take (L - 2) (List.drop 6 data.vis) := by
    simp only [goCopy]
    rw [List.take_of_length_le (by omega), e1, Nat.sub_self, List.replicate_zero,
      List.append_nil, e2]
  have he : ∃ ie, IE.Unmarshal ie0 data = .ret (ie, 4 + L, none) ∧ ie.Type_ = T ∧
      ie.EnterpriseID = (data.vis.getD (4 + 1) 0 ||| data.vis.getD 4 0 <<< 8) ∧
      ie.Value = goCopy (L - 2) ⟨List.drop 6 (List.take (4 + L) data.vis),
        List.drop (4 + L) data.vis ++ data.spare⟩ := by
    simp only [IE.Unmarshal, Slice.len, if_neg (show ¬ data.vis.length < 4 by omega), gT, gL,
      Go.ret_bind, if_neg (show ¬ data.vis.length < 4 + L by omega), hdec, if_true,
      if_neg (show ¬ L < 2 by omega)]
    simp only [Go.pure_eq_ret, Go.ret_bind, gE6, hhi, hsl]
    exact ⟨_, rfl, rfl, rfl, rfl⟩
  obtain ⟨ie, h1, h2, h3, h4'⟩ := he
  exact ⟨ie, h1, h2, h3, by rw [h4', hcopy]⟩

/-- The outcomes of `IE.Unmarshal`: a panic, an error with count 0, or success
with a count of 4 plus the length field, which fits the slice. -/
theorem IE.unmarshal_cases (ie0 : IE) (data : Slice) :
    IE.Unmarshal ie0 data = .panic ∨
    (∃ ie e, IE.Unmarshal ie0 data = .ret (ie, 0, some e)) ∨
    (∃ ie, IE.Unmarshal ie0 data = .ret (ie, 4 + u16At data.vis 2, none) ∧
      4 + u16At data.vis 2 ≤ data.vis.length) := by
  by_cases h4 : data.len < 4
  · exact Or.inr (Or.inl ⟨_, _, IE.ie_unmarshal_short ie0 data h4⟩)
  by_cases hl : data.len < 4 + u16At data.vis 2
  · obtain ⟨ie, he⟩ := IE.unmarshal_truncated ie0 data (by omega) hl
    exact Or.inr (Or.inl ⟨_, _, he⟩)
  simp only [Slice.len] at h4 hl
  have gT := getUint16_slice data 0 (by omega)
  have gL := getUint16_slice data 2 (by omega)
  simp only [u16At] at hl ⊢
  generalize (data.vis.getD (2 + 1) 0 ||| data.vis.getD 2 0 <<< 8) = L at *
  generalize (data.vis.getD (0 + 1) 0 ||| data.vis.getD 0 0 <<< 8) = T at *
  by_cases hT : T ≥ 32768
  · have hdec : decide (T ≥ 32768) = true := by simpa using hT
    by_cases h2 : L < 2
    · refine Or.inr (Or.inl ?_)
      simp only [IE.Unmarshal, Slice.len, if_neg (show ¬ data.vis.length < 4 by omega), gT, gL,
        Go.ret_bind, if_neg hl, hdec, if_true, if_pos h2, Go.pure_eq_ret]
      exact ⟨_, _, rfl⟩
    · have gE := getUint16_slice data 4 (by omega)
      have gE6 : (do getUint16 (← data.slice 4 6))
          = Go.ret (data.vis.getD (4 + 1) 0 ||| data.vis.getD 4 0 <<< 8) := gE
      cases hs : data.slice 6 (((6 + L) % 65536 + 65536 - 2) % 65536) with
      | outOfFuel => exact absurd hs (Slice.slice_ne_outOfFuel _ _ _)
      | panic =>
        refine Or.inl ?_
        simp only [IE.Unmarshal, Slice.len, if_neg (show ¬ data.vis.length < 4 by omega), gT,
          gL, Go.ret_bind, if_neg hl, hdec, if_true, if_neg h2]
        simp only [Go.pure_eq_ret, Go.ret_bind, gE6, hs, Go.panic_bind]
      | ret src =>
        have he : ∃ ie, IE.Unmarshal ie0 data = .ret (ie, 4 + L, none) := by
          simp only [IE.Unmarshal, Slice.len, if_neg (show ¬ data.vis.length < 4 by omega), gT,
            gL, Go.ret_bind, if_neg hl, hdec, if_true, if_neg h2]
          simp only [Go.pure_eq_ret, Go.ret_bind, gE6, hs]
          exact ⟨_, rfl⟩
        obtain ⟨ie, he⟩ := he
        exact Or.inr (Or.inr ⟨ie, he, by omega⟩)
  · have hdec : decide (T ≥ 32768) = false := by simpa using hT
    cases hs : data.slice 4 ((4 + L) % 65536) with
    | outOfFuel => exact absurd hs (Slice.slice_ne_outOfFuel _ _ _)
    | panic =>
      refine Or.inl ?_
      simp only [IE.Unmarshal, Slice.len, if_neg (show ¬ data.vis.length < 4 by omega), gT,
        gL, Go.ret_bind, if_neg hl, hdec, Bool.false_eq_true, if_false, hs, Go.panic_bind,
        Go.pure_eq_ret]
    | ret src =>
      have he : ∃ ie, IE.Unmarshal ie0 data = .ret (ie, 4 + L, none) := by
        simp only [IE.Unmarshal, Slice.len, if_neg (show ¬ data.vis.length < 4 by omega), gT,
          gL, Go.ret_bind, if_neg hl, hdec, Bool.false_eq_true, if_false, hs, Go.pure_eq_ret]
        exact ⟨_, rfl⟩
      obtain ⟨ie, he⟩ := he
      exact Or.inr (Or.inr ⟨ie, he, by omega⟩)

theorem putUint16_u16At (l : List Nat) (i : Nat) (hb : isBytes l) (h : i + 2 ≤ l.length) :
    putUint16 (u16At l i) = (l.drop i).take 2 := by
  have h0 := getD_lt_of_isBytes l hb i
  have h1 := getD_lt_of_isBytes l hb (i + 1)
  rw [window_eq l i 2 h]
  simp only [u16At, putUint16, uint16_of_bytes _ _ h1, Nat.shiftRight_eq_div_pow, List.range,
    List.range.loop, List.map_cons, List.map_nil, Nat.add_zero]
  congr 1
  · omega
  · congr 1; omega

theorem u16At_lt (l : List Nat) (i : Nat) (hb : isBytes l) : u16At l i < 65536 := by
  have h0 := getD_lt_of_isBytes l hb i
  have h1 := getD_lt_of_isBytes l hb (i + 1)
  simp only [u16At, uint16_of_bytes _ _ h1]
  omega

/-- A successful `IE.Unmarshal` on bytes has consumed the encoding of the IE
it returns: re-encoding the IE gives the bytes consumed. -/
theorem IE.unmarshal_ok_bytes (data : Slice) (hb : isBytes data.vis) (ie : IE) (n : Nat)
    (h : IE.Unmarshal {} data = .ret (ie, n, none)) :
    n = 4 + ie.marshalLength ∧ n ≤ data.len ∧ ie.Marshal.1 = data.vis.take n := by
  by_cases h4 : data.len < 4
  · rw [IE.ie_unmarshal_short _ data h4] at h; cases h
  by_cases hl : data.len < 4 + u16At data.vis 2
  · obtain ⟨ie', he⟩ := IE.unmarshal_truncated {} data (by omega) hl
    rw [he] at h; cases h
  have hL16 := u16At_lt data.vis 2 hb
  have hT16 := u16At_lt data.vis 0 hb
  simp only [Slice.len] at h4 hl
  have pT := putUint16_u16At data.vis 0 hb (by omega)
  have pL := putUint16_u16At data.vis 2 hb (by omega)
  by_cases hT : u16At data.vis 0 < 32768
  · by_cases hL : u16At data.vis 2 ≤ 65531
    · rw [IE.unmarshal_plain {} data (by simp only [Slice.len]; omega) hT hL
        (by simp only [Slice.len]; omega)] at h
      simp only [Go.ret.injEq, Prod.mk.injEq, and_true] at h
      obtain ⟨hie, hn⟩ := h
      have hty : ie.Type_ = u16At data.vis 0 := by rw [← hie]
      have hva : ie.Value = (data.vis.drop 4).take (u16At data.vis 2) := by rw [← hie]
      have hvl : ie.Value.length = u16At data.vis 2 := by
        rw [hva]; simp only [List.length_take, List.length_drop]; omega
      have hml : ie.marshalLength = u16At data.vis 2 := by
        simp only [IE.marshalLength, hty, if_neg (show ¬ u16At data.vis 0 ≥ 32768 by omega),
          hvl]
      refine ⟨by rw [hml, hn], by simp only [Slice.len]; omega, ?_⟩
      have hM : ie.Marshal.1
          = putUint16 ie.Type_ ++ putUint16 (ie.marshalLength % 65536) ++ ie.Value := by
        simp only [IE.Marshal, hty, show decide (u16At data.vis 0 ≥ 32768) = false by
          simpa using hT, Bool.false_eq_true, if_false]
      rw [hM, ← hn]
      simp only [hml, hty, Nat.mod_eq_of_lt hL16, pT, pL, hva]
      apply List.ext_getElem
      · simp only [List.length_append, List.length_take, List.length_drop]; omega
      · intro i h1 h2
        simp only [List.length_take] at h2
        simp only [List.getElem_append, List.length_take, List.length_drop, List.getElem_take,
          List.getElem_drop, List.length_append]
        split_ifs <;> first | rfl | (congr 1; omega) | omega
    · exfalso
      have gT := getUint16_slice data 0 (by omega)
      have gL := getUint16_slice data 2 (by omega)
      simp only [u16At] at hl hT hL hL16
      simp only [Nat.zero_add] at gT hT
      have hent : ¬ (data.vis.getD 1 0 ||| data.vis.getD 0 0 <<< 8) ≥ 32768 := by omega
      have hsl := Slice.slice_of_gt data 4
        ((4 + (data.vis.getD (2 + 1) 0 ||| data.vis.getD 2 0 <<< 8)) % 65536) (by omega)
      simp only [IE.Unmarshal, Slice.len, if_neg (show ¬ data.vis.length < 4 by omega), gT, gL,
        Go.ret_bind, if_neg (show ¬ data.vis.length
          < 4 + (data.vis.getD (2 + 1) 0 ||| data.vis.getD 2 0 <<< 8) by omega),
        hent, decide_False, Bool.false_eq_true, if_false, hsl, Go.panic_bind] at h
      cases h
  · by_cases hL2 : u16At data.vis 2 < 2
    · exfalso
      have gT := getUint16_slice data 0 (by omega)
      have gL := getUint16_slice data 2 (by omega)
      simp only [u16At] at hl hT hL2
      simp only [Nat.zero_add] at gT hT
      have hdec : decide ((data.vis.getD 1 0 ||| data.vis.getD 0 0 <<< 8) ≥ 32768) = true := by
        simpa using hT
      simp only [IE.Unmarshal, Slice.len, if_neg (show ¬ data.vis.length < 4 by omega), gT, gL,
        Go.ret_bind, if_neg (show ¬ data.vis.length
          < 4 + (data.vis.getD (2 + 1) 0 ||| data.vis.getD 2 0 <<< 8) by omega),
        hdec, if_true, if_pos hL2, Go.pure_eq_ret, Go.ret.injEq, Prod.mk.injEq] at h
      obtain ⟨_, _, h⟩ := h
      cases h
    by_cases hL : u16At data.vis 2 ≤ 65531
    · obtain ⟨ie', he, hty', hei', hva'⟩ := IE.unmarshal_enterprise {} data
        (by simp only [Slice.len]; omega) (by omega) (by omega) hL
        (by simp only [Slice.len]; omega)
      rw [he] at h
      simp only [Go.ret.injEq, Prod.mk.injEq, and_true] at h
      obtain ⟨hie, hn⟩ := h
      have pE := putUint16_u16At data.vis 4 hb (by omega)
      have hty : ie.Type_ = u16At data.vis 0 := by rw [← hie, hty']
      have hei : ie.EnterpriseID = u16At data.vis 4 := by rw [← hie, hei']
      have hva : ie.Value = (data.vis.drop 6).take (u16At data.vis 2 - 2) := by rw [← hie, hva']
      have hvl : ie.Value.length = u16At data.vis 2 - 2 := by
        rw [hva]; simp only [List.length_take, List.length_drop]; omega
      have hml : ie.marshalLength = u16At data.vis 2 := by
        simp only [IE.marshalLength, hty, if_pos (show u16At data.vis 0 ≥ 32768 by omega), hvl]
        omega
      refine ⟨by rw [hml, hn], by simp only [Slice.len]; omega, ?_⟩
      have hM : ie.Marshal.1
          = putUint16 ie.Type_ ++ putUint16 (ie.marshalLength % 65536)
              ++ putUint16 ie.EnterpriseID ++ ie.Value := by
        simp only [IE.Marshal, hty, show decide (u16At data.vis 0 ≥ 32768) = true by
          simpa using (show u16At data.vis 0 ≥ 32768 by omega), if_true]
      rw [hM, ← hn]
      simp only [hml, hty, hei, Nat.mod_eq_of_lt hL16, pT, pL, pE, hva]
      apply List.ext_getElem
      · simp only [List.length_append, List.length_take, List.length_drop]; omega
      · intro i h1 h2
        simp only [List.length_take] at h2
        simp only [List.getElem_append, List.length_take, List.length_drop, List.getElem_take,
          List.getElem_drop, List.length_append]
        split_ifs <;> first | rfl | (congr 1; omega) | omega
    · exfalso
      have gT := getUint16_slice data 0 (by omega)
      have gL := getUint16_slice data 2 (by omega)
      have gE := getUint16_slice data 4 (by simp only [u16At] at hL2 hl; omega)
      have gE6 : (do getUint16 (← data.slice 4 6))
          = Go.ret (data.vis.getD (4 + 1) 0 ||| data.vis.getD 4 0 <<< 8) := gE
      simp only [u16At] at hl hT hL hL16 hL2
      simp only [Nat.zero_add] at gT hT
      have hdec : decide ((data.vis.getD 1 0 ||| data.vis.getD 0 0 <<< 8) ≥ 32768) = true := by
        simpa using hT
      have hsl := Slice.slice_of_gt data 6
        (((6 + (data.vis.getD (2 + 1) 0 ||| data.vis.getD 2 0 <<< 8)) % 65536 + 65536 - 2) % 65536)
        (by omega)
      simp only [IE.Unmarshal, Slice.len, if_neg (show ¬ data.vis.length < 4 by omega), gT, gL,
        Go.ret_bind, if_neg (show ¬ data.vis.length
          < 4 + (data.vis.getD (2 + 1) 0 ||| data.vis.getD 2 0 <<< 8) by omega),
        hdec, if_true, if_neg hL2] at h
      simp only [Go.pure_eq_ret, Go.ret_bind, gE6, hsl, Go.panic_bind] at h
      cases h

theorem isBytes_drop (l : List Nat) (n : Nat) (hb : isBytes l) : isBytes (l.drop n) :=
  fun b hbm => hb b (List.mem_of_mem_drop hbm)

theorem Slice.sliceFrom_of_le (s : Slice) (lo : Nat) (h : lo ≤ s.vis.length) :
    s.sliceFrom lo = .ret ⟨s.vis.drop lo, s.spare⟩ := by
  rw [Slice.sliceFrom, Slice.len, Slice.slice_of_le s lo s.vis.length h (le_refl _)]
  simp only [List.take_length, List.drop_length, List.nil_append]

/-- The loop of `ParseGroupedIE` ends within `fuel` iterations when the bytes
left are at most `4 * fuel`: an iteration that does not end the loop consumes
at least 4 bytes. -/
theorem ParseGroupedIE.loop_ends (data : Slice) :
    ∀ (fuel offset : Nat) (acc : List IE), data.len ≤ offset + 4 * fuel →
      ParseGroupedIE.loop data fuel offset acc ≠ .outOfFuel := by
  intro fuel
  induction fuel with
  | zero =>
    intro offset acc hf
    simp only [ParseGroupedIE.loop]
    rw [if_neg (by omega)]
    exact fun h => by cases h
  | succ fuel ih =>
    intro offset acc hf
    by_cases ho : offset < data.len
    · simp only [Slice.len] at ho
      simp only [ParseGroupedIE.loop, Slice.len, if_pos ho,
        Slice.sliceFrom_of_le data offset (by omega), Go.ret_bind]
      rcases IE.unmarshal_cases {} ⟨data.vis.drop offset, data.spare⟩ with h | ⟨ie, e, h⟩ | ⟨ie, h, hn⟩
      · rw [h]; exact fun h => by cases h
      · rw [h]; exact fun h => by cases h
      · rw [h]
        simp only [Go.ret_bind]
        exact ih _ _ (by simp only [Slice.len] at hf ⊢; omega)
    · simp only [ParseGroupedIE.loop, if_neg ho]
      exact fun h => by cases h

/-- The IE loop of `Message.Unmarshal` ends within `fuel` iterations when the
bytes left are at most `4 * fuel`. -/
theorem Message.unmarshalLoop_ends (data : Slice) :
    ∀ (fuel offset : Nat) (acc : List IE), data.len ≤ offset + 4 * fuel →
      Message.unmarshalLoop data fuel offset acc ≠ .outOfFuel := by
  intro fuel
  induction fuel with
  | zero =>
    intro offset acc hf
    simp only [Message.unmarshalLoop]
    rw [if_neg (by omega)]
    exact fun h => by cases h
  | succ fuel ih =>
    intro offset acc hf
    by_cases ho : offset < data.len
    · simp only [Slice.len] at ho
      simp only [Message.unmarshalLoop, Slice.len, if_pos ho,
        Slice.sliceFrom_of_le data offset (by omega), Go.ret_bind]
      rcases IE.unmarshal_cases {} ⟨data.vis.drop offset, data.spare⟩ with h | ⟨ie, e, h⟩ | ⟨ie, h, hn⟩
      · rw [h]; exact fun h => by cases h
      · rw [h]; exact fun h => by cases h
      · rw [h]
        simp only [Go.ret_bind]
        exact ih _ _ (by simp only [Slice.len] at hf ⊢; omega)
    · simp only [Message.unmarshalLoop, if_neg ho]
      exact fun h => by cases h

/-- A successful run of the loop of `ParseGroupedIE` over bytes: the IEs added
re-encode to the bytes from `offset` on. -/
theorem ParseGroupedIE.loop_ok (data : Slice) (hb : isBytes data.vis) :
    ∀ (fuel offset : Nat) (acc ies : List IE), offset ≤ data.len →
      ParseGroupedIE.loop data fuel offset acc = .ret (ies, none) →
      ∃ added, ies = acc ++ added ∧ iePayload added = data.vis.drop offset := by
  intro fuel
  induction fuel with
  | zero =>
    intro offset acc ies ho h
    by_cases hlt : offset < data.len
    · simp only [ParseGroupedIE.loop, if_pos hlt] at h; cases h
    · simp only [ParseGroupedIE.loop, if_neg hlt, Go.ret.injEq, Prod.mk.injEq, and_true] at h
      refine ⟨[], by rw [← h, List.append_nil], ?_⟩
      simp only [Slice.len] at hlt
      rw [List.drop_eq_nil_of_le (by omega)]; rfl
  | succ fuel ih =>
    intro offset acc ies ho h
    by_cases hlt : offset < data.len
    · simp only [Slice.len] at hlt ho
      simp only [ParseGroupedIE.loop, Slice.len, if_pos hlt,
        Slice.sliceFrom_of_le data offset (by omega), Go.ret_bind] at h
      cases hu : IE.Unmarshal {} ⟨data.vis.drop offset, data.spare⟩ with
      | panic => rw [hu] at h; cases h
      | outOfFuel => rw [hu] at h; cases h
      | ret r =>
        obtain ⟨ie, n, err⟩ := r
        rw [hu] at h
        cases err with
        | some e =>
          simp only [Go.ret_bind, Go.pure_eq_ret, Go.ret.injEq, Prod.mk.injEq] at h
          exact absurd h.2 (by simp)
        | none =>
          simp only [Go.ret_bind] at h
          obtain ⟨hn, hle, hm⟩ := IE.unmarshal_ok_bytes ⟨data.vis.drop offset, data.spare⟩
            (isBytes_drop _ _ hb) ie n hu
          simp only [Slice.len, List.length_drop] at hle
          obtain ⟨added, ha, hp⟩ := ih (offset + n) (acc ++ [ie]) ies
            (by simp only [Slice.len]; omega) h
          refine ⟨ie :: added, by rw [ha, List.append_assoc, List.singleton_append], ?_⟩
          simp only [iePayload, hm, hp]
          rw [← List.drop_drop, List.take_append_drop]
    · simp only [ParseGroupedIE.loop, if_neg hlt, Go.ret.injEq, Prod.mk.injEq, and_true] at h
      refine ⟨[], by rw [← h, List.append_nil], ?_⟩
      simp only [Slice.len] at hlt
      rw [List.drop_eq_nil_of_le (by omega)]; rfl

/-- A successful run of the IE loop of `Message.Unmarshal` over bytes: the IEs
added re-encode to the bytes from `offset` on. -/
theorem Message.unmarshalLoop_ok (data : Slice) (hb : isBytes data.vis) :
    ∀ (fuel offset : Nat) (acc ies : List IE), offset ≤ data.len →
      Message.unmarshalLoop data fuel offset acc = .ret (ies, none) →
      ∃ added, ies = acc ++ added ∧ iePayload added = data.vis.drop offset := by
  intro fuel
  induction fuel with
  | zero =>
    intro offset acc ies ho h
    by_cases hlt : offset < data.len
    · simp only [Message.unmarshalLoop, if_pos hlt] at h; cases h
    · simp only [Message.unmarshalLoop, if_neg hlt, Go.ret.injEq, Prod.mk.injEq, and_true] at h
      refine ⟨[], by rw [← h, List.append_nil], ?_⟩
      simp only [Slice.len] at hlt
      rw [List.drop_eq_nil_of_le (by omega)]; rfl
  | succ fuel ih =>
    intro offset acc ies ho h
    by_cases hlt : offset < data.len
    · simp only [Slice.len] at hlt ho
      simp only [Message.unmarshalLoop, Slice.len, if_pos hlt,
        Slice.sliceFrom_of_le data offset (by omega), Go.ret_bind] at h
      cases hu : IE.Unmarshal {} ⟨data.vis.drop offset, data.spare⟩ with
      | panic => rw [hu] at h; cases h
      | outOfFuel => rw [hu] at h; cases h
      | ret r =>
        obtain ⟨ie, n, err⟩ := r
        rw [hu] at h
        cases err with
        | some e =>
          simp only [Go.ret_bind, Go.pure_eq_ret, Go.ret.injEq, Prod.mk.injEq] at h
          exact absurd h.2 (by simp)
        | none =>
          simp only [Go.ret_bind] at h
          obtain ⟨hn, hle, hm⟩ := IE.unmarshal_ok_bytes ⟨data.vis.drop offset, data.spare⟩
            (isBytes_drop _ _ hb) ie n hu
          simp only [Slice.len, List.length_drop] at hle
          obtain ⟨added, ha, hp⟩ := ih (offset + n) (acc ++ [ie]) ies
            (by simp only [Slice.len]; omega) h
          refine ⟨ie :: added, by rw [ha, List.append_assoc, List.singleton_append], ?_⟩
          simp only [iePayload, hm, hp]
          rw [← List.drop_drop, List.take_append_drop]
    · simp only [Message.unmarshalLoop, if_neg hlt, Go.ret.injEq, Prod.mk.injEq, and_true] at h
      refine ⟨[], by rw [← h, List.append_nil], ?_⟩
      simp only [Slice.len] at hlt
      rw [List.drop_eq_nil_of_le (by omega)]; rfl

/-- The loop of `Message.Unmarshal` returns, with an error, the IEs it was
given followed by those decoded before the error. -/
theorem Message.unmarshalLoop_keeps (data : Slice) :
    ∀ (fuel offset : Nat) (acc ies : List IE) (err : Option CodecError),
      Message.unmarshalLoop data fuel offset acc = .ret (ies, err) →
      ∃ decoded, ies = acc ++ decoded := by
  intro fuel
  induction fuel with
  | zero =>
    intro offset acc ies err h
    by_cases hlt : offset < data.len
    · simp only [Message.unmarshalLoop, if_pos hlt] at h; cases h
    · simp only [Message.unmarshalLoop, if_neg hlt, Go.ret.injEq, Prod.mk.injEq] at h
      exact ⟨[], by rw [← h.1, List.append_nil]⟩
  | succ fuel ih =>
    intro offset acc ies err h
    by_cases hlt : offset < data.len
    · simp only [Message.unmarshalLoop, if_pos hlt] at h
      cases hs : data.sliceFrom offset with
      | panic => rw [hs] at h; cases h
      | outOfFuel => rw [hs] at h; cases h
      | ret rest =>
        rw [hs] at h
        simp only [Go.ret_bind] at h
        cases hu : IE.Unmarshal {} rest with
        | panic => rw [hu] at h; cases h
        | outOfFuel => rw [hu] at h; cases h
        | ret r =>
          obtain ⟨ie, n, e⟩ := r
          rw [hu] at h
          cases e with
          | some e =>
            simp only [Go.ret_bind, Go.pure_eq_ret, Go.ret.injEq, Prod.mk.injEq] at h
            exact ⟨[], by rw [← h.1, List.append_nil]⟩
          | none =>
            simp only [Go.ret_bind] at h
            obtain ⟨decoded, hd⟩ := ih _ _ _ _ h
            exact ⟨ie :: decoded, by rw [hd, List.append_assoc, List.singleton_append]⟩
    · simp only [Message.unmarshalLoop, if_neg hlt, Go.ret.injEq, Prod.mk.injEq] at h
      exact ⟨[], by rw [← h.1, List.append_nil]⟩

theorem iePayload_length_sum (ies : List IE) :
    (iePayload ies).length = (ies.map (fun ie => 4 + ie.marshalLength)).sum := by
  induction ies with
  | nil => rfl
  | cons ie rest ih =>
    simp only [iePayload, List.length_append, IE.ie_marshal_length, ih, List.map_cons,
      List.sum_cons]

/-- What the Create-PDR loop of the establishment handler has done when it
returns: for a list of PDRs, in order, it has stored each under its id and
called `InstallPDR` for it. -/
theorem up.installPDRs_fill (seid : Nat) :
    ∀ (l : List IE) (s s' : up.Session) (calls calls' : List up.DataplaneCall),
      up.installPDRs seid l s calls = .ret (s', calls') →
      ∃ ps : List up.PDR,
        s' = { s with PDRs := cp.fillMap (fun p => p.ID) ps s.PDRs } ∧
        calls' = calls ++ ps.map (fun p => up.DataplaneCall.InstallPDR seid p) := by
  intro l
  induction l with
  | nil =>
    intro s s' calls calls' h
    simp only [up.installPDRs, Go.ret.injEq, Prod.mk.injEq] at h
    exact ⟨[], by rw [← h.1]; rfl, by rw [← h.2]; simp⟩
  | cons ie rest ih =>
    intro s s' calls calls' h
    simp only [up.installPDRs] at h
    cases hg : ParseGroupedIE (Slice.ofBytes ie.Value) with
    | panic => rw [hg] at h; cases h
    | outOfFuel => rw [hg] at h; cases h
    | ret r =>
      obtain ⟨pdrIEs, err⟩ := r
      rw [hg] at h
      cases err with
      | some e =>
        simp only [Go.ret_bind] at h
        exact ih s s' calls calls' h
      | none =>
        simp only [Go.ret_bind] at h
        cases hp : (up.parsePDR pdrIEs { PDI := some ({} : up.PDI) }) with
        | panic => rw [hp] at h; cases h
        | outOfFuel => rw [hp] at h; cases h
        | ret pdr =>
          rw [hp] at h
          simp only [Go.ret_bind] at h
          obtain ⟨ps, h1, h2⟩ := ih _ s' _ calls' h
          refine ⟨pdr :: ps, ?_, ?_⟩
          · rw [h1]; rfl
          · rw [h2]; simp only [List.map_cons, List.append_assoc, List.singleton_append]

/-- What the Create-FAR loop of the establishment handler has done when it
returns. -/
theorem up.installFARs_fill (seid : Nat) :
    ∀ (l : List IE) (s s' : up.Session) (calls calls' : List up.DataplaneCall),
      up.installFARs seid l s calls = .ret (s', calls') →
      ∃ fs : List up.FAR,
        s' = { s with FARs := cp.fillMap (fun f => f.ID) fs s.FARs } ∧
        calls' = calls ++ fs.map (fun f => up.DataplaneCall.InstallFAR seid f) := by
  intro l
  induction l with
  | nil =>
    intro s s' calls calls' h
    simp only [up.installFARs, Go.ret.injEq, Prod.mk.injEq] at h
    exact ⟨[], by rw [← h.1]; rfl, by rw [← h.2]; simp⟩
  | cons ie rest ih =>
    intro s s' calls calls' h
    simp only [up.installFARs] at h
    cases hg : ParseGroupedIE (Slice.ofBytes ie.Value) with
    | panic => rw [hg] at h; cases h
    | outOfFuel => rw [hg] at h; cases h
    | ret r =>
      obtain ⟨farIEs, err⟩ := r
      rw [hg] at h
      cases err with
      | some e =>
        simp only [Go.ret_bind] at h
        exact ih s s' calls calls' h
      | none =>
        simp only [Go.ret_bind] at h
        cases hp : (up.parseFAR farIEs ({} : up.FAR)) with
        | panic => rw [hp] at h; cases h
        | outOfFuel => rw [hp] at h; cases h
        | ret far =>
          rw [hp] at h
          simp only [Go.ret_bind] at h
          obtain ⟨fs, h1, h2⟩ := ih _ s' _ calls' h
          refine ⟨far :: fs, ?_, ?_⟩
          · rw [h1]; rfl
          · rw [h2]; simp only [List.map_cons, List.append_assoc, List.singleton_append]

/-- What the establishment handler has done when it returns: under the SEID
allocated it has stored a session whose rule maps are filled, in order, with
the PDRs and FARs it has installed. -/
theorem up.handleSessionEstablishmentRequest_fill (u u' : up.UPFunction) (msg : Message)
    (calls : List up.DataplaneCall) (resp : Message)
    (h : u.handleSessionEstablishmentRequest msg = .ret (u', calls, resp)) :
    ∃ seid ps fs, u.allocSEID = .ret seid ∧
      up.installPDRs seid (msg.FindAllIEs IETypeCreatePDR)
          { LocalSEID := seid, RemoteSEID := msg.Header.SEID } []
        = .ret ({ LocalSEID := seid, RemoteSEID := msg.Header.SEID,
                  PDRs := cp.fillMap (fun p => p.ID) ps GoMap.empty },
                ps.map (fun p => up.DataplaneCall.InstallPDR seid p)) ∧
      u' = { u with
             sessions := u.sessions.set seid
               { LocalSEID := seid, RemoteSEID := msg.Header.SEID,
                 PDRs := cp.fillMap (fun p => p.ID) ps GoMap.empty,
                 FARs := cp.fillMap (fun f => f.ID) fs GoMap.empty } } ∧
      calls = ps.map (fun p => up.DataplaneCall.InstallPDR seid p)
        ++ fs.map (fun f => up.DataplaneCall.InstallFAR seid f) ∧
      resp = NewSessionEstablishmentResponse msg.Header.SequenceNumber msg.Header.SEID
        CauseRequestAccepted seid := by
  simp only [up.UPFunction.handleSessionEstablishmentRequest] at h
  cases ha : u.allocSEID with
  | panic => rw [ha] at h; cases h
  | outOfFuel => rw [ha] at h; cases h
  | ret seid =>
    rw [ha] at h
    simp only [Go.ret_bind] at h
    cases h1 : up.installPDRs seid (msg.FindAllIEs IETypeCreatePDR)
        { LocalSEID := seid, RemoteSEID := msg.Header.SEID } [] with
    | panic => rw [h1] at h; cases h
    | outOfFuel => rw [h1] at h; cases h
    | ret r1 =>
      obtain ⟨s1, c1⟩ := r1
      rw [h1] at h
      simp only [Go.ret_bind] at h
      cases h2 : up.installFARs seid (msg.FindAllIEs IETypeCreateFAR) s1 c1 with
      | panic => rw [h2] at h; cases h
      | outOfFuel => rw [h2] at h; cases h
      | ret r2 =>
        obtain ⟨s2, c2⟩ := r2
        rw [h2] at h
        simp only [Go.ret_bind, Go.pure_eq_ret, Go.ret.injEq, Prod.mk.injEq] at h
        obtain ⟨hu, hc, hr⟩ := h
        obtain ⟨ps, e1, e1'⟩ := up.installPDRs_fill seid _ _ _ _ _ h1
        obtain ⟨fs, e2, e2'⟩ := up.installFARs_fill seid _ _ _ _ _ h2
        subst e1 e1' e2 e2'
        refine ⟨seid, ps, fs, rfl, ?_, hu.symm, ?_, hr.symm⟩
        · exact h1
        · rw [← hc]; rfl

/-- A rule map filled from the empty map holds a rule under an id only if the
rule is in the list. -/
theorem cp.fillMap_mem {α : Type} (key : α → Nat) (l : List α) (id : Nat) (r : α)
    (h : (cp.fillMap key l GoMap.empty).get id = some r) : r ∈ l ∧ key r = id := by
  rw [cp.fillMap_get] at h
  have hm : (GoMap.empty : GoMap Nat α).get id = none := rfl
  rw [hm, Option.or_none] at h
  have := List.mem_of_mem_getLast? h
  simp only [List.mem_filter, decide_eq_true_eq] at this
  exact this

/-- A rule map filled from the empty map has the id of every rule of the list
as a key. -/
theorem cp.fillMap_keys {α : Type} (key : α → Nat) (l : List α) (r : α) (h : r ∈ l) :
    key r ∈ (cp.fillMap key l GoMap.empty).keys := by
  apply GoMap.mem_keys_of_get
  rw [cp.fillMap_get]
  have hmem : r ∈ l.filter (fun x => key x = key r) := by
    simp only [List.mem_filter, decide_eq_true_eq]; exact ⟨h, trivial⟩
  cases hg : (l.filter (fun x => decide (key x = key r))).getLast? with
  | none =>
    rw [List.getLast?_eq_none_iff] at hg
    rw [hg] at hmem
    cases hmem
  | some q => rfl

/-- `CreateSession` returns success only after recording the session under
the SEID it returns, which is the value of `nextSEID`. -/
theorem cp.createSession_success (c c' : cp.CPFunction) (nodeID : List Nat)
    (pdrs : List cp.PDR) (fars : List cp.FAR) (qers : List cp.QER) (urrs : List cp.URR)
    (events : Message → List Event) (wf : Nat → Bool) (sent : List Datagram) (seid : Nat)
    (h : c.CreateSession nodeID pdrs fars qers urrs events wf
      = .ret (c', sent, .returned seid none)) :
    seid = c.nextSEID ∧
    ∃ resp, c'.sessions.get seid
      = some (cp.recordedSession c.nextSEID resp nodeID pdrs fars qers urrs) := by
  cases ha : c.associations.get nodeID with
  | none =>
    simp only [cp.CPFunction.CreateSession, ha, Go.pure_eq_ret, Go.ret.injEq,
      Prod.mk.injEq] at h
    exact absurd h.2.2 (by simp)
  | some assoc =>
    obtain ⟨t, m, snt, o, hS⟩ : ∃ t m snt o,
        c.createSend assoc pdrs fars qers urrs events wf = (t, m, snt, o) :=
      ⟨_, _, _, _, rfl⟩
    have H := cp.createSession_cases c nodeID pdrs fars qers urrs events wf assoc ha
      t m snt o hS
    have hne : o ≠ .returned none none := by
      have := Transport.sendRequest_outcome c.transport
        (cp.establishmentRequest pdrs fars qers urrs) assoc.RemoteAddr c.config.RetransmitN1
        (events (Transport.SendRequest.register c.transport
          (cp.establishmentRequest pdrs fars qers urrs) assoc.RemoteAddr).2) wf
      simp only [cp.CPFunction.createSend] at hS
      rw [hS] at this
      exact this
    cases o with
    | blocked =>
      rw [H.1 rfl] at h
      simp only [Go.ret.injEq, Prod.mk.injEq] at h
      exact absurd h.2.2 (by simp)
    | returned r e =>
      cases e with
      | some e =>
        rw [H.2.1 r e rfl] at h
        simp only [Go.ret.injEq, Prod.mk.injEq] at h
        exact absurd h.2.2 (by simp)
      | none =>
        cases r with
        | none => exact absurd rfl hne
        | some resp =>
          cases hc : resp.FindIE IETypeCause with
          | none =>
            rw [H.2.2.1 resp rfl hc] at h
            simp only [Go.ret.injEq, Prod.mk.injEq] at h
            exact absurd h.2.2 (by simp)
          | some causeIE =>
            obtain ⟨cause, err, hg⟩ := IE.getCause_returns causeIE
            have H4 := H.2.2.2 resp causeIE cause err rfl hc hg
            by_cases hcond : err.isSome = true ∨ cause ≠ CauseRequestAccepted
            · rw [H4.1 hcond] at h
              simp only [Go.ret.injEq, Prod.mk.injEq] at h
              exact absurd h.2.2 (by simp)
            · rw [H4.2 hcond] at h
              simp only [Go.ret.injEq, Prod.mk.injEq, cp.CreateOutcome.returned.injEq,
                and_true] at h
              obtain ⟨hc', _, hs⟩ := h
              refine ⟨hs.symm, resp, ?_⟩
              rw [← hc', ← hs]
              exact GoMap.get_set_same _ _ _

theorem uint32_of_bytes (b0 b1 b2 b3 : Nat) (h1 : b1 < 256) (h2 : b2 < 256) (h3 : b3 < 256) :
    b3 ||| (b2 <<< 8) ||| (b1 <<< 16) ||| (b0 <<< 24)
      = b3 + b2 * 2 ^ 8 + b1 * 2 ^ 16 + b0 * 2 ^ 24 := by
  rw [or_shiftLeft_eq_add b3 b2 8 (by omega),
      or_shiftLeft_eq_add _ b1 16 (by omega),
      or_shiftLeft_eq_add _ b0 24 (by omega)]

theorem uint32_roundtrip (v : Nat) (h : v < 2 ^ 32) :
    (v % 256) ||| (((v >>> 8) % 256) <<< 8) ||| (((v >>> 16) % 256) <<< 16)
      ||| (((v >>> 24) % 256) <<< 24) = v := by
  rw [uint32_of_bytes _ _ _ _ (Nat.mod_lt _ (by norm_num)) (Nat.mod_lt _ (by norm_num))
    (Nat.mod_lt _ (by norm_num))]
  simp only [Nat.shiftRight_eq_div_pow]
  omega

theorem IE.getPDR_ID_new (id : Nat) (h : id < 2 ^ 16) :
    (NewPDR_ID_IE id).GetPDR_ID = .ret (id, none) := by
  have hr := uint16_roundtrip id (by omega)
  simp only [IE.GetPDR_ID, NewPDR_ID_IE, putUint16, List.length_cons, List.length_nil]
  rw [if_neg (by simp)]
  simp only [getUint16, Slice.ofBytes, Slice.index, List.getElem?_cons_succ,
    List.getElem?_cons_zero, Go.ret_bind, Go.pure_eq_ret, hr]

theorem IE.getFAR_ID_new (id : Nat) (h : id < 2 ^ 32) :
    (NewFAR_ID_IE id).GetFAR_ID = .ret (id, none) := by
  have hr := uint32_roundtrip id h
  simp only [IE.GetFAR_ID, NewFAR_ID_IE, putUint32, List.length_cons, List.length_nil]
  rw [if_neg (by simp)]
  simp only [getUint32, Slice.ofBytes, Slice.index, List.getElem?_cons_succ,
    List.getElem?_cons_zero, Go.ret_bind, Go.pure_eq_ret, hr]

/-- The loop of the handler over the IEs of a PDI keeps the source interface
when none of them is a Source-Interface IE. -/
theorem up.parsePDI_keeps :
    ∀ (l : List IE) (pdi : up.PDI), (∀ ie ∈ l, ie.Type_ ≠ IETypeSourceInterface) →
      ∃ r, up.parsePDI l pdi = .ret r ∧ r.SourceInterface = pdi.SourceInterface := by
  intro l
  induction l with
  | nil => intro pdi _; exact ⟨pdi, rfl, rfl⟩
  | cons ie rest ih =>
    intro pdi hl
    have h0 := hl ie (List.mem_cons_self _ _)
    have hrest : ∀ x ∈ rest, x.Type_ ≠ IETypeSourceInterface :=
      fun x hx => hl x (List.mem_cons_of_mem _ hx)
    simp only [up.parsePDI, if_neg h0]
    split_ifs
    · obtain ⟨r, hr, hs⟩ := ih { pdi with SDFFilter := ie.Value } hrest
      exact ⟨r, hr, hs⟩
    · obtain ⟨r, hr, hs⟩ := ih { pdi with UE_IPAddress := ie.Value } hrest
      exact ⟨r, hr, hs⟩
    · obtain ⟨r, hr, hs⟩ := ih { pdi with NetworkInstance := ie.Value } hrest
      exact ⟨r, hr, hs⟩
    · obtain ⟨r, hr, hs⟩ := ih { pdi with ApplicationID := ie.Value } hrest
      exact ⟨r, hr, hs⟩
    · exact ih pdi hrest

/-- The IEs `marshalPDRs` puts into a PDI group: a Source-Interface IE, then
IEs of other types, none of them a vendor type. -/
theorem cp.pdiIEs_eq (pdi : cp.PacketDetectionInfo) :
    ∃ rest, cp.pdiIEs pdi = NewSourceInterfaceIE pdi.SourceInterface :: rest ∧
      (∀ ie ∈ rest, ie.Type_ ≠ IETypeSourceInterface) ∧
      (∀ ie ∈ cp.pdiIEs pdi, ie.Type_ < 32768 ∧ ie.EnterpriseID = 0) := by
  unfold cp.pdiIEs
  cases pdi.UE_IPAddress with
  | none =>
    by_cases h1 : pdi.SDFFilter ≠ [] <;> by_cases h2 : pdi.ApplicationID ≠ [] <;>
      simp only [h1, h2, if_true, if_false, List.singleton_append, List.cons_append,
        List.nil_append, ne_eq, not_true_eq_false, not_false_eq_true] <;>
      refine ⟨_, rfl, ?_, ?_⟩ <;> intro ie hie <;>
      simp only [List.mem_cons, List.mem_singleton, List.not_mem_nil, or_false] at hie <;>
      (try rcases hie with rfl | rfl | rfl) <;> (try rcases hie with rfl | rfl) <;>
      (try subst hie) <;>
      norm_num [NewSDFFilterIE, NewApplicationIDIE, NewSourceInterfaceIE, IETypeSDFFilter,
        IETypeApplicationID, IETypeSourceInterface]
  | some ip =>
    have hu : ∀ b, (NewUE_IPAddressIE ip b).Type_ = IETypeUE_IPAddress ∧
        (NewUE_IPAddressIE ip b).EnterpriseID = 0 := by
      intro b; cases b <;> exact ⟨rfl, rfl⟩
    have hu1 := (hu (IP.To4 ip).isNone).1
    have hu2 := (hu (IP.To4 ip).isNone).2
    by_cases h1 : pdi.SDFFilter ≠ [] <;> by_cases h2 : pdi.ApplicationID ≠ [] <;>
      simp only [h1, h2, if_true, if_false, List.singleton_append, List.cons_append,
        List.nil_append, ne_eq, not_true_eq_false, not_false_eq_true] <;>
      refine ⟨_, rfl, ?_, ?_⟩ <;> intro ie hie <;>
      simp only [List.mem_cons, List.mem_singleton, List.not_mem_nil, or_false] at hie <;>
      (try rcases hie with rfl | rfl | rfl | rfl) <;> (try rcases hie with rfl | rfl | rfl) <;>
      (try rcases hie with rfl | rfl) <;> (try subst hie) <;>
      norm_num [NewSDFFilterIE, NewApplicationIDIE, NewSourceInterfaceIE, IETypeSDFFilter,
        IETypeApplicationID, IETypeSourceInterface, IETypeUE_IPAddress, hu1, hu2]

/-- The Create-PDR group `marshalPDRs` builds for one PDR, with its
children. -/
theorem cp.marshalPDR_children (pdr : cp.PDR) :
    cp.marshalPDR pdr
      = (some { Type_ := IETypeCreatePDR, Value := iePayload (cp.pdrChildren pdr) }, none) := by
  unfold cp.marshalPDR cp.pdrChildren
  cases pdr.PDI with
  | none => simp only [NewGroupedIE_eq, List.append_nil, List.append_assoc]
  | some pdi => simp only [NewGroupedIE_eq, List.append_assoc]

/-- The Create-FAR group `marshalFARs` builds for one FAR, with its
children. -/
theorem cp.marshalFAR_children (far : cp.FAR) :
    cp.marshalFAR far
      = (some { Type_ := IETypeCreateFAR, Value := iePayload (cp.farChildren far) }, none) := by
  unfold cp.marshalFAR cp.farChildren
  cases far.ForwardingParameters with
  | none => simp only [NewGroupedIE_eq, List.append_nil]
  | some fp => simp only [NewGroupedIE_eq]

theorem cp.marshalPDRs_children (pdrs : List cp.PDR) :
    cp.marshalPDRs pdrs
      = (pdrs.map (fun p => { Type_ := IETypeCreatePDR,
                              Value := iePayload (cp.pdrChildren p) }), none) := by
  have h := cp.marshalEach_eq cp.marshalPDR _ cp.marshalPDR_children pdrs []
  rw [List.nil_append] at h
  exact h

theorem cp.marshalFARs_children (fars : List cp.FAR) :
    cp.marshalFARs fars
      = (fars.map (fun f => { Type_ := IETypeCreateFAR,
                              Value := iePayload (cp.farChildren f) }), none) := by
  have h := cp.marshalEach_eq cp.marshalFAR _ cp.marshalFAR_children fars []
  rw [List.nil_append] at h
  exact h

theorem IE.map_carriedOver_plain (l : List IE)
    (h : ∀ ie ∈ l, ie.Type_ < 32768 ∧ ie.EnterpriseID = 0) : l.map IE.carriedOver = l := by
  induction l with
  | nil => rfl
  | cons ie rest ih =>
    have h0 := h ie (List.mem_cons_self _ _)
    rw [List.map_cons, ih (fun x hx => h x (List.mem_cons_of_mem _ hx))]
    congr 1
    obtain ⟨t, e, v⟩ := ie
    simp only [IE.carriedOver] at h0 ⊢
    rw [if_neg (by omega)]
    simp only [h0.2]

/-- A group value built from IEs without vendor type that is shorter than
65536 bytes decodes to these IEs, whatever the spare capacity. -/
theorem ParseGroupedIE_plain (children : List IE) (sp : List Nat)
    (h : ∀ ie ∈ children, ie.Type_ < 32768 ∧ ie.EnterpriseID = 0)
    (hP : (iePayload children).length < 65536) :
    ParseGroupedIE ⟨iePayload children, sp⟩ = .ret (children, none) := by
  rw [ParseGroupedIE_payload children sp
    (fun ie hie => ⟨by have := (h ie hie).1; omega, by rw [(h ie hie).2]; norm_num⟩) hP,
    IE.map_carriedOver_plain children h]

theorem cp.pdrChildren_plain (p : cp.PDR) :
    ∀ ie ∈ cp.pdrChildren p, ie.Type_ < 32768 ∧ ie.EnterpriseID = 0 := by
  intro ie hie
  unfold cp.pdrChildren at hie
  simp only [List.mem_append, List.mem_cons, List.mem_singleton, List.not_mem_nil, or_false,
    List.mem_map] at hie
  rcases hie with ((((rfl | rfl) | hpdi) | rfl) | ⟨q, _, rfl⟩) | ⟨q, _, rfl⟩
  · norm_num [NewPDR_ID_IE, IETypePDR_ID]
  · norm_num [NewPrecedenceIE, IETypePrecedence]
  · cases hp : p.PDI with
    | none => rw [hp] at hpdi; cases hpdi
    | some pdi =>
      rw [hp] at hpdi
      simp only [List.mem_singleton] at hpdi
      rw [hpdi]
      norm_num [IETypePDI]
  · norm_num [NewFAR_ID_IE, IETypeFAR_ID]
  · norm_num [NewQER_ID_IE, IETypeQER_ID]
  · norm_num [NewURR_ID_IE, IETypeURR_ID]

theorem cp.farChildren_plain (f : cp.FAR) :
    ∀ ie ∈ cp.farChildren f, ie.Type_ < 32768 ∧ ie.EnterpriseID = 0 := by
  intro ie hie
  unfold cp.farChildren at hie
  simp only [List.mem_append, List.mem_cons, List.mem_singleton, List.not_mem_nil, or_false]
    at hie
  rcases hie with (rfl | rfl) | hfp
  · norm_num [NewFAR_ID_IE, IETypeFAR_ID]
  · norm_num [NewApplyActionIE, IETypeApplyAction]
  · cases hp : f.ForwardingParameters with
    | none => rw [hp] at hfp; cases hfp
    | some fp =>
      rw [hp] at hfp
      simp only [List.mem_singleton] at hfp
      rw [hfp]
      norm_num [IETypeForwardingParameters]

/-- The loop of the handler over the IEs of a Create-PDR skips the IEs it
does not know. -/
theorem up.parsePDR_skip :
    ∀ (l : List IE) (pdr : up.PDR),
      (∀ ie ∈ l, ie.Type_ = IETypeQER_ID ∨ ie.Type_ = IETypeURR_ID) →
      up.parsePDR l pdr = .ret pdr := by
  intro l
  induction l with
  | nil => intro pdr _; rfl
  | cons ie rest ih =>
    intro pdr hl
    have h0 := hl ie (List.mem_cons_self _ _)
    have n1 : ¬ ie.Type_ = IETypePDR_ID := by
      rcases h0 with h | h <;> rw [h] <;> decide
    have n2 : ¬ ie.Type_ = IETypePrecedence := by
      rcases h0 with h | h <;> rw [h] <;> decide
    have n3 : ¬ ie.Type_ = IETypeFAR_ID := by
      rcases h0 with h | h <;> rw [h] <;> decide
    have n4 : ¬ ie.Type_ = IETypePDI := by
      rcases h0 with h | h <;> rw [h] <;> decide
    simp only [up.parsePDR, if_neg n1, if_neg n2, if_neg n3, if_neg n4]
    exact ih pdr (fun x hx => hl x (List.mem_cons_of_mem _ hx))

/-- The PDR the establishment handler builds from the children of the
Create-PDR group of a PDR of the CP function carries its ID, its FAR id and
the source interface of its PDI. -/
theorem up.parsePDR_children (p : cp.PDR) (pdi : cp.PacketDetectionInfo)
    (hpdi : p.PDI = some pdi) (hw : p.WellTyped)
    (hP : (iePayload (cp.pdiIEs pdi)).length < 65536) :
    ∃ q, up.parsePDR (cp.pdrChildren p) { PDI := some {} } = .ret q ∧ transfersPDR p q := by
  obtain ⟨rest, hrest, hne, hplain⟩ := cp.pdiIEs_eq pdi
  have hg : ParseGroupedIE (Slice.ofBytes (iePayload (cp.pdiIEs pdi)))
      = .ret (cp.pdiIEs pdi, none) := ParseGroupedIE_plain _ [] hplain hP
  have hsi : ∀ base : up.PDI, ∃ r, up.parsePDI (cp.pdiIEs pdi) base = .ret r ∧
      r.SourceInterface = pdi.SourceInterface := by
    intro base
    rw [hrest]
    have hv : (0 : Nat) < (NewSourceInterfaceIE pdi.SourceInterface).Value.length := by
      simp only [NewSourceInterfaceIE, List.length_singleton]; omega
    have hix : (Slice.ofBytes (NewSourceInterfaceIE pdi.SourceInterface).Value).index 0
        = .ret pdi.SourceInterface := rfl
    have ht : (NewSourceInterfaceIE pdi.SourceInterface).Type_ = IETypeSourceInterface := rfl
    simp only [up.parsePDI, ht, if_true, gt_iff_lt, hv, hix, Go.ret_bind]
    obtain ⟨r, hr, hs⟩ := up.parsePDI_keeps rest
      { base with SourceInterface := pdi.SourceInterface } hne
    exact ⟨r, hr, hs⟩
  obtain ⟨r, hr, hs⟩ := hsi {}
  have hskip := up.parsePDR_skip (p.QER_IDs.map NewQER_ID_IE ++ p.URR_IDs.map NewURR_ID_IE)
    { ID := p.ID, Precedence := 0, FAR_ID := p.FAR_ID, PDI := some r }
    (by
      intro ie hie
      rcases List.mem_append.mp hie with h | h
      · obtain ⟨q, _, rfl⟩ := List.mem_map.mp h
        exact Or.inl rfl
      · obtain ⟨q, _, rfl⟩ := List.mem_map.mp h
        exact Or.inr rfl)
  refine ⟨{ ID := p.ID, Precedence := 0, FAR_ID := p.FAR_ID, PDI := some r }, ?_,
    rfl, rfl, by rw [hpdi]; simp only [Option.map_some', hs]⟩
  have t1 : (NewPDR_ID_IE p.ID).Type_ = IETypePDR_ID := rfl
  have t2 : (NewPrecedenceIE p.Precedence).Type_ = IETypePrecedence := rfl
  have t3 : (NewFAR_ID_IE p.FAR_ID).Type_ = IETypeFAR_ID := rfl
  have n21 : ¬ IETypePrecedence = IETypePDR_ID := by decide
  have n31 : ¬ IETypeFAR_ID = IETypePDR_ID := by decide
  have n32 : ¬ IETypeFAR_ID = IETypePrecedence := by decide
  have n41 : ¬ IETypePDI = IETypePDR_ID := by decide
  have n42 : ¬ IETypePDI = IETypePrecedence := by decide
  have n43 : ¬ IETypePDI = IETypeFAR_ID := by decide
  unfold cp.pdrChildren
  simp only [hpdi, List.cons_append, List.nil_append, List.append_assoc, up.parsePDR, t1, t2, t3,
    if_true, if_false, n21, n31, n32, n41, n42, n43, IE.getPDR_ID_new p.ID hw.1,
    IE.getFAR_ID_new p.FAR_ID hw.2, Go.ret_bind, hg, Option.getD_some, hr]
  exact hskip

/-- The FAR the establishment handler builds from the children of the
Create-FAR group of a FAR of the CP function carries its ID and its apply
action. -/
theorem up.parseFAR_children (f : cp.FAR) (hw : f.WellTyped) :
    ∃ g, up.parseFAR (cp.farChildren f) {} = .ret g ∧ transfersFAR f g := by
  refine ⟨{ ID := f.ID, ApplyAction := f.ApplyAction }, ?_, rfl, rfl⟩
  have t1 : (NewFAR_ID_IE f.ID).Type_ = IETypeFAR_ID := rfl
  have t2 : (NewApplyActionIE f.ApplyAction).Type_ = IETypeApplyAction := rfl
  have n21 : ¬ IETypeApplyAction = IETypeFAR_ID := by decide
  have n31 : ¬ IETypeForwardingParameters = IETypeFAR_ID := by decide
  have n32 : ¬ IETypeForwardingParameters = IETypeApplyAction := by decide
  have hv : (0 : Nat) < (NewApplyActionIE f.ApplyAction).Value.length := by
    simp only [NewApplyActionIE, List.length_singleton]; omega
  have hix : (Slice.ofBytes (NewApplyActionIE f.ApplyAction).Value).index 0
      = .ret f.ApplyAction := rfl
  unfold cp.farChildren
  cases f.ForwardingParameters with
  | none =>
    simp only [List.cons_append, List.nil_append, List.append_nil, up.parseFAR, t1, t2,
      if_true, if_false, n21, IE.getFAR_ID_new f.ID hw, Go.ret_bind, gt_iff_lt, hv, hix]
  | some fp =>
    simp only [List.cons_append, List.nil_append, List.append_nil, up.parseFAR, t1, t2,
      if_true, if_false, n21, n31, n32, IE.getFAR_ID_new f.ID hw, Go.ret_bind, gt_iff_lt, hv,
      hix]

/-- The Create-PDR loop of the establishment handler over the groups
`marshalPDRs` builds: every PDR is decoded, stored and installed, in order. -/
theorem up.installPDRs_transfer (seid : Nat) :
    ∀ (pdrs : List cp.PDR) (s : up.Session) (calls : List up.DataplaneCall),
      (∀ p ∈ pdrs, p.PDI.isSome = true ∧ p.WellTyped
        ∧ (iePayload (cp.pdrChildren p)).length < 65536) →
      ∃ ups, List.Forall₂ transfersPDR pdrs ups ∧
        up.installPDRs seid
            (pdrs.map (fun p => { Type_ := IETypeCreatePDR,
                                  Value := iePayload (cp.pdrChildren p) })) s calls
          = .ret ({ s with PDRs := cp.fillMap (fun q => q.ID) ups s.PDRs },
              calls ++ ups.map (fun q => up.DataplaneCall.InstallPDR seid q)) := by
  intro pdrs
  induction pdrs with
  | nil =>
    intro s calls _
    exact ⟨[], List.Forall₂.nil, by
      simp only [List.map_nil, up.installPDRs, cp.fillMap, List.append_nil]⟩
  | cons p rest ih =>
    intro s calls hl
    obtain ⟨hsome, hw, hP⟩ := hl p (List.mem_cons_self _ _)
    obtain ⟨pdi, hpdi⟩ := Option.isSome_iff_exists.mp hsome
    have hmem : ({ Type_ := IETypePDI, Value := iePayload (cp.pdiIEs pdi) } : IE)
        ∈ cp.pdrChildren p := by
      unfold cp.pdrChildren
      rw [hpdi]
      simp only [List.mem_append, List.mem_cons, List.mem_singleton, true_or, or_true]
    have hPdi : (iePayload (cp.pdiIEs pdi)).length < 65536 := by
      have := iePayload_marshalLength_le _ _ hmem
      simp only [IE.marshalLength] at this
      rw [if_neg (by decide)] at this
      omega
    obtain ⟨q, hq, htr⟩ := up.parsePDR_children p pdi hpdi hw hPdi
    have hg : ParseGroupedIE (Slice.ofBytes (iePayload (cp.pdrChildren p)))
        = .ret (cp.pdrChildren p, none) :=
      ParseGroupedIE_plain _ [] (cp.pdrChildren_plain p) hP
    obtain ⟨ups, hf, hi⟩ := ih { s with PDRs := s.PDRs.set q.ID q }
      (calls ++ [.InstallPDR seid q]) (fun x hx => hl x (List.mem_cons_of_mem _ hx))
    refine ⟨q :: ups, List.Forall₂.cons htr hf, ?_⟩
    simp only [List.map_cons, up.installPDRs, hg, Go.ret_bind, hq, hi, cp.fillMap,
      List.append_assoc, List.singleton_append]

/-- The Create-FAR loop of the establishment handler over the groups
`marshalFARs` builds: every FAR is decoded, stored and installed, in order. -/
theorem up.installFARs_transfer (seid : Nat) :
    ∀ (fars : List cp.FAR) (s : up.Session) (calls : List up.DataplaneCall),
      (∀ f ∈ fars, f.WellTyped ∧ (iePayload (cp.farChildren f)).length < 65536) →
      ∃ ufs, List.Forall₂ transfersFAR fars ufs ∧
        up.installFARs seid
            (fars.map (fun f => { Type_ := IETypeCreateFAR,
                                  Value := iePayload (cp.farChildren f) })) s calls
          = .ret ({ s with FARs := cp.fillMap (fun g => g.ID) ufs s.FARs },
              calls ++ ufs.map (fun g => up.DataplaneCall.InstallFAR seid g)) := by
  intro fars
  induction fars with
  | nil =>
    intro s calls _
    exact ⟨[], List.Forall₂.nil, by
      simp only [List.map_nil, up.installFARs, cp.fillMap, List.append_nil]⟩
  | cons f rest ih =>
    intro s calls hl
    obtain ⟨hw, hP⟩ := hl f (List.mem_cons_self _ _)
    obtain ⟨g, hq, htr⟩ := up.parseFAR_children f hw
    have hg : ParseGroupedIE (Slice.ofBytes (iePayload (cp.farChildren f)))
        = .ret (cp.farChildren f, none) :=
      ParseGroupedIE_plain _ [] (cp.farChildren_plain f) hP
    obtain ⟨ufs, hf, hi⟩ := ih { s with FARs := s.FARs.set g.ID g }
      (calls ++ [.InstallFAR seid g]) (fun x hx => hl x (List.mem_cons_of_mem _ hx))
    refine ⟨g :: ufs, List.Forall₂.cons htr hf, ?_⟩
    simp only [List.map_cons, up.installFARs, hg, Go.ret_bind, hq, hi, cp.fillMap,
      List.append_assoc, List.singleton_append]

theorem forall2_map_eq {α β γ : Type} (R : α → β → Prop) (f : α → γ) (g : β → γ)
    (h : ∀ a b, R a b → g b = f a) :
    ∀ (l : List α) (l' : List β), List.Forall₂ R l l' → l'.map g = l.map f := by
  intro l l' hf
  induction hf with
  | nil => rfl
  | cons hab _ ih => simp only [List.map_cons, h _ _ hab, ih]

/-- A rule map filled from the empty map has exactly the ids of the rules as
keys. -/
theorem cp.fillMap_keys_iff {α : Type} (key : α → Nat) (l : List α) (id : Nat) :
    id ∈ (cp.fillMap key l GoMap.empty).keys ↔ id ∈ l.map key := by
  constructor
  · intro h
    obtain ⟨r, hr⟩ := Option.isSome_iff_exists.mp (GoMap.get_of_mem_keys _ _ h)
    obtain ⟨hm, hk⟩ := cp.fillMap_mem key l id r hr
    exact List.mem_map.mpr ⟨r, hm, hk⟩
  · intro h
    obtain ⟨r, hm, hk⟩ := List.mem_map.mp h
    rw [← hk]
    exact cp.fillMap_keys key l r hm

/-- The IEs of the request for the rules given. -/
theorem ruleRequest_IEs (seqNum seid : Nat) (pdrs : List cp.PDR) (fars : List cp.FAR) :
    (ruleRequest seqNum seid pdrs fars).IEs
      = pdrs.map (fun p => ({ Type_ := IETypeCreatePDR,
                              Value := iePayload (cp.pdrChildren p) } : IE))
        ++ fars.map (fun f => ({ Type_ := IETypeCreateFAR,
                                 Value := iePayload (cp.farChildren f) } : IE)) := by
  simp only [ruleRequest, NewSessionEstablishmentRequest, cp.marshalPDRs_children,
    cp.marshalFARs_children, List.append_nil]

theorem filter_map_all {α : Type} (f : α → IE) (t : Nat) (l : List α)
    (h : ∀ a, (f a).Type_ = t) : (l.map f).filter (fun ie => ie.Type_ = t) = l.map f := by
  rw [List.filter_eq_self]
  intro ie hie
  obtain ⟨a, _, rfl⟩ := List.mem_map.mp hie
  simpa using h a

theorem filter_map_none {α : Type} (f : α → IE) (t : Nat) (l : List α)
    (h : ∀ a, (f a).Type_ ≠ t) : (l.map f).filter (fun ie => ie.Type_ = t) = [] := by
  rw [List.filter_eq_nil_iff]
  intro ie hie
  obtain ⟨a, _, rfl⟩ := List.mem_map.mp hie
  simpa using h a

/-- A message with one IE whose encoding has 65538 bytes: the length field
wraps to 2, and decoding returns "IE too short: 2 bytes", with or without a
SEID in the header. -/
theorem Message.unmarshal_marshal_wrapped_any (hd : MessageHeader) (ie : IE) (t sp : List Nat)
    (hl : ie.marshalLength = 65534) :
    ∃ r, Message.Unmarshal {} ⟨(Message.Marshal { Header := hd, IEs := [ie] }).2.1 ++ t, sp⟩
      = .ret (r, some (.ieTooShort 2)) := by
  have hpl : (iePayload [ie]).length = 65538 := by
    simp only [iePayload, List.append_nil, IE.ie_marshal_length, hl]
  rw [Message.message_marshal_eq]
  simp only [hpl]
  set h' : MessageHeader := { hd with MessageLength := 65538 % 65536 } with hh'
  obtain ⟨hdec, hu, -, hS', hML⟩ :=
    MessageHeader.unmarshal_marshal_any {} h' (iePayload [ie] ++ t) sp (by simp [hh'])
  have hlen : h'.Marshal.1.length = h'.Len := MessageHeader.header_marshal_length h'
  have hL : hdec.Len = h'.Len := by simp only [MessageHeader.Len, hS']
  have hML' : hdec.MessageLength = 2 := by rw [hML]
  have hsl := Slice.slice_of_le ⟨h'.Marshal.1 ++ (iePayload [ie] ++ t), sp⟩ h'.Len (h'.Len + 2)
    (by omega) (by simp only [List.length_append, hlen, hpl]; omega)
  have hvl : (((h'.Marshal.1 ++ (iePayload [ie] ++ t)).take (h'.Len + 2)).drop h'.Len).length
      = 2 := by
    simp only [List.length_drop, List.length_take, List.length_append, hlen, hpl]; omega
  simp only [List.append_assoc] at hu ⊢
  simp only [Message.Unmarshal, hu, Go.ret_bind, hL, hML', hsl, Slice.len, hvl]
  rw [Message.unmarshalLoop]
  simp only [Slice.len, hvl, show (0 : Nat) < 2 by omega, if_true, Slice.sliceFrom]
  rw [Slice.slice_of_le _ _ _ (by omega) (by simp [hvl])]
  simp only [Go.ret_bind]
  rw [IE.ie_unmarshal_short _ _ (by simp [Slice.len, hvl])]
  simp only [Go.ret_bind, Slice.len, List.length_drop, List.length_take, hvl, Go.pure_eq_ret]
  exact ⟨_, rfl⟩

/-- The length of the value of the Create-PDR group of a PDR that has a PDI
with an SDF filter only and no QER or URR ids. -/
theorem cp.pdrChildren_length_sdf (p : cp.PDR) (si : Nat) (l : List Nat) (hl : l ≠ [])
    (hp : p.PDI = some { SourceInterface := si, SDFFilter := l })
    (hq : p.QER_IDs = []) (hr : p.URR_IDs = []) :
    (iePayload (cp.pdrChildren p)).length = 39 + l.length := by
  have hpdi : cp.pdiIEs { SourceInterface := si, SDFFilter := l }
      = [NewSourceInterfaceIE si, NewSDFFilterIE l] := by
    simp only [cp.pdiIEs, hl, ne_eq, not_false_eq_true, if_true, not_true_eq_false, if_false,
      List.singleton_append]
  simp only [cp.pdrChildren, hp, hq, hr, hpdi, List.map_nil, List.append_nil,
    List.cons_append, List.nil_append, iePayload, List.length_append, IE.ie_marshal_length,
    IE.marshalLength, NewPDR_ID_IE, NewPrecedenceIE, NewFAR_ID_IE, NewSourceInterfaceIE,
    NewSDFFilterIE, putUint16, putUint32, List.length_cons, List.length_nil,
    IETypePDR_ID, IETypePrecedence, IETypeFAR_ID, IETypePDI, IETypeSourceInterface,
    IETypeSDFFilter]
  norm_num
  omega

/-- The Create-PDR group of `pdrHuge` has a value of 65534 bytes. -/
theorem pdrHuge_length : (iePayload (cp.pdrChildren pdrHuge)).length = 65534 := by
  have hne : List.replicate 65495 97 ≠ ([] : List Nat) := by
    intro h
    have := congrArg List.length h
    rw [List.length_replicate] at this
    cases this
  have h := cp.pdrChildren_length_sdf pdrHuge 0 (List.replicate 65495 97) hne rfl rfl rfl
  rw [List.length_replicate] at h
  exact h

/-- The request for one PDR and no FAR holds one Create-PDR group, whose
encoded length is the length of its value. -/
theorem ruleRequest_single (seqNum seid : Nat) (p : cp.PDR) :
    ∃ g : IE, (ruleRequest seqNum seid [p] []).IEs = [g] ∧
      g.marshalLength = (iePayload (cp.pdrChildren p)).length ∧
      ruleRequest seqNum seid [p] []
        = { Header := (ruleRequest seqNum seid [p] []).Header, IEs := [g] } := by
  have hI := ruleRequest_IEs seqNum seid [p] []
  simp only [List.map_cons, List.map_nil, List.append_nil] at hI
  refine ⟨_, hI, ?_, ?_⟩
  · simp only [IE.marshalLength]
    rw [if_neg (by decide)]
  · rw [← hI]

/-- With `PortEnd = 65535` the port loop never ends: every `uint16` port is
at most 65535, and the increment wraps. -/
theorem vpp.ports_never_ends (af protocol : Nat) :
    ∀ (fuel port : Nat) (calls : List vpp.PuntCall), port ≤ 65535 →
      vpp.configurePuntForPDR.ports af protocol 65535 fuel port calls = .outOfFuel := by
  intro fuel
  induction fuel with
  | zero =>
    intro port calls hp
    simp only [vpp.configurePuntForPDR.ports, if_pos hp]
  | succ fuel ih =>
    intro port calls hp
    simp only [vpp.configurePuntForPDR.ports, if_pos hp]
    exact ih _ _ (by omega)

/-- Below 65535 the port loop ends after registering each port from `port` to
`portEnd` once, in increasing order. -/
theorem vpp.ports_returns (af protocol portEnd : Nat) (he : portEnd < 65535) :
    ∀ (fuel port : Nat) (calls : List vpp.PuntCall), portEnd + 1 - port ≤ fuel →
      vpp.configurePuntForPDR.ports af protocol portEnd fuel port calls
        = .ret (calls ++ (List.range' port (portEnd + 1 - port)).map
            (fun p => vpp.PuntCall.L4 af protocol p)) := by
  intro fuel
  induction fuel with
  | zero =>
    intro port calls hf
    have hp : ¬ port ≤ portEnd := by omega
    have h0 : portEnd + 1 - port = 0 := by omega
    simp only [vpp.configurePuntForPDR.ports, if_neg hp, h0, List.range'_zero, List.map_nil,
      List.append_nil]
  | succ fuel ih =>
    intro port calls hf
    by_cases hp : port ≤ portEnd
    · have hm : (port + 1) % 65536 = port + 1 := Nat.mod_eq_of_lt (by omega)
      have hs : portEnd + 1 - port = (portEnd + 1 - (port + 1)) + 1 := by omega
      simp only [vpp.configurePuntForPDR.ports, if_pos hp, hm]
      rw [ih (port + 1) _ (by omega), hs, List.range'_succ]
      simp only [List.map_cons, List.append_assoc, List.singleton_append]
    · have h0 : portEnd + 1 - port = 0 := by omega
      simp only [vpp.configurePuntForPDR.ports, if_neg hp, h0, List.range'_zero, List.map_nil,
        List.append_nil]

theorem GoMap.delete_delete {κ ν : Type} [DecidableEq κ] (m : GoMap κ ν) (k : κ) :
    (m.delete k).delete k = m.delete k := by
  obtain ⟨l⟩ := m
  simp only [GoMap.delete, List.filter_filter, Bool.and_self]

theorem Slice.sliceFrom_one_nil : (Slice.ofBytes []).sliceFrom 1 = .panic := by decide

/-! ## The claims C31 to C40 -/

set_option maxRecDepth 1000000 in
/-- C31, counterexample: `CreateSession` with the PDR of the example (FAR id
1) and no FAR succeeds against the UP function `upFresh`; the session the CP
function records has the PDR 1 with `FAR_ID = 1` and an empty FAR map.  The
UP function, handling the request built for the same rules, stores a session
with the same PDR and an empty FAR map. -/
theorem C31_counterexample :
    ((cpReady.CreateSession nodeUP [pdrDHCP] [] [] [] (losslessUP upFresh)
        (fun _ => false)).toOption.map
      (fun r => (r.2.2, (r.1.sessions.get 1).map
        (fun s => ((s.PDRs.get 1).map (fun p => p.FAR_ID), s.FARs.keys)))))
      = some (.returned 1 none, some (some 1, [])) ∧
    ((upFresh.handleSessionEstablishmentRequest (ruleRequest 5 0 [pdrDHCP] [])).toOption.map
      (fun r => (r.1.sessions.get 1).map
        (fun s => ((s.PDRs.get 1).map (fun p => p.FAR_ID), s.FARs.keys))))
      = some (some (some 1, [])) := by
  refine ⟨?_, ?_⟩ <;> decide

set_option maxRecDepth 1000000 in
/-- C31 (amended): neither side checks the FAR ids.  On the CP function,
after `CreateSession` has returned success, the session recorded under the
SEID returned has, for every PDR of its PDR map, the `FAR_ID` as a key of its
FAR map, when every PDR given names the id of a FAR given.  On the UP
function, after the establishment handler has returned, the session stored
under the SEID allocated has the same property when every PDR passed to
`InstallPDR` names the id of a FAR passed to `InstallFAR`.  Both hold for the
rules of the example (PDR 1 with FAR id 1, FAR 1). -/
theorem C31_far_ids_refer_to_fars :
    (∀ (c c' : cp.CPFunction) (nodeID : List Nat) (pdrs : List cp.PDR) (fars : List cp.FAR)
      (qers : List cp.QER) (urrs : List cp.URR) (events : Message → List Event)
      (wf : Nat → Bool) (sent : List Datagram) (seid : Nat),
      c.CreateSession nodeID pdrs fars qers urrs events wf
        = .ret (c', sent, .returned seid none) →
      (∀ p ∈ pdrs, ∃ f ∈ fars, f.ID = p.FAR_ID) →
      ∃ session, c'.sessions.get seid = some session ∧
        ∀ id pdr, session.PDRs.get id = some pdr → pdr.FAR_ID ∈ session.FARs.keys) ∧
    (∀ (u u' : up.UPFunction) (msg : Message) (calls : List up.DataplaneCall)
      (resp : Message),
      u.handleSessionEstablishmentRequest msg = .ret (u', calls, resp) →
      (∀ sid pdr, up.DataplaneCall.InstallPDR sid pdr ∈ calls →
        ∃ far, up.DataplaneCall.InstallFAR sid far ∈ calls ∧ far.ID = pdr.FAR_ID) →
      ∃ seid session, u.allocSEID = .ret seid ∧ u'.sessions.get seid = some session ∧
        ∀ id pdr, session.PDRs.get id = some pdr → pdr.FAR_ID ∈ session.FARs.keys) ∧
    ((cpReady.CreateSession nodeUP [pdrDHCP] [farPunt] [] [] (losslessUP upFresh)
        (fun _ => false)).toOption.map
      (fun r => (r.2.2, (r.1.sessions.get 1).map
        (fun s => ((s.PDRs.get 1).map (fun p => p.FAR_ID), s.FARs.keys)))))
      = some (.returned 1 none, some (some 1, [1])) ∧
    ((upFresh.handleSessionEstablishmentRequest msgEstablish).toOption.map
      (fun r => (r.2.1, (r.1.sessions.get 1).map
        (fun s => ((s.PDRs.get 1).map (fun p => p.FAR_ID), s.FARs.keys)))))
      = some ([.InstallPDR 1 pdrParsed, .InstallFAR 1 { ID := 1, ApplyAction := 10 }],
          some (some 1, [1])) := by
  refine ⟨?_, ?_, by decide, by decide⟩
  · intro c c' nodeID pdrs fars qers urrs events wf sent seid h hp
    obtain ⟨hs, resp, hg⟩ := cp.createSession_success c c' nodeID pdrs fars qers urrs events
      wf sent seid h
    refine ⟨_, hg, ?_⟩
    intro id pdr hget
    obtain ⟨hmem, _⟩ := cp.fillMap_mem (fun r : cp.PDR => r.ID) pdrs id pdr hget
    obtain ⟨f, hf, hfid⟩ := hp pdr hmem
    have := cp.fillMap_keys (fun r : cp.FAR => r.ID) fars f hf
    simp only [hfid] at this
    exact this
  · intro u u' msg calls resp h hp
    obtain ⟨seid, ps, fs, ha, _, hu, hc, _⟩ :=
      up.handleSessionEstablishmentRequest_fill u u' msg calls resp h
    refine ⟨seid, _, ha, by rw [hu]; exact GoMap.get_set_same _ _ _, ?_⟩
    intro id pdr hget
    obtain ⟨hmem, _⟩ := cp.fillMap_mem (fun r : up.PDR => r.ID) ps id pdr hget
    have hcall : up.DataplaneCall.InstallPDR seid pdr ∈ calls := by
      rw [hc]
      exact List.mem_append_left _ (List.mem_map.mpr ⟨pdr, hmem, rfl⟩)
    obtain ⟨far, hfar, hfid⟩ := hp seid pdr hcall
    rw [hc] at hfar
    have hfm : far ∈ fs := by
      rcases List.mem_append.mp hfar with h1 | h1
      · obtain ⟨p, _, hp'⟩ := List.mem_map.mp h1
        cases hp'
      · obtain ⟨f, hf, hf'⟩ := List.mem_map.mp h1
        cases hf'
        exact hf
    have := cp.fillMap_keys (fun r : up.FAR => r.ID) fs far hfm
    simp only [hfid] at this
    exact this

/-- C32: on the UP function, for every state and every
Session-Deletion-Request (`s` is its header SEID), the handler returns a state
with no session keyed `s` and the other sessions unchanged, calls
`DeleteSession(s)` once on the dataplane and nothing else, and answers with a
Session-Deletion-Response whose Cause IE reads RequestAccepted and whose
sequence number is that of the request, whether or not a session was keyed
`s`.  Handling the same request a second time makes the same dataplane call,
gives the same answer and leaves the session map unchanged. -/
theorem C32_session_deletion_idempotent (u : up.UPFunction) (msg : Message) :
    ∃ u1 resp,
      u.handleSessionDeletionRequest msg
        = .ret (u1, [.DeleteSession msg.Header.SEID], resp) ∧
      u1.sessions.get msg.Header.SEID = none ∧
      (∀ k, k ≠ msg.Header.SEID → u1.sessions.get k = u.sessions.get k) ∧
      resp.Header.MessageType = MsgTypeSessionDeletionResponse ∧
      resp.Header.SequenceNumber = msg.Header.SequenceNumber ∧
      resp.FindIE IETypeCause = some (NewCauseIE CauseRequestAccepted) ∧
      (NewCauseIE CauseRequestAccepted).GetCause = .ret (CauseRequestAccepted, none) ∧
      ∃ u2,
        u1.handleSessionDeletionRequest msg
          = .ret (u2, [.DeleteSession msg.Header.SEID], resp) ∧
        u2.sessions = u1.sessions := by
  refine ⟨{ u with sessions := u.sessions.delete msg.Header.SEID },
    NewSessionDeletionResponse msg.Header.SequenceNumber msg.Header.SEID CauseRequestAccepted,
    rfl, GoMap.get_delete_same _ _, ?_, rfl, rfl, rfl, by decide,
    { u with sessions := (u.sessions.delete msg.Header.SEID).delete msg.Header.SEID }, rfl, ?_⟩
  · intro k hk
    exact GoMap.get_delete_ne _ _ _ hk
  · exact GoMap.delete_delete _ _

set_option maxRecDepth 1000000 in
/-- C33: for every well-formed flow description `s` (at least 7 fields
separated by white space, a valid protocol, the keywords `from` and `to`, a
valid port range when there is an eighth field) of at most 65535 bytes, the
value of `NewSDFFilterIE(s)` is the byte 0x01, the byte 0x00, the length of
`s` as 2 big-endian bytes, then the bytes of `s`; `parseSDFFilter` succeeds on
it, whatever the spare capacity of the slice, and returns the filter that
`parseFlowDescription` builds from `s`, with `FlowDescription = s`.  For
`permit in udp from any to any 67-68` the filter has protocol 17, ports 67 to
68 and address family 0. -/
theorem C33_sdf_filter_roundtrip (s : List Nat) (hw : vpp.wellFormedFlow s)
    (hl : s.length ≤ 65535) :
    (NewSDFFilterIE s).Value = [0x01, 0x00] ++ putUint16 s.length ++ s ∧
    beValue (putUint16 s.length) = s.length ∧
    (∃ sdf, (∀ sp, vpp.parseSDFFilter ⟨(NewSDFFilterIE s).Value, sp⟩ = .ret (.ok sdf)) ∧
      vpp.parseFlowDescription s = .ret (.ok sdf) ∧ sdf.FlowDescription = s) ∧
    vpp.parseSDFFilter (Slice.ofBytes (NewSDFFilterIE sdfDHCP).Value)
      = .ret (.ok { FlowDescription := sdfDHCP, Action := [112, 101, 114, 109, 105, 116],
                    Direction := [105, 110], Protocol := 17, SrcAddr := [97, 110, 121],
                    DstAddr := [97, 110, 121], PortStart := 67, PortEnd := 68,
                    AddressFamily := 0 }) := by
  have hmod : s.length % 65536 = s.length := Nat.mod_eq_of_lt (by omega)
  refine ⟨by simp only [NewSDFFilterIE, hmod], ?_, ?_, by decide⟩
  · simp only [putUint16, beValue, List.foldl_cons, List.foldl_nil, Nat.shiftRight_eq_div_pow]
    omega
  · obtain ⟨sdf, hp, hf⟩ := vpp.parseFlowDescription_ok s hw
    refine ⟨sdf, fun sp => ?_, hp, hf⟩
    have h := vpp.parseSDFFilter_layout (NewSDFFilterIE s).Value
    rw [vpp.sdfLayout_newSDFFilterIE s hl] at h
    rw [h sp]
    simp only [vpp.SDFLayout.result, hp]
    rfl

set_option maxRecDepth 1000000 in
/-- C33, instance: the flow description `permit in udp from any to any 67-68`
is well formed and has 35 bytes. -/
theorem C33_sdf_filter_roundtrip_witness :
    vpp.wellFormedFlow sdfDHCP ∧ sdfDHCP.length ≤ 65535 ∧
    (NewSDFFilterIE sdfDHCP).Value = [0x01, 0x00] ++ putUint16 sdfDHCP.length ++ sdfDHCP ∧
    beValue (putUint16 sdfDHCP.length) = sdfDHCP.length ∧
    (∃ sdf, (∀ sp, vpp.parseSDFFilter ⟨(NewSDFFilterIE sdfDHCP).Value, sp⟩ = .ret (.ok sdf)) ∧
      vpp.parseFlowDescription sdfDHCP = .ret (.ok sdf) ∧ sdf.FlowDescription = sdfDHCP) ∧
    vpp.parseSDFFilter (Slice.ofBytes (NewSDFFilterIE sdfDHCP).Value)
      = .ret (.ok { FlowDescription := sdfDHCP, Action := [112, 101, 114, 109, 105, 116],
                    Direction := [105, 110], Protocol := 17, SrcAddr := [97, 110, 121],
                    DstAddr := [97, 110, 121], PortStart := 67, PortEnd := 68,
                    AddressFamily := 0 }) :=
  ⟨by decide, by decide, C33_sdf_filter_roundtrip sdfDHCP (by decide) (by decide)⟩

set_option maxRecDepth 1000000 in
/-- C34: `parseSDFFilter` follows the layout of the specification (a flags
byte, a spare byte, then FD with a 2-byte length, TTC of 2 bytes, SPI of
4 bytes, FL of 3 bytes and BID of 4 bytes, in this order, each present exactly
when its flag bit 0x01, 0x02, 0x04, 0x08, 0x10 is set).  On a value shorter
than 2 bytes, and on a value in which a flagged sub-field is truncated, it
returns an error.  On any other value it returns what the layout gives: the
filter parsed from the flow description of FD (an error if that fails), with
TTC, SPI, FL and BID written into it as big-endian numbers.  Every flow label
it returns is below `2^20`.  The spare capacity of the slice plays no part.
The value `1e 00 | 00 05 | 01 02 03 04 | ff ff ff | 09 09 09 09` gives ToS 5,
SPI 0x01020304, flow label 0xFFFFF and filter id 0x09090909, and without its
last byte an error. -/
theorem C34_sdf_filter_layout (v sp : List Nat) :
    (v.length < 2 → vpp.sdfLayout v = none) ∧
    (vpp.sdfLayout v = none → ∃ e, vpp.parseSDFFilter ⟨v, sp⟩ = .ret (.error e)) ∧
    (∀ f, vpp.sdfLayout v = some f → vpp.parseSDFFilter ⟨v, sp⟩ = f.result) ∧
    (∀ sdf, vpp.parseSDFFilter ⟨v, sp⟩ = .ret (.ok sdf) → sdf.FlowLabel < 2 ^ 20) ∧
    vpp.sdfLayout [0x1e, 0, 0, 5, 1, 2, 3, 4, 0xff, 0xff, 0xff, 9, 9, 9, 9]
      = some { ttc := some [0, 5], spi := some [1, 2, 3, 4], fl := some [0xff, 0xff, 0xff],
               bid := some [9, 9, 9, 9] } ∧
    vpp.parseSDFFilter (Slice.ofBytes [0x1e, 0, 0, 5, 1, 2, 3, 4, 0xff, 0xff, 0xff, 9, 9, 9, 9])
      = .ret (.ok { ToS := 5, SPI := 0x01020304, FlowLabel := 0xFFFFF, FilterID := 0x09090909 }) ∧
    vpp.parseSDFFilter (Slice.ofBytes [0x1e, 0, 0, 5, 1, 2, 3, 4, 0xff, 0xff, 0xff, 9, 9, 9])
      = .ret (.error .missingFilterID) := by
  have h := vpp.parseSDFFilter_layout v
  refine ⟨?_, ?_, ?_, ?_, by decide, by decide, by decide⟩
  · intro h2
    simp only [vpp.sdfLayout, if_pos h2]
  · intro hn
    rw [hn] at h
    obtain ⟨e, he⟩ := h
    exact ⟨e, he sp⟩
  · intro f hf
    rw [hf] at h
    exact h sp
  · intro sdf hs
    cases hf : vpp.sdfLayout v with
    | none =>
      rw [hf] at h
      obtain ⟨e, he⟩ := h
      rw [he sp] at hs
      cases hs
    | some f =>
      rw [hf] at h
      rw [h sp] at hs
      have hfl : ∀ s0 : vpp.SDFFilter, s0.FlowLabel = 0 → (f.fields s0).FlowLabel < 2 ^ 20 := by
        intro s0 h0
        simp only [vpp.SDFLayout.fields]
        cases f.fl with
        | none => simp only [h0]; norm_num
        | some b => exact Nat.and_lt_two_pow _ (by norm_num)
      unfold vpp.SDFLayout.result at hs
      cases hd : f.fd with
      | none =>
        rw [hd] at hs
        simp only [Go.ret.injEq, Except.ok.injEq] at hs
        rw [← hs]
        exact hfl _ rfl
      | some d =>
        rw [hd] at hs
        obtain ⟨r, hr, hz⟩ := vpp.parseFlowDescription_returns d
        simp only [hr] at hs
        cases r with
        | error e => simp only [Go.ret.injEq] at hs; cases hs
        | ok s0 =>
          simp only [Go.ret.injEq, Except.ok.injEq] at hs
          rw [← hs]
          exact hfl _ (hz s0 rfl).2.2.2.1

/-- C35 (amended): for PDRs (each with a non-nil PDI) and FARs of the CP
function whose ids are pairwise distinct and in the range of their types, when
the IE payload of the Session-Establishment-Request built from
`marshalPDRs` and `marshalFARs` is shorter than 65536 bytes: the request
passes through `Message.Marshal` and `Message.Unmarshal` without error, and
the establishment handler of the UP function, on the decoded message, calls
`InstallPDR` for every PDR in list order, then `InstallFAR` for every FAR in
list order, and nothing else; each PDR installed has the ID, the FAR id and
the PDI source interface of the PDR of the CP function, each FAR installed
the ID and the apply action of the FAR of the CP function.  The session
stored under the SEID allocated has exactly the ids of the PDRs as keys of
its PDR map and the ids of the FARs as keys of its FAR map, and holds each
rule installed under its id. -/
theorem C35_rule_transfer (u : up.UPFunction) (seqNum seid : Nat) (pdrs : List cp.PDR)
    (fars : List cp.FAR) (sp : List Nat)
    (hu : u.sessions.entries.length + 1 < 2 ^ 64)
    (hpdi : ∀ p ∈ pdrs, p.PDI.isSome = true)
    (hwp : ∀ p ∈ pdrs, p.WellTyped) (hwf : ∀ f ∈ fars, f.WellTyped)
    (hdp : (pdrs.map (fun p => p.ID)).Nodup) (hdf : (fars.map (fun f => f.ID)).Nodup)
    (hP : (iePayload (ruleRequest seqNum seid pdrs fars).IEs).length < 65536) :
    ∃ m sid ups ufs session resp,
      Message.Unmarshal {} ⟨(ruleRequest seqNum seid pdrs fars).Marshal.2.1, sp⟩
        = .ret (m, none) ∧
      m.IEs = (ruleRequest seqNum seid pdrs fars).IEs ∧
      u.allocSEID = .ret sid ∧
      List.Forall₂ transfersPDR pdrs ups ∧ List.Forall₂ transfersFAR fars ufs ∧
      u.handleSessionEstablishmentRequest m
        = .ret ({ u with sessions := u.sessions.set sid session },
            ups.map (fun q => up.DataplaneCall.InstallPDR sid q)
              ++ ufs.map (fun g => up.DataplaneCall.InstallFAR sid g), resp) ∧
      (∀ id, id ∈ session.PDRs.keys ↔ id ∈ pdrs.map (fun p => p.ID)) ∧
      (∀ id, id ∈ session.FARs.keys ↔ id ∈ fars.map (fun f => f.ID)) ∧
      (∀ q ∈ ups, session.PDRs.get q.ID = some q) ∧
      (∀ g ∈ ufs, session.FARs.get g.ID = some g) := by
  have hIEs := ruleRequest_IEs seqNum seid pdrs fars
  have hplain : ∀ ie ∈ (ruleRequest seqNum seid pdrs fars).IEs,
      ie.Type_ < 32768 ∧ ie.EnterpriseID = 0 := by
    intro ie hie
    rw [hIEs] at hie
    rcases List.mem_append.mp hie with h | h
    · obtain ⟨p, _, rfl⟩ := List.mem_map.mp h
      norm_num [IETypeCreatePDR]
    · obtain ⟨f, _, rfl⟩ := List.mem_map.mp h
      norm_num [IETypeCreateFAR]
  have hdec := Message.unmarshal_marshal_trailing (ruleRequest seqNum seid pdrs fars) [] sp
    (fun ie hie => ⟨by have := (hplain ie hie).1; omega, by rw [(hplain ie hie).2]; norm_num⟩)
    hP
  rw [List.append_nil, IE.map_carriedOver_plain _ hplain] at hdec
  obtain ⟨sid, hs, _, _⟩ := up.allocSEID_spec u hu
  have hsizeP : ∀ p ∈ pdrs, (iePayload (cp.pdrChildren p)).length < 65536 := by
    intro p hp
    have hm : ({ Type_ := IETypeCreatePDR, Value := iePayload (cp.pdrChildren p) } : IE)
        ∈ (ruleRequest seqNum seid pdrs fars).IEs := by
      rw [hIEs]
      exact List.mem_append_left _ (List.mem_map.mpr ⟨p, hp, rfl⟩)
    have := iePayload_marshalLength_le _ _ hm
    simp only [IE.marshalLength] at this
    rw [if_neg (by decide)] at this
    omega
  have hsizeF : ∀ f ∈ fars, (iePayload (cp.farChildren f)).length < 65536 := by
    intro f hf
    have hm : ({ Type_ := IETypeCreateFAR, Value := iePayload (cp.farChildren f) } : IE)
        ∈ (ruleRequest seqNum seid pdrs fars).IEs := by
      rw [hIEs]
      exact List.mem_append_right _ (List.mem_map.mpr ⟨f, hf, rfl⟩)
    have := iePayload_marshalLength_le _ _ hm
    simp only [IE.marshalLength] at this
    rw [if_neg (by decide)] at this
    omega
  obtain ⟨m, hm, hmI⟩ : ∃ m, Message.Unmarshal {}
      ⟨(ruleRequest seqNum seid pdrs fars).Marshal.2.1, sp⟩ = .ret (m, none) ∧
      m.IEs = (ruleRequest seqNum seid pdrs fars).IEs := ⟨_, hdec, rfl⟩
  obtain ⟨ups, hfp, hip⟩ := up.installPDRs_transfer sid pdrs
    { LocalSEID := sid, RemoteSEID := m.Header.SEID } []
    (fun p hp => ⟨hpdi p hp, hwp p hp, hsizeP p hp⟩)
  obtain ⟨ufs, hff, hif⟩ := up.installFARs_transfer sid fars
    { LocalSEID := sid, RemoteSEID := m.Header.SEID,
      PDRs := cp.fillMap (fun q => q.ID) ups GoMap.empty }
    ([] ++ ups.map (fun q => up.DataplaneCall.InstallPDR sid q))
    (fun f hf => ⟨hwf f hf, hsizeF f hf⟩)
  simp only [List.nil_append] at hip hif
  have hidP : ups.map (fun q => q.ID) = pdrs.map (fun p => p.ID) :=
    forall2_map_eq transfersPDR _ _ (fun a b h => h.1) pdrs ups hfp
  have hidF : ufs.map (fun g => g.ID) = fars.map (fun f => f.ID) :=
    forall2_map_eq transfersFAR _ _ (fun a b h => h.1) fars ufs hff
  have fP1 := filter_map_all
    (fun p : cp.PDR =>
      ({ Type_ := IETypeCreatePDR, Value := iePayload (cp.pdrChildren p) } : IE))
    IETypeCreatePDR pdrs (fun _ => rfl)
  have fF1 := filter_map_none
    (fun f : cp.FAR =>
      ({ Type_ := IETypeCreateFAR, Value := iePayload (cp.farChildren f) } : IE))
    IETypeCreatePDR fars (fun _ => (by decide : IETypeCreateFAR ≠ IETypeCreatePDR))
  have fP3 := filter_map_none
    (fun p : cp.PDR =>
      ({ Type_ := IETypeCreatePDR, Value := iePayload (cp.pdrChildren p) } : IE))
    IETypeCreateFAR pdrs (fun _ => (by decide : IETypeCreatePDR ≠ IETypeCreateFAR))
  have fF3 := filter_map_all
    (fun f : cp.FAR =>
      ({ Type_ := IETypeCreateFAR, Value := iePayload (cp.farChildren f) } : IE))
    IETypeCreateFAR fars (fun _ => rfl)
  have hfa1 : m.FindAllIEs IETypeCreatePDR
      = pdrs.map (fun p => ({ Type_ := IETypeCreatePDR,
                              Value := iePayload (cp.pdrChildren p) } : IE)) := by
    simp only [Message.FindAllIEs, Message.findAllIEs_loop_eq, List.nil_append, hmI, hIEs,
      List.filter_append, fP1, fF1, List.append_nil]
  have hfa2 : m.FindAllIEs IETypeCreateFAR
      = fars.map (fun f => ({ Type_ := IETypeCreateFAR,
                               Value := iePayload (cp.farChildren f) } : IE)) := by
    simp only [Message.FindAllIEs, Message.findAllIEs_loop_eq, List.nil_append, hmI, hIEs,
      List.filter_append, fP3, fF3, List.nil_append]
  refine ⟨m, sid, ups, ufs,
    { LocalSEID := sid, RemoteSEID := m.Header.SEID,
      PDRs := cp.fillMap (fun q => q.ID) ups GoMap.empty,
      FARs := cp.fillMap (fun g => g.ID) ufs GoMap.empty },
    NewSessionEstablishmentResponse m.Header.SequenceNumber m.Header.SEID
      CauseRequestAccepted sid, hm, hmI, hs, hfp, hff, ?_, ?_, ?_, ?_, ?_⟩
  · simp only [up.UPFunction.handleSessionEstablishmentRequest, hs, Go.ret_bind, hfa1, hfa2,
      hip, hif, Go.pure_eq_ret]
  · intro id
    rw [← hidP]
    exact cp.fillMap_keys_iff _ _ _
  · intro id
    rw [← hidF]
    exact cp.fillMap_keys_iff _ _ _
  · exact cp.holdsAll_of_nodup _ ups _ (cp.fillMap_holdsLast _ _) (by rw [hidP]; exact hdp)
  · exact cp.holdsAll_of_nodup _ ufs _ (cp.fillMap_holdsLast _ _) (by rw [hidF]; exact hdf)

/-- C35, counterexample: one PDR with a non-nil PDI whose SDF filter has 65495
bytes, and no FAR.  Its Create-PDR group has 65534 bytes of value, the IE
payload of the request 65538 bytes, and `Message.Marshal` writes the length
2: `Message.Unmarshal` returns "IE too short: 2 bytes", and the UP function,
reading the datagram, drops it without calling the dataplane. -/
theorem C35_counterexample :
    (∀ p ∈ [pdrHuge], p.PDI.isSome = true) ∧ (∀ p ∈ [pdrHuge], p.WellTyped) ∧
    (([pdrHuge] : List cp.PDR).map (fun p => p.ID)).Nodup ∧
    (iePayload (ruleRequest 1 0 [pdrHuge] []).IEs).length = 65538 ∧
    (∃ r, Message.Unmarshal {} ⟨(ruleRequest 1 0 [pdrHuge] []).Marshal.2.1, []⟩
      = .ret (r, some (.ieTooShort 2))) ∧
    upFresh.receive (ruleRequest 1 0 [pdrHuge] []).Marshal.2.1 = .ret (upFresh, [], none) := by
  obtain ⟨g, hI, hml, hreq⟩ := ruleRequest_single 1 0 pdrHuge
  rw [pdrHuge_length] at hml
  have hun := Message.unmarshal_marshal_wrapped_any (ruleRequest 1 0 [pdrHuge] []).Header
    g [] [] hml
  rw [← hreq, List.append_nil] at hun
  refine ⟨by decide, by decide, by decide, ?_, hun, ?_⟩
  · rw [hI]
    simp only [iePayload, List.append_nil, IE.ie_marshal_length, hml]
  · obtain ⟨r, hr⟩ := hun
    simp only [up.UPFunction.receive, Slice.ofBytes, hr, Go.ret_bind, Go.pure_eq_ret]

set_option maxRecDepth 1000000 in
/-- C35 (amended), instance: the rules of `examples/simple/main.go`, PDR 1
with the DHCP filter and FAR 1, sent to a UP function without sessions. -/
theorem C35_rule_transfer_witness :
    upFresh.sessions.entries.length + 1 < 2 ^ 64 ∧
    (∀ p ∈ [pdrDHCP], p.PDI.isSome = true) ∧
    (∀ p ∈ [pdrDHCP], p.WellTyped) ∧ (∀ f ∈ [farPunt], f.WellTyped) ∧
    (([pdrDHCP] : List cp.PDR).map (fun p => p.ID)).Nodup ∧
    (([farPunt] : List cp.FAR).map (fun f => f.ID)).Nodup ∧
    (iePayload (ruleRequest 5 0 [pdrDHCP] [farPunt]).IEs).length < 65536 ∧
    ∃ m sid ups ufs session resp,
      Message.Unmarshal {} ⟨(ruleRequest 5 0 [pdrDHCP] [farPunt]).Marshal.2.1, []⟩
        = .ret (m, none) ∧
      m.IEs = (ruleRequest 5 0 [pdrDHCP] [farPunt]).IEs ∧
      upFresh.allocSEID = .ret sid ∧
      List.Forall₂ transfersPDR [pdrDHCP] ups ∧ List.Forall₂ transfersFAR [farPunt] ufs ∧
      upFresh.handleSessionEstablishmentRequest m
        = .ret ({ upFresh with sessions := upFresh.sessions.set sid session },
            ups.map (fun q => up.DataplaneCall.InstallPDR sid q)
              ++ ufs.map (fun g => up.DataplaneCall.InstallFAR sid g), resp) ∧
      (∀ id, id ∈ session.PDRs.keys ↔ id ∈ [pdrDHCP].map (fun p => p.ID)) ∧
      (∀ id, id ∈ session.FARs.keys ↔ id ∈ [farPunt].map (fun f => f.ID)) ∧
      (∀ q ∈ ups, session.PDRs.get q.ID = some q) ∧
      (∀ g ∈ ufs, session.FARs.get g.ID = some g) :=
  ⟨by decide, by decide, by decide, by decide, by decide, by decide, by decide,
    C35_rule_transfer upFresh 5 0 [pdrDHCP] [farPunt] [] (by decide) (by decide) (by decide)
      (by decide) (by decide) (by decide) (by decide)⟩

/-- C36: `parseSDFFilter`, `parseFlowDescription` and `parsePortRange` return
on every input, a result or an error: no index or slice expression in them is
out of range.  `parseSDFFilter` returns the same on a slice with spare
capacity as on a slice without, so that it reads no byte beyond the length
of its input. -/
theorem C36_sdf_parsers_total :
    (∀ v sp : List Nat, ∃ r, vpp.parseSDFFilter ⟨v, sp⟩ = .ret r ∧
      vpp.parseSDFFilter (Slice.ofBytes v) = .ret r) ∧
    (∀ d : List Nat, ∃ r, vpp.parseFlowDescription d = .ret r) ∧
    (∀ (p : List Nat) (sdf : vpp.SDFFilter), ∃ r, vpp.parsePortRange p sdf = .ret r) := by
  refine ⟨?_, ?_, ?_⟩
  · intro v sp
    have h := vpp.parseSDFFilter_layout v
    cases hf : vpp.sdfLayout v with
    | none =>
      rw [hf] at h
      obtain ⟨e, he⟩ := h
      exact ⟨_, he sp, he []⟩
    | some f =>
      rw [hf] at h
      have hres : ∃ r, f.result = .ret r := by
        unfold vpp.SDFLayout.result
        cases f.fd with
        | none => exact ⟨_, rfl⟩
        | some d =>
          obtain ⟨r, hr, -⟩ := vpp.parseFlowDescription_returns d
          simp only [hr]
          cases r with
          | error e => exact ⟨_, rfl⟩
          | ok s0 => exact ⟨_, rfl⟩
      obtain ⟨r, hr⟩ := hres
      exact ⟨r, (h sp).trans hr, (h []).trans hr⟩
  · intro d
    obtain ⟨r, hr, -⟩ := vpp.parseFlowDescription_returns d
    exact ⟨r, hr⟩
  · intro p sdf
    obtain ⟨r, hr, -⟩ := vpp.parsePortRange_returns p sdf
    exact ⟨r, hr⟩

set_option maxRecDepth 1000000 in
/-- C37, the code at the failing input: the 12-byte datagram
`bytesReleaseEmptyNodeID` decodes to an Association-Release-Request whose
Node-ID IE has length 0, and `handleAssociationReleaseRequest` does not return
on it: `nodeIDIE.Value[1:]` panics on the empty value.  Both handlers panic
on every message whose first Node-ID IE has an empty value (the setup handler
once it has found the Recovery-Time-Stamp IE). -/
theorem C37_handlers_panic_on_empty_node_id :
    Message.Unmarshal {} (Slice.ofBytes bytesReleaseEmptyNodeID)
      = .ret (msgReleaseEmptyNodeID, none) ∧
    msgReleaseEmptyNodeID.FindIE IETypeNodeID = some { Type_ := IETypeNodeID, Value := [] } ∧
    cpReady.handleAssociationReleaseRequest msgReleaseEmptyNodeID addrPeer false = .panic ∧
    (∀ (c : cp.CPFunction) (msg : Message) (addr : UDPAddr) (wf : Bool) (ie : IE),
      msg.FindIE IETypeNodeID = some ie → ie.Value = [] →
      c.handleAssociationReleaseRequest msg addr wf = .panic) ∧
    (∀ (c : cp.CPFunction) (msg : Message) (addr : UDPAddr) (wf : Bool) (ie : IE),
      msg.FindIE IETypeNodeID = some ie → ie.Value = [] →
      (msg.FindIE IETypeRecoveryTimeStamp).isSome = true →
      c.handleAssociationSetupRequest msg addr wf = .panic) := by
  refine ⟨by decide, by decide, by decide, ?_, ?_⟩
  · intro c msg addr wf ie hie hv
    simp only [cp.CPFunction.handleAssociationReleaseRequest, hie, hv,
      Slice.sliceFrom_one_nil, Go.panic_bind]
  · intro c msg addr wf ie hie hv hr
    obtain ⟨r, hr⟩ := Option.isSome_iff_exists.mp hr
    simp only [cp.CPFunction.handleAssociationSetupRequest, hie, hr, hv,
      Slice.sliceFrom_one_nil, Go.panic_bind]

/-- C38: for every byte string `d` on which `ParseGroupedIE` succeeds,
whatever the spare capacity of the slice, the concatenation of `IE.Marshal` of
the IEs returned, in order, is `d`: no `IE.Marshal` fails, and `NewGroupedIE`
builds from the IEs returned a group whose value is `d`.  This covers vendor
IEs (type 32768 or more), whose enterprise ID is decoded and re-encoded. -/
theorem C38_parse_grouped_reencodes (d sp : List Nat) (ies : List IE) (hb : isBytes d)
    (h : ParseGroupedIE ⟨d, sp⟩ = .ret (ies, none)) :
    iePayload ies = d ∧ (∀ ie ∈ ies, ie.Marshal.2 = none) ∧
    (∀ t, NewGroupedIE t ies = (some { Type_ := t, Value := d }, none)) := by
  obtain ⟨added, ha, hp⟩ := ParseGroupedIE.loop_ok ⟨d, sp⟩ hb d.length 0 [] ies
    (Nat.zero_le _) h
  rw [List.nil_append] at ha
  rw [← ha, List.drop_zero] at hp
  refine ⟨hp, fun ie _ => ?_, fun t => by rw [NewGroupedIE_eq, hp]⟩
  rw [IE.ie_marshal_eq]

set_option maxRecDepth 1000000 in
/-- C38, instance: the 14 bytes of a group holding a Cause IE and the vendor
IE of type 40000 with enterprise ID 77 decode to these two IEs, which
re-encode to the same 14 bytes. -/
theorem C38_parse_grouped_reencodes_witness :
    isBytes bytesGroupVendor ∧
    ParseGroupedIE ⟨bytesGroupVendor, []⟩ = .ret ([ieCause, ieVendor], none) ∧
    ieVendor.Type_ ≥ 32768 ∧
    iePayload [ieCause, ieVendor] = bytesGroupVendor ∧
    (∀ ie ∈ [ieCause, ieVendor], ie.Marshal.2 = none) ∧
    (∀ t, NewGroupedIE t [ieCause, ieVendor]
      = (some { Type_ := t, Value := bytesGroupVendor }, none)) :=
  ⟨by decide, by decide, by decide,
    C38_parse_grouped_reencodes bytesGroupVendor [] [ieCause, ieVendor] (by decide) (by decide)⟩

set_option maxRecDepth 1000000 in
/-- C39, counterexample: on the 3 bytes `00 13 00` the loop of
`ParseGroupedIE` makes one iteration (`IE.Unmarshal` returns "IE too short"),
although `len(data)/4` is 0: with no iteration allowed the loop has not
ended.  And `Message.Unmarshal` of a message whose second IE is truncated
returns the error with the first IE left in the message. -/
theorem C39_counterexample :
    bytesShortIE.length / 4 = 0 ∧
    ParseGroupedIE.loop (Slice.ofBytes bytesShortIE) (bytesShortIE.length / 4) 0 []
      = .outOfFuel ∧
    ParseGroupedIE.loop (Slice.ofBytes bytesShortIE) 1 0 [] = .ret ([], some (.ieTooShort 3)) ∧
    (Message.Unmarshal {} (Slice.ofBytes bytesTruncatedSecondIE)).toOption.map
        (fun r => (r.1.IEs, r.2))
      = some ([ieCause], some (.ieTruncated 7 4)) := by
  refine ⟨?_, ?_, ?_, ?_⟩ <;> decide

/-- C39 (amended): the loop of `ParseGroupedIE` and the IE loop of
`Message.Unmarshal` end on every input within `⌈len(data)/4⌉` iterations: an
iteration either ends the loop or consumes at least 4 bytes, so the offset
strictly increases.  On success over bytes at most `len(data)/4` IEs are
returned and their consumed lengths (4 plus the encoded length of each) sum
to `len(data)`.  When `IE.Unmarshal` returns an error for a child,
`ParseGroupedIE` returns that error and no IEs; the loop of
`Message.Unmarshal` returns the error and the IEs decoded before it stay in
the message. -/
theorem C39_ie_loops_terminate (data : Slice) :
    (∀ fuel acc, (data.len + 3) / 4 ≤ fuel →
      ParseGroupedIE.loop data fuel 0 acc ≠ .outOfFuel ∧
      Message.unmarshalLoop data fuel 0 acc ≠ .outOfFuel) ∧
    ParseGroupedIE data ≠ .outOfFuel ∧
    (∀ ies, isBytes data.vis → ParseGroupedIE data = .ret (ies, none) →
      4 * ies.length ≤ data.len ∧
      (ies.map (fun ie => 4 + ie.marshalLength)).sum = data.len) ∧
    (∀ fuel acc ies, isBytes data.vis →
      Message.unmarshalLoop data fuel 0 acc = .ret (ies, none) →
      ∃ added, ies = acc ++ added ∧ 4 * added.length ≤ data.len ∧
        (added.map (fun ie => 4 + ie.marshalLength)).sum = data.len) ∧
    (∀ ies e, ParseGroupedIE data = .ret (ies, some e) → ies = []) ∧
    (∀ fuel acc ies e, Message.unmarshalLoop data fuel 0 acc = .ret (ies, some e) →
      ∃ decoded, ies = acc ++ decoded) := by
  refine ⟨?_, ?_, ?_, ?_, ?_, ?_⟩
  · intro fuel acc hf
    exact ⟨ParseGroupedIE.loop_ends data fuel 0 acc (by omega),
      Message.unmarshalLoop_ends data fuel 0 acc (by omega)⟩
  · exact ParseGroupedIE.loop_ends data data.len 0 [] (by omega)
  · intro ies hb h
    obtain ⟨added, ha, hp⟩ := ParseGroupedIE.loop_ok data hb data.len 0 [] ies
      (Nat.zero_le _) h
    rw [List.nil_append] at ha
    rw [← ha, List.drop_zero] at hp
    have hlen : (iePayload ies).length = data.len := by rw [hp]; rfl
    exact ⟨by rw [← hlen]; exact iePayload_length_ge ies,
      by rw [← iePayload_length_sum, hlen]⟩
  · intro fuel acc ies hb h
    obtain ⟨added, ha, hp⟩ := Message.unmarshalLoop_ok data hb fuel 0 acc ies
      (Nat.zero_le _) h
    rw [List.drop_zero] at hp
    have hlen : (iePayload added).length = data.len := by rw [hp]; rfl
    exact ⟨added, ha, by rw [← hlen]; exact iePayload_length_ge added,
      by rw [← iePayload_length_sum, hlen]⟩
  · intro ies e h
    have key : ∀ (fuel offset : Nat) (acc : List IE),
        ParseGroupedIE.loop data fuel offset acc = .ret (ies, some e) → ies = [] := by
      intro fuel
      induction fuel with
      | zero =>
        intro offset acc h
        by_cases hlt : offset < data.len
        · simp only [ParseGroupedIE.loop, if_pos hlt] at h; cases h
        · simp only [ParseGroupedIE.loop, if_neg hlt, Go.ret.injEq, Prod.mk.injEq] at h
          exact absurd h.2 (by simp)
      | succ fuel ih =>
        intro offset acc h
        by_cases hlt : offset < data.len
        · simp only [ParseGroupedIE.loop, if_pos hlt] at h
          cases hs : data.sliceFrom offset with
          | panic => rw [hs] at h; cases h
          | outOfFuel => rw [hs] at h; cases h
          | ret rest =>
            rw [hs] at h
            simp only [Go.ret_bind] at h
            cases hu : IE.Unmarshal {} rest with
            | panic => rw [hu] at h; cases h
            | outOfFuel => rw [hu] at h; cases h
            | ret r =>
              obtain ⟨ie, n, e'⟩ := r
              rw [hu] at h
              cases e' with
              | some e' =>
                simp only [Go.ret_bind, Go.pure_eq_ret, Go.ret.injEq, Prod.mk.injEq] at h
                exact h.1.symm
              | none =>
                simp only [Go.ret_bind] at h
                exact ih _ _ h
        · simp only [ParseGroupedIE.loop, if_neg hlt, Go.ret.injEq, Prod.mk.injEq] at h
          exact absurd h.2 (by simp)
    exact key _ _ _ h
  · intro fuel acc ies e h
    exact Message.unmarshalLoop_keeps data fuel 0 acc ies (some e) h

set_option maxRecDepth 1000000 in
/-- C40, the code at the failing input: the SDF filter
`permit in udp from any to any 65535` parses to protocol 17 with
`PortStart = PortEnd = 65535`.  For this filter the registration loop of
`configurePuntForPDR` does not end, whatever the number of iterations allowed:
`port <= PortEnd` holds for every `uint16`, and `port++` wraps from 65535 to
0.  For a port range that ends below 65535 the loop ends after registering
each port from `PortStart` to `PortEnd` once. -/
theorem C40_port_loop_never_ends_at_65535 :
    (∃ sdf, vpp.parseSDFFilter (Slice.ofBytes (NewSDFFilterIE sdfPort65535).Value)
        = .ret (.ok sdf) ∧ sdf.Protocol = 17 ∧ sdf.PortStart = 65535 ∧ sdf.PortEnd = 65535) ∧
    (∀ fuel, vpp.configurePuntForPDR fuel {} pdrPort65535 = .outOfFuel) ∧
    (∀ af protocol fuel port calls, port ≤ 65535 →
      vpp.configurePuntForPDR.ports af protocol 65535 fuel port calls = .outOfFuel) ∧
    (∀ af protocol portStart portEnd, portEnd < 65535 →
      vpp.configurePuntForPDR.ports af protocol portEnd (portEnd + 1 - portStart) portStart []
        = .ret ((List.range' portStart (portEnd + 1 - portStart)).map
            (fun p => vpp.PuntCall.L4 af protocol p))) := by
  have hparse : vpp.parseSDFFilter (Slice.ofBytes (NewSDFFilterIE sdfPort65535).Value)
      = .ret (.ok { FlowDescription := sdfPort65535, Action := [112, 101, 114, 109, 105, 116],
                    Direction := [105, 110], Protocol := 17, SrcAddr := [97, 110, 121],
                    DstAddr := [97, 110, 121], PortStart := 65535, PortEnd := 65535 }) := by
    decide
  refine ⟨⟨_, hparse, rfl, rfl, rfl⟩, ?_, ?_, ?_⟩
  · intro fuel
    have hreg : ((({} : vpp.sessionState).puntReg.get pdrPort65535.ID).getD false) = false := by
      decide
    have hpdi : pdrPort65535.PDI
        = some { SourceInterface := 0, SDFFilter := (NewSDFFilterIE sdfPort65535).Value } := rfl
    simp only [vpp.configurePuntForPDR, hreg, hpdi, Bool.false_eq_true, if_false]
    rw [if_neg (by decide), if_neg (by decide)]
    simp only [hparse, Go.ret_bind]
    rw [if_pos (by decide)]
    rw [vpp.ports_never_ends _ _ fuel 65535 [] (le_refl _)]
    rfl
  · intro af protocol fuel port calls hp
    exact vpp.ports_never_ends af protocol fuel port calls hp
  · intro af protocol portStart portEnd he
    have := vpp.ports_returns af protocol portEnd he (portEnd + 1 - portStart) portStart []
      (le_refl _)
    simpa using this

end Pfcp
